import Mathlib

/-!
# Storage flattening (`src/src/StorageFlattening.cpp`)

A shallow embedding of the two tree rewrites of the storage-flattening stage,
`CreateKernelLoads` and `FlattenDimensions`, and of `storage_flattening`, their
composition, followed by the properties proved about them.

The headers the file includes (`IR.h`, `IRMutator.h`, `IROperator.h`, `Scope.h`,
`Type.h`, `Util.h`) are not among the sources.  The parts of them the two
visitors use are modelled in the first section and marked as such.
-/

namespace Halide

/-! ## Element types (`Type.h`) -/

/-- Modelled from the spec: the type codes of `Type.h` (the header is not among the sources). -/
inductive TypeCode where
  | Int
  | UInt
  | Float
  | Handle
  deriving DecidableEq, Repr

/-- Modelled from the spec: the element type `Type` of `Type.h`: a code, a bit width
and a vector width. -/
structure IRType where
  code : TypeCode
  bits : Nat
  width : Nat
  deriving DecidableEq, Repr

/-- Modelled from the spec: `Type::bytes()`, the number of bytes that hold `bits` bits. -/
def IRType.bytes (t : IRType) : Nat := (t.bits + 7) / 8

/-- The statement pair `Type t = ...; t.bits = t.bytes() * 8;` that occurs in every
visitor: the same type at the next byte-aligned width. -/
def IRType.promote (t : IRType) : IRType := { t with bits := t.bytes * 8 }

/-- The constructor `Int(bits)` of `Type.h`. -/
def Int_ (bits : Nat) : IRType := ⟨TypeCode.Int, bits, 1⟩

/-- The constructor `Float(bits)` of `Type.h`. -/
def Float_ (bits : Nat) : IRType := ⟨TypeCode.Float, bits, 1⟩

/-- The constructor `Handle()` of `Type.h`. -/
def Handle : IRType := ⟨TypeCode.Handle, 64, 1⟩

/-! ## The intermediate representation (`IR.h`) -/

/-- Modelled from the spec: `Call::CallType`. -/
inductive CallType where
  | Image
  | Extern
  | Halide
  | Intrinsic
  deriving DecidableEq, Repr

/-- Modelled from the spec: `For::ForType`, with the distinguished device-kernel kind
`Kernel`. -/
inductive ForType where
  | Serial
  | Parallel
  | Vectorized
  | Unrolled
  | Kernel
  deriving DecidableEq, Repr

/-- Modelled from the spec: the expression nodes of `IR.h` that the stage reads or
builds.  `Call` carries `func.outputs()` of the function it calls as `outputs`;
`image` and `param` are the names of the image and parameter handles.  `Load` is the
linear-addressed load, `LoadArgs` the coordinate-vector-addressed one (the overload of
`Load::make` that takes a vector of indices). -/
inductive Expr where
  | IntImm (value : Int)
  | FloatImm (value : Rat)
  | Variable (type : IRType) (name : String)
  | Cast (type : IRType) (value : Expr)
  | Add (a b : Expr)
  | Sub (a b : Expr)
  | Mul (a b : Expr)
  | Div (a b : Expr)
  | Let (name : String) (value body : Expr)
  | Call (type : IRType) (name : String) (args : List Expr) (call_type : CallType)
      (outputs : Nat) (value_index : Nat) (image param : Option String)
  | Load (type : IRType) (name : String) (index : Expr) (image param : Option String)
  | LoadArgs (type : IRType) (name : String) (index : List Expr) (image param : Option String)

/-- Modelled from the spec: `Range`, one bound of a region declaration. -/
structure Range where
  min : Expr
  extent : Expr

/-- Modelled from the spec: the statement nodes of `IR.h` that the stage reads or
builds.  `Store` is the linear-addressed store, `StoreArgs` the
coordinate-vector-addressed one (the overload of `Store::make` that takes the
coordinates); `undef` is the null statement handle `Stmt()`. -/
inductive Stmt where
  | undef
  | LetStmt (name : String) (value : Expr) (body : Stmt)
  | For (name : String) (min extent : Expr) (for_type : ForType) (body : Stmt)
  | Provide (name : String) (values : List Expr) (args : List Expr)
  | Realize (name : String) (types : List IRType) (bounds : List Range) (body : Stmt)
  | Store (name : String) (value : Expr) (index : Expr)
  | StoreArgs (name : String) (value : Expr) (args : List Expr)
  | Allocate (name : String) (type : IRType) (extents : List Expr) (body : Stmt)
  | Block (first rest : Stmt)

/-- Modelled from the spec: `Expr::type()`, the type every expression node records.  A
binary node has the type of its operands, an integer literal is `Int(32)` and a float
literal `Float(32)`. -/
def Expr.type : Expr → IRType
  | .IntImm _ => Int_ 32
  | .FloatImm _ => Float_ 32
  | .Variable t _ => t
  | .Cast t _ => t
  | .Add a _ => a.type
  | .Sub a _ => a.type
  | .Mul a _ => a.type
  | .Div a _ => a.type
  | .Let _ _ body => body.type
  | .Call t _ _ _ _ _ _ _ => t
  | .Load t _ _ _ _ => t
  | .LoadArgs t _ _ _ _ => t

/-! ## The environment (`Function.h`, `Schedule.h`) -/

/-- Modelled from the spec: one loop dimension of a schedule, with its iteration kind. -/
structure Dim where
  var : String
  for_type : ForType

/-- Modelled from the spec: the part of `Schedule` the stage reads: the physical storage
order and the loop dimensions. -/
structure Schedule where
  storage_dims : List String
  dims : List Dim

/-- Modelled from the spec: the signature `Function` of a computation: its logical
dimension names `args`, its schedule and its output arity. -/
structure Function where
  args : List String
  schedule : Schedule
  outputs : Nat

/-- The read-only environment `map<string, Function>`; `env n = none` is
`env.find(n) == env.end()`. -/
abbrev Env := String → Option Function

/-! ## The scope utility (`Scope.h`, `Util.h`) -/

/-- Modelled from the spec: `Scope<int>`, a push/pop stack keyed by name (the header is
not among the sources).  The most recent entry is the head of the list. -/
abbrev Scope := List (String × Int)

/-- Modelled from the spec: `Scope::push`. -/
def Scope.push (s : Scope) (name : String) (value : Int) : Scope := (name, value) :: s

/-- Modelled from the spec: `Scope::pop`, which removes the most recent entry pushed
under `name`.  A pop of a name that has no entry leaves the stack as it is. -/
def Scope.pop (s : Scope) (name : String) : Scope := s.eraseP (fun p => p.1 == name)

/-- Modelled from the spec: `Scope::contains`, whether an entry for `name` is present. -/
def Scope.contains (s : Scope) (name : String) : Bool := s.any (fun p => p.1 == name)

/-- Modelled from the spec: `ends_with` of `Util.h`. -/
def ends_with (s suffix : String) : Bool := suffix.data.isSuffixOf s.data

/-- The helper `int_to_string` of `Util.h`: the decimal numeral of an index. -/
def int_to_string (i : Nat) : String := toString i

/-! ## `FlattenDimensions::flatten_args` -/

namespace FlattenDimensions

/-- The name `strides[i]` is made from (source lines 30 to 36): `name.stride.i`, or its
`.constrained` variant when the scope contains that. -/
def stride_name (scope : Scope) (name : String) (i : Nat) : String :=
  let stride_name := name ++ ".stride." ++ int_to_string i
  let stride_name_constrained := stride_name ++ ".constrained"
  if scope.contains stride_name_constrained then stride_name_constrained else stride_name

/-- The name `mins[i]` is made from (source lines 31 to 39): `name.min.i`, or its
`.constrained` variant when the scope contains that. -/
def min_name (scope : Scope) (name : String) (i : Nat) : String :=
  let min_name := name ++ ".min." ++ int_to_string i
  let min_name_constrained := min_name ++ ".constrained"
  if scope.contains min_name_constrained then min_name_constrained else min_name

/-- The entry `strides[i]` (source line 40). -/
def strides (scope : Scope) (name : String) (i : Nat) : Expr :=
  Expr.Variable (Int_ 32) (stride_name scope name i)

/-- The entry `mins[i]` (source line 41). -/
def mins (scope : Scope) (name : String) (i : Nat) : Expr :=
  Expr.Variable (Int_ 32) (min_name scope name i)

/-- The loop of source lines 48 to 50, from index `i` on, with `idx` the accumulator:
`idx += (args[i] - mins[i]) * strides[i]`. -/
def internal_loop (scope : Scope) (name : String) : List Expr → Nat → Expr → Expr
  | [], _, idx => idx
  | a :: rest, i, idx =>
    internal_loop scope name rest (i + 1)
      (Expr.Add idx (Expr.Mul (Expr.Sub a (mins scope name i)) (strides scope name i)))

/-- The loop of source lines 58 to 61, from index `i` on, with the accumulators `idx`
and `base`: `idx += args[i] * strides[i]; base += mins[i] * strides[i]`. -/
def external_loop (scope : Scope) (name : String) :
    List Expr → Nat → Expr × Expr → Expr × Expr
  | [], _, acc => acc
  | a :: rest, i, (idx, base) =>
    external_loop scope name rest (i + 1)
      (Expr.Add idx (Expr.Mul a (strides scope name i)),
       Expr.Add base (Expr.Mul (mins scope name i) (strides scope name i)))

/-- The method `flatten_args` (source lines 24 to 66).  The arithmetic operators of
`IROperator.h` are taken as the node constructors, and the literal `0` as `IntImm 0`. -/
def flatten_args (scope : Scope) (env : Env) (name : String) (args : List Expr) : Expr :=
  if (env name).isSome then
    internal_loop scope name args 0 (Expr.IntImm 0)
  else
    let r := external_loop scope name args 0 (Expr.IntImm 0, Expr.IntImm 0)
    Expr.Sub r.1 r.2

end FlattenDimensions

/-! ## Weights, for the termination of the dimension flattener -/

mutual
/-- A size measure on expressions under which a multi-index read outweighs the address
expression `flatten_args` builds from its coordinates. -/
def Expr.weight : Expr → Nat
  | .IntImm _ => 1
  | .FloatImm _ => 1
  | .Variable _ _ => 1
  | .Cast _ v => v.weight + 1
  | .Add a b => a.weight + b.weight + 1
  | .Sub a b => a.weight + b.weight + 1
  | .Mul a b => a.weight + b.weight + 1
  | .Div a b => a.weight + b.weight + 1
  | .Let _ v b => v.weight + b.weight + 1
  | .Call _ _ args _ _ _ _ _ => Expr.weightList args + 4
  | .Load _ _ i _ _ => i.weight + 1
  | .LoadArgs _ _ is _ _ => Expr.weightList is + 1
/-- The weight of a coordinate list: each coordinate and the seven nodes `flatten_args`
adds for it at most. -/
def Expr.weightList : List Expr → Nat
  | [] => 0
  | e :: es => e.weight + Expr.weightList es + 7
end

/-! ## Helpers shared by the two visitors -/

/-- The promotion of a stored value (source lines 194 to 199 and 306 to 311): a value
whose type is not byte-aligned is cast to the promoted type. -/
def promote_value (v : Expr) : Expr :=
  if v.type.promote.bits ≠ v.type.bits then Expr.Cast v.type.promote v else v

/-- Modelled from the spec: `Stmt::defined()`, whether a statement handle is not null. -/
def Stmt.defined : Stmt → Bool
  | .undef => false
  | _ => true

/-- The loop "Store the values by name" of both `visit(const Provide *)` (source lines
211 to 226 and 322 to 332), from index `i` on; `values` are the values from index `i`
on, `mk_store name var` is the store the visitor emits and `result` the accumulator. -/
def store_loop (mk_store : String → Expr → Stmt) (provide_name : String) :
    List Expr → Nat → Stmt → Stmt
  | [], _, result => result
  | v :: rest, i, result =>
    let name := provide_name ++ "." ++ int_to_string i
    let var := Expr.Variable v.type (name ++ ".value")
    let store := mk_store name var
    store_loop mk_store provide_name rest (i + 1)
      (if result.defined then Stmt.Block result store else store)

/-- The loop "Add the let statements that define the values" of both
`visit(const Provide *)` (source lines 229 to 231 and 335 to 337).  The source runs
`i` from the last index down to 0 and wraps `result` each time, so the binding of
`values[i]` encloses those of every later index; `values` are the values from index
`i` on. -/
def let_loop (provide_name : String) : List Expr → Nat → Stmt → Stmt
  | [], _, result => result
  | v :: rest, i, result =>
    Stmt.LetStmt (provide_name ++ "." ++ int_to_string i ++ ".value") v
      (let_loop provide_name rest (i + 1) result)

/-- The name of the buffer a read refers to, in both `visit(const Call *)` (source lines
252 to 256 and 349 to 353): the output index is appended for a call to a function of
several outputs. -/
def call_name (name : String) (call_type : CallType) (outputs value_index : Nat) : String :=
  if call_type = CallType.Halide ∧ outputs > 1 then
    name ++ "." ++ int_to_string value_index
  else name

/-! ## `CreateKernelLoads` -/

namespace CreateKernelLoads

/-- The two members of the class: the scope and the flag `inside_kernel_loop`. -/
structure State where
  scope : Scope
  inside_kernel_loop : Bool

/-- The constructor (source lines 288 to 290): an empty scope and the flag cleared. -/
def State.init : State := ⟨[], false⟩

/-- The name `min_name` of source lines 358 to 362: `name.min.i`, or its `.constrained`
variant when the scope contains that. -/
def min_name (scope : Scope) (name : String) (i : Nat) : String :=
  let min_name := name ++ ".min." ++ int_to_string i
  let min_name_constrained := min_name ++ ".constrained"
  if scope.contains min_name_constrained then min_name_constrained else min_name

/-- The name `extent_name` of source lines 363 to 367: `name.extent.i`, or its
`.constrained` variant when the scope contains that. -/
def extent_name (scope : Scope) (name : String) (i : Nat) : String :=
  let extent_name := name ++ ".extent." ++ int_to_string i
  let extent_name_constrained := extent_name ++ ".constrained"
  if scope.contains extent_name_constrained then extent_name_constrained else extent_name

/-- The body of the loop of source lines 356 to 377: the coordinate `idx[i]` made from
`call->args[i]`.  The literal `0.5f` is the node `FloatImm (1/2)`.  The operators of
`IROperator.h` (not among the sources) bring both operands to one type: the dividend of
`/ extent` has the type `Float(32)` and `extent` the type `Int(32)`, so the divisor of
the node is the cast of `extent` to `Float(32)`. -/
def kernel_coordinate (scope : Scope) (name : String) (i : Nat) (arg : Expr) : Expr :=
  let min := Expr.Variable (Int_ 32) (min_name scope name i)
  let extent := Expr.Variable (Int_ 32) (extent_name scope name i)
  let idx := Expr.Sub arg min
  if i < 2 then
    Expr.Div (Expr.Add (Expr.Cast (Float_ 32) idx) (Expr.FloatImm (1 / 2)))
      (Expr.Cast (Float_ 32) extent)
  else idx

/-- The loop of source lines 356 to 377 from index `i` on: the vector `idx`. -/
def kernel_idx (scope : Scope) (name : String) : List Expr → Nat → List Expr
  | [], _ => []
  | a :: rest, i => kernel_coordinate scope name i a :: kernel_idx scope name rest (i + 1)

mutual
/-- The expression visitor: `visit(const Call *)` (source lines 343 to 380) and, for
every other node, the default visit of `IRMutator`.  `IRMutator.h` is not among the
sources; its default visits are modelled from the spec ("a pure pass-through"): the
node is rebuilt from its mutated children.  No expression visitor writes the scope or
the flag. -/
def mutateExpr (st : State) : Expr → Expr
  | .IntImm v => .IntImm v
  | .FloatImm v => .FloatImm v
  | .Variable t n => .Variable t n
  | .Cast t v => .Cast t (mutateExpr st v)
  | .Add a b => .Add (mutateExpr st a) (mutateExpr st b)
  | .Sub a b => .Sub (mutateExpr st a) (mutateExpr st b)
  | .Mul a b => .Mul (mutateExpr st a) (mutateExpr st b)
  | .Div a b => .Div (mutateExpr st a) (mutateExpr st b)
  | .Let n v b => .Let n (mutateExpr st v) (mutateExpr st b)
  | .Call t name args ct outs vi img prm =>
    if !st.inside_kernel_loop then
      .Call t name (mutateExprs st args) ct outs vi img prm
    else
      let name := call_name name ct outs vi
      .LoadArgs t name (kernel_idx st.scope name args 0) img prm
  | .Load t n i img prm => .Load t n (mutateExpr st i) img prm
  | .LoadArgs t n is img prm => .LoadArgs t n (mutateExprs st is) img prm
/-- The visitor applied to each expression of a vector. -/
def mutateExprs (st : State) : List Expr → List Expr
  | [] => []
  | e :: es => mutateExpr st e :: mutateExprs st es
end

/-- The values of a write after the loop of source lines 303 to 312: each is mutated
and then promoted. -/
def provide_values (st : State) (values : List Expr) : List Expr :=
  (mutateExprs st values).map promote_value

/-- The method `visit(const Provide *)` inside a device-kernel loop (source lines 302 to
340); `values` are the mutated and promoted values. -/
def visit_Provide (name : String) (values : List Expr) (args : List Expr) : Stmt :=
  match values with
  | [v] => Stmt.StoreArgs name v args
  | _ =>
    let_loop name values 0
      (store_loop (fun n var => Stmt.StoreArgs n var args) name values 0 Stmt.undef)

/-- The statement visitor: `visit(const Provide *)`, `visit(const LetStmt *)`,
`visit(const For *)` and the defaults of `IRMutator`.  It returns the rewritten
statement and the state after the visit. -/
def mutateStmt : State → Stmt → Stmt × State
  | st, .undef => (.undef, st)
  | st, .LetStmt name value body =>
    let constrained_version_exists := ends_with name ".constrained"
    let st1 : State :=
      if constrained_version_exists then { st with scope := st.scope.push name 0 } else st
    let value := mutateExpr st1 value
    let r := mutateStmt st1 body
    let st2 : State :=
      if constrained_version_exists then { r.2 with scope := r.2.scope.pop name } else r.2
    (.LetStmt name value r.1, st2)
  | st, .For name min extent for_type body =>
    let old_kernel_loop := st.inside_kernel_loop
    let st1 : State :=
      if for_type = ForType.Kernel then { st with inside_kernel_loop := true } else st
    let min := mutateExpr st1 min
    let extent := mutateExpr st1 extent
    let r := mutateStmt st1 body
    (.For name min extent for_type r.1, { r.2 with inside_kernel_loop := old_kernel_loop })
  | st, .Provide name values args =>
    if !st.inside_kernel_loop then
      (.Provide name (mutateExprs st values) (mutateExprs st args), st)
    else
      (visit_Provide name (provide_values st values) args, st)
  | st, .Realize name types bounds body =>
    let bounds := bounds.map (fun b => Range.mk (mutateExpr st b.min) (mutateExpr st b.extent))
    let r := mutateStmt st body
    (.Realize name types bounds r.1, r.2)
  | st, .Store name value index => (.Store name (mutateExpr st value) (mutateExpr st index), st)
  | st, .StoreArgs name value args =>
    (.StoreArgs name (mutateExpr st value) (mutateExprs st args), st)
  | st, .Allocate name t extents body =>
    let extents := mutateExprs st extents
    let r := mutateStmt st body
    (.Allocate name t extents r.1, r.2)
  | st, .Block first rest =>
    let r1 := mutateStmt st first
    let r2 := mutateStmt r1.2 rest
    (.Block r1.1 r2.1, r2.2)

/-- The call `CreateKernelLoads().mutate(s)` (source line 409). -/
def mutate (s : Stmt) : Stmt := (mutateStmt State.init s).1

end CreateKernelLoads

/-! ## `FlattenDimensions` -/

namespace FlattenDimensions

mutual
/-- The test `!mutate(e).same_as(e)` (source line 244): whether the visitor returns a
node other than `e` itself.  `same_as` compares node identity.  The default visits of
`IRMutator` return the node they were given unless a child came back as another node,
and `visit(const Call *)` builds a new node for every call that is neither external nor
intrinsic, so an expression comes back as another node exactly when it holds such a
call. -/
def changed : Expr → Bool
  | .IntImm _ => false
  | .FloatImm _ => false
  | .Variable _ _ => false
  | .Cast _ v => changed v
  | .Add a b => changed a || changed b
  | .Sub a b => changed a || changed b
  | .Mul a b => changed a || changed b
  | .Div a b => changed a || changed b
  | .Let _ v b => changed v || changed b
  | .Call _ _ args ct _ _ _ _ =>
    if ct = CallType.Extern ∨ ct = CallType.Intrinsic then changedList args else true
  | .Load _ _ i _ _ => changed i
  | .LoadArgs _ _ is _ _ => changedList is
/-- The flag `changed` of source lines 241 to 245 after the loop over the arguments. -/
def changedList : List Expr → Bool
  | [] => false
  | e :: es => changed e || changedList es
end

mutual
/-- The expression visitor: `visit(const Call *)` (source lines 237 to 269) and, for
every other node, the default visit of `IRMutator`, modelled as in `CreateKernelLoads`:
the node is rebuilt from its mutated children.  An external or intrinsic call whose
arguments changed is rebuilt by the four-argument `Call::make` (source line 249), which
leaves the function, the output index, the image and the parameter at their defaults;
otherwise the call itself is returned.  No expression visitor writes the scope. -/
def mutateExpr (env : Env) (scope : Scope) : Expr → Expr
  | .IntImm v => .IntImm v
  | .FloatImm v => .FloatImm v
  | .Variable t n => .Variable t n
  | .Cast t v => .Cast t (mutateExpr env scope v)
  | .Add a b => .Add (mutateExpr env scope a) (mutateExpr env scope b)
  | .Sub a b => .Sub (mutateExpr env scope a) (mutateExpr env scope b)
  | .Mul a b => .Mul (mutateExpr env scope a) (mutateExpr env scope b)
  | .Div a b => .Div (mutateExpr env scope a) (mutateExpr env scope b)
  | .Let n v b => .Let n (mutateExpr env scope v) (mutateExpr env scope b)
  | .Call t name args ct outs vi img prm =>
    if ct = CallType.Extern ∨ ct = CallType.Intrinsic then
      if changedList args then
        .Call t name (mutateExprs env scope args) ct 0 0 none none
      else .Call t name args ct outs vi img prm
    else
      let idx := mutateExpr env scope
        (flatten_args scope env (call_name name ct outs vi) args)
      let e := Expr.Load t.promote (call_name name ct outs vi) idx img prm
      if t.bits ≠ t.promote.bits then .Cast t e else e
  | .Load t n i img prm => .Load t n (mutateExpr env scope i) img prm
  | .LoadArgs t n is img prm => .LoadArgs t n (mutateExprs env scope is) img prm
termination_by e => e.weight
decreasing_by
  all_goals simp_wf
  all_goals simp only [Expr.weight]
  all_goals try omega
  have hin : ∀ (sc : Scope) (nm : String) (l : List Expr) (i : Nat) (acc : Expr),
      (internal_loop sc nm l i acc).weight ≤ acc.weight + Expr.weightList l := by
    intro sc nm l
    induction l with
    | nil => intro _ acc; simp [internal_loop, Expr.weightList]
    | cons a rest ih =>
      intro i acc
      have h := ih (i + 1) (Expr.Add acc (Expr.Mul (Expr.Sub a (mins sc nm i)) (strides sc nm i)))
      simp only [internal_loop, Expr.weightList, Expr.weight, mins, strides] at h ⊢
      omega
  have hex : ∀ (sc : Scope) (nm : String) (l : List Expr) (i : Nat) (acc : Expr × Expr),
      (external_loop sc nm l i acc).1.weight + (external_loop sc nm l i acc).2.weight
        ≤ acc.1.weight + acc.2.weight + Expr.weightList l := by
    intro sc nm l
    induction l with
    | nil => intro _ acc; simp [external_loop, Expr.weightList]
    | cons a rest ih =>
      intro i acc
      obtain ⟨x, y⟩ := acc
      have h := ih (i + 1) (Expr.Add x (Expr.Mul a (strides sc nm i)),
        Expr.Add y (Expr.Mul (mins sc nm i) (strides sc nm i)))
      simp only [external_loop, Expr.weightList, Expr.weight, mins, strides] at h ⊢
      omega
  unfold flatten_args
  split
  · exact lt_of_le_of_lt (hin _ _ _ _ _) (by simp only [Expr.weight]; omega)
  · show (Expr.Sub _ _).weight < _
    simp only [Expr.weight]
    exact lt_of_le_of_lt (Nat.succ_le_succ (hex _ _ _ _ _)) (by simp only [Expr.weight]; omega)
/-- The visitor applied to each expression of a vector. -/
def mutateExprs (env : Env) (scope : Scope) : List Expr → List Expr
  | [] => []
  | e :: es => mutateExpr env scope e :: mutateExprs env scope es
termination_by es => Expr.weightList es
decreasing_by
  all_goals simp_wf
  all_goals simp only [Expr.weightList]
  all_goals omega
end

/-- The values of a write after the loop of source lines 190 to 200: each is mutated
and then promoted. -/
def provide_values (env : Env) (scope : Scope) (values : List Expr) : List Expr :=
  (mutateExprs env scope values).map promote_value

/-- The method `visit(const Provide *)` (source lines 188 to 235); `values` are the
mutated and promoted values. -/
def visit_Provide (env : Env) (scope : Scope) (name : String) (values : List Expr)
    (args : List Expr) : Stmt :=
  match values with
  | [v] => Stmt.Store name v (mutateExpr env scope (flatten_args scope env name args))
  | _ =>
    let_loop name values 0
      (store_loop
        (fun n var => Stmt.Store n var (mutateExpr env scope (flatten_args scope env n args)))
        name values 0 Stmt.undef)

/-- The flag `is_kernel_loop` of source lines 83 to 89: some loop dimension of the
schedule has the device-kernel kind. -/
def is_kernel_loop (sched : Schedule) : Bool :=
  sched.dims.any (fun d => d.for_type = ForType.Kernel)

/-- The vector `make_buffer_t` of source lines 79 to 94: one flag per output type, all
set when the function is in the environment and has a device-kernel loop. -/
def make_buffer_t (env : Env) (name : String) (types : List IRType) : List Bool :=
  match env name with
  | some f => types.map (fun _ => is_kernel_loop f.schedule)
  | none => types.map (fun _ => false)

/-- The inner loop of source lines 110 to 114, from index `j` on: the index of every
logical dimension called `storage_dim` is pushed. -/
def push_matches (storage_dim : String) : List String → Nat → List Nat → List Nat
  | [], _, perm => perm
  | a :: rest, j, perm =>
    push_matches storage_dim rest (j + 1) (if a = storage_dim then perm ++ [j] else perm)

/-- The outer loop of source lines 109 to 116, from index `i` on; `none` is a failure
of the assertion `storage_permutation.size() == i+1`. -/
def storage_permutation_loop (args : List String) :
    List String → Nat → List Nat → Option (List Nat)
  | [], _, perm => some perm
  | sd :: rest, i, perm =>
    let perm := push_matches sd args 0 perm
    if perm.length = i + 1 then storage_permutation_loop args rest (i + 1) perm else none

/-- The vector `storage_permutation` of source lines 103 to 117. -/
def storage_permutation (f : Function) : Option (List Nat) :=
  storage_permutation_loop f.args f.schedule.storage_dims 0 []

/-- The vector `min_name` of source lines 130 to 136. -/
def min_names (buffer_name : String) (dims : Nat) : List String :=
  (List.range dims).map (fun i => buffer_name ++ ".min." ++ int_to_string i)

/-- The vector `stride_name` of source lines 130 to 136. -/
def stride_names (buffer_name : String) (dims : Nat) : List String :=
  (List.range dims).map (fun i => buffer_name ++ ".stride." ++ int_to_string i)

/-- The vector `extent_name` of source lines 130 to 136. -/
def extent_names (buffer_name : String) (dims : Nat) : List String :=
  (List.range dims).map (fun i => buffer_name ++ ".extent." ++ int_to_string i)

/-- The vectors `min_var`, `extent_var` and `stride_var` of source lines 137 to 142:
the `Int(32)` variable of each name. -/
def vars (names : List String) : List Expr :=
  names.map (fun n => Expr.Variable (Int_ 32) n)

/-- The entries `args[3*i+2]`, `args[3*i+3]`, `args[3*i+4]` of source lines 155 to 159
for every dimension, in order. -/
def buffer_t_triples : List Expr → List Expr → List Expr → List Expr
  | m :: ms, e :: es, s :: ss => m :: e :: s :: buffer_t_triples ms es ss
  | _, _, _ => []

/-- The vector `args` of source lines 152 to 159: the null handle, the element byte
size, then minimum, extent and stride of every dimension. -/
def buffer_t_args (t : IRType) (min_var extent_var stride_var : List Expr) : List Expr :=
  Expr.Call Handle "null_handle" [] CallType.Intrinsic 0 0 none none
    :: Expr.IntImm t.bytes
    :: buffer_t_triples min_var extent_var stride_var

/-- The loop "Compute the strides" of source lines 168 to 173, entered with loop
variable `i` and run down to 1.  An index outside a vector has no defined result in
the source and is `none` here. -/
def stride_loop (storage_permutation : List Nat) (stride_name : List String)
    (stride_var extent_var : List Expr) : Nat → Stmt → Option Stmt
  | 0, stmt => some stmt
  | i + 1, stmt =>
    match storage_permutation[i]?, storage_permutation[i + 1]? with
    | some prev_j, some j =>
      match stride_var[prev_j]?, extent_var[prev_j]?, stride_name[j]? with
      | some sv, some ev, some sn =>
        stride_loop storage_permutation stride_name stride_var extent_var i
          (Stmt.LetStmt sn (Expr.Mul sv ev) stmt)
      | _, _, _ => none
    | _, _ => none

/-- The statement "Innermost stride is one" of source lines 175 to 178. -/
def innermost_stride (storage_permutation : List Nat) (stride_name : List String)
    (dims : Nat) (stmt : Stmt) : Option Stmt :=
  if dims > 0 then
    let innermost := if storage_permutation.isEmpty then 0 else storage_permutation.getD 0 0
    match stride_name[innermost]? with
    | some sn => some (Stmt.LetStmt sn (Expr.IntImm 1) stmt)
    | none => none
  else some stmt

/-- The loop "Assign the mins and extents stored" of source lines 181 to 184.  The
source runs `i` from the last dimension down to the first and wraps `stmt` each time,
so the bindings of dimension `i` enclose those of every later dimension; `bounds` are
the bounds from dimension `i` on. -/
def bounds_loop (buffer_name : String) : List Range → Nat → Stmt → Stmt
  | [], _, stmt => stmt
  | b :: rest, i, stmt =>
    Stmt.LetStmt (buffer_name ++ ".extent." ++ int_to_string i) b.extent
      (Stmt.LetStmt (buffer_name ++ ".min." ++ int_to_string i) b.min
        (bounds_loop buffer_name rest (i + 1) stmt))

/-- The name `buffer_name` of source lines 123 to 126. -/
def buffer_name (name : String) (n_types idx : Nat) : String :=
  if n_types > 1 then name ++ "." ++ int_to_string idx else name

/-- One round of the loop over the output types (source lines 122 to 185), for output
`idx` of type `t`: `stmt` wrapped in the allocation and the bindings of that buffer. -/
def realize_buffer (name : String) (n_types : Nat) (bounds : List Range)
    (extents : List Expr) (storage_permutation : List Nat) (make_buffer : Bool)
    (idx : Nat) (t : IRType) (stmt : Stmt) : Option Stmt :=
  let buffer_name := buffer_name name n_types idx
  let dims := bounds.length
  let min_name := min_names buffer_name dims
  let extent_name := extent_names buffer_name dims
  let stride_name := stride_names buffer_name dims
  let min_var := vars min_name
  let extent_var := vars extent_name
  let stride_var := vars stride_name
  let stmt := Stmt.Allocate buffer_name t.promote extents stmt
  let stmt :=
    if make_buffer then
      Stmt.LetStmt (buffer_name ++ ".buffer")
        (Expr.Call Handle "create_buffer_t" (buffer_t_args t min_var extent_var stride_var)
          CallType.Intrinsic 0 0 none none)
        stmt
    else stmt
  match stride_loop storage_permutation stride_name stride_var extent_var (dims - 1) stmt with
  | none => none
  | some stmt =>
    match innermost_stride storage_permutation stride_name dims stmt with
    | none => none
    | some stmt => some (bounds_loop buffer_name bounds 0 stmt)

/-- The loop over the output types (source lines 122 to 185), from output `idx` on. -/
def realize_loop (name : String) (n_types : Nat) (bounds : List Range)
    (extents : List Expr) (storage_permutation : List Nat) (make_buffer_t : List Bool) :
    List IRType → Nat → Stmt → Option Stmt
  | [], _, stmt => some stmt
  | t :: rest, idx, stmt =>
    match realize_buffer name n_types bounds extents storage_permutation
        (make_buffer_t.getD idx false) idx t stmt with
    | none => none
    | some stmt =>
      realize_loop name n_types bounds extents storage_permutation make_buffer_t rest
        (idx + 1) stmt

/-- The method `visit(const Realize *)` after the body is mutated (source lines 79 to
185); `body` is the mutated body and `scope` the scope at that point.  `none` is a
failed assertion. -/
def visit_Realize (env : Env) (scope : Scope) (name : String) (types : List IRType)
    (bounds : List Range) (body : Stmt) : Option Stmt :=
  let make_buffer_t := make_buffer_t env name types
  let extents := bounds.map (fun b => mutateExpr env scope b.extent)
  match env name with
  | none => none
  | some f =>
    match storage_permutation f with
    | none => none
    | some storage_permutation =>
      if storage_permutation.length = bounds.length then
        realize_loop name types.length bounds extents storage_permutation make_buffer_t
          types 0 body
      else none

/-- The statement visitor: `visit(const Realize *)`, `visit(const Provide *)`,
`visit(const LetStmt *)` and the defaults of `IRMutator`.  It returns the rewritten
statement and the scope after the visit, or `none` when an assertion fails. -/
def mutateStmt (env : Env) : Scope → Stmt → Option (Stmt × Scope)
  | scope, .undef => some (.undef, scope)
  | scope, .LetStmt name value body =>
    let constrained_version_exists := ends_with name ".constrained"
    let scope1 := if constrained_version_exists then scope.push name 0 else scope
    let value := mutateExpr env scope1 value
    match mutateStmt env scope1 body with
    | none => none
    | some (body, scope2) =>
      some (.LetStmt name value body,
        if constrained_version_exists then scope2.pop name else scope2)
  | scope, .For name min extent for_type body =>
    let min := mutateExpr env scope min
    let extent := mutateExpr env scope extent
    match mutateStmt env scope body with
    | none => none
    | some (body, scope1) => some (.For name min extent for_type body, scope1)
  | scope, .Provide name values args =>
    some (visit_Provide env scope name (provide_values env scope values) args, scope)
  | scope, .Realize name types bounds body =>
    match mutateStmt env scope body with
    | none => none
    | some (body, scope1) =>
      match visit_Realize env scope1 name types bounds body with
      | none => none
      | some stmt => some (stmt, scope1)
  | scope, .Store name value index =>
    some (.Store name (mutateExpr env scope value) (mutateExpr env scope index), scope)
  | scope, .StoreArgs name value args =>
    some (.StoreArgs name (mutateExpr env scope value) (mutateExprs env scope args), scope)
  | scope, .Allocate name t extents body =>
    let extents := mutateExprs env scope extents
    match mutateStmt env scope body with
    | none => none
    | some (body, scope1) => some (.Allocate name t extents body, scope1)
  | scope, .Block first rest =>
    match mutateStmt env scope first with
    | none => none
    | some (first, scope1) =>
      match mutateStmt env scope1 rest with
      | none => none
      | some (rest, scope2) => some (.Block first rest, scope2)

/-- The call `FlattenDimensions(env).mutate(s)` (source line 411): the visitor starts
with an empty scope. -/
def mutate (env : Env) (s : Stmt) : Option Stmt :=
  (mutateStmt env [] s).map Prod.fst

end FlattenDimensions

/-- The function `storage_flattening` (source lines 408 to 412). -/
def storage_flattening (s : Stmt) (env : Env) : Option Stmt :=
  FlattenDimensions.mutate env (CreateKernelLoads.mutate s)

/-! ## Reading address expressions as numbers

The stage only builds expressions.  To state what an address is worth, an expression
is read under a valuation `ρ` of its variables; every node that is not an integer
literal, a variable, a sum, a difference or a product is an atom whose value is given
by `φ`.  The theorems hold for every `ρ` and every `φ`. -/

/-- The integer an expression is worth under the valuation `ρ` of the variables and the
reading `φ` of the atoms. -/
def Expr.eval (ρ : String → Int) (φ : Expr → Int) : Expr → Int
  | .IntImm v => v
  | .Variable _ n => ρ n
  | .Add a b => a.eval ρ φ + b.eval ρ φ
  | .Sub a b => a.eval ρ φ - b.eval ρ φ
  | .Mul a b => a.eval ρ φ * b.eval ρ φ
  | e => φ e

/-- The sum expression the source accumulates with `+=` from the literal `0`:
`((0 + t₀) + t₁) + …`. -/
def sum_expr (terms : List Expr) : Expr := terms.foldl Expr.Add (Expr.IntImm 0)

/-- No constrained override of a minimum or stride symbol of the first `k` dimensions
of `name` is in scope. -/
def no_override (scope : Scope) (name : String) (k : Nat) : Prop :=
  ∀ i, i < k →
    scope.contains (name ++ ".min." ++ int_to_string i ++ ".constrained") = false ∧
    scope.contains (name ++ ".stride." ++ int_to_string i ++ ".constrained") = false

/-- The rational an expression is worth when it is read over the rationals: a cast
keeps the value, a float literal is its rational, and every node that is not a
literal, a variable, a cast or an arithmetic node is an atom read by `φ`. -/
def Expr.evalQ (ρ : String → Rat) (φ : Expr → Rat) : Expr → Rat
  | .IntImm v => v
  | .FloatImm v => v
  | .Variable _ n => ρ n
  | .Cast _ v => v.evalQ ρ φ
  | .Add a b => a.evalQ ρ φ + b.evalQ ρ φ
  | .Sub a b => a.evalQ ρ φ - b.evalQ ρ φ
  | .Mul a b => a.evalQ ρ φ * b.evalQ ρ φ
  | .Div a b => a.evalQ ρ φ / b.evalQ ρ φ
  | e => φ e

/-! ## Shapes of statements, to state what the visitors build -/

/-- A chain of scoped bindings around `body`, the first of the list outermost. -/
def Stmt.lets (bindings : List (String × Expr)) (body : Stmt) : Stmt :=
  bindings.foldr (fun b s => Stmt.LetStmt b.1 b.2 s) body

/-- A sequence of statements as nested blocks, `Block(Block(s₀, s₁), s₂)`; the empty
sequence is the null statement. -/
def Stmt.seq : List Stmt → Stmt
  | [] => Stmt.undef
  | s :: rest => rest.foldl Stmt.Block s

/-- What a statement does, in execution order: a binding evaluates its value
(`Sum.inl name`) before its body runs, a block runs its first statement before the
rest, and a store writes to a buffer (`Sum.inr name`). -/
def Stmt.events : Stmt → List (String ⊕ String)
  | .undef => []
  | .LetStmt name _ body => Sum.inl name :: body.events
  | .For _ _ _ _ body => body.events
  | .Provide _ _ _ => []
  | .Realize _ _ _ body => body.events
  | .Store name _ _ => [Sum.inr name]
  | .StoreArgs name _ _ => [Sum.inr name]
  | .Allocate _ _ _ body => body.events
  | .Block first rest => first.events ++ rest.events

/-- Whether a statement contains a loop tagged with the device-kernel kind. -/
def Stmt.has_kernel_loop : Stmt → Bool
  | .undef => false
  | .LetStmt _ _ body => body.has_kernel_loop
  | .For _ _ _ for_type body => for_type = ForType.Kernel || body.has_kernel_loop
  | .Provide _ _ _ => false
  | .Realize _ _ _ body => body.has_kernel_loop
  | .Store _ _ _ => false
  | .StoreArgs _ _ _ => false
  | .Allocate _ _ _ body => body.has_kernel_loop
  | .Block first rest => first.has_kernel_loop || rest.has_kernel_loop

/-- The shape both `visit(const Provide *)` build for a write with several values:
the bindings of `name.i.value` in ascending order around the sequence of the stores. -/
def tuple_write (mk_store : String → Expr → Stmt) (name : String) (vals : List Expr) : Stmt :=
  Stmt.lets
    (vals.enum.map (fun p => (name ++ "." ++ int_to_string p.1 ++ ".value", p.2)))
    (Stmt.seq (vals.enum.map (fun p =>
      mk_store (name ++ "." ++ int_to_string p.1)
        (Expr.Variable p.2.type (name ++ "." ++ int_to_string p.1 ++ ".value")))))

/-- Whether a statement contains a region declaration. -/
def Stmt.has_realize : Stmt → Bool
  | .undef => false
  | .LetStmt _ _ body => body.has_realize
  | .For _ _ _ _ body => body.has_realize
  | .Provide _ _ _ => false
  | .Realize _ _ _ _ => true
  | .Store _ _ _ => false
  | .StoreArgs _ _ _ => false
  | .Allocate _ _ _ body => body.has_realize
  | .Block first rest => first.has_realize || rest.has_realize

/-- The number of allocations a statement contains. -/
def Stmt.count_allocate : Stmt → Nat
  | .undef => 0
  | .LetStmt _ _ body => body.count_allocate
  | .For _ _ _ _ body => body.count_allocate
  | .Provide _ _ _ => 0
  | .Realize _ _ _ body => body.count_allocate
  | .Store _ _ _ => 0
  | .StoreArgs _ _ _ => 0
  | .Allocate _ _ _ body => body.count_allocate + 1
  | .Block first rest => first.count_allocate + rest.count_allocate

/-! ## Bindings and valuations, to state what a lowered region declaration binds -/

/-- The valuation `ρ` with `name` bound to `value`. -/
def bind_value (ρ : String → Int) (name : String) (value : Int) : String → Int :=
  fun n => if n = name then value else ρ n

/-- The valuation after the scoped bindings of a list, the first outermost: each value
is read under the valuation of the bindings that enclose it. -/
def bind_all (φ : Expr → Int) (ρ : String → Int) (bindings : List (String × Expr)) :
    String → Int :=
  bindings.foldl (fun ρ b => bind_value ρ b.1 (b.2.eval ρ φ)) ρ

/-- The valuation in force at the allocation of buffer `target`: the statement is
entered from the outside, every scoped binding on the way binds its name, and an
allocation of another buffer is entered into its body. -/
def Stmt.env_at_allocate (φ : Expr → Int) (target : String) :
    (String → Int) → Stmt → Option (String → Int)
  | ρ, .LetStmt name value body =>
    Stmt.env_at_allocate φ target (bind_value ρ name (value.eval ρ φ)) body
  | ρ, .Allocate name _ _ body =>
    if name = target then some ρ else Stmt.env_at_allocate φ target ρ body
  | _, _ => none

/-- The names of the scoped bindings that enclose the allocation of buffer `target`,
outermost first: the statement is entered from the outside as in `env_at_allocate`. -/
def Stmt.bindings_to_allocate (target : String) : Stmt → Option (List String)
  | .LetStmt name _ body => (Stmt.bindings_to_allocate target body).map (fun l => name :: l)
  | .Allocate name _ _ body =>
    if name = target then some [] else Stmt.bindings_to_allocate target body
  | _ => none

/-- The bindings of the minimums and extents of a buffer, in the order the lowered
region declaration nests them (outermost first), from dimension `i` on. -/
def bounds_bindings (buffer_name : String) : List Range → Nat → List (String × Expr)
  | [], _ => []
  | b :: rest, i =>
    (buffer_name ++ ".extent." ++ int_to_string i, b.extent)
      :: (buffer_name ++ ".min." ++ int_to_string i, b.min)
      :: bounds_bindings buffer_name rest (i + 1)

/-- The stride binding at position `k` of the storage order `p`: the stride of `p[0]`
is `1`, the stride of `p[k]` is the stride of `p[k-1]` times the extent of `p[k-1]`. -/
def stride_binding (buffer_name : String) (p : List Nat) (k : Nat) : String × Expr :=
  (buffer_name ++ ".stride." ++ int_to_string (p.getD k 0),
   if k = 0 then Expr.IntImm 1
   else Expr.Mul
     (Expr.Variable (Int_ 32) (buffer_name ++ ".stride." ++ int_to_string (p.getD (k - 1) 0)))
     (Expr.Variable (Int_ 32) (buffer_name ++ ".extent." ++ int_to_string (p.getD (k - 1) 0))))

/-- The stride bindings of a buffer, outermost first. -/
def stride_bindings (buffer_name : String) (p : List Nat) : List (String × Expr) :=
  (List.range p.length).map (stride_binding buffer_name p)

/-- The binding of the device-buffer descriptor, present when `make_buffer` is set. -/
def descriptor_binding (buffer_name : String) (dims : Nat) (make_buffer : Bool) (t : IRType) :
    List (String × Expr) :=
  if make_buffer then
    [(buffer_name ++ ".buffer",
      Expr.Call Handle "create_buffer_t"
        (FlattenDimensions.buffer_t_args t
          (FlattenDimensions.vars (FlattenDimensions.min_names buffer_name dims))
          (FlattenDimensions.vars (FlattenDimensions.extent_names buffer_name dims))
          (FlattenDimensions.vars (FlattenDimensions.stride_names buffer_name dims)))
        CallType.Intrinsic 0 0 none none)]
  else []

/-- All the bindings around the allocation of one buffer, outermost first. -/
def buffer_bindings (buffer_name : String) (bounds : List Range) (p : List Nat)
    (make_buffer : Bool) (t : IRType) : List (String × Expr) :=
  bounds_bindings buffer_name bounds 0 ++ stride_bindings buffer_name p
    ++ descriptor_binding buffer_name bounds.length make_buffer t

/-- The statement a lowered region declaration is: for every output, from output `idx`
on, the bindings of its buffer around its allocation, the first output innermost. -/
def realized (name : String) (n_types : Nat) (bounds : List Range) (extents : List Expr)
    (p : List Nat) (make_buffer_t : List Bool) : List IRType → Nat → Stmt → Stmt
  | [], _, stmt => stmt
  | t :: rest, idx, stmt =>
    realized name n_types bounds extents p make_buffer_t rest (idx + 1)
      (Stmt.lets
        (buffer_bindings (FlattenDimensions.buffer_name name n_types idx) bounds p
          (make_buffer_t.getD idx false) t)
        (Stmt.Allocate (FlattenDimensions.buffer_name name n_types idx) t.promote extents stmt))

/-- The number a list of decimal digit characters denotes, read after `start`. -/
def digits_value (l : List Char) (start : Nat) : Nat :=
  l.foldl (fun a c => a * 10 + (c.toNat - 48)) start

/-- The strides of buffer `buffer_name` under the valuation `ρ` are those derived for
the storage order `p`: the stride of `p[0]` is 1 and the stride of `p[k]` is the stride
of `p[k-1]` times the extent of `p[k-1]`. -/
def strides_derived (buffer_name : String) (p : List Nat) (ρ : String → Int) : Prop :=
  (0 < p.length → ρ (buffer_name ++ ".stride." ++ int_to_string (p.getD 0 0)) = 1)
  ∧ ∀ k, 1 ≤ k → k < p.length →
      ρ (buffer_name ++ ".stride." ++ int_to_string (p.getD k 0))
        = ρ (buffer_name ++ ".stride." ++ int_to_string (p.getD (k - 1) 0))
          * ρ (buffer_name ++ ".extent." ++ int_to_string (p.getD (k - 1) 0))

mutual
/-- The variables an expression reads that it does not bind itself. -/
def Expr.free_vars : Expr → List String
  | .IntImm _ => []
  | .FloatImm _ => []
  | .Variable _ n => [n]
  | .Cast _ v => v.free_vars
  | .Add a b => a.free_vars ++ b.free_vars
  | .Sub a b => a.free_vars ++ b.free_vars
  | .Mul a b => a.free_vars ++ b.free_vars
  | .Div a b => a.free_vars ++ b.free_vars
  | .Let n v b => v.free_vars ++ b.free_vars.filter (fun x => x ≠ n)
  | .Call _ _ args _ _ _ _ _ => Expr.free_vars_list args
  | .Load _ _ i _ _ => i.free_vars
  | .LoadArgs _ _ is _ _ => Expr.free_vars_list is
/-- The free variables of the expressions of a list. -/
def Expr.free_vars_list : List Expr → List String
  | [] => []
  | e :: es => e.free_vars ++ Expr.free_vars_list es
end

/-- The storage order of a function as indices into its logical dimensions: for every
storage dimension, in order, the index of the logical dimension of that name. -/
def storage_order (f : Function) : List Nat :=
  f.schedule.storage_dims.map (fun sd => f.args.indexOf sd)

/-- The statement `visit(const Realize *)` builds for a function `f` of the environment
whose storage order is `storage_order f`; `body` is the lowered body and `scope` the
scope the extents are lowered in. -/
def lowered_realize (env : Env) (scope : Scope) (name : String) (types : List IRType)
    (bounds : List Range) (f : Function) (body : Stmt) : Stmt :=
  realized name types.length bounds
    (bounds.map (fun b => FlattenDimensions.mutateExpr env scope b.extent))
    (storage_order f) (FlattenDimensions.make_buffer_t env name types) types 0 body

/-! ## Addresses of in-bounds coordinates -/

/-- The number with the mixed-radix digits `d₀, d₁, …` (least significant first) in the
radices `e₀, e₁, …`: `d₀ + e₀ * (d₁ + e₁ * (…))`. -/
def radix_value : List (Int × Int) → Int
  | [] => 0
  | (d, e) :: rest => d + e * radix_value rest

/-- The linear address of the integer coordinates `x` in buffer `buffer_name` under the
valuation `ρ`: the sum of `(x_i - min_i) * stride_i`. -/
def address (buffer_name : String) (ρ : String → Int) (x : List Int) : Int :=
  ((List.range x.length).map (fun i =>
    (x.getD i 0 - ρ (buffer_name ++ ".min." ++ int_to_string i))
      * ρ (buffer_name ++ ".stride." ++ int_to_string i))).sum

/-- The coordinates `x` lie within the bounds of buffer `buffer_name` under `ρ`:
`min_i ≤ x_i < min_i + extent_i` in every dimension. -/
def in_bounds (buffer_name : String) (ρ : String → Int) (x : List Int) : Prop :=
  ∀ i, i < x.length →
    ρ (buffer_name ++ ".min." ++ int_to_string i) ≤ x.getD i 0
    ∧ x.getD i 0 < ρ (buffer_name ++ ".min." ++ int_to_string i)
        + ρ (buffer_name ++ ".extent." ++ int_to_string i)

/-- A memory: the value at every linear address. -/
abbrev Memory := Int → Int

/-- The memory after a store of `value` at `addr`. -/
def Memory.store (mem : Memory) (addr value : Int) : Memory :=
  fun a => if a = addr then value else mem a

/-- The valuation that gives the minimum and stride symbols of the dimensions of `name`
the integers of the lists `m` and `s`, and every other symbol 0. -/
def symbol_valuation (name : String) (m s : List Int) : String → Int :=
  bind_all (fun _ => 0) (fun _ => 0)
    ((List.range m.length).map
        (fun i => (name ++ ".min." ++ int_to_string i, Expr.IntImm (m.getD i 0)))
      ++ (List.range s.length).map
        (fun i => (name ++ ".stride." ++ int_to_string i, Expr.IntImm (s.getD i 0))))

/-! ## Positions in a program

A statement position is given by the statements around it: a statement with one hole,
entered from the root through the bodies of scoped bindings, loops, region declarations
and allocations and through either half of a sequence block. -/

/-- A statement with one hole at a statement position. -/
inductive StmtCtx where
  | hole
  | LetStmt (name : String) (value : Expr) (body : StmtCtx)
  | For (name : String) (min extent : Expr) (for_type : ForType) (body : StmtCtx)
  | Realize (name : String) (types : List IRType) (bounds : List Range) (body : StmtCtx)
  | Allocate (name : String) (type : IRType) (extents : List Expr) (body : StmtCtx)
  | BlockFirst (first : StmtCtx) (rest : Stmt)
  | BlockRest (first : Stmt) (rest : StmtCtx)

/-- The statement with the hole filled by `s`. -/
def StmtCtx.fill : StmtCtx → Stmt → Stmt
  | .hole, s => s
  | .LetStmt name value c, s => .LetStmt name value (c.fill s)
  | .For name min extent for_type c, s => .For name min extent for_type (c.fill s)
  | .Realize name types bounds c, s => .Realize name types bounds (c.fill s)
  | .Allocate name t extents c, s => .Allocate name t extents (c.fill s)
  | .BlockFirst c rest, s => .Block (c.fill s) rest
  | .BlockRest first c, s => .Block first (c.fill s)

/-- The names of the scoped bindings whose body holds the hole, the innermost first. -/
def StmtCtx.binders : StmtCtx → List String
  | .hole => []
  | .LetStmt name _ c => c.binders ++ [name]
  | .For _ _ _ _ c => c.binders
  | .Realize _ _ _ c => c.binders
  | .Allocate _ _ _ c => c.binders
  | .BlockFirst c _ => c.binders
  | .BlockRest _ c => c.binders

/-- The scope entries of the bindings around the hole whose name ends in
`.constrained`, the innermost first: what both visitors have pushed, and not yet
popped, when they reach the hole. -/
def StmtCtx.markers (c : StmtCtx) : Scope :=
  (c.binders.filter (fun n => ends_with n ".constrained")).map (fun n => (n, (0 : Int)))

/-- Whether the hole lies in the body of a loop of the device-kernel kind. -/
def StmtCtx.in_kernel_loop : StmtCtx → Bool
  | .hole => false
  | .LetStmt _ _ c => c.in_kernel_loop
  | .For _ _ _ for_type c => decide (for_type = ForType.Kernel) || c.in_kernel_loop
  | .Realize _ _ _ c => c.in_kernel_loop
  | .Allocate _ _ _ c => c.in_kernel_loop
  | .BlockFirst c _ => c.in_kernel_loop
  | .BlockRest _ c => c.in_kernel_loop

/-! ## The value of a cast between unsigned widths -/

/-- Modelled from the spec: the value a cast to an unsigned type of `t.bits` bits gives
the unsigned value `v`: `v` modulo `2 ^ t.bits` (a widening cast extends with zeros, a
narrowing cast keeps the low bits).  The code generator that gives `Cast` its meaning
is not among the sources. -/
def cast_unsigned (t : IRType) (v : Nat) : Nat := v % 2 ^ t.bits

/-! ## What a program holds, and where -/

mutual
/-- Whether some node of an expression satisfies `p`. -/
def Expr.any (p : Expr → Bool) : Expr → Bool
  | .IntImm v => p (.IntImm v)
  | .FloatImm v => p (.FloatImm v)
  | .Variable t n => p (.Variable t n)
  | .Cast t v => p (.Cast t v) || v.any p
  | .Add a b => p (.Add a b) || a.any p || b.any p
  | .Sub a b => p (.Sub a b) || a.any p || b.any p
  | .Mul a b => p (.Mul a b) || a.any p || b.any p
  | .Div a b => p (.Div a b) || a.any p || b.any p
  | .Let n v b => p (.Let n v b) || v.any p || b.any p
  | .Call t n args ct outs vi img prm =>
    p (.Call t n args ct outs vi img prm) || Expr.any_list p args
  | .Load t n i img prm => p (.Load t n i img prm) || i.any p
  | .LoadArgs t n is img prm => p (.LoadArgs t n is img prm) || Expr.any_list p is
/-- Whether some node of an expression of the list satisfies `p`. -/
def Expr.any_list (p : Expr → Bool) : List Expr → Bool
  | [] => false
  | e :: es => e.any p || Expr.any_list p es
end

/-- A multi-index read of a named computation or image: a call of the kind `Halide` or
`Image`. -/
def Expr.is_read : Expr → Bool
  | .Call _ _ _ ct _ _ _ _ => decide (ct = CallType.Halide ∨ ct = CallType.Image)
  | _ => false

/-- A linear-addressed load. -/
def Expr.is_load : Expr → Bool
  | .Load _ _ _ _ _ => true
  | _ => false

/-- A coordinate-vector-addressed load. -/
def Expr.is_load_args : Expr → Bool
  | .LoadArgs _ _ _ _ _ => true
  | _ => false

/-- A linear-addressed store. -/
def Stmt.is_store : Stmt → Bool
  | .Store _ _ _ => true
  | _ => false

/-- A coordinate-vector-addressed store. -/
def Stmt.is_store_args : Stmt → Bool
  | .StoreArgs _ _ _ => true
  | _ => false

/-- The expressions a statement node holds itself, outside its sub-statements. -/
def Stmt.exprs : Stmt → List Expr
  | .undef => []
  | .LetStmt _ value _ => [value]
  | .For _ min extent _ _ => [min, extent]
  | .Provide _ values args => values ++ args
  | .Realize _ _ bounds _ => bounds.map Range.min ++ bounds.map Range.extent
  | .Store _ value index => [value, index]
  | .StoreArgs _ value args => value :: args
  | .Allocate _ _ extents _ => extents
  | .Block _ _ => []

/-- Whether a statement node satisfies `ps` or an expression it holds itself has a node
that satisfies `pe`. -/
def Stmt.node_holds (ps : Stmt → Bool) (pe : Expr → Bool) (s : Stmt) : Bool :=
  ps s || Expr.any_list pe s.exprs

/-- Whether a statement holds, at any position, a statement node that satisfies `ps`
or an expression node that satisfies `pe`. -/
def Stmt.any (ps : Stmt → Bool) (pe : Expr → Bool) : Stmt → Bool
  | .undef => Stmt.undef.node_holds ps pe
  | .LetStmt n v body => (Stmt.LetStmt n v body).node_holds ps pe || body.any ps pe
  | .For n mn ex ft body => (Stmt.For n mn ex ft body).node_holds ps pe || body.any ps pe
  | .Provide n vs as => (Stmt.Provide n vs as).node_holds ps pe
  | .Realize n ts bs body => (Stmt.Realize n ts bs body).node_holds ps pe || body.any ps pe
  | .Store n v i => (Stmt.Store n v i).node_holds ps pe
  | .StoreArgs n v as => (Stmt.StoreArgs n v as).node_holds ps pe
  | .Allocate n t es body => (Stmt.Allocate n t es body).node_holds ps pe || body.any ps pe
  | .Block a b => (Stmt.Block a b).node_holds ps pe || a.any ps pe || b.any ps pe

/-- Whether a statement holds such a node at a position inside the body of a loop of
the device-kernel kind. -/
def Stmt.inside_kernel_body (ps : Stmt → Bool) (pe : Expr → Bool) : Stmt → Bool
  | .LetStmt _ _ body => body.inside_kernel_body ps pe
  | .For _ _ _ ft body =>
    if ft = ForType.Kernel then body.any ps pe else body.inside_kernel_body ps pe
  | .Realize _ _ _ body => body.inside_kernel_body ps pe
  | .Allocate _ _ _ body => body.inside_kernel_body ps pe
  | .Block a b => a.inside_kernel_body ps pe || b.inside_kernel_body ps pe
  | _ => false

/-- Whether a statement holds such a node at a position outside the body of every loop
of the device-kernel kind; the minimum and the extent of a loop are outside its body. -/
def Stmt.outside_kernel_body (ps : Stmt → Bool) (pe : Expr → Bool) : Stmt → Bool
  | .undef => Stmt.undef.node_holds ps pe
  | .LetStmt n v body =>
    (Stmt.LetStmt n v body).node_holds ps pe || body.outside_kernel_body ps pe
  | .For n mn ex ft body =>
    (Stmt.For n mn ex ft body).node_holds ps pe
      || (if ft = ForType.Kernel then false else body.outside_kernel_body ps pe)
  | .Provide n vs as => (Stmt.Provide n vs as).node_holds ps pe
  | .Realize n ts bs body =>
    (Stmt.Realize n ts bs body).node_holds ps pe || body.outside_kernel_body ps pe
  | .Store n v i => (Stmt.Store n v i).node_holds ps pe
  | .StoreArgs n v as => (Stmt.StoreArgs n v as).node_holds ps pe
  | .Allocate n t es body =>
    (Stmt.Allocate n t es body).node_holds ps pe || body.outside_kernel_body ps pe
  | .Block a b =>
    (Stmt.Block a b).node_holds ps pe || a.outside_kernel_body ps pe
      || b.outside_kernel_body ps pe

/-! ## The buffers a statement stores into and allocates -/

/-- The buffers the stores of a statement name, in execution order. -/
def Stmt.stored (s : Stmt) : List String :=
  s.events.filterMap (fun e => match e with
    | Sum.inr n => some n
    | Sum.inl _ => none)

/-- The buffers the allocations of a statement name, the outermost first. -/
def Stmt.allocated : Stmt → List String
  | .undef => []
  | .LetStmt _ _ body => body.allocated
  | .For _ _ _ _ body => body.allocated
  | .Provide _ _ _ => []
  | .Realize _ _ _ body => body.allocated
  | .Store _ _ _ => []
  | .StoreArgs _ _ _ => []
  | .Allocate name _ _ body => name :: body.allocated
  | .Block first rest => first.allocated ++ rest.allocated

/-- The extents the allocation of buffer `target` is made with: the statement is
entered from the outside as in `env_at_allocate`. -/
def Stmt.extents_at_allocate (target : String) : Stmt → Option (List Expr)
  | .LetStmt _ _ body => body.extents_at_allocate target
  | .Allocate name _ extents body =>
    if name = target then some extents else body.extents_at_allocate target
  | _ => none

/-! ## Concrete inputs -/

/-- A function of three dimensions `x, y, c` stored with `c` innermost, then `x`, then
`y`: the storage order `[2, 0, 1]`. -/
def example_function : Function := ⟨["x", "y", "c"], ⟨["c", "x", "y"], []⟩, 1⟩

/-- A function of two dimensions `x, y` stored in its logical order. -/
def example_function_2d : Function := ⟨["x", "y"], ⟨["x", "y"], []⟩, 1⟩

/-- An environment that holds `example_function` under the name `f`,
`example_function_2d` under the name `g`, and nothing else. -/
def example_env : Env := fun n =>
  if n = "f" then some example_function
  else if n = "g" then some example_function_2d
  else none

/-- The bounds `[0, 4) × [0, 3) × [0, 2)`. -/
def example_bounds : List Range :=
  [⟨Expr.IntImm 0, Expr.IntImm 4⟩, ⟨Expr.IntImm 0, Expr.IntImm 3⟩,
   ⟨Expr.IntImm 0, Expr.IntImm 2⟩]

/-- The coordinates `(x, y)` as variables. -/
def example_args : List Expr :=
  [Expr.Variable (Int_ 32) "x", Expr.Variable (Int_ 32) "y"]

/-- A valuation that gives every symbol the length of its name. -/
def example_valuation : String → Int := fun n => n.length

/-- The valuation at the allocation of `f` declared over `example_bounds`, entered
under `example_valuation`. -/
def example_allocation_valuation : String → Int :=
  bind_all (fun _ => 0) example_valuation
    (buffer_bindings "f" example_bounds [2, 0, 1] false (Int_ 32))

/-- A state of the device-kernel rewriter inside a device-kernel loop. -/
def example_kernel_state : CreateKernelLoads.State := ⟨[], true⟩

/-- A one-bit unsigned variable. -/
def example_bit : Expr := Expr.Variable ⟨TypeCode.UInt, 1, 1⟩ "m"

/-- The read `f(0, 0, 0)` of the function `f` of `example_env`. -/
def example_read : Expr :=
  Expr.Call (Int_ 32) "f" [Expr.IntImm 0, Expr.IntImm 0, Expr.IntImm 0] CallType.Halide 1 0
    none none

/-- A region declaration of `g` over `[f(0, 0, 0), f(0, 0, 0) + 4) × [0, 3)`: the
minimum of its first bound is a read.  Its body writes `g(x, y) = 1`. -/
def example_bounded_by_read : Stmt :=
  Stmt.Realize "g" [Int_ 32] [⟨example_read, Expr.IntImm 4⟩, ⟨Expr.IntImm 0, Expr.IntImm 3⟩]
    (Stmt.Provide "g" [Expr.IntImm 1] example_args)

/-- A loop of the device-kernel kind over `x` whose minimum is the read `f(0, 0, 0)` and
whose body writes `g(x, y) = 1`. -/
def example_kernel_loop_from_read : Stmt :=
  Stmt.For "x" example_read (Expr.IntImm 8) ForType.Kernel
    (Stmt.Provide "g" [Expr.IntImm 1] example_args)

/-- A loop of the device-kernel kind over `x` whose body writes `g(x, y) = g(f(0, 0, 0), y)`:
the first coordinate of the read of `g` is itself a read. -/
def example_kernel_nested_read : Stmt :=
  Stmt.For "x" (Expr.IntImm 0) (Expr.IntImm 8) ForType.Kernel
    (Stmt.Provide "g"
      [Expr.Call (Int_ 32) "g" [example_read, Expr.Variable (Int_ 32) "y"] CallType.Halide 1 0
        none none]
      example_args)

/-- A function of no dimension. -/
def example_function_0d : Function := ⟨[], ⟨[], []⟩, 1⟩

/-- A function of two dimensions whose loop over `x` has the device-kernel kind. -/
def example_function_kernel : Function :=
  ⟨["x", "y"], ⟨["x", "y"], [⟨"x", ForType.Kernel⟩, ⟨"y", ForType.Serial⟩]⟩, 1⟩

/-- An environment that holds `example_function_0d` under the name `s`,
`example_function_kernel` under the name `k`, and nothing else. -/
def example_env_more : Env := fun n =>
  if n = "s" then some example_function_0d
  else if n = "k" then some example_function_kernel
  else none

/-- The statement `example_bounded_by_read` is lowered to under `example_env`. -/
def example_bounded_by_read_lowered : Stmt :=
  Stmt.LetStmt "g.extent.0" (Expr.IntImm 4)
    (Stmt.LetStmt "g.min.0" example_read
      (Stmt.LetStmt "g.extent.1" (Expr.IntImm 3)
        (Stmt.LetStmt "g.min.1" (Expr.IntImm 0)
          (Stmt.LetStmt "g.stride.0" (Expr.IntImm 1)
            (Stmt.LetStmt "g.stride.1"
              (Expr.Mul (Expr.Variable (Int_ 32) "g.stride.0")
                (Expr.Variable (Int_ 32) "g.extent.0"))
              (Stmt.Allocate "g" (Int_ 32) [Expr.IntImm 4, Expr.IntImm 3]
                (Stmt.Store "g" (Expr.IntImm 1)
                  (Expr.Add
                    (Expr.Add (Expr.IntImm 0)
                      (Expr.Mul
                        (Expr.Sub (Expr.Variable (Int_ 32) "x")
                          (Expr.Variable (Int_ 32) "g.min.0"))
                        (Expr.Variable (Int_ 32) "g.stride.0")))
                    (Expr.Mul
                      (Expr.Sub (Expr.Variable (Int_ 32) "y")
                        (Expr.Variable (Int_ 32) "g.min.1"))
                      (Expr.Variable (Int_ 32) "g.stride.1"))))))))))

/-- The coordinates the kernel rewriter makes for the read `f(0, 0, 0)` with no
override in scope. -/
def example_read_coordinates : List Expr :=
  [Expr.Div
      (Expr.Add
        (Expr.Cast (Float_ 32) (Expr.Sub (Expr.IntImm 0) (Expr.Variable (Int_ 32) "f.min.0")))
        (Expr.FloatImm (1 / 2)))
      (Expr.Cast (Float_ 32) (Expr.Variable (Int_ 32) "f.extent.0")),
    Expr.Div
      (Expr.Add
        (Expr.Cast (Float_ 32) (Expr.Sub (Expr.IntImm 0) (Expr.Variable (Int_ 32) "f.min.1")))
        (Expr.FloatImm (1 / 2)))
      (Expr.Cast (Float_ 32) (Expr.Variable (Int_ 32) "f.extent.1")),
    Expr.Sub (Expr.IntImm 0) (Expr.Variable (Int_ 32) "f.min.2")]

/-- The statement `example_kernel_loop_from_read` is lowered to: the minimum of the
loop is a coordinate-vector-addressed load. -/
def example_kernel_loop_from_read_lowered : Stmt :=
  Stmt.For "x" (Expr.LoadArgs (Int_ 32) "f" example_read_coordinates none none)
    (Expr.IntImm 8) ForType.Kernel
    (Stmt.StoreArgs "g" (Expr.IntImm 1) example_args)

/-- The linear address of `f(0, 0, 0)` with no override in scope. -/
def example_read_address : Expr :=
  Expr.Add
    (Expr.Add
      (Expr.Add (Expr.IntImm 0)
        (Expr.Mul (Expr.Sub (Expr.IntImm 0) (Expr.Variable (Int_ 32) "f.min.0"))
          (Expr.Variable (Int_ 32) "f.stride.0")))
      (Expr.Mul (Expr.Sub (Expr.IntImm 0) (Expr.Variable (Int_ 32) "f.min.1"))
        (Expr.Variable (Int_ 32) "f.stride.1")))
    (Expr.Mul (Expr.Sub (Expr.IntImm 0) (Expr.Variable (Int_ 32) "f.min.2"))
      (Expr.Variable (Int_ 32) "f.stride.2"))

/-- The statement `example_kernel_nested_read` is lowered to: the read of `g` is a
coordinate-vector-addressed load whose first coordinate holds a linear-addressed load
of `f`. -/
def example_kernel_nested_read_lowered : Stmt :=
  Stmt.For "x" (Expr.IntImm 0) (Expr.IntImm 8) ForType.Kernel
    (Stmt.StoreArgs "g"
      (Expr.LoadArgs (Int_ 32) "g"
        [Expr.Div
            (Expr.Add
              (Expr.Cast (Float_ 32)
                (Expr.Sub (Expr.Load (Int_ 32) "f" example_read_address none none)
                  (Expr.Variable (Int_ 32) "g.min.0")))
              (Expr.FloatImm (1 / 2)))
            (Expr.Cast (Float_ 32) (Expr.Variable (Int_ 32) "g.extent.0")),
          Expr.Div
            (Expr.Add
              (Expr.Cast (Float_ 32)
                (Expr.Sub (Expr.Variable (Int_ 32) "y") (Expr.Variable (Int_ 32) "g.min.1")))
              (Expr.FloatImm (1 / 2)))
            (Expr.Cast (Float_ 32) (Expr.Variable (Int_ 32) "g.extent.1"))]
        none none)
      example_args)

/-- The bounds `[0, 4) × [0, 3)`. -/
def example_bounds_2d : List Range :=
  [⟨Expr.IntImm 0, Expr.IntImm 4⟩, ⟨Expr.IntImm 0, Expr.IntImm 3⟩]

/-- The call `sqrt(f(0, 0, 0))` of an external function. -/
def example_extern_call : Expr :=
  Expr.Call (Float_ 32) "sqrt" [example_read] CallType.Extern 0 0 none none

/-- The address the external strategy builds for the coordinates `(x, y)` of a buffer,
with no override in scope. -/
def example_external_address (buffer : String) : Expr :=
  Expr.Sub
    (Expr.Add
      (Expr.Add (Expr.IntImm 0)
        (Expr.Mul (Expr.Variable (Int_ 32) "x")
          (Expr.Variable (Int_ 32) (buffer ++ ".stride.0"))))
      (Expr.Mul (Expr.Variable (Int_ 32) "y")
        (Expr.Variable (Int_ 32) (buffer ++ ".stride.1"))))
    (Expr.Add
      (Expr.Add (Expr.IntImm 0)
        (Expr.Mul (Expr.Variable (Int_ 32) (buffer ++ ".min.0"))
          (Expr.Variable (Int_ 32) (buffer ++ ".stride.0"))))
      (Expr.Mul (Expr.Variable (Int_ 32) (buffer ++ ".min.1"))
        (Expr.Variable (Int_ 32) (buffer ++ ".stride.1"))))

/-- The address the internal strategy builds for the coordinates `(x, y)` of a buffer,
with no override in scope. -/
def example_internal_address (buffer : String) : Expr :=
  Expr.Add
    (Expr.Add (Expr.IntImm 0)
      (Expr.Mul
        (Expr.Sub (Expr.Variable (Int_ 32) "x")
          (Expr.Variable (Int_ 32) (buffer ++ ".min.0")))
        (Expr.Variable (Int_ 32) (buffer ++ ".stride.0"))))
    (Expr.Mul
      (Expr.Sub (Expr.Variable (Int_ 32) "y") (Expr.Variable (Int_ 32) (buffer ++ ".min.1")))
      (Expr.Variable (Int_ 32) (buffer ++ ".stride.1")))

/-- A function of two dimensions `x, y` and two outputs, stored in its logical order. -/
def example_function_pair : Function := ⟨["x", "y"], ⟨["x", "y"], []⟩, 2⟩

/-- An environment that holds `example_function_2d`, of one output, under the name `g`,
`example_function_pair`, of two outputs, under the name `h`, and nothing else. -/
def example_env_pair : Env := fun n =>
  if n = "g" then some example_function_2d
  else if n = "h" then some example_function_pair
  else none

/-- The write `h(x, y) = (1, 2)` of two values to the function `h` of
`example_env_pair`. -/
def example_tuple_write : Stmt :=
  Stmt.Provide "h" [Expr.IntImm 1, Expr.IntImm 2] example_args

/-- The statement `example_tuple_write` is lowered to: both stores are addressed by
the external strategy. -/
def example_tuple_write_lowered : Stmt :=
  Stmt.LetStmt "h.0.value" (Expr.IntImm 1)
    (Stmt.LetStmt "h.1.value" (Expr.IntImm 2)
      (Stmt.Block
        (Stmt.Store "h.0" (Expr.Variable (Int_ 32) "h.0.value") (example_external_address "h.0"))
        (Stmt.Store "h.1" (Expr.Variable (Int_ 32) "h.1.value")
          (example_external_address "h.1"))))

/-- The read of output 1 of the function `h` of `example_env_pair` at `(x, y)`. -/
def example_tuple_read : Expr :=
  Expr.Call (Int_ 32) "h" example_args CallType.Halide 2 1 none none

/-- The read `g(x, y)` of the function `g` of `example_env`. -/
def example_read_2d : Expr :=
  Expr.Call (Int_ 32) "g" example_args CallType.Halide 1 0 none none

/-- A binding of `g.min.0.constrained` whose value is the read `g(x, y)` and whose body
writes `g(x, y) = 1`. -/
def example_binding_of_read : Stmt :=
  Stmt.LetStmt "g.min.0.constrained" example_read_2d
    (Stmt.Provide "g" [Expr.IntImm 1] example_args)

/-- The address of `g(x, y)` with the override `g.min.0.constrained` in scope. -/
def example_constrained_address : Expr :=
  Expr.Add
    (Expr.Add (Expr.IntImm 0)
      (Expr.Mul
        (Expr.Sub (Expr.Variable (Int_ 32) "x")
          (Expr.Variable (Int_ 32) "g.min.0.constrained"))
        (Expr.Variable (Int_ 32) "g.stride.0")))
    (Expr.Mul
      (Expr.Sub (Expr.Variable (Int_ 32) "y") (Expr.Variable (Int_ 32) "g.min.1"))
      (Expr.Variable (Int_ 32) "g.stride.1"))

/-- The statement `example_binding_of_read` is lowered to: the load in the value of the
binding is addressed with the symbol the binding itself binds. -/
def example_binding_of_read_lowered : Stmt :=
  Stmt.LetStmt "g.min.0.constrained"
    (Expr.Load (Int_ 32) "g" example_constrained_address none none)
    (Stmt.Store "g" (Expr.IntImm 1) example_constrained_address)

/-- The read `g(x, y)` at the element type of one unsigned bit. -/
def example_bit_read : Expr :=
  Expr.Call ⟨TypeCode.UInt, 1, 1⟩ "g" example_args CallType.Halide 1 0 none none

/-- A loop of the device-kernel kind over `x` whose body writes `g(x, y) = g(x, y)` at
the element type of one unsigned bit. -/
def example_kernel_bit_copy : Stmt :=
  Stmt.For "x" (Expr.IntImm 0) (Expr.IntImm 8) ForType.Kernel
    (Stmt.Provide "g" [example_bit_read] example_args)

/-- The coordinates the kernel rewriter makes for the read `g(x, y)` with no override
in scope. -/
def example_read_2d_coordinates : List Expr :=
  [Expr.Div
      (Expr.Add
        (Expr.Cast (Float_ 32)
          (Expr.Sub (Expr.Variable (Int_ 32) "x") (Expr.Variable (Int_ 32) "g.min.0")))
        (Expr.FloatImm (1 / 2)))
      (Expr.Cast (Float_ 32) (Expr.Variable (Int_ 32) "g.extent.0")),
    Expr.Div
      (Expr.Add
        (Expr.Cast (Float_ 32)
          (Expr.Sub (Expr.Variable (Int_ 32) "y") (Expr.Variable (Int_ 32) "g.min.1")))
        (Expr.FloatImm (1 / 2)))
      (Expr.Cast (Float_ 32) (Expr.Variable (Int_ 32) "g.extent.1"))]

/-- The statement `example_kernel_bit_copy` is lowered to: the stored value is cast to
eight bits, the load it is cast from has one bit. -/
def example_kernel_bit_copy_lowered : Stmt :=
  Stmt.For "x" (Expr.IntImm 0) (Expr.IntImm 8) ForType.Kernel
    (Stmt.StoreArgs "g"
      (Expr.Cast ⟨TypeCode.UInt, 8, 1⟩
        (Expr.LoadArgs ⟨TypeCode.UInt, 1, 1⟩ "g" example_read_2d_coordinates none none))
      example_args)

/-- The statement the kernel rewriter makes of `example_kernel_nested_read`: the read of
`g` is a coordinate-vector-addressed load, and the read `f(0, 0, 0)` in its first
coordinate is still a read. -/
def example_kernel_nested_read_rewritten : Stmt :=
  Stmt.For "x" (Expr.IntImm 0) (Expr.IntImm 8) ForType.Kernel
    (Stmt.StoreArgs "g"
      (Expr.LoadArgs (Int_ 32) "g"
        [Expr.Div
            (Expr.Add
              (Expr.Cast (Float_ 32) (Expr.Sub example_read (Expr.Variable (Int_ 32) "g.min.0")))
              (Expr.FloatImm (1 / 2)))
            (Expr.Cast (Float_ 32) (Expr.Variable (Int_ 32) "g.extent.0")),
          Expr.Div
            (Expr.Add
              (Expr.Cast (Float_ 32)
                (Expr.Sub (Expr.Variable (Int_ 32) "y") (Expr.Variable (Int_ 32) "g.min.1")))
              (Expr.FloatImm (1 / 2)))
            (Expr.Cast (Float_ 32) (Expr.Variable (Int_ 32) "g.extent.1"))]
        none none)
      example_args)

/-- The bounds `[0, w) × [0, h)` with symbolic extents. -/
def example_bounds_symbolic : List Range :=
  [⟨Expr.IntImm 0, Expr.Variable (Int_ 32) "w"⟩, ⟨Expr.IntImm 0, Expr.Variable (Int_ 32) "h"⟩]

/-- A valuation with `w = 4`, `h = 3` and every other symbol 0. -/
def example_sizes : String → Int := fun n => if n = "w" then 4 else if n = "h" then 3 else 0

/-- The valuation at the allocation of `g` declared over `example_bounds_symbolic`,
entered under `example_sizes`. -/
def example_symbolic_valuation : String → Int :=
  bind_all (fun _ => 0) example_sizes
    (buffer_bindings "g" example_bounds_symbolic [0, 1] false (Int_ 32))

/-! ## Properties of `flatten_args` -/

namespace FlattenDimensions

theorem min_name_of_no_override {scope : Scope} {name : String} {k i : Nat}
    (h : no_override scope name k) (hi : i < k) :
    min_name scope name i = name ++ ".min." ++ int_to_string i := by
  simp [min_name, (h i hi).1]

theorem stride_name_of_no_override {scope : Scope} {name : String} {k i : Nat}
    (h : no_override scope name k) (hi : i < k) :
    stride_name scope name i = name ++ ".stride." ++ int_to_string i := by
  simp [stride_name, (h i hi).2]

theorem eval_internal_loop (scope : Scope) (name : String) (ρ : String → Int)
    (φ : Expr → Int) (l : List Expr) :
    ∀ (i : Nat) (acc : Expr),
      (internal_loop scope name l i acc).eval ρ φ
        = acc.eval ρ φ + ∑ j : Fin l.length,
            ((l.get j).eval ρ φ - ρ (min_name scope name (i + j)))
              * ρ (stride_name scope name (i + j)) := by
  induction l with
  | nil => intro i acc; simp [internal_loop]
  | cons a rest ih =>
    intro i acc
    rw [internal_loop, ih]
    simp only [Expr.eval, mins, strides, List.length_cons, Fin.sum_univ_succ, List.get_cons_succ',
      Fin.val_succ, Fin.val_zero, List.get_cons_zero, Nat.add_zero]
    have : ∀ j : Nat, i + 1 + j = i + (j + 1) := fun j => by omega
    simp only [this]
    ring

theorem external_loop_eq (scope : Scope) (name : String) (l : List Expr) :
    ∀ (i : Nat) (idx base : Expr),
      external_loop scope name l i (idx, base)
        = ((List.ofFn (fun j : Fin l.length =>
              Expr.Mul (l.get j) (strides scope name (i + j)))).foldl Expr.Add idx,
           (List.ofFn (fun j : Fin l.length =>
              Expr.Mul (mins scope name (i + j)) (strides scope name (i + j)))).foldl
                Expr.Add base) := by
  induction l with
  | nil => intro i idx base; simp [external_loop]
  | cons a rest ih =>
    intro i idx base
    have : ∀ j : Nat, i + 1 + j = i + (j + 1) := fun j => by omega
    rw [external_loop, ih]
    simp [List.ofFn_succ, this]

theorem eval_foldl_add (ρ : String → Int) (φ : Expr → Int) (l : List Expr) :
    ∀ acc : Expr, (l.foldl Expr.Add acc).eval ρ φ
      = acc.eval ρ φ + (l.map (Expr.eval ρ φ)).sum := by
  induction l with
  | nil => intro acc; simp
  | cons a rest ih => intro acc; simp [ih, Expr.eval]; ring

theorem eval_external_loop (scope : Scope) (name : String) (ρ : String → Int)
    (φ : Expr → Int) (l : List Expr) (i : Nat) (idx base : Expr) :
    (external_loop scope name l i (idx, base)).1.eval ρ φ
        = idx.eval ρ φ + ∑ j : Fin l.length,
            (l.get j).eval ρ φ * ρ (stride_name scope name (i + j))
    ∧ (external_loop scope name l i (idx, base)).2.eval ρ φ
        = base.eval ρ φ + ∑ j : Fin l.length,
            ρ (min_name scope name (i + j)) * ρ (stride_name scope name (i + j)) := by
  rw [external_loop_eq]
  simp [eval_foldl_add, List.sum_ofFn, Expr.eval, mins, strides]

/-- C1: for a name present in the environment and with no constrained override in
scope, the expression `flatten_args` returns is worth, under every valuation, the sum
over the coordinates of `(args[i] - name.min.i) * name.stride.i`. -/
theorem flatten_args_internal_address (scope : Scope) (env : Env) (name : String)
    (args : List Expr) (f : Function) (ρ : String → Int) (φ : Expr → Int)
    (hpresent : env name = some f) (hno : no_override scope name args.length) :
    (flatten_args scope env name args).eval ρ φ
      = ∑ i : Fin args.length,
          ((args.get i).eval ρ φ - ρ (name ++ ".min." ++ int_to_string i))
            * ρ (name ++ ".stride." ++ int_to_string i) := by
  simp only [flatten_args, hpresent, Option.isSome_some, if_true, eval_internal_loop,
    Expr.eval, Nat.zero_add, Int.zero_add]
  refine Finset.sum_congr rfl (fun i _ => ?_)
  rw [min_name_of_no_override hno i.isLt, stride_name_of_no_override hno i.isLt]

/-- C2: for a name absent from the environment and with no constrained override in
scope, `flatten_args` returns the difference of two sum expressions: the sum of
`args[i] * name.stride.i`, minus the sum of `name.min.i * name.stride.i`, which is
built from the symbols alone and holds no coordinate; its worth is the difference of
the two sums. -/
theorem flatten_args_external_expression (scope : Scope) (env : Env) (name : String)
    (args : List Expr) (habsent : env name = none)
    (hno : no_override scope name args.length) :
    flatten_args scope env name args
      = Expr.Sub
          (sum_expr (List.ofFn (fun i : Fin args.length =>
            Expr.Mul (args.get i)
              (Expr.Variable (Int_ 32) (name ++ ".stride." ++ int_to_string i)))))
          (sum_expr ((List.range args.length).map (fun i =>
            Expr.Mul (Expr.Variable (Int_ 32) (name ++ ".min." ++ int_to_string i))
              (Expr.Variable (Int_ 32) (name ++ ".stride." ++ int_to_string i)))))
    ∧ ∀ (ρ : String → Int) (φ : Expr → Int),
        (flatten_args scope env name args).eval ρ φ
          = (∑ i : Fin args.length,
              (args.get i).eval ρ φ * ρ (name ++ ".stride." ++ int_to_string i))
            - ∑ i : Fin args.length,
                ρ (name ++ ".min." ++ int_to_string i)
                  * ρ (name ++ ".stride." ++ int_to_string i) := by
  have hs : ∀ i : Fin args.length,
      stride_name scope name i = name ++ ".stride." ++ int_to_string i :=
    fun i => stride_name_of_no_override hno i.isLt
  have hm : ∀ i : Fin args.length,
      min_name scope name i = name ++ ".min." ++ int_to_string i :=
    fun i => min_name_of_no_override hno i.isLt
  constructor
  · simp only [flatten_args, habsent, Option.isSome_none, Bool.false_eq_true, if_false,
      external_loop_eq, sum_expr, Nat.zero_add, mins, strides, hs, hm]
    congr 2
    apply List.ext_getElem
    · simp
    · intro i h1 h2
      simp
  · intro ρ φ
    have h := eval_external_loop scope name ρ φ args 0 (Expr.IntImm 0) (Expr.IntImm 0)
    simp only [flatten_args, habsent, Option.isSome_none, Bool.false_eq_true, if_false,
      Expr.eval, h.1, h.2, Nat.zero_add, Int.zero_add, hs, hm]

end FlattenDimensions

/-! ## Properties of `CreateKernelLoads` -/

namespace CreateKernelLoads

mutual
theorem mutateExpr_outside (st : State) (h : st.inside_kernel_loop = false) :
    ∀ e : Expr, mutateExpr st e = e
  | .IntImm _ => by simp [mutateExpr]
  | .FloatImm _ => by simp [mutateExpr]
  | .Variable _ _ => by simp [mutateExpr]
  | .Cast _ v => by simp [mutateExpr, mutateExpr_outside st h v]
  | .Add a b => by simp [mutateExpr, mutateExpr_outside st h a, mutateExpr_outside st h b]
  | .Sub a b => by simp [mutateExpr, mutateExpr_outside st h a, mutateExpr_outside st h b]
  | .Mul a b => by simp [mutateExpr, mutateExpr_outside st h a, mutateExpr_outside st h b]
  | .Div a b => by simp [mutateExpr, mutateExpr_outside st h a, mutateExpr_outside st h b]
  | .Let _ v b => by simp [mutateExpr, mutateExpr_outside st h v, mutateExpr_outside st h b]
  | .Call _ _ args _ _ _ _ _ => by simp [mutateExpr, h, mutateExprs_outside st h args]
  | .Load _ _ i _ _ => by simp [mutateExpr, mutateExpr_outside st h i]
  | .LoadArgs _ _ is _ _ => by simp [mutateExpr, mutateExprs_outside st h is]
theorem mutateExprs_outside (st : State) (h : st.inside_kernel_loop = false) :
    ∀ es : List Expr, mutateExprs st es = es
  | [] => by simp [mutateExprs]
  | e :: es => by simp [mutateExprs, mutateExpr_outside st h e, mutateExprs_outside st h es]
end

theorem pop_push (scope : Scope) (name : String) (value : Int) :
    (scope.push name value).pop name = scope := by
  simp [Scope.push, Scope.pop]

theorem mutateStmt_outside :
    ∀ (s : Stmt) (st : State), st.inside_kernel_loop = false → s.has_kernel_loop = false →
      mutateStmt st s = (s, st)
  | .undef, st, _, _ => by simp [mutateStmt]
  | .LetStmt name value body, st, h, hk => by
    have hk2 : body.has_kernel_loop = false := by simpa [Stmt.has_kernel_loop] using hk
    by_cases hc : ends_with name ".constrained" = true
    · have ih := mutateStmt_outside body { st with scope := st.scope.push name 0 } h hk2
      have he := mutateExpr_outside { st with scope := st.scope.push name 0 } h value
      simp [mutateStmt, hc, ih, he, pop_push]
    · have ih := mutateStmt_outside body st h hk2
      simp [mutateStmt, hc, ih, mutateExpr_outside st h]
  | .For name min extent for_type body, st, h, hk => by
    simp only [Stmt.has_kernel_loop, Bool.or_eq_false_iff, decide_eq_false_iff_not] at hk
    have ih := mutateStmt_outside body st h hk.2
    simp [mutateStmt, hk.1, ih, mutateExpr_outside st h, ← h]
  | .Provide name values args, st, h, _ => by
    simp [mutateStmt, h, mutateExprs_outside st h]
  | .Realize name types bounds body, st, h, hk => by
    have hk2 : body.has_kernel_loop = false := by simpa [Stmt.has_kernel_loop] using hk
    have ih := mutateStmt_outside body st h hk2
    simp [mutateStmt, ih, mutateExpr_outside st h]
  | .Store name value index, st, h, _ => by
    simp [mutateStmt, mutateExpr_outside st h]
  | .StoreArgs name value args, st, h, _ => by
    simp [mutateStmt, mutateExpr_outside st h, mutateExprs_outside st h]
  | .Allocate name t extents body, st, h, hk => by
    have hk2 : body.has_kernel_loop = false := by simpa [Stmt.has_kernel_loop] using hk
    have ih := mutateStmt_outside body st h hk2
    simp [mutateStmt, ih, mutateExprs_outside st h]
  | .Block first rest, st, h, hk => by
    simp only [Stmt.has_kernel_loop, Bool.or_eq_false_iff] at hk
    have ih1 := mutateStmt_outside first st h hk.1
    have ih2 := mutateStmt_outside rest st h hk.2
    simp [mutateStmt, ih1, ih2]

end CreateKernelLoads

/-- C9: on a program with no loop of the device-kernel kind the device-kernel load
rewriter returns the program unchanged, so `storage_flattening` is the dimension
flattener applied to the program itself, for every environment. -/
theorem storage_flattening_without_kernel_loop (s : Stmt) (env : Env)
    (h : s.has_kernel_loop = false) :
    CreateKernelLoads.mutate s = s
    ∧ storage_flattening s env = FlattenDimensions.mutate env s := by
  have hs : CreateKernelLoads.mutate s = s := by
    simp [CreateKernelLoads.mutate,
      CreateKernelLoads.mutateStmt_outside s CreateKernelLoads.State.init rfl h]
  exact ⟨hs, by simp [storage_flattening, hs]⟩

namespace CreateKernelLoads

theorem kernel_idx_eq (scope : Scope) (name : String) (l : List Expr) :
    ∀ i : Nat, kernel_idx scope name l i
      = List.ofFn (fun j : Fin l.length => kernel_coordinate scope name (i + j) (l.get j)) := by
  induction l with
  | nil => intro i; simp [kernel_idx]
  | cons a rest ih =>
    intro i
    have : ∀ j : Nat, i + 1 + j = i + (j + 1) := fun j => by omega
    simp [kernel_idx, ih, List.ofFn_succ, this]

/-- A read the kernel rewriter visits with the flag set becomes a
coordinate-vector-addressed load of the buffer it names, with one coordinate per
argument; coordinate `i` is `(cast(c_i - min_i) + 0.5) / cast(extent_i)` for `i < 2` and
`c_i - min_i` from axis 2 on, where `min_i` and `extent_i` are the symbols `b.min.i`
and `b.extent.i` when no override of them is in scope.  Read over the rationals a
normalized coordinate is `(c_i - min_i + 1/2) / extent_i`, which for extent 256 and
minimum 0 is `(x + 1/2) / 256`.  The last part is the read as the value of a write in
the body of a loop of the device-kernel kind, from any state. -/
theorem kernel_read_coordinates (st : State) (t : IRType) (b : String) (args : List Expr)
    (ct : CallType) (outs vi : Nat) (img prm : Option String)
    (h : st.inside_kernel_loop = true) :
    mutateExpr st (Expr.Call t b args ct outs vi img prm)
        = Expr.LoadArgs t (call_name b ct outs vi)
            (List.ofFn (fun i : Fin args.length =>
              kernel_coordinate st.scope (call_name b ct outs vi) i (args.get i)))
            img prm
    ∧ (List.ofFn (fun i : Fin args.length =>
        kernel_coordinate st.scope (call_name b ct outs vi) i (args.get i))).length
        = args.length
    ∧ (∀ (name : String) (i : Nat) (c : Expr), i < 2 →
        kernel_coordinate st.scope name i c
          = Expr.Div
              (Expr.Add
                (Expr.Cast (Float_ 32)
                  (Expr.Sub c (Expr.Variable (Int_ 32) (min_name st.scope name i))))
                (Expr.FloatImm (1 / 2)))
              (Expr.Cast (Float_ 32) (Expr.Variable (Int_ 32) (extent_name st.scope name i))))
    ∧ (∀ (name : String) (i : Nat) (c : Expr), 2 ≤ i →
        kernel_coordinate st.scope name i c
          = Expr.Sub c (Expr.Variable (Int_ 32) (min_name st.scope name i)))
    ∧ (∀ (name : String) (i : Nat),
        st.scope.contains (name ++ ".min." ++ int_to_string i ++ ".constrained") = false →
        st.scope.contains (name ++ ".extent." ++ int_to_string i ++ ".constrained") = false →
        min_name st.scope name i = name ++ ".min." ++ int_to_string i
        ∧ extent_name st.scope name i = name ++ ".extent." ++ int_to_string i)
    ∧ (∀ (ρ : String → Rat) (φ : Expr → Rat) (name : String) (i : Nat) (c : Expr), i < 2 →
        (kernel_coordinate st.scope name i c).evalQ ρ φ
          = (c.evalQ ρ φ - ρ (min_name st.scope name i) + 1 / 2)
              / ρ (extent_name st.scope name i))
    ∧ (∀ (ρ : String → Rat) (φ : Expr → Rat) (name : String) (x : Expr),
        ρ (extent_name st.scope name 0) = 256 → ρ (min_name st.scope name 0) = 0 →
        (kernel_coordinate st.scope name 0 x).evalQ ρ φ = (x.evalQ ρ φ + 1 / 2) / 256)
    ∧ (∀ (st0 : State) (v g : String) (mn ex : Expr) (cargs : List Expr),
        (mutateStmt st0 (Stmt.For v mn ex ForType.Kernel
            (Stmt.Provide g [Expr.Call t b args ct outs vi img prm] cargs))).1
          = Stmt.For v (mutateExpr { st0 with inside_kernel_loop := true } mn)
              (mutateExpr { st0 with inside_kernel_loop := true } ex) ForType.Kernel
              (Stmt.StoreArgs g
                (promote_value
                  (Expr.LoadArgs t (call_name b ct outs vi)
                    (List.ofFn (fun i : Fin args.length =>
                      kernel_coordinate st0.scope (call_name b ct outs vi) i (args.get i)))
                    img prm))
                cargs)) := by
  refine ⟨?_, ?_, ?_, ?_, ?_, ?_, ?_, ?_⟩
  · simp [mutateExpr, h, kernel_idx_eq]
  · simp
  · intro name i c hi
    simp [kernel_coordinate, hi]
  · intro name i c hi
    have : ¬ i < 2 := by omega
    simp [kernel_coordinate, this]
  · intro name i h1 h2
    simp [min_name, extent_name, h1, h2]
  · intro ρ φ name i c hi
    simp [kernel_coordinate, hi, Expr.evalQ]
  · intro ρ φ name x h1 h2
    simp [kernel_coordinate, Expr.evalQ, h1, h2]
  · intro st0 v g mn ex cargs
    simp [mutateStmt, provide_values, mutateExprs, mutateExpr, visit_Provide, kernel_idx_eq]

end CreateKernelLoads

/-! ## Properties of the tuple write -/

theorem let_loop_eq (name : String) (vals : List Expr) (body : Stmt) :
    ∀ i : Nat, let_loop name vals i body
      = Stmt.lets ((vals.enumFrom i).map
          (fun p => (name ++ "." ++ int_to_string p.1 ++ ".value", p.2))) body := by
  induction vals with
  | nil => intro i; simp [let_loop, Stmt.lets]
  | cons v rest ih =>
    intro i
    simp only [let_loop, ih, List.enumFrom_cons, List.map_cons, Stmt.lets, List.foldr_cons]

theorem store_loop_defined (mk_store : String → Expr → Stmt) (name : String)
    (vals : List Expr) :
    ∀ (i : Nat) (result : Stmt), result.defined = true →
      store_loop mk_store name vals i result
        = ((vals.enumFrom i).map (fun p =>
            mk_store (name ++ "." ++ int_to_string p.1)
              (Expr.Variable p.2.type (name ++ "." ++ int_to_string p.1 ++ ".value")))).foldl
            Stmt.Block result := by
  induction vals with
  | nil => intro i result _; simp [store_loop]
  | cons v rest ih =>
    intro i result h
    rw [store_loop, ih _ _ (by rw [if_pos h]; rfl)]
    simp [h, List.enumFrom_cons]

theorem store_loop_eq (mk_store : String → Expr → Stmt) (name : String)
    (hmk : ∀ n v, (mk_store n v).defined = true) (vals : List Expr) :
    store_loop mk_store name vals 0 Stmt.undef
      = Stmt.seq (vals.enum.map (fun p =>
          mk_store (name ++ "." ++ int_to_string p.1)
            (Expr.Variable p.2.type (name ++ "." ++ int_to_string p.1 ++ ".value")))) := by
  cases vals with
  | nil => simp [store_loop, Stmt.seq]
  | cons v rest =>
    have hu : Stmt.undef.defined = false := rfl
    rw [store_loop, store_loop_defined _ _ _ _ _ (by simp only [hu]; exact hmk _ _)]
    simp [hu, Stmt.seq, List.enum, List.enumFrom_cons]

theorem events_lets (bindings : List (String × Expr)) (body : Stmt) :
    (Stmt.lets bindings body).events = bindings.map (fun b => Sum.inl b.1) ++ body.events := by
  induction bindings with
  | nil => simp [Stmt.lets]
  | cons b rest ih =>
    simp only [Stmt.lets, List.foldr_cons, Stmt.events, List.map_cons, List.cons_append] at ih ⊢
    rw [ih]

theorem events_foldl_block (l : List Stmt) :
    ∀ s : Stmt, (l.foldl Stmt.Block s).events = s.events ++ (l.map Stmt.events).flatten := by
  induction l with
  | nil => intro s; simp
  | cons a rest ih => intro s; simp [ih, Stmt.events]

theorem events_seq (l : List Stmt) : (Stmt.seq l).events = (l.map Stmt.events).flatten := by
  cases l with
  | nil => simp [Stmt.seq, Stmt.events]
  | cons a rest => simp [Stmt.seq, events_foldl_block]

theorem map_enum_eq_range {α β : Type} (l : List α) (g : Nat → β) :
    l.enum.map (fun p => g p.1) = (List.range l.length).map g := by
  apply List.ext_getElem
  · simp
  · intro i h1 h2
    simp

theorem events_tuple_write (mk_store : String → Expr → Stmt) (name : String)
    (vals : List Expr) (hmk : ∀ n v, (mk_store n v).events = [Sum.inr n]) :
    (tuple_write mk_store name vals).events
      = (List.range vals.length).map
          (fun i => Sum.inl (name ++ "." ++ int_to_string i ++ ".value"))
        ++ (List.range vals.length).map (fun i => Sum.inr (name ++ "." ++ int_to_string i)) := by
  rw [tuple_write, events_lets, events_seq]
  congr 1
  · rw [List.map_map]
    exact map_enum_eq_range vals
      (fun i => (Sum.inl (name ++ "." ++ int_to_string i ++ ".value") : String ⊕ String))
  · rw [List.map_map]
    have : (Stmt.events ∘ fun p : Nat × Expr =>
        mk_store (name ++ "." ++ int_to_string p.1)
          (Expr.Variable p.2.type (name ++ "." ++ int_to_string p.1 ++ ".value")))
        = fun p => [Sum.inr (name ++ "." ++ int_to_string p.1)] := by
      funext p
      simp [hmk]
    rw [this]
    rw [← map_enum_eq_range vals
      (fun i => (Sum.inr (name ++ "." ++ int_to_string i) : String ⊕ String))]
    induction vals.enum with
    | nil => simp
    | cons a rest ih => simp [ih]

theorem CreateKernelLoads.kernel_mutateExprs_eq_map (st : CreateKernelLoads.State) (es : List Expr) :
    CreateKernelLoads.mutateExprs st es = es.map (CreateKernelLoads.mutateExpr st) := by
  induction es with
  | nil => simp [CreateKernelLoads.mutateExprs]
  | cons e rest ih => simp [CreateKernelLoads.mutateExprs, ih]

theorem FlattenDimensions.flatten_mutateExprs_eq_map (env : Env) (scope : Scope) (es : List Expr) :
    FlattenDimensions.mutateExprs env scope es
      = es.map (FlattenDimensions.mutateExpr env scope) := by
  induction es with
  | nil => simp [FlattenDimensions.mutateExprs]
  | cons e rest ih => simp [FlattenDimensions.mutateExprs, ih]

/-- C8: a write with `n ≥ 2` values is lowered, by the dimension flattener and by the
device-kernel rewriter inside a device-kernel loop, to `tuple_write`: the bindings of
`name.i.value` to the lowered `i`-th value, `i = 0..n-1` from the outside in, around
the sequence of the `n` stores of the variable `name.i.value` into buffer `name.i`, in
ascending `i`; in execution order all `n` values are evaluated, in index order, before
the `n` stores are done, in index order. -/
theorem tuple_write_order (env : Env) (scope : Scope) (st : CreateKernelLoads.State)
    (name : String) (values args : List Expr) (hn : 2 ≤ values.length)
    (hk : st.inside_kernel_loop = true) :
    FlattenDimensions.mutateStmt env scope (Stmt.Provide name values args)
        = some (tuple_write
            (fun n var => Stmt.Store n var
              (FlattenDimensions.mutateExpr env scope
                (FlattenDimensions.flatten_args scope env n args)))
            name
            (values.map (fun v => promote_value (FlattenDimensions.mutateExpr env scope v))),
          scope)
    ∧ CreateKernelLoads.mutateStmt st (Stmt.Provide name values args)
        = (tuple_write (fun n var => Stmt.StoreArgs n var args) name
            (values.map (fun v => promote_value (CreateKernelLoads.mutateExpr st v))),
          st)
    ∧ (tuple_write
          (fun n var => Stmt.Store n var
            (FlattenDimensions.mutateExpr env scope
              (FlattenDimensions.flatten_args scope env n args)))
          name
          (values.map (fun v => promote_value (FlattenDimensions.mutateExpr env scope v)))).events
        = (List.range values.length).map
            (fun i => Sum.inl (name ++ "." ++ int_to_string i ++ ".value"))
          ++ (List.range values.length).map
              (fun i => Sum.inr (name ++ "." ++ int_to_string i))
    ∧ (tuple_write (fun n var => Stmt.StoreArgs n var args) name
          (values.map (fun v => promote_value (CreateKernelLoads.mutateExpr st v)))).events
        = (List.range values.length).map
            (fun i => Sum.inl (name ++ "." ++ int_to_string i ++ ".value"))
          ++ (List.range values.length).map
              (fun i => Sum.inr (name ++ "." ++ int_to_string i)) := by
  refine ⟨?_, ?_, ?_, ?_⟩
  · simp only [FlattenDimensions.mutateStmt, FlattenDimensions.provide_values,
      FlattenDimensions.flatten_mutateExprs_eq_map, List.map_map]
    match values, hn with
    | v1 :: v2 :: rest, _ =>
      simp only [FlattenDimensions.visit_Provide, List.map_cons, let_loop_eq, tuple_write]
      rw [store_loop_eq (fun n var => Stmt.Store n var
        (FlattenDimensions.mutateExpr env scope
          (FlattenDimensions.flatten_args scope env n args))) _ (fun _ _ => rfl)]
      simp [List.enum, Function.comp_def]
  · simp only [CreateKernelLoads.mutateStmt, hk, CreateKernelLoads.provide_values,
      CreateKernelLoads.kernel_mutateExprs_eq_map, List.map_map]
    match values, hn with
    | v1 :: v2 :: rest, _ =>
      simp only [CreateKernelLoads.visit_Provide, List.map_cons, let_loop_eq, tuple_write]
      rw [store_loop_eq (fun n var => Stmt.StoreArgs n var args) _ (fun _ _ => rfl)]
      simp [List.enum, Function.comp_def]
  · rw [events_tuple_write (fun n var => Stmt.Store n var
      (FlattenDimensions.mutateExpr env scope
        (FlattenDimensions.flatten_args scope env n args))) _ _ (fun _ _ => rfl),
      List.length_map]
  · rw [events_tuple_write (fun n var => Stmt.StoreArgs n var args) _ _ (fun _ _ => rfl),
      List.length_map]

/-! ## Names -/

theorem digitChar_value (d : Nat) (h : d < 10) : (Nat.digitChar d).toNat - 48 = d := by
  interval_cases d <;> rfl

theorem digits_value_toDigitsCore :
    ∀ (fuel n : Nat) (ds : List Char), n < fuel →
      digits_value (Nat.toDigitsCore 10 fuel n ds) 0 = digits_value ds n := by
  intro fuel
  induction fuel with
  | zero => intro n ds h; omega
  | succ fuel ih =>
    intro n ds h
    unfold Nat.toDigitsCore
    by_cases h0 : n / 10 = 0
    · simp only [h0, if_true]
      have hn : n % 10 = n := Nat.mod_eq_of_lt (by omega)
      have hd := digitChar_value (n % 10) (Nat.mod_lt _ (by decide))
      rw [hn] at hd ⊢
      simp [digits_value, hd]
    · simp only [h0, if_false]
      rw [ih (n / 10) _ (by omega)]
      have hd := digitChar_value (n % 10) (Nat.mod_lt _ (by decide))
      simp only [digits_value, List.foldl_cons, hd]
      congr 1
      omega

theorem int_to_string_injective {a b : Nat} (h : int_to_string a = int_to_string b) :
    a = b := by
  have h2 : Nat.toDigits 10 a = Nat.toDigits 10 b := by
    have := congrArg String.data h
    simpa [int_to_string, toString, Nat.repr] using this
  have ha := digits_value_toDigitsCore (a + 1) a [] (by omega)
  have hb := digits_value_toDigitsCore (b + 1) b [] (by omega)
  simp only [digits_value, List.foldl_nil] at ha hb
  rw [← ha, ← hb]
  show digits_value (Nat.toDigits 10 a) 0 = digits_value (Nat.toDigits 10 b) 0
  rw [h2]

theorem append_left_cancel {s a b : String} (h : s ++ a = s ++ b) : a = b := by
  have := congrArg String.data h
  simp only [String.data_append, List.append_cancel_left_eq] at this
  exact String.ext this

theorem stride_name_inj {s : String} {a b : Nat}
    (h : s ++ ".stride." ++ int_to_string a = s ++ ".stride." ++ int_to_string b) : a = b :=
  int_to_string_injective (append_left_cancel h)

theorem stride_ne_extent (s x y : String) : s ++ ".stride." ++ x ≠ s ++ ".extent." ++ y := by
  intro h
  rw [String.append_assoc, String.append_assoc] at h
  have := congrArg String.data (append_left_cancel h)
  simp [String.data_append] at this

theorem stride_ne_min (s x y : String) : s ++ ".stride." ++ x ≠ s ++ ".min." ++ y := by
  intro h
  rw [String.append_assoc, String.append_assoc] at h
  have := congrArg String.data (append_left_cancel h)
  simp [String.data_append] at this

theorem extent_ne_min (s x y : String) : s ++ ".extent." ++ x ≠ s ++ ".min." ++ y := by
  intro h
  rw [String.append_assoc, String.append_assoc] at h
  have := congrArg String.data (append_left_cancel h)
  simp [String.data_append] at this

theorem buffer_ne_stride (s x : String) : s ++ ".buffer" ≠ s ++ ".stride." ++ x := by
  intro h
  rw [String.append_assoc] at h
  have := congrArg String.data (append_left_cancel h)
  simp [String.data_append] at this

theorem buffer_ne_extent (s x : String) : s ++ ".buffer" ≠ s ++ ".extent." ++ x := by
  intro h
  rw [String.append_assoc] at h
  have := congrArg String.data (append_left_cancel h)
  simp [String.data_append] at this

theorem buffer_ne_min (s x : String) : s ++ ".buffer" ≠ s ++ ".min." ++ x := by
  intro h
  rw [String.append_assoc] at h
  have := congrArg String.data (append_left_cancel h)
  simp [String.data_append] at this

/-! ## The shape of a lowered region declaration -/

theorem lets_append (a b : List (String × Expr)) (s : Stmt) :
    Stmt.lets (a ++ b) s = Stmt.lets a (Stmt.lets b s) := by
  simp [Stmt.lets, List.foldr_append]

namespace FlattenDimensions

theorem bounds_loop_eq (bn : String) (bounds : List Range) :
    ∀ (i : Nat) (stmt : Stmt),
      bounds_loop bn bounds i stmt = Stmt.lets (bounds_bindings bn bounds i) stmt := by
  induction bounds with
  | nil => intro i stmt; simp [bounds_loop, bounds_bindings, Stmt.lets]
  | cons b rest ih =>
    intro i stmt
    simp only [bounds_loop, bounds_bindings, ih, Stmt.lets, List.foldr_cons]

theorem getElem?_names (g : Nat → String) (dims j : Nat) (h : j < dims) :
    ((List.range dims).map g)[j]? = some (g j) := by
  simp [h]

theorem getElem?_vars (g : Nat → String) (dims j : Nat) (h : j < dims) :
    (vars ((List.range dims).map g))[j]? = some (Expr.Variable (Int_ 32) (g j)) := by
  simp [vars, h]

theorem getElem?_getD (p : List Nat) (i : Nat) (h : i < p.length) :
    p[i]? = some (p.getD i 0) := by
  simp [List.getD, h]

theorem stride_loop_eq (bn : String) (dims : Nat) (p : List Nat)
    (hvalid : ∀ j ∈ p, j < dims) :
    ∀ (i : Nat) (stmt : Stmt), i ≤ p.length - 1 →
      stride_loop p (stride_names bn dims) (vars (stride_names bn dims))
          (vars (extent_names bn dims)) i stmt
        = some (Stmt.lets ((List.range' 1 i).map (stride_binding bn p)) stmt) := by
  intro i
  induction i with
  | zero => intro stmt _; simp [stride_loop, Stmt.lets]
  | succ i ih =>
    intro stmt hi
    have h1 : i < p.length := by omega
    have h2 : i + 1 < p.length := by omega
    have hj1 : p.getD i 0 < dims := hvalid _ (by
      rw [List.getD_eq_getElem _ _ h1]; exact List.getElem_mem h1)
    have hj2 : p.getD (i + 1) 0 < dims := hvalid _ (by
      rw [List.getD_eq_getElem _ _ h2]; exact List.getElem_mem h2)
    rw [stride_loop, getElem?_getD p i h1, getElem?_getD p (i + 1) h2]
    simp only [stride_names, extent_names]
    rw [getElem?_vars _ _ _ hj1, getElem?_vars _ _ _ hj1, getElem?_names _ _ _ hj2]
    simp only []
    have ih2 := ih (Stmt.LetStmt (bn ++ ".stride." ++ int_to_string (p.getD (i + 1) 0))
      (Expr.Mul (Expr.Variable (Int_ 32) (bn ++ ".stride." ++ int_to_string (p.getD i 0)))
        (Expr.Variable (Int_ 32) (bn ++ ".extent." ++ int_to_string (p.getD i 0)))) stmt)
      (by omega)
    simp only [stride_names, extent_names] at ih2
    rw [ih2, List.range'_concat, List.map_append, lets_append]
    simp [Stmt.lets, stride_binding, Nat.add_comm 1 i]

theorem strides_eq (bn : String) (dims : Nat) (p : List Nat) (hlen : p.length = dims)
    (hvalid : ∀ j ∈ p, j < dims) (stmt : Stmt) :
    (match stride_loop p (stride_names bn dims) (vars (stride_names bn dims))
        (vars (extent_names bn dims)) (dims - 1) stmt with
      | none => none
      | some stmt => innermost_stride p (stride_names bn dims) dims stmt)
      = some (Stmt.lets (stride_bindings bn p) stmt) := by
  rw [stride_loop_eq bn dims p hvalid (dims - 1) stmt (by omega)]
  simp only [innermost_stride, stride_bindings]
  by_cases hd : dims > 0
  · have h0 : 0 < p.length := by omega
    have hne : p.isEmpty = false := by
      cases p with
      | nil => simp at h0
      | cons a rest => rfl
    have hj : p.getD 0 0 < dims := hvalid _ (by
      rw [List.getD_eq_getElem _ _ h0]; exact List.getElem_mem h0)
    simp only [hd, if_true, hne, Bool.false_eq_true, if_false, stride_names]
    rw [getElem?_names _ _ _ hj]
    have hr : List.range p.length = 0 :: List.range' 1 (dims - 1) := by
      rw [hlen, List.range_eq_range']
      obtain ⟨m, rfl⟩ : ∃ m, dims = m + 1 := ⟨dims - 1, by omega⟩
      simp [List.range'_succ]
    rw [hr]
    simp [Stmt.lets, stride_binding]
  · have h0 : dims = 0 := by omega
    subst h0
    have : p = [] := List.length_eq_zero.mp hlen
    subst this
    simp [Stmt.lets]

theorem realize_buffer_eq (name : String) (n_types : Nat) (bounds : List Range)
    (extents : List Expr) (p : List Nat) (mk : Bool) (idx : Nat) (t : IRType) (stmt : Stmt)
    (hlen : p.length = bounds.length) (hvalid : ∀ j ∈ p, j < bounds.length) :
    realize_buffer name n_types bounds extents p mk idx t stmt
      = some (Stmt.lets (buffer_bindings (buffer_name name n_types idx) bounds p mk t)
          (Stmt.Allocate (buffer_name name n_types idx) t.promote extents stmt)) := by
  unfold realize_buffer
  simp only []
  have h := strides_eq (buffer_name name n_types idx) bounds.length p hlen hvalid
  generalize hs : (if mk = true then
      Stmt.LetStmt (buffer_name name n_types idx ++ ".buffer")
        (Expr.Call Handle "create_buffer_t"
          (buffer_t_args t (vars (min_names (buffer_name name n_types idx) bounds.length))
            (vars (extent_names (buffer_name name n_types idx) bounds.length))
            (vars (stride_names (buffer_name name n_types idx) bounds.length)))
          CallType.Intrinsic 0 0 none none)
        (Stmt.Allocate (buffer_name name n_types idx) t.promote extents stmt)
    else Stmt.Allocate (buffer_name name n_types idx) t.promote extents stmt) = inner
  have h2 := h inner
  revert h2
  cases stride_loop p (stride_names (buffer_name name n_types idx) bounds.length)
      (vars (stride_names (buffer_name name n_types idx) bounds.length))
      (vars (extent_names (buffer_name name n_types idx) bounds.length))
      (bounds.length - 1) inner with
  | none => intro h2; simp at h2
  | some s1 =>
    intro h2
    simp only [] at h2 ⊢
    rw [h2]
    simp only [bounds_loop_eq, buffer_bindings, lets_append, Option.some.injEq]
    congr 2
    rw [← hs]
    cases mk <;> simp [descriptor_binding, Stmt.lets]

theorem realize_loop_eq (name : String) (n_types : Nat) (bounds : List Range)
    (extents : List Expr) (p : List Nat) (mks : List Bool)
    (hlen : p.length = bounds.length) (hvalid : ∀ j ∈ p, j < bounds.length)
    (types : List IRType) :
    ∀ (idx : Nat) (stmt : Stmt),
      realize_loop name n_types bounds extents p mks types idx stmt
        = some (realized name n_types bounds extents p mks types idx stmt) := by
  induction types with
  | nil => intro idx stmt; simp [realize_loop, realized]
  | cons t rest ih =>
    intro idx stmt
    rw [realize_loop, realize_buffer_eq _ _ _ _ _ _ _ _ _ hlen hvalid]
    simp only [ih, realized]

/-! ## The storage permutation -/

theorem push_matches_eq (sd : String) (args : List String) (hnd : args.Nodup) :
    ∀ (j : Nat) (perm : List Nat),
      push_matches sd args j perm
        = perm ++ (if sd ∈ args then [j + args.indexOf sd] else []) := by
  induction args with
  | nil => intro j perm; simp [push_matches]
  | cons a rest ih =>
    intro j perm
    have hnd2 := (List.nodup_cons.mp hnd)
    rw [push_matches, ih hnd2.2]
    by_cases h : a = sd
    · subst h
      simp [hnd2.1]
    · have h2 : ¬ sd = a := fun e => h e.symm
      simp only [h, if_false, List.mem_cons, h2, false_or, List.indexOf_cons_ne _ h]
      by_cases hm : sd ∈ rest
      · simp only [hm, if_true]
        congr 2
        omega
      · simp [hm]

theorem storage_permutation_loop_eq (args : List String) (hnd : args.Nodup)
    (sds : List String) :
    ∀ (i : Nat) (perm : List Nat), (∀ sd ∈ sds, sd ∈ args) → perm.length = i →
      storage_permutation_loop args sds i perm
        = some (perm ++ sds.map (fun sd => args.indexOf sd)) := by
  induction sds with
  | nil => intro i perm _ _; simp [storage_permutation_loop]
  | cons sd rest ih =>
    intro i perm hmem hlen
    have h1 : sd ∈ args := hmem sd (List.mem_cons_self _ _)
    rw [storage_permutation_loop]
    simp only [push_matches_eq sd args hnd, h1, if_true, Nat.zero_add, List.length_append,
      List.length_singleton, hlen]
    rw [ih (i + 1) _ (fun x hx => hmem x (List.mem_cons_of_mem _ hx)) (by simp [hlen])]
    simp

theorem map_indexOf_eq_range (args : List String) (hnd : args.Nodup) :
    args.map (fun a => args.indexOf a) = List.range args.length := by
  apply List.ext_getElem
  · simp
  · intro i h1 h2
    simp [List.indexOf_getElem hnd]

/-- When the storage dimensions are a rearrangement of the logical dimensions, whose
names are distinct, `storage_permutation` is the list of the logical indices of the
storage dimensions, a rearrangement of `0 .. n-1`. -/
theorem storage_permutation_of_perm (f : Function) (hnd : f.args.Nodup)
    (hperm : f.schedule.storage_dims.Perm f.args) :
    storage_permutation f = some (f.schedule.storage_dims.map (fun sd => f.args.indexOf sd))
    ∧ (f.schedule.storage_dims.map (fun sd => f.args.indexOf sd)).Perm
        (List.range f.args.length) := by
  constructor
  · rw [storage_permutation, storage_permutation_loop_eq f.args hnd _ 0 []
      (fun sd h => hperm.subset h) rfl]
    simp
  · rw [← map_indexOf_eq_range f.args hnd]
    exact hperm.map _

theorem visit_Realize_eq (env : Env) (scope : Scope) (name : String) (types : List IRType)
    (bounds : List Range) (body : Stmt) (f : Function) (p : List Nat)
    (hf : env name = some f) (hp : storage_permutation f = some p)
    (hlen : p.length = bounds.length) (hvalid : ∀ j ∈ p, j < bounds.length) :
    visit_Realize env scope name types bounds body
      = some (realized name types.length bounds
          (bounds.map (fun b => mutateExpr env scope b.extent)) p
          (make_buffer_t env name types) types 0 body) := by
  simp only [visit_Realize, hf, hp, hlen, if_true]
  exact realize_loop_eq _ _ _ _ _ _ hlen hvalid _ _ _

end FlattenDimensions

/-! ## The valuation at the allocation -/

theorem bind_all_append (φ : Expr → Int) (ρ : String → Int) (a b : List (String × Expr)) :
    bind_all φ ρ (a ++ b) = bind_all φ (bind_all φ ρ a) b := by
  simp [bind_all, List.foldl_append]

theorem bind_all_not_bound (φ : Expr → Int) (l : List (String × Expr)) (x : String) :
    ∀ ρ : String → Int, (∀ b ∈ l, b.1 ≠ x) → bind_all φ ρ l x = ρ x := by
  induction l with
  | nil => intro ρ _; rfl
  | cons b rest ih =>
    intro ρ h
    have hb : x ≠ b.1 := fun e => h b (List.mem_cons_self _ _) e.symm
    show bind_all φ (bind_value ρ b.1 (b.2.eval ρ φ)) rest x = ρ x
    rw [ih _ (fun c hc => h c (List.mem_cons_of_mem _ hc))]
    simp [bind_value, hb]

theorem env_at_allocate_lets (φ : Expr → Int) (target : String)
    (l : List (String × Expr)) (s : Stmt) :
    ∀ ρ : String → Int,
      (Stmt.lets l s).env_at_allocate φ target ρ = s.env_at_allocate φ target (bind_all φ ρ l) := by
  induction l with
  | nil => intro ρ; rfl
  | cons b rest ih =>
    intro ρ
    show (Stmt.LetStmt b.1 b.2 (Stmt.lets rest s)).env_at_allocate φ target ρ = _
    rw [Stmt.env_at_allocate, ih]
    rfl

theorem realized_append (name : String) (n : Nat) (bounds : List Range) (extents : List Expr)
    (p : List Nat) (mks : List Bool) (a b : List IRType) :
    ∀ (i : Nat) (s : Stmt),
      realized name n bounds extents p mks (a ++ b) i s
        = realized name n bounds extents p mks b (i + a.length)
            (realized name n bounds extents p mks a i s) := by
  induction a with
  | nil => intro i s; simp [realized]
  | cons t rest ih =>
    intro i s
    simp only [List.cons_append, realized, List.length_cons]
    rw [show i + (rest.length + 1) = i + 1 + rest.length by omega]
    exact ih (i + 1) _

theorem buffer_name_inj {name : String} {n i j : Nat} (hn : 1 < n)
    (h : FlattenDimensions.buffer_name name n i = FlattenDimensions.buffer_name name n j) :
    i = j := by
  simp only [FlattenDimensions.buffer_name, hn, if_true] at h
  rw [String.append_assoc, String.append_assoc] at h
  exact int_to_string_injective (append_left_cancel (append_left_cancel h))

theorem env_at_allocate_through (φ : Expr → Int) (target name : String) (n : Nat)
    (bounds : List Range) (extents : List Expr) (p : List Nat) (mks : List Bool)
    (types : List IRType) :
    ∀ (i : Nat) (inner : Stmt) (ρ : String → Int),
      (∀ j, i ≤ j → j < i + types.length →
        FlattenDimensions.buffer_name name n j ≠ target) →
      ∃ ρ_mid, (realized name n bounds extents p mks types i inner).env_at_allocate φ target ρ
        = inner.env_at_allocate φ target ρ_mid := by
  induction types with
  | nil => intro i inner ρ _; exact ⟨ρ, rfl⟩
  | cons t rest ih =>
    intro i inner ρ h
    obtain ⟨ρ1, h1⟩ := ih (i + 1) (Stmt.lets
        (buffer_bindings (FlattenDimensions.buffer_name name n i) bounds p (mks.getD i false) t)
        (Stmt.Allocate (FlattenDimensions.buffer_name name n i) t.promote extents inner)) ρ
      (fun j hj1 hj2 => h j (by omega) (by simp only [List.length_cons]; omega))
    refine ⟨bind_all φ ρ1
      (buffer_bindings (FlattenDimensions.buffer_name name n i) bounds p (mks.getD i false) t), ?_⟩
    rw [realized, h1, env_at_allocate_lets, Stmt.env_at_allocate]
    simp [h i (le_refl _) (by simp)]

/-- The valuation at the allocation of output `idx` of a lowered region declaration is
the valuation after the bindings of that buffer. -/
theorem env_at_allocate_realized (φ : Expr → Int) (name : String) (bounds : List Range)
    (extents : List Expr) (p : List Nat) (mks : List Bool) (types : List IRType) (n : Nat)
    (hn : types.length = n) (body : Stmt) (idx : Nat) (hidx : idx < n) (ρ : String → Int) :
    ∃ ρ_mid t,
      (realized name n bounds extents p mks types 0 body).env_at_allocate φ
          (FlattenDimensions.buffer_name name n idx) ρ
        = some (bind_all φ ρ_mid
            (buffer_bindings (FlattenDimensions.buffer_name name n idx) bounds p
              (mks.getD idx false) t)) := by
  have hidx2 : idx < types.length := by omega
  have hsplit : types = types.take idx ++ (types[idx] :: types.drop (idx + 1)) := by
    rw [← List.drop_eq_getElem_cons hidx2, List.take_append_drop]
  have hlen : (types.take idx).length = idx := by
    rw [List.length_take]; omega
  obtain ⟨pre, t, post, rfl, hpre⟩ :
      ∃ pre t post, types = pre ++ t :: post ∧ pre.length = idx := ⟨_, _, _, hsplit, hlen⟩
  obtain ⟨ρ1, h1⟩ := env_at_allocate_through φ (FlattenDimensions.buffer_name name n idx) name n
    bounds extents p mks post (idx + 1)
    (Stmt.lets
      (buffer_bindings (FlattenDimensions.buffer_name name n idx) bounds p (mks.getD idx false) t)
      (Stmt.Allocate (FlattenDimensions.buffer_name name n idx) t.promote extents
        (realized name n bounds extents p mks pre 0 body))) ρ
    (fun j hj1 hj2 hEq => by
      have hj3 : j < n := by
        simp only [List.length_append, List.length_cons] at hn
        omega
      have := buffer_name_inj (by omega) hEq
      omega)
  refine ⟨ρ1, t, ?_⟩
  rw [realized_append, realized, hpre, Nat.zero_add, h1, env_at_allocate_lets,
    Stmt.env_at_allocate]
  simp

theorem getD_inj_of_nodup {p : List Nat} (hnd : p.Nodup) {i j : Nat} (hi : i < p.length)
    (hj : j < p.length) (h : p.getD i 0 = p.getD j 0) : i = j := by
  rw [List.getD_eq_getElem _ _ hi, List.getD_eq_getElem _ _ hj] at h
  exact (List.Nodup.getElem_inj_iff hnd).mp h

theorem stride_values (φ : Expr → Int) (bn : String) (p : List Nat) (hnd : p.Nodup)
    (ρ1 : String → Int) :
    ∀ m, m ≤ p.length →
      (0 < m → bind_all φ ρ1 ((List.range m).map (stride_binding bn p))
          (bn ++ ".stride." ++ int_to_string (p.getD 0 0)) = 1)
      ∧ (∀ k, 1 ≤ k → k < m →
          bind_all φ ρ1 ((List.range m).map (stride_binding bn p))
              (bn ++ ".stride." ++ int_to_string (p.getD k 0))
            = bind_all φ ρ1 ((List.range m).map (stride_binding bn p))
                (bn ++ ".stride." ++ int_to_string (p.getD (k - 1) 0))
              * bind_all φ ρ1 ((List.range m).map (stride_binding bn p))
                (bn ++ ".extent." ++ int_to_string (p.getD (k - 1) 0))) := by
  intro m
  induction m with
  | zero => intro _; exact ⟨fun h => absurd h (by omega), fun k _ h => absurd h (by omega)⟩
  | succ m ih =>
    intro hm
    obtain ⟨ih0, ihk⟩ := ih (by omega)
    have hstep : ∀ x : String,
        bind_all φ ρ1 ((List.range (m + 1)).map (stride_binding bn p)) x
          = bind_value (bind_all φ ρ1 ((List.range m).map (stride_binding bn p)))
              (stride_binding bn p m).1
              ((stride_binding bn p m).2.eval
                (bind_all φ ρ1 ((List.range m).map (stride_binding bn p))) φ) x := by
      intro x
      rw [List.range_succ, List.map_append, bind_all_append]
      rfl
    have hS : ∀ k, k < m →
        bn ++ ".stride." ++ int_to_string (p.getD k 0) ≠ (stride_binding bn p m).1 := by
      intro k hk h
      have := getD_inj_of_nodup hnd (by omega) (by omega) (stride_name_inj h)
      omega
    have hE : ∀ k, bn ++ ".extent." ++ int_to_string k ≠ (stride_binding bn p m).1 :=
      fun k h => stride_ne_extent _ _ _ h.symm
    constructor
    · intro _
      rw [hstep]
      by_cases h0 : m = 0
      · subst h0
        simp [bind_value, stride_binding, Expr.eval]
      · simp only [bind_value, hS 0 (by omega), if_false]
        exact ih0 (by omega)
    · intro k hk1 hk2
      rw [hstep, hstep, hstep]
      simp only [bind_value, hE, if_false]
      by_cases hkm : k = m
      · subst hkm
        have hne : ¬ k = 0 := by omega
        simp only [hS (k - 1) (by omega), if_false]
        simp [stride_binding, hne, Expr.eval]
      · simp only [hS k (by omega), hS (k - 1) (by omega), if_false]
        exact ihk k hk1 (by omega)

/-- The valuation after all the bindings of a buffer has the strides derived for the
storage order, whatever the valuation before them. -/
theorem strides_derived_buffer_bindings (φ : Expr → Int) (bn : String) (bounds : List Range)
    (p : List Nat) (hnd : p.Nodup) (mk : Bool) (t : IRType) (ρ : String → Int) :
    strides_derived bn p (bind_all φ ρ (buffer_bindings bn bounds p mk t)) := by
  have hd : ∀ x : String, x ≠ bn ++ ".buffer" →
      bind_all φ ρ (buffer_bindings bn bounds p mk t) x
        = bind_all φ (bind_all φ ρ (bounds_bindings bn bounds 0)) (stride_bindings bn p) x := by
    intro x hx
    rw [buffer_bindings, bind_all_append, bind_all_append]
    apply bind_all_not_bound
    intro b hb
    cases mk with
    | false => simp [descriptor_binding] at hb
    | true =>
      simp only [descriptor_binding, if_true, List.mem_singleton] at hb
      subst hb
      exact fun e => hx e.symm
  have h := stride_values φ bn p hnd (bind_all φ ρ (bounds_bindings bn bounds 0)) p.length
    (le_refl _)
  constructor
  · intro h0
    rw [hd _ (fun e => buffer_ne_stride _ _ e.symm)]
    exact h.1 h0
  · intro k hk1 hk2
    rw [hd _ (fun e => buffer_ne_stride _ _ e.symm), hd _ (fun e => buffer_ne_stride _ _ e.symm),
      hd _ (fun e => buffer_ne_extent _ _ e.symm)]
    exact h.2 k hk1 hk2

/-- A region declaration whose function is in the environment with a storage order
that rearranges its distinct logical dimensions, one per bound, and whose body is
lowered, is lowered to the chain of bindings and allocations `realized`. -/
theorem lower_realize (env : Env) (scope scope1 : Scope) (name : String)
    (types : List IRType) (bounds : List Range) (body body1 : Stmt) (f : Function)
    (hf : env name = some f) (hnd : f.args.Nodup)
    (hperm : f.schedule.storage_dims.Perm f.args) (hdims : bounds.length = f.args.length)
    (hbody : FlattenDimensions.mutateStmt env scope body = some (body1, scope1)) :
    FlattenDimensions.mutateStmt env scope (Stmt.Realize name types bounds body)
        = some (realized name types.length bounds
            (bounds.map (fun b => FlattenDimensions.mutateExpr env scope1 b.extent))
            (storage_order f) (FlattenDimensions.make_buffer_t env name types) types 0 body1,
          scope1)
    ∧ FlattenDimensions.storage_permutation f = some (storage_order f)
    ∧ (storage_order f).Perm (List.range bounds.length)
    ∧ (storage_order f).Nodup
    ∧ (storage_order f).length = bounds.length
    ∧ ∀ j ∈ storage_order f, j < bounds.length := by
  obtain ⟨hp, hpp⟩ := FlattenDimensions.storage_permutation_of_perm f hnd hperm
  rw [← hdims] at hpp
  have hlen : (storage_order f).length = bounds.length := by
    rw [storage_order, hpp.length_eq, List.length_range]
  have hvalid : ∀ j ∈ storage_order f, j < bounds.length :=
    fun j hj => List.mem_range.mp (hpp.mem_iff.mp hj)
  refine ⟨?_, hp, hpp, hpp.nodup_iff.mpr (List.nodup_range _), hlen, hvalid⟩
  simp only [FlattenDimensions.mutateStmt, hbody]
  rw [FlattenDimensions.visit_Realize_eq env scope1 name types bounds body1 f (storage_order f)
    hf hp hlen hvalid]

theorem extent_mem_bounds_bindings (bn : String) (bounds : List Range) :
    ∀ (i d : Nat), d < bounds.length →
      bn ++ ".extent." ++ int_to_string (i + d)
        ∈ (bounds_bindings bn bounds i).map Prod.fst := by
  induction bounds with
  | nil => intro i d h; simp at h
  | cons b rest ih =>
    intro i d h
    cases d with
    | zero => simp [bounds_bindings]
    | succ d =>
      have := ih (i + 1) d (by simpa using h)
      rw [show i + 1 + d = i + (d + 1) by omega] at this
      simp only [bounds_bindings, List.map_cons, List.mem_cons]
      exact Or.inr (Or.inr this)

/-- The value of every stride binding reads only symbols bound by the bindings that
enclose it: the extents, bound first, and the stride bound just before. -/
theorem stride_binding_closed (bn : String) (bounds : List Range) (p : List Nat)
    (hvalid : ∀ j ∈ p, j < bounds.length) (k : Nat) (hk : k < p.length) :
    ∀ x ∈ (stride_binding bn p k).2.free_vars,
      x ∈ (bounds_bindings bn bounds 0 ++ (List.range k).map (stride_binding bn p)).map
        Prod.fst := by
  intro x hx
  cases k with
  | zero => simp [stride_binding, Expr.free_vars] at hx
  | succ k =>
    have hj : p.getD k 0 < bounds.length := hvalid _ (by
      rw [List.getD_eq_getElem _ _ (by omega : k < p.length)]
      exact List.getElem_mem _)
    simp only [stride_binding, Nat.add_one_ne_zero, if_false, Expr.free_vars,
      Nat.add_sub_cancel, List.mem_append, List.mem_singleton] at hx
    rw [List.map_append, List.mem_append]
    rcases hx with hx | hx
    · right
      rw [List.map_map, List.mem_map]
      exact ⟨k, List.mem_range.mpr (by omega), by simp [stride_binding, hx]⟩
    · left
      have := extent_mem_bounds_bindings bn bounds 0 (p.getD k 0) hj
      rw [Nat.zero_add] at this
      rw [hx]
      exact this

/-- C4: a region declaration with `n ≥ 1` dimensions whose storage order is a
rearrangement `p` of its logical dimensions is lowered so that, at the allocation of
every output buffer, the stride of `p[0]` is 1 and the stride of `p[k]` is the stride
of `p[k-1]` times the extent of `p[k-1]`; every stride binding reads only symbols bound
by the bindings that enclose it; for `p = [2, 0, 1]` the strides are `stride(2) = 1`,
`stride(0) = extent(2)` and `stride(1) = extent(2) * extent(0)`. -/
theorem realize_stride_bindings (env : Env) (scope scope1 : Scope) (name : String)
    (types : List IRType) (bounds : List Range) (body body1 : Stmt) (f : Function)
    (hf : env name = some f) (hnd : f.args.Nodup)
    (hperm : f.schedule.storage_dims.Perm f.args) (hdims : bounds.length = f.args.length)
    (hn : 1 ≤ bounds.length)
    (hbody : FlattenDimensions.mutateStmt env scope body = some (body1, scope1)) :
    FlattenDimensions.mutateStmt env scope (Stmt.Realize name types bounds body)
        = some (lowered_realize env scope1 name types bounds f body1, scope1)
    ∧ (storage_order f).Perm (List.range bounds.length)
    ∧ (∀ idx, idx < types.length → ∀ (φ : Expr → Int) (ρ : String → Int),
        ∃ ρ1,
          (lowered_realize env scope1 name types bounds f body1).env_at_allocate φ
              (FlattenDimensions.buffer_name name types.length idx) ρ = some ρ1
          ∧ ρ1 (FlattenDimensions.buffer_name name types.length idx ++ ".stride."
                ++ int_to_string ((storage_order f).getD 0 0)) = 1
          ∧ (∀ k, 1 ≤ k → k < bounds.length →
              ρ1 (FlattenDimensions.buffer_name name types.length idx ++ ".stride."
                  ++ int_to_string ((storage_order f).getD k 0))
                = ρ1 (FlattenDimensions.buffer_name name types.length idx ++ ".stride."
                    ++ int_to_string ((storage_order f).getD (k - 1) 0))
                  * ρ1 (FlattenDimensions.buffer_name name types.length idx ++ ".extent."
                    ++ int_to_string ((storage_order f).getD (k - 1) 0)))
          ∧ (storage_order f = [2, 0, 1] →
              ρ1 (FlattenDimensions.buffer_name name types.length idx ++ ".stride.2") = 1
              ∧ ρ1 (FlattenDimensions.buffer_name name types.length idx ++ ".stride.0")
                  = ρ1 (FlattenDimensions.buffer_name name types.length idx ++ ".extent.2")
              ∧ ρ1 (FlattenDimensions.buffer_name name types.length idx ++ ".stride.1")
                  = ρ1 (FlattenDimensions.buffer_name name types.length idx ++ ".extent.2")
                    * ρ1 (FlattenDimensions.buffer_name name types.length idx
                        ++ ".extent.0")))
    ∧ (∀ (bn : String) (mk : Bool) (t : IRType) (k : Nat), k < bounds.length →
        ∃ post,
          buffer_bindings bn bounds (storage_order f) mk t
            = (bounds_bindings bn bounds 0
                ++ (List.range k).map (stride_binding bn (storage_order f)))
              ++ stride_binding bn (storage_order f) k :: post
          ∧ ∀ x ∈ (stride_binding bn (storage_order f) k).2.free_vars,
              x ∈ (bounds_bindings bn bounds 0
                ++ (List.range k).map (stride_binding bn (storage_order f))).map Prod.fst) := by
  obtain ⟨hlow, -, hpp, hpnd, hplen, hvalid⟩ :=
    lower_realize env scope scope1 name types bounds body body1 f hf hnd hperm hdims hbody
  refine ⟨hlow, hpp, ?_, ?_⟩
  · intro idx hidx φ ρ
    obtain ⟨ρ_mid, t, h⟩ := env_at_allocate_realized φ name bounds
      (bounds.map (fun b => FlattenDimensions.mutateExpr env scope1 b.extent))
      (storage_order f) (FlattenDimensions.make_buffer_t env name types) types types.length rfl
      body1 idx hidx ρ
    have hs := strides_derived_buffer_bindings φ
      (FlattenDimensions.buffer_name name types.length idx) bounds (storage_order f) hpnd
      ((FlattenDimensions.make_buffer_t env name types).getD idx false) t ρ_mid
    generalize bind_all φ ρ_mid (buffer_bindings
      (FlattenDimensions.buffer_name name types.length idx) bounds (storage_order f)
      ((FlattenDimensions.make_buffer_t env name types).getD idx false) t) = ρ1 at h hs
    refine ⟨ρ1, h, hs.1 (by omega), fun k hk1 hk2 => hs.2 k hk1 (by omega), ?_⟩
    intro hp
    have hl : (storage_order f).length = 3 := by rw [hp]; rfl
    have h0 := hs.1 (by omega)
    have h1 := hs.2 1 (le_refl _) (by omega)
    have h2 := hs.2 2 (by omega) (by omega)
    rw [hp] at h0 h1 h2
    have e0 : int_to_string 0 = "0" := by decide
    have e1 : int_to_string 1 = "1" := by decide
    have e2 : int_to_string 2 = "2" := by decide
    have a2 : ".stride." ++ "2" = ".stride.2" := by decide
    have a0 : ".stride." ++ "0" = ".stride.0" := by decide
    have a1 : ".stride." ++ "1" = ".stride.1" := by decide
    have b2 : ".extent." ++ "2" = ".extent.2" := by decide
    have b0 : ".extent." ++ "0" = ".extent.0" := by decide
    have g0 : ([2, 0, 1] : List Nat).getD 0 0 = 2 := rfl
    have g1 : ([2, 0, 1] : List Nat).getD 1 0 = 0 := rfl
    have g2 : ([2, 0, 1] : List Nat).getD 2 0 = 1 := rfl
    have g10 : ([2, 0, 1] : List Nat).getD (1 - 1) 0 = 2 := rfl
    have g21 : ([2, 0, 1] : List Nat).getD (2 - 1) 0 = 0 := rfl
    rw [g0, e2, String.append_assoc, a2] at h0
    rw [g1, g10, e0, e2, String.append_assoc, String.append_assoc, String.append_assoc, a0, a2,
      b2] at h1
    rw [g2, g21, e1, e0, String.append_assoc, String.append_assoc, String.append_assoc, a1, a0,
      b0] at h2
    refine ⟨h0, ?_, ?_⟩
    · rw [h1, h0, one_mul]
    · rw [h2, h1, h0, one_mul]
  · intro bn mk t k hk
    have hk2 : k < (storage_order f).length := by omega
    refine ⟨(List.range' (k + 1) ((storage_order f).length - (k + 1))).map
        (stride_binding bn (storage_order f))
        ++ descriptor_binding bn bounds.length mk t, ?_,
      stride_binding_closed bn bounds (storage_order f) hvalid k hk2⟩
    have hr : List.range (storage_order f).length
        = List.range k ++ k :: List.range' (k + 1) ((storage_order f).length - (k + 1)) := by
      apply List.ext_getElem
      · simp only [List.length_range, List.length_append, List.length_cons, List.length_range']
        omega
      · intro i h1 h2
        simp only [List.getElem_range, List.getElem_append, List.length_range,
          List.getElem_cons, List.getElem_range']
        split_ifs <;> omega
    simp only [buffer_bindings, stride_bindings]
    rw [hr]
    simp [List.append_assoc]

/-! ## Mixed-radix addresses -/

theorem radix_value_inj :
    ∀ (es ds ds1 : List Int),
      List.Forall₂ (fun d e => 0 ≤ d ∧ d < e) ds es →
      List.Forall₂ (fun d e => 0 ≤ d ∧ d < e) ds1 es →
      radix_value (ds.zip es) = radix_value (ds1.zip es) → ds = ds1 := by
  intro es
  induction es with
  | nil =>
    intro ds ds1 h h1 _
    cases h; cases h1; rfl
  | cons e rest ih =>
    intro ds ds1 h h1 heq
    cases h with
    | cons hd hrest =>
      cases h1 with
      | cons hd1 hrest1 =>
        rename_i d l d1 l1
        change d + e * radix_value (l.zip rest) = d1 + e * radix_value (l1.zip rest) at heq
        have hmod : d = d1 := by
          have e1 : (d + e * radix_value (l.zip rest)) % e = d := by
            rw [Int.add_mul_emod_self_left]; exact Int.emod_eq_of_lt hd.1 hd.2
          have e2 : (d1 + e * radix_value (l1.zip rest)) % e = d1 := by
            rw [Int.add_mul_emod_self_left]; exact Int.emod_eq_of_lt hd1.1 hd1.2
          rw [← e1, ← e2, heq]
        subst hmod
        have hpos : e ≠ 0 := by omega
        have hr : radix_value (l.zip rest) = radix_value (l1.zip rest) := by
          have : e * radix_value (l.zip rest) = e * radix_value (l1.zip rest) := by omega
          exact Int.eq_of_mul_eq_mul_left hpos this
        rw [ih l l1 hrest hrest1 hr]

theorem radix_value_bound :
    ∀ (es ds : List Int), List.Forall₂ (fun d e => 0 ≤ d ∧ d < e) ds es →
      0 ≤ radix_value (ds.zip es) ∧ radix_value (ds.zip es) < es.prod := by
  intro es
  induction es with
  | nil => intro ds h; cases h; simp [radix_value]
  | cons e rest ih =>
    intro ds h
    cases h with
    | cons hd hrest =>
      rename_i d l
      obtain ⟨h0, h1⟩ := ih l hrest
      rw [List.prod_cons]
      change 0 ≤ d + e * radix_value (l.zip rest) ∧ d + e * radix_value (l.zip rest) < e * rest.prod
      have he : 0 < e := by omega
      constructor
      · have := mul_nonneg he.le h0
        omega
      · have h2 : radix_value (l.zip rest) + 1 ≤ rest.prod := h1
        have h3 : e * (radix_value (l.zip rest) + 1) ≤ e * rest.prod :=
          mul_le_mul_of_nonneg_left h2 he.le
        have h4 : e * (radix_value (l.zip rest) + 1) = e * radix_value (l.zip rest) + e := by
          ring
        omega

theorem weighted_sum_eq_radix :
    ∀ (es ds ss : List Int) (s0 : Int), ds.length = es.length → ss.length = es.length →
      (0 < ss.length → ss.getD 0 0 = s0) →
      (∀ k, k + 1 < ss.length → ss.getD (k + 1) 0 = ss.getD k 0 * es.getD k 0) →
      (List.zipWith (fun d s => d * s) ds ss).sum = s0 * radix_value (ds.zip es) := by
  intro es
  induction es with
  | nil =>
    intro ds ss s0 hd hs _ _
    have : ds = [] := List.length_eq_zero.mp hd
    subst this
    simp [radix_value]
  | cons e rest ih =>
    intro ds ss s0 hd hs h0 hk
    match ds, ss, hd, hs with
    | d :: ds1, s :: ss1, hd, hs =>
      have hs0 : s = s0 := by simpa using h0 (by simp)
      subst hs0
      have := ih ds1 ss1 (s * e) (by simpa using hd) (by simpa using hs)
        (fun hpos => by
          have := hk 0 (by simpa using hpos)
          simpa using this)
        (fun k hk1 => by
          have := hk (k + 1) (by simpa using hk1)
          simpa using this)
      change (d * s :: List.zipWith (fun d s => d * s) ds1 ss1).sum
        = s * (d + e * radix_value (ds1.zip rest))
      rw [List.sum_cons, this]
      ring

theorem sum_fin_eq_sum_range (n : Nat) (g : Nat → Int) :
    ∑ i : Fin n, g i = ((List.range n).map g).sum := by
  induction n with
  | zero => simp
  | succ n ih => rw [Fin.sum_univ_castSucc, List.range_succ]; simp [ih]

/-- Whatever the strategy, the address `flatten_args` builds is worth the sum of
`(args[i] - min_i) * stride_i` over the symbols the scope selects. -/
theorem eval_flatten_args (scope : Scope) (env : Env) (name : String) (args : List Expr)
    (ρ : String → Int) (φ : Expr → Int) :
    (FlattenDimensions.flatten_args scope env name args).eval ρ φ
      = ∑ i : Fin args.length,
          ((args.get i).eval ρ φ - ρ (FlattenDimensions.min_name scope name i))
            * ρ (FlattenDimensions.stride_name scope name i) := by
  have h := FlattenDimensions.eval_external_loop scope name ρ φ args 0 (Expr.IntImm 0)
    (Expr.IntImm 0)
  unfold FlattenDimensions.flatten_args
  split
  · simp only [FlattenDimensions.eval_internal_loop, Expr.eval, Nat.zero_add, Int.zero_add]
  · simp only [Expr.eval, h.1, h.2, Nat.zero_add, Int.zero_add, ← Finset.sum_sub_distrib]
    exact Finset.sum_congr rfl (fun i _ => by ring)

/-- On integer coordinates and with no override in scope the address `flatten_args`
builds is worth `address`. -/
theorem eval_flatten_args_literals (scope : Scope) (env : Env) (bn : String) (x : List Int)
    (hno : no_override scope bn x.length) (ρ : String → Int) (φ : Expr → Int) :
    (FlattenDimensions.flatten_args scope env bn (x.map Expr.IntImm)).eval ρ φ
      = address bn ρ x := by
  rw [eval_flatten_args, address, ← sum_fin_eq_sum_range, ← List.length_map x Expr.IntImm]
  refine Finset.sum_congr rfl (fun i _ => ?_)
  have hi : i.val < x.length := by have := i.isLt; simpa using this
  rw [FlattenDimensions.min_name_of_no_override hno hi,
    FlattenDimensions.stride_name_of_no_override hno hi]
  have hg : ((x.map Expr.IntImm).get i).eval ρ φ = x.getD i 0 := by
    rw [List.getD_eq_getElem _ _ hi]
    simp [Expr.eval]
  rw [hg]

theorem getD_map_of_lt (p : List Nat) (h : Nat → Int) (k : Nat) (hk : k < p.length) :
    (p.map h).getD k 0 = h (p.getD k 0) := by
  rw [List.getD_eq_getElem _ _ (by simpa using hk), List.getD_eq_getElem _ _ hk]
  simp

/-- With the strides derived for the storage order `p`, the address of `x` is the
mixed-radix number whose digits are the offsets `x_j - min_j` and whose radices are the
extents, both taken in storage order. -/
theorem address_eq_radix (bn : String) (p : List Nat) (ρ : String → Int) (x : List Int)
    (hp : p.Perm (List.range x.length)) (hs : strides_derived bn p ρ) :
    address bn ρ x
      = radix_value
          ((p.map (fun j => x.getD j 0 - ρ (bn ++ ".min." ++ int_to_string j))).zip
            (p.map (fun j => ρ (bn ++ ".extent." ++ int_to_string j)))) := by
  have hsum : address bn ρ x
      = (List.zipWith (fun d s => d * s)
          (p.map (fun j => x.getD j 0 - ρ (bn ++ ".min." ++ int_to_string j)))
          (p.map (fun j => ρ (bn ++ ".stride." ++ int_to_string j)))).sum := by
    rw [address, ← (hp.map _).sum_eq]
    congr 1
    simp [List.zipWith_map]
  rw [hsum, weighted_sum_eq_radix
    (p.map (fun j => ρ (bn ++ ".extent." ++ int_to_string j))) _ _ 1 (by simp) (by simp),
    one_mul]
  · intro h0
    have h0 : 0 < p.length := by simpa using h0
    rw [getD_map_of_lt p _ 0 h0]
    exact hs.1 h0
  · intro k hk
    have hk : k + 1 < p.length := by simpa using hk
    rw [getD_map_of_lt p _ (k + 1) hk, getD_map_of_lt p _ k (by omega),
      getD_map_of_lt p _ k (by omega)]
    exact hs.2 (k + 1) (by omega) hk

theorem digits_in_range (bn : String) (p : List Nat) (ρ : String → Int) (x : List Int)
    (hp : p.Perm (List.range x.length)) (hx : in_bounds bn ρ x) :
    List.Forall₂ (fun d e => 0 ≤ d ∧ d < e)
      (p.map (fun j => x.getD j 0 - ρ (bn ++ ".min." ++ int_to_string j)))
      (p.map (fun j => ρ (bn ++ ".extent." ++ int_to_string j))) := by
  rw [List.forall₂_map_left_iff, List.forall₂_map_right_iff, List.forall₂_same]
  intro j hj
  have := hx j (List.mem_range.mp (hp.mem_iff.mp hj))
  constructor <;> omega

/-- With the strides derived for a storage order, two in-bounds coordinate vectors have
the same address only if they are the same vector. -/
theorem address_injective (bn : String) (p : List Nat) (ρ : String → Int) (x y : List Int)
    (hlen : x.length = y.length) (hp : p.Perm (List.range x.length))
    (hs : strides_derived bn p ρ) (hx : in_bounds bn ρ x) (hy : in_bounds bn ρ y)
    (h : address bn ρ x = address bn ρ y) : x = y := by
  rw [address_eq_radix bn p ρ x hp hs, address_eq_radix bn p ρ y (hlen ▸ hp) hs] at h
  have hd := radix_value_inj _ _ _ (digits_in_range bn p ρ x hp hx)
    (digits_in_range bn p ρ y (hlen ▸ hp) hy) h
  rw [List.map_inj_left] at hd
  apply List.ext_getElem hlen
  intro i h1 h2
  have := hd i (hp.mem_iff.mpr (List.mem_range.mpr h1))
  rw [List.getD_eq_getElem _ _ h1, List.getD_eq_getElem _ _ h2] at this
  omega

/-- The valuation at the allocation of an output buffer of a lowered region declaration
has the strides derived for the storage order. -/
theorem strides_derived_at_allocate (env : Env) (scope1 : Scope) (name : String)
    (types : List IRType) (bounds : List Range) (body1 : Stmt) (f : Function)
    (hpnd : (storage_order f).Nodup) (idx : Nat) (hidx : idx < types.length)
    (φ : Expr → Int) (ρ ρ1 : String → Int)
    (hρ : (lowered_realize env scope1 name types bounds f body1).env_at_allocate φ
      (FlattenDimensions.buffer_name name types.length idx) ρ = some ρ1) :
    strides_derived (FlattenDimensions.buffer_name name types.length idx) (storage_order f)
      ρ1 := by
  obtain ⟨ρ_mid, t, h⟩ := env_at_allocate_realized φ name bounds
    (bounds.map (fun b => FlattenDimensions.mutateExpr env scope1 b.extent))
    (storage_order f) (FlattenDimensions.make_buffer_t env name types) types types.length rfl
    body1 idx hidx ρ
  rw [lowered_realize, h, Option.some.injEq] at hρ
  rw [← hρ]
  exact strides_derived_buffer_bindings φ _ bounds (storage_order f) hpnd _ t ρ_mid

/-- C5: for a lowered region declaration of `n` dimensions, any storage order that
rearranges the logical dimensions and the strides the lowering derives (the valuation
at the buffer's allocation), two coordinate vectors within the bounds (so every extent
is positive) are flattened by `flatten_args` to the same address if and only if they
are the same vector; a value stored at a coordinate is read back there, and a store to
a different in-bounds coordinate leaves it as it was. -/
theorem permuted_address_injective (env : Env) (scope scope1 scope2 : Scope)
    (name : String) (types : List IRType) (bounds : List Range) (body body1 : Stmt)
    (f : Function) (idx : Nat) (φ : Expr → Int) (ρ ρ1 : String → Int) (x y : List Int)
    (hf : env name = some f) (hnd : f.args.Nodup)
    (hperm : f.schedule.storage_dims.Perm f.args) (hdims : bounds.length = f.args.length)
    (hbody : FlattenDimensions.mutateStmt env scope body = some (body1, scope1))
    (hidx : idx < types.length)
    (hρ : (lowered_realize env scope1 name types bounds f body1).env_at_allocate φ
      (FlattenDimensions.buffer_name name types.length idx) ρ = some ρ1)
    (hno : no_override scope2 (FlattenDimensions.buffer_name name types.length idx)
      bounds.length)
    (hx : x.length = bounds.length) (hy : y.length = bounds.length)
    (hxb : in_bounds (FlattenDimensions.buffer_name name types.length idx) ρ1 x)
    (hyb : in_bounds (FlattenDimensions.buffer_name name types.length idx) ρ1 y) :
    FlattenDimensions.mutateStmt env scope (Stmt.Realize name types bounds body)
        = some (lowered_realize env scope1 name types bounds f body1, scope1)
    ∧ ((FlattenDimensions.flatten_args scope2 env
            (FlattenDimensions.buffer_name name types.length idx) (x.map Expr.IntImm)).eval ρ1 φ
          = (FlattenDimensions.flatten_args scope2 env
            (FlattenDimensions.buffer_name name types.length idx) (y.map Expr.IntImm)).eval ρ1 φ
        ↔ x = y)
    ∧ (∀ (mem : Memory) (v : Int),
        mem.store ((FlattenDimensions.flatten_args scope2 env
            (FlattenDimensions.buffer_name name types.length idx) (x.map Expr.IntImm)).eval ρ1 φ)
          v ((FlattenDimensions.flatten_args scope2 env
            (FlattenDimensions.buffer_name name types.length idx) (x.map Expr.IntImm)).eval ρ1 φ)
          = v)
    ∧ (x ≠ y → ∀ (mem : Memory) (v : Int),
        mem.store ((FlattenDimensions.flatten_args scope2 env
            (FlattenDimensions.buffer_name name types.length idx) (x.map Expr.IntImm)).eval ρ1 φ)
          v ((FlattenDimensions.flatten_args scope2 env
            (FlattenDimensions.buffer_name name types.length idx) (y.map Expr.IntImm)).eval ρ1 φ)
          = mem ((FlattenDimensions.flatten_args scope2 env
            (FlattenDimensions.buffer_name name types.length idx)
            (y.map Expr.IntImm)).eval ρ1 φ)) := by
  obtain ⟨hlow, -, hpp, hpnd, -, -⟩ :=
    lower_realize env scope scope1 name types bounds body body1 f hf hnd hperm hdims hbody
  have hs := strides_derived_at_allocate env scope1 name types bounds body1 f hpnd idx hidx
    φ ρ ρ1 hρ
  rw [eval_flatten_args_literals scope2 env _ x (hx ▸ hno) ρ1 φ,
    eval_flatten_args_literals scope2 env _ y (hy ▸ hno) ρ1 φ]
  have hinj : address (FlattenDimensions.buffer_name name types.length idx) ρ1 x
      = address (FlattenDimensions.buffer_name name types.length idx) ρ1 y ↔ x = y :=
    ⟨fun h => address_injective _ (storage_order f) ρ1 x y (by omega) (hx ▸ hpp) hs hxb hyb h,
      fun h => by rw [h]⟩
  refine ⟨hlow, hinj, fun mem v => by simp [Memory.store], fun hne mem v => ?_⟩
  have : address (FlattenDimensions.buffer_name name types.length idx) ρ1 y
      ≠ address (FlattenDimensions.buffer_name name types.length idx) ρ1 x :=
    fun h => hne (hinj.mp h.symm)
  simp [Memory.store, this]

/-! ## Lowering an address -/

namespace FlattenDimensions

theorem mutateExpr_internal_loop (env : Env) (scope sc : Scope) (name : String)
    (l : List Expr) :
    ∀ (i : Nat) (acc : Expr),
      mutateExpr env scope (internal_loop sc name l i acc)
        = internal_loop sc name (l.map (mutateExpr env scope)) i (mutateExpr env scope acc) := by
  induction l with
  | nil => intro i acc; simp [internal_loop]
  | cons a rest ih =>
    intro i acc
    simp only [internal_loop, List.map_cons, ih, mutateExpr, mins, strides]

theorem mutateExpr_external_loop (env : Env) (scope sc : Scope) (name : String)
    (l : List Expr) :
    ∀ (i : Nat) (idx base : Expr),
      (mutateExpr env scope (external_loop sc name l i (idx, base)).1,
       mutateExpr env scope (external_loop sc name l i (idx, base)).2)
        = external_loop sc name (l.map (mutateExpr env scope)) i
            (mutateExpr env scope idx, mutateExpr env scope base) := by
  induction l with
  | nil => intro i idx base; simp [external_loop]
  | cons a rest ih =>
    intro i idx base
    simp only [external_loop, List.map_cons, ih, mutateExpr, mins, strides]

/-- The lowering of an address expression is the address expression of the lowered
coordinates: the visitor rebuilds the arithmetic and the symbols as they are. -/
theorem mutateExpr_flatten_args (env env2 : Env) (scope sc : Scope) (name : String)
    (args : List Expr) :
    mutateExpr env scope (flatten_args sc env2 name args)
      = flatten_args sc env2 name (args.map (mutateExpr env scope)) := by
  unfold flatten_args
  split
  · rw [mutateExpr_internal_loop]
    simp [mutateExpr]
  · have h := mutateExpr_external_loop env scope sc name args 0 (Expr.IntImm 0) (Expr.IntImm 0)
    simp only [mutateExpr] at h ⊢
    rw [← h]

end FlattenDimensions

theorem bind_all_lookup (φ : Expr → Int) (ρ : String → Int) (pre post : List (String × Expr))
    (nm : String) (e : Expr) (h : ∀ b ∈ post, b.1 ≠ nm) :
    bind_all φ ρ (pre ++ (nm, e) :: post) nm = e.eval (bind_all φ ρ pre) φ := by
  rw [bind_all_append]
  show bind_all φ (bind_value (bind_all φ ρ pre) nm (e.eval (bind_all φ ρ pre) φ)) post nm = _
  rw [bind_all_not_bound φ post nm _ h]
  simp [bind_value]

theorem min_name_inj {s : String} {a b : Nat}
    (h : s ++ ".min." ++ int_to_string a = s ++ ".min." ++ int_to_string b) : a = b :=
  int_to_string_injective (append_left_cancel h)

theorem extent_name_inj {s : String} {a b : Nat}
    (h : s ++ ".extent." ++ int_to_string a = s ++ ".extent." ++ int_to_string b) : a = b :=
  int_to_string_injective (append_left_cancel h)

theorem descriptor_binding_name (bn : String) (dims : Nat) (mk : Bool) (t : IRType) :
    ∀ b ∈ descriptor_binding bn dims mk t, b.1 = bn ++ ".buffer" := by
  intro b hb
  cases mk with
  | false => simp [descriptor_binding] at hb
  | true =>
    simp only [descriptor_binding, if_true, List.mem_singleton] at hb
    rw [hb]

/-- The valuation after the bindings of a two-dimensional buffer in its logical storage
order, with minimums 0 and extents `w` and `h`. -/
theorem bind_all_two_dims (φ : Expr → Int) (ρ : String → Int) (bn : String) (w h : Int)
    (mk : Bool) (t : IRType) :
    bind_all φ ρ (buffer_bindings bn
        [⟨Expr.IntImm 0, Expr.IntImm w⟩, ⟨Expr.IntImm 0, Expr.IntImm h⟩] [0, 1] mk t)
        (bn ++ ".min." ++ int_to_string 0) = 0
    ∧ bind_all φ ρ (buffer_bindings bn
        [⟨Expr.IntImm 0, Expr.IntImm w⟩, ⟨Expr.IntImm 0, Expr.IntImm h⟩] [0, 1] mk t)
        (bn ++ ".min." ++ int_to_string 1) = 0
    ∧ bind_all φ ρ (buffer_bindings bn
        [⟨Expr.IntImm 0, Expr.IntImm w⟩, ⟨Expr.IntImm 0, Expr.IntImm h⟩] [0, 1] mk t)
        (bn ++ ".extent." ++ int_to_string 0) = w := by
  have h01 : int_to_string 1 ≠ int_to_string 0 := by decide
  have hm : ∀ a b : String, a ≠ b → bn ++ ".min." ++ a ≠ bn ++ ".min." ++ b :=
    fun a b hab e => hab (append_left_cancel e)
  have he : ∀ a b : String, a ≠ b → bn ++ ".extent." ++ a ≠ bn ++ ".extent." ++ b :=
    fun a b hab e => hab (append_left_cancel e)
  have hd := descriptor_binding_name bn 2 mk t
  have hL : buffer_bindings bn
      [⟨Expr.IntImm 0, Expr.IntImm w⟩, ⟨Expr.IntImm 0, Expr.IntImm h⟩] [0, 1] mk t
      = [(bn ++ ".extent." ++ int_to_string 0, Expr.IntImm w),
         (bn ++ ".min." ++ int_to_string 0, Expr.IntImm 0),
         (bn ++ ".extent." ++ int_to_string 1, Expr.IntImm h),
         (bn ++ ".min." ++ int_to_string 1, Expr.IntImm 0),
         stride_binding bn [0, 1] 0, stride_binding bn [0, 1] 1]
        ++ descriptor_binding bn 2 mk t := by
    simp [buffer_bindings, bounds_bindings, stride_bindings, List.range_succ]
  rw [hL]
  refine ⟨?_, ?_, ?_⟩
  · have := bind_all_lookup φ ρ [(bn ++ ".extent." ++ int_to_string 0, Expr.IntImm w)]
      ([(bn ++ ".extent." ++ int_to_string 1, Expr.IntImm h),
         (bn ++ ".min." ++ int_to_string 1, Expr.IntImm 0),
         stride_binding bn [0, 1] 0, stride_binding bn [0, 1] 1]
        ++ descriptor_binding bn 2 mk t)
      (bn ++ ".min." ++ int_to_string 0) (Expr.IntImm 0) (by
        intro b hb
        simp only [List.cons_append, List.nil_append, List.mem_cons] at hb
        rcases hb with hb | hb | hb | hb | hb
        · rw [hb]; exact extent_ne_min _ _ _
        · rw [hb]; exact hm _ _ h01
        · rw [hb]; exact stride_ne_min _ _ _
        · rw [hb]; exact stride_ne_min _ _ _
        · rw [hd b hb]; exact buffer_ne_min _ _)
    simpa [Expr.eval] using this
  · have := bind_all_lookup φ ρ [(bn ++ ".extent." ++ int_to_string 0, Expr.IntImm w),
         (bn ++ ".min." ++ int_to_string 0, Expr.IntImm 0),
         (bn ++ ".extent." ++ int_to_string 1, Expr.IntImm h)]
      ([stride_binding bn [0, 1] 0, stride_binding bn [0, 1] 1]
        ++ descriptor_binding bn 2 mk t)
      (bn ++ ".min." ++ int_to_string 1) (Expr.IntImm 0) (by
        intro b hb
        simp only [List.cons_append, List.nil_append, List.mem_cons] at hb
        rcases hb with hb | hb | hb
        · rw [hb]; exact stride_ne_min _ _ _
        · rw [hb]; exact stride_ne_min _ _ _
        · rw [hd b hb]; exact buffer_ne_min _ _)
    simpa [Expr.eval] using this
  · have := bind_all_lookup φ ρ []
      ([(bn ++ ".min." ++ int_to_string 0, Expr.IntImm 0),
         (bn ++ ".extent." ++ int_to_string 1, Expr.IntImm h),
         (bn ++ ".min." ++ int_to_string 1, Expr.IntImm 0),
         stride_binding bn [0, 1] 0, stride_binding bn [0, 1] 1]
        ++ descriptor_binding bn 2 mk t)
      (bn ++ ".extent." ++ int_to_string 0) (Expr.IntImm w) (by
        intro b hb
        simp only [List.cons_append, List.nil_append, List.mem_cons] at hb
        rcases hb with hb | hb | hb | hb | hb | hb
        · rw [hb]; exact (extent_ne_min _ _ _).symm
        · rw [hb]; exact he _ _ h01
        · rw [hb]; exact (extent_ne_min _ _ _).symm
        · rw [hb]; exact stride_ne_extent _ _ _
        · rw [hb]; exact stride_ne_extent _ _ _
        · rw [hd b hb]; exact buffer_ne_extent _ _)
    simpa [Expr.eval] using this

theorem storage_order_logical (f : Function) (hnd : f.args.Nodup)
    (hst : f.schedule.storage_dims = f.args) :
    storage_order f = List.range f.args.length := by
  rw [storage_order, hst, FlattenDimensions.map_indexOf_eq_range f.args hnd]

/-- C6: for a two-dimensional computation in the environment, stored in its logical
order, declared with minimums 0 and extents `(W, H)`: a write `f(X, Y)` and a read
`f(X, Y)` lowered in the same scope carry the identical address expression; with no
constrained override in that scope the address is worth, at the allocation of the
lowered region declaration, `y * W + x`, where `x` and `y` are the values of the
lowered coordinates, for integer coordinates the integers themselves. -/
theorem round_trip_address (env : Env) (scope scope1 sc : Scope) (name : String)
    (t tr : IRType) (W H : Int) (body body1 : Stmt) (f : Function) (X Y v : Expr)
    (outs : Nat) (img prm : Option String)
    (hf : env name = some f) (hnd : f.args.Nodup) (hst : f.schedule.storage_dims = f.args)
    (hlen : f.args.length = 2) (houts : outs ≤ 1)
    (hbody : FlattenDimensions.mutateStmt env scope body = some (body1, scope1)) :
    FlattenDimensions.mutateStmt env scope
        (Stmt.Realize name [t] [⟨Expr.IntImm 0, Expr.IntImm W⟩, ⟨Expr.IntImm 0, Expr.IntImm H⟩]
          body)
      = some (lowered_realize env scope1 name [t]
          [⟨Expr.IntImm 0, Expr.IntImm W⟩, ⟨Expr.IntImm 0, Expr.IntImm H⟩] f body1, scope1)
    ∧ FlattenDimensions.mutateStmt env sc (Stmt.Provide name [v] [X, Y])
      = some (Stmt.Store name (promote_value (FlattenDimensions.mutateExpr env sc v))
          (FlattenDimensions.mutateExpr env sc
            (FlattenDimensions.flatten_args sc env name [X, Y])), sc)
    ∧ FlattenDimensions.mutateExpr env sc
        (Expr.Call tr name [X, Y] CallType.Halide outs 0 img prm)
      = (if tr.bits ≠ tr.promote.bits then
          Expr.Cast tr (Expr.Load tr.promote name
            (FlattenDimensions.mutateExpr env sc
              (FlattenDimensions.flatten_args sc env name [X, Y])) img prm)
        else
          Expr.Load tr.promote name
            (FlattenDimensions.mutateExpr env sc
              (FlattenDimensions.flatten_args sc env name [X, Y])) img prm)
    ∧ (no_override sc name 2 → ∀ (φ : Expr → Int) (ρ ρ1 : String → Int),
        (lowered_realize env scope1 name [t]
            [⟨Expr.IntImm 0, Expr.IntImm W⟩, ⟨Expr.IntImm 0, Expr.IntImm H⟩] f
            body1).env_at_allocate φ name ρ = some ρ1 →
        (FlattenDimensions.mutateExpr env sc
            (FlattenDimensions.flatten_args sc env name [X, Y])).eval ρ1 φ
          = (FlattenDimensions.mutateExpr env sc Y).eval ρ1 φ * W
            + (FlattenDimensions.mutateExpr env sc X).eval ρ1 φ)
    ∧ (no_override sc name 2 → ∀ (x y : Int) (φ : Expr → Int) (ρ ρ1 : String → Int),
        (lowered_realize env scope1 name [t]
            [⟨Expr.IntImm 0, Expr.IntImm W⟩, ⟨Expr.IntImm 0, Expr.IntImm H⟩] f
            body1).env_at_allocate φ name ρ = some ρ1 →
        (FlattenDimensions.mutateExpr env sc
            (FlattenDimensions.flatten_args sc env name
              [Expr.IntImm x, Expr.IntImm y])).eval ρ1 φ = y * W + x) := by
  have hperm : f.schedule.storage_dims.Perm f.args := by rw [hst]
  obtain ⟨hlow, -, -, -, -, -⟩ := lower_realize env scope scope1 name [t]
    [⟨Expr.IntImm 0, Expr.IntImm W⟩, ⟨Expr.IntImm 0, Expr.IntImm H⟩] body body1 f hf hnd hperm
    (by simp [hlen]) hbody
  have hso : storage_order f = [0, 1] := by
    rw [storage_order_logical f hnd hst, hlen]; rfl
  have hcn : call_name name CallType.Halide outs 0 = name := by
    have : ¬ outs > 1 := by omega
    simp [call_name, this]
  have key : ∀ (A B : Expr), no_override sc name 2 → ∀ (φ : Expr → Int) (ρ ρ1 : String → Int),
      (lowered_realize env scope1 name [t]
          [⟨Expr.IntImm 0, Expr.IntImm W⟩, ⟨Expr.IntImm 0, Expr.IntImm H⟩] f
          body1).env_at_allocate φ name ρ = some ρ1 →
      (FlattenDimensions.mutateExpr env sc
          (FlattenDimensions.flatten_args sc env name [A, B])).eval ρ1 φ
        = (FlattenDimensions.mutateExpr env sc B).eval ρ1 φ * W
          + (FlattenDimensions.mutateExpr env sc A).eval ρ1 φ := by
    intro A B hno φ ρ ρ1 hρ
    obtain ⟨ρ_mid, t1, h⟩ := env_at_allocate_realized φ name
      [⟨Expr.IntImm 0, Expr.IntImm W⟩, ⟨Expr.IntImm 0, Expr.IntImm H⟩]
      (([⟨Expr.IntImm 0, Expr.IntImm W⟩, ⟨Expr.IntImm 0, Expr.IntImm H⟩] : List Range).map
        (fun b => FlattenDimensions.mutateExpr env scope1 b.extent))
      (storage_order f) (FlattenDimensions.make_buffer_t env name [t]) [t] 1 rfl body1 0
      (by omega) ρ
    have hbn : FlattenDimensions.buffer_name name 1 0 = name := by
      simp [FlattenDimensions.buffer_name]
    rw [hbn, hso] at h
    have hρ1 : ρ1 = bind_all φ ρ_mid (buffer_bindings name
        [⟨Expr.IntImm 0, Expr.IntImm W⟩, ⟨Expr.IntImm 0, Expr.IntImm H⟩] [0, 1]
        ((FlattenDimensions.make_buffer_t env name [t]).getD 0 false) t1) := by
      have h2 := hρ
      rw [lowered_realize, hso] at h2
      have h3 : ([t] : List IRType).length = 1 := rfl
      rw [h3, h] at h2
      exact (Option.some.inj h2).symm
    obtain ⟨hm0, hm1, he0⟩ := bind_all_two_dims φ ρ_mid name W H
      ((FlattenDimensions.make_buffer_t env name [t]).getD 0 false) t1
    have hs := strides_derived_buffer_bindings φ name
      [⟨Expr.IntImm 0, Expr.IntImm W⟩, ⟨Expr.IntImm 0, Expr.IntImm H⟩] [0, 1]
      (by decide) ((FlattenDimensions.make_buffer_t env name [t]).getD 0 false) t1 ρ_mid
    rw [← hρ1] at hm0 hm1 he0 hs
    have hs0 : ρ1 (name ++ ".stride." ++ int_to_string 0) = 1 := hs.1 (by decide)
    have hs1 : ρ1 (name ++ ".stride." ++ int_to_string 1) = W := by
      have := hs.2 1 (le_refl _) (by decide)
      simp only [List.getD_cons_succ, List.getD_cons_zero, Nat.sub_self] at this
      rw [this, hs0, he0, one_mul]
    rw [FlattenDimensions.mutateExpr_flatten_args, eval_flatten_args]
    simp only [List.map_cons, List.map_nil, List.length_cons, List.length_nil]
    rw [Fin.sum_univ_two]
    simp only [Fin.val_zero, Fin.val_one, List.get_cons_zero]
    rw [FlattenDimensions.min_name_of_no_override hno (by decide : 0 < 2),
      FlattenDimensions.min_name_of_no_override hno (by decide : 1 < 2),
      FlattenDimensions.stride_name_of_no_override hno (by decide : 0 < 2),
      FlattenDimensions.stride_name_of_no_override hno (by decide : 1 < 2),
      hm0, hm1, hs0, hs1]
    show (_ - 0) * 1 + ((FlattenDimensions.mutateExpr env sc B).eval ρ1 φ - 0) * W = _
    ring
  refine ⟨hlow, ?_, ?_, key X Y, ?_⟩
  · simp [FlattenDimensions.mutateStmt, FlattenDimensions.provide_values,
      FlattenDimensions.flatten_mutateExprs_eq_map, FlattenDimensions.visit_Provide]
  · rw [FlattenDimensions.mutateExpr]
    simp only [hcn]
    simp
  · intro hno x y φ ρ ρ1 hρ
    rw [key (Expr.IntImm x) (Expr.IntImm y) hno φ ρ ρ1 hρ]
    simp [FlattenDimensions.mutateExpr, Expr.eval]

/-! ## No region declaration survives the dimension flattener -/

theorem has_realize_lets (l : List (String × Expr)) (s : Stmt) :
    (Stmt.lets l s).has_realize = s.has_realize := by
  induction l with
  | nil => rfl
  | cons b rest ih => simpa [Stmt.lets, Stmt.has_realize] using ih

theorem count_allocate_lets (l : List (String × Expr)) (s : Stmt) :
    (Stmt.lets l s).count_allocate = s.count_allocate := by
  induction l with
  | nil => rfl
  | cons b rest ih => simpa [Stmt.lets, Stmt.count_allocate] using ih

theorem has_realize_let_loop (name : String) (vals : List Expr) (s : Stmt) (i : Nat) :
    (let_loop name vals i s).has_realize = s.has_realize := by
  rw [let_loop_eq, has_realize_lets]

theorem has_realize_store_loop (mk_store : String → Expr → Stmt) (name : String)
    (hmk : ∀ n v, (mk_store n v).has_realize = false) (vals : List Expr) :
    ∀ (i : Nat) (result : Stmt), result.has_realize = false →
      (store_loop mk_store name vals i result).has_realize = false := by
  induction vals with
  | nil => intro i result h; simpa [store_loop] using h
  | cons v rest ih =>
    intro i result h
    rw [store_loop]
    apply ih
    split
    · simp [Stmt.has_realize, h, hmk]
    · exact hmk _ _

namespace FlattenDimensions

theorem has_realize_visit_Provide (env : Env) (scope : Scope) (name : String)
    (values args : List Expr) :
    (visit_Provide env scope name values args).has_realize = false := by
  unfold visit_Provide
  split
  · rfl
  · rw [has_realize_let_loop]
    exact has_realize_store_loop
      (fun n var => Stmt.Store n var (mutateExpr env scope (flatten_args scope env n args)))
      name (fun _ _ => rfl) _ _ _ rfl

theorem has_realize_innermost_stride (p : List Nat) (sn : List String) (dims : Nat)
    (stmt out : Stmt) (h : innermost_stride p sn dims stmt = some out) :
    out.has_realize = stmt.has_realize := by
  unfold innermost_stride at h
  by_cases hd : dims > 0
  · simp only [hd, if_true] at h
    generalize (if p.isEmpty = true then 0 else p.getD 0 0) = j at h
    cases hj : sn[j]? with
    | none => simp [hj] at h
    | some x =>
      simp only [hj, Option.some.injEq] at h
      rw [← h]; rfl
  · simp only [hd, if_false, Option.some.injEq] at h
    rw [← h]

theorem has_realize_stride_loop (p : List Nat) (sn : List String) (sv ev : List Expr) :
    ∀ (i : Nat) (stmt out : Stmt), stride_loop p sn sv ev i stmt = some out →
      out.has_realize = stmt.has_realize := by
  intro i
  induction i with
  | zero =>
    intro stmt out h
    simp only [stride_loop, Option.some.injEq] at h
    rw [← h]
  | succ i ih =>
    intro stmt out h
    rw [stride_loop] at h
    split at h
    · split at h
      · rw [ih _ _ h]; rfl
      · simp at h
    · simp at h

theorem has_realize_realize_buffer (name : String) (n : Nat) (bounds : List Range)
    (extents : List Expr) (p : List Nat) (mk : Bool) (idx : Nat) (t : IRType)
    (stmt out : Stmt) (h : realize_buffer name n bounds extents p mk idx t stmt = some out) :
    out.has_realize = stmt.has_realize := by
  unfold realize_buffer at h
  simp only [] at h
  split at h
  · simp at h
  · rename_i s1 h1
    split at h
    · simp at h
    · rename_i s2 h2
      simp only [Option.some.injEq] at h
      rw [← h, bounds_loop_eq, has_realize_lets]
      have e1 := has_realize_stride_loop _ _ _ _ _ _ _ h1
      have e2 : s2.has_realize = s1.has_realize :=
        has_realize_innermost_stride _ _ _ _ _ h2
      rw [e2, e1]
      cases mk <;> simp [Stmt.has_realize]

theorem has_realize_realize_loop (name : String) (n : Nat) (bounds : List Range)
    (extents : List Expr) (p : List Nat) (mks : List Bool) (types : List IRType) :
    ∀ (idx : Nat) (stmt out : Stmt),
      realize_loop name n bounds extents p mks types idx stmt = some out →
      out.has_realize = stmt.has_realize := by
  induction types with
  | nil =>
    intro idx stmt out h
    simp only [realize_loop, Option.some.injEq] at h
    rw [← h]
  | cons t rest ih =>
    intro idx stmt out h
    rw [realize_loop] at h
    split at h
    · simp at h
    · rename_i s1 h1
      rw [ih _ _ _ h, has_realize_realize_buffer _ _ _ _ _ _ _ _ _ _ h1]

theorem has_realize_visit_Realize (env : Env) (scope : Scope) (name : String)
    (types : List IRType) (bounds : List Range) (body out : Stmt)
    (h : visit_Realize env scope name types bounds body = some out) :
    out.has_realize = body.has_realize := by
  unfold visit_Realize at h
  simp only [] at h
  split at h
  · simp at h
  · split at h
    · simp at h
    · split at h
      · exact has_realize_realize_loop _ _ _ _ _ _ _ _ _ _ h
      · simp at h

/-- The output of the dimension flattener contains no region declaration. -/
theorem mutateStmt_no_realize (env : Env) :
    ∀ (s : Stmt) (scope : Scope) (out : Stmt) (scope1 : Scope),
      mutateStmt env scope s = some (out, scope1) → out.has_realize = false
  | .undef, scope, out, scope1, h => by
    simp only [mutateStmt, Option.some.injEq, Prod.mk.injEq] at h
    rw [← h.1]; rfl
  | .LetStmt name value body, scope, out, scope1, h => by
    simp only [mutateStmt] at h
    split at h
    · simp at h
    · rename_i b1 s1 h1
      simp only [Option.some.injEq, Prod.mk.injEq] at h
      rw [← h.1]
      exact mutateStmt_no_realize env body _ b1 s1 h1
  | .For name min extent ft body, scope, out, scope1, h => by
    simp only [mutateStmt] at h
    split at h
    · simp at h
    · rename_i b1 s1 h1
      simp only [Option.some.injEq, Prod.mk.injEq] at h
      rw [← h.1]
      exact mutateStmt_no_realize env body _ b1 s1 h1
  | .Provide name values args, scope, out, scope1, h => by
    simp only [mutateStmt, Option.some.injEq, Prod.mk.injEq] at h
    rw [← h.1]
    exact has_realize_visit_Provide _ _ _ _ _
  | .Realize name types bounds body, scope, out, scope1, h => by
    simp only [mutateStmt] at h
    split at h
    · simp at h
    · rename_i b1 s1 h1
      split at h
      · simp at h
      · rename_i o1 h2
        simp only [Option.some.injEq, Prod.mk.injEq] at h
        rw [← h.1, has_realize_visit_Realize _ _ _ _ _ _ _ h2]
        exact mutateStmt_no_realize env body _ _ _ h1
  | .Store name value index, scope, out, scope1, h => by
    simp only [mutateStmt, Option.some.injEq, Prod.mk.injEq] at h
    rw [← h.1]; rfl
  | .StoreArgs name value args, scope, out, scope1, h => by
    simp only [mutateStmt, Option.some.injEq, Prod.mk.injEq] at h
    rw [← h.1]; rfl
  | .Allocate name t extents body, scope, out, scope1, h => by
    simp only [mutateStmt] at h
    split at h
    · simp at h
    · rename_i b1 s1 h1
      simp only [Option.some.injEq, Prod.mk.injEq] at h
      rw [← h.1]
      exact mutateStmt_no_realize env body _ b1 s1 h1
  | .Block first rest, scope, out, scope1, h => by
    simp only [mutateStmt] at h
    split at h
    · simp at h
    · rename_i f1 s1 h1
      split at h
      · simp at h
      · rename_i r1 s2 h2
        simp only [Option.some.injEq, Prod.mk.injEq] at h
        rw [← h.1]
        simp [Stmt.has_realize, mutateStmt_no_realize env first _ _ _ h1,
          mutateStmt_no_realize env rest _ _ _ h2]

end FlattenDimensions

/-! ## The bindings and allocations of a lowered region declaration -/

theorem count_allocate_realized (name : String) (n : Nat) (bounds : List Range)
    (extents : List Expr) (p : List Nat) (mks : List Bool) (types : List IRType) :
    ∀ (idx : Nat) (stmt : Stmt),
      (realized name n bounds extents p mks types idx stmt).count_allocate
        = types.length + stmt.count_allocate := by
  induction types with
  | nil => intro idx stmt; simp [realized]
  | cons t rest ih =>
    intro idx stmt
    rw [realized, ih, count_allocate_lets]
    simp only [Stmt.count_allocate, List.length_cons]
    omega

theorem has_realize_realized (name : String) (n : Nat) (bounds : List Range)
    (extents : List Expr) (p : List Nat) (mks : List Bool) (types : List IRType) :
    ∀ (idx : Nat) (stmt : Stmt),
      (realized name n bounds extents p mks types idx stmt).has_realize = stmt.has_realize := by
  induction types with
  | nil => intro idx stmt; simp [realized]
  | cons t rest ih =>
    intro idx stmt
    rw [realized, ih, has_realize_lets]
    rfl

theorem count_min_bounds_bindings (bn : String) (bounds : List Range) :
    ∀ (i d : Nat),
      ((bounds_bindings bn bounds i).map Prod.fst).count (bn ++ ".min." ++ int_to_string d)
        = if i ≤ d ∧ d < i + bounds.length then 1 else 0 := by
  induction bounds with
  | nil =>
    intro i d
    simp only [bounds_bindings, List.map_nil, List.count_nil, List.length_nil]
    rw [if_neg (by omega)]
  | cons b rest ih =>
    intro i d
    simp only [bounds_bindings, List.map_cons, List.count_cons, ih, List.length_cons]
    have h1 : (bn ++ ".extent." ++ int_to_string i == bn ++ ".min." ++ int_to_string d) = false :=
      beq_false_of_ne (extent_ne_min _ _ _)
    rw [h1]
    by_cases hid : i = d
    · subst hid
      simp
    · have h2 : (bn ++ ".min." ++ int_to_string i == bn ++ ".min." ++ int_to_string d) = false :=
        beq_false_of_ne (fun e => hid (min_name_inj e))
      rw [h2]
      simp only [Bool.false_eq_true, if_false, Nat.add_zero]
      congr 1
      apply propext
      constructor <;> intro h <;> omega

theorem count_extent_bounds_bindings (bn : String) (bounds : List Range) :
    ∀ (i d : Nat),
      ((bounds_bindings bn bounds i).map Prod.fst).count (bn ++ ".extent." ++ int_to_string d)
        = if i ≤ d ∧ d < i + bounds.length then 1 else 0 := by
  induction bounds with
  | nil =>
    intro i d
    simp only [bounds_bindings, List.map_nil, List.count_nil, List.length_nil]
    rw [if_neg (by omega)]
  | cons b rest ih =>
    intro i d
    simp only [bounds_bindings, List.map_cons, List.count_cons, ih, List.length_cons]
    have h1 : (bn ++ ".min." ++ int_to_string i == bn ++ ".extent." ++ int_to_string d) = false :=
      beq_false_of_ne (fun e => extent_ne_min _ _ _ e.symm)
    rw [h1]
    by_cases hid : i = d
    · subst hid
      simp
    · have h2 : (bn ++ ".extent." ++ int_to_string i == bn ++ ".extent." ++ int_to_string d)
          = false := beq_false_of_ne (fun e => hid (extent_name_inj e))
      rw [h2]
      simp only [Bool.false_eq_true, if_false, Nat.add_zero]
      congr 1
      apply propext
      constructor <;> intro h <;> omega

theorem count_stride_bounds_bindings (bn : String) (bounds : List Range) (x : String) :
    ∀ i : Nat,
      ((bounds_bindings bn bounds i).map Prod.fst).count (bn ++ ".stride." ++ x) = 0 := by
  induction bounds with
  | nil => intro i; simp [bounds_bindings]
  | cons b rest ih =>
    intro i
    simp only [bounds_bindings, List.map_cons, List.count_cons, ih]
    rw [beq_false_of_ne (fun e => stride_ne_extent _ _ _ e.symm),
      beq_false_of_ne (fun e => stride_ne_min _ _ _ e.symm)]
    simp

theorem stride_bindings_names (bn : String) (p : List Nat) :
    (stride_bindings bn p).map Prod.fst
      = p.map (fun j => bn ++ ".stride." ++ int_to_string j) := by
  apply List.ext_getElem
  · simp [stride_bindings]
  · intro i h1 h2
    have hi : i < p.length := by simpa using h2
    simp [stride_bindings, stride_binding, List.getElem?_eq_getElem hi]

theorem count_stride_bindings (bn : String) (p : List Nat) (n d : Nat)
    (hp : p.Perm (List.range n)) (hd : d < n) :
    ((stride_bindings bn p).map Prod.fst).count (bn ++ ".stride." ++ int_to_string d) = 1 := by
  rw [stride_bindings_names]
  rw [List.count_map_of_injective p (fun j => bn ++ ".stride." ++ int_to_string j)
    (fun a b h => stride_name_inj h) d]
  exact List.count_eq_one_of_mem (hp.nodup_iff.mpr (List.nodup_range n))
    (hp.mem_iff.mpr (List.mem_range.mpr hd))

theorem count_other_stride_bindings (bn : String) (p : List Nat) (x : String)
    (hx : ∀ y, x ≠ bn ++ ".stride." ++ y) :
    ((stride_bindings bn p).map Prod.fst).count x = 0 := by
  rw [stride_bindings_names, List.count_eq_zero]
  intro h
  obtain ⟨j, -, hj⟩ := List.mem_map.mp h
  exact hx _ hj.symm

theorem count_descriptor_binding (bn : String) (dims : Nat) (mk : Bool) (t : IRType)
    (x : String) (hx : x ≠ bn ++ ".buffer") :
    ((descriptor_binding bn dims mk t).map Prod.fst).count x = 0 := by
  rw [List.count_eq_zero]
  intro h
  obtain ⟨b, hb, hbx⟩ := List.mem_map.mp h
  rw [descriptor_binding_name bn dims mk t b hb] at hbx
  exact hx hbx.symm

theorem bounds_bindings_mem (bn : String) (bounds : List Range) :
    ∀ (i d : Nat) (hd : d < bounds.length),
      (bn ++ ".min." ++ int_to_string (i + d), (bounds.get ⟨d, hd⟩).min)
          ∈ bounds_bindings bn bounds i
      ∧ (bn ++ ".extent." ++ int_to_string (i + d), (bounds.get ⟨d, hd⟩).extent)
          ∈ bounds_bindings bn bounds i := by
  induction bounds with
  | nil => intro i d hd; simp at hd
  | cons b rest ih =>
    intro i d hd
    cases d with
    | zero => simp [bounds_bindings]
    | succ d =>
      have := ih (i + 1) d (by simpa using hd)
      rw [show i + 1 + d = i + (d + 1) by omega] at this
      simp only [bounds_bindings, List.mem_cons, List.get_cons_succ]
      exact ⟨Or.inr (Or.inr this.1), Or.inr (Or.inr this.2)⟩

theorem digitChar_ne_dot (d : Nat) (h : d < 10) : Nat.digitChar d ≠ '.' := by
  interval_cases d <;> decide

theorem toDigitsCore_no_dot :
    ∀ (fuel n : Nat) (ds : List Char), (∀ c ∈ ds, c ≠ '.') →
      ∀ c ∈ Nat.toDigitsCore 10 fuel n ds, c ≠ '.' := by
  intro fuel
  induction fuel with
  | zero => intro n ds h c hc; exact h c (by simpa [Nat.toDigitsCore] using hc)
  | succ fuel ih =>
    intro n ds h c hc
    unfold Nat.toDigitsCore at hc
    have hd := digitChar_ne_dot (n % 10) (Nat.mod_lt _ (by decide))
    have hds : ∀ c ∈ Nat.digitChar (n % 10) :: ds, c ≠ '.' := by
      intro c hc
      rcases List.mem_cons.mp hc with e | e
      · rw [e]; exact hd
      · exact h c e
    by_cases h0 : n / 10 = 0
    · simp only [h0, if_true] at hc
      exact hds c hc
    · simp only [h0, if_false] at hc
      exact ih _ _ hds c hc

theorem int_to_string_no_dot (n : Nat) : ∀ c ∈ (int_to_string n).data, c ≠ '.' := by
  intro c hc
  have : (int_to_string n).data = Nat.toDigits 10 n := rfl
  rw [this] at hc
  exact toDigitsCore_no_dot _ _ [] (fun _ h => absurd h (List.not_mem_nil _)) c hc

theorem append_cons_left_inj {a : Char} :
    ∀ (l1 l2 r1 r2 : List Char), a ∉ l1 → a ∉ l2 → l1 ++ a :: r1 = l2 ++ a :: r2 → l1 = l2 := by
  intro l1
  induction l1 with
  | nil =>
    intro l2 r1 r2 _ h2 h
    cases l2 with
    | nil => rfl
    | cons b l2 =>
      simp only [List.nil_append, List.cons_append, List.cons.injEq] at h
      exact absurd (by rw [h.1]; exact List.mem_cons_self _ _) h2
  | cons b l1 ih =>
    intro l2 r1 r2 h1 h2 h
    cases l2 with
    | nil =>
      simp only [List.nil_append, List.cons_append, List.cons.injEq] at h
      exact absurd (by rw [← h.1]; exact List.mem_cons_self _ _) h1
    | cons c l2 =>
      simp only [List.cons_append, List.cons.injEq] at h
      rw [h.1, ih l2 r1 r2 (fun m => h1 (List.mem_cons_of_mem _ m))
        (fun m => h2 (List.mem_cons_of_mem _ m)) h.2]

/-- The names bound for two different outputs of one function differ: the output index
ends at the first dot after it. -/
theorem indexed_name_inj (name : String) (i j : Nat) (r1 r2 : List Char)
    (h : (name ++ "." ++ int_to_string i).data ++ '.' :: r1
      = (name ++ "." ++ int_to_string j).data ++ '.' :: r2) : i = j := by
  simp only [String.data_append, List.append_assoc, List.append_cancel_left_eq] at h
  exact int_to_string_injective (String.ext
    (append_cons_left_inj _ _ r1 r2 (fun m => int_to_string_no_dot i _ m rfl)
      (fun m => int_to_string_no_dot j _ m rfl) h))

theorem buffer_bindings_names (bn : String) (bounds : List Range) (p : List Nat) (mk : Bool)
    (t : IRType) :
    ∀ x ∈ (buffer_bindings bn bounds p mk t).map Prod.fst,
      ∃ r : List Char, x.data = bn.data ++ '.' :: r := by
  have hmin : ∀ y : String, (bn ++ ".min." ++ y).data = bn.data ++ '.' :: ("min." ++ y).data := by
    intro y; simp [String.data_append]
  have hext : ∀ y : String,
      (bn ++ ".extent." ++ y).data = bn.data ++ '.' :: ("extent." ++ y).data := by
    intro y; simp [String.data_append]
  have hstr : ∀ y : String,
      (bn ++ ".stride." ++ y).data = bn.data ++ '.' :: ("stride." ++ y).data := by
    intro y; simp [String.data_append]
  have hbounds : ∀ (l : List Range) (i : Nat), ∀ x ∈ (bounds_bindings bn l i).map Prod.fst,
      ∃ r : List Char, x.data = bn.data ++ '.' :: r := by
    intro l
    induction l with
    | nil => intro i x hx; simp [bounds_bindings] at hx
    | cons b rest ih =>
      intro i x hx
      simp only [bounds_bindings, List.map_cons, List.mem_cons] at hx
      rcases hx with e | e | e
      · exact ⟨_, e ▸ hext _⟩
      · exact ⟨_, e ▸ hmin _⟩
      · exact ih _ x e
  intro x hx
  simp only [buffer_bindings, List.map_append, List.mem_append] at hx
  rcases hx with (hx | hx) | hx
  · exact hbounds bounds 0 x hx
  · rw [stride_bindings_names] at hx
    obtain ⟨j, -, e⟩ := List.mem_map.mp hx
    exact ⟨_, e ▸ hstr _⟩
  · obtain ⟨b, hb, e⟩ := List.mem_map.mp hx
    rw [descriptor_binding_name bn _ mk t b hb] at e
    exact ⟨"buffer".data, by rw [← e]; simp [String.data_append]⟩

theorem bindings_to_allocate_lets (target : String) (l : List (String × Expr)) (s : Stmt) :
    (Stmt.lets l s).bindings_to_allocate target
      = (s.bindings_to_allocate target).map (fun r => l.map Prod.fst ++ r) := by
  induction l with
  | nil => simp [Stmt.lets]
  | cons b rest ih =>
    show (Stmt.LetStmt b.1 b.2 (Stmt.lets rest s)).bindings_to_allocate target = _
    rw [Stmt.bindings_to_allocate, ih]
    cases s.bindings_to_allocate target <;> simp

/-- On the way to the allocation of output `idx` only bindings of later outputs are
passed before the bindings of the buffer itself. -/
theorem bindings_to_allocate_through (name : String) (n : Nat) (hn : 1 < n)
    (bounds : List Range) (extents : List Expr) (p : List Nat) (mks : List Bool) (idx : Nat)
    (types : List IRType) :
    ∀ (i : Nat) (inner : Stmt) (names : List String), idx < i →
      inner.bindings_to_allocate (FlattenDimensions.buffer_name name n idx) = some names →
      ∃ outer : List String,
        (realized name n bounds extents p mks types i inner).bindings_to_allocate
            (FlattenDimensions.buffer_name name n idx) = some (outer ++ names)
        ∧ ∀ x ∈ outer, ∃ (j : Nat) (r : List Char), idx < j
            ∧ x.data = (name ++ "." ++ int_to_string j).data ++ '.' :: r := by
  induction types with
  | nil => intro i inner names _ h; exact ⟨[], by simpa [realized] using h, by simp⟩
  | cons t rest ih =>
    intro i inner names hi h
    have hne : FlattenDimensions.buffer_name name n i ≠ FlattenDimensions.buffer_name name n idx :=
      fun e => by have := buffer_name_inj hn e; omega
    have hstep : (Stmt.lets
        (buffer_bindings (FlattenDimensions.buffer_name name n i) bounds p (mks.getD i false) t)
        (Stmt.Allocate (FlattenDimensions.buffer_name name n i) t.promote extents
          inner)).bindings_to_allocate (FlattenDimensions.buffer_name name n idx)
        = some ((buffer_bindings (FlattenDimensions.buffer_name name n i) bounds p
            (mks.getD i false) t).map Prod.fst ++ names) := by
      rw [bindings_to_allocate_lets, Stmt.bindings_to_allocate, if_neg hne, h]
      rfl
    obtain ⟨outer, h1, h2⟩ := ih (i + 1) _ _ (by omega) hstep
    refine ⟨outer ++ (buffer_bindings (FlattenDimensions.buffer_name name n i) bounds p
      (mks.getD i false) t).map Prod.fst, ?_, ?_⟩
    · rw [realized, h1, List.append_assoc]
    · intro x hx
      rcases List.mem_append.mp hx with hx | hx
      · exact h2 x hx
      · obtain ⟨r, hr⟩ := buffer_bindings_names _ bounds p _ t x hx
        refine ⟨i, r, hi, ?_⟩
        rw [hr]
        simp [FlattenDimensions.buffer_name, hn]

/-- The bindings that enclose the allocation of output `idx` in a lowered region
declaration bind each of `min.d`, `extent.d` and `stride.d` of that buffer once. -/
theorem bindings_to_allocate_realized (name : String) (bounds : List Range)
    (extents : List Expr) (p : List Nat) (mks : List Bool) (types : List IRType) (n : Nat)
    (hn : types.length = n) (hp : p.Perm (List.range bounds.length)) (body : Stmt) (idx : Nat)
    (hidx : idx < n) :
    ∃ names : List String,
      (realized name n bounds extents p mks types 0 body).bindings_to_allocate
          (FlattenDimensions.buffer_name name n idx) = some names
      ∧ ∀ d, d < bounds.length →
          names.count (FlattenDimensions.buffer_name name n idx ++ ".min."
            ++ int_to_string d) = 1
          ∧ names.count (FlattenDimensions.buffer_name name n idx ++ ".extent."
            ++ int_to_string d) = 1
          ∧ names.count (FlattenDimensions.buffer_name name n idx ++ ".stride."
            ++ int_to_string d) = 1 := by
  have hidx2 : idx < types.length := by omega
  have hsplit : types = types.take idx ++ (types[idx] :: types.drop (idx + 1)) := by
    rw [← List.drop_eq_getElem_cons hidx2, List.take_append_drop]
  have hlen : (types.take idx).length = idx := by
    rw [List.length_take]; omega
  obtain ⟨pre, t, post, rfl, hpre⟩ :
      ∃ pre t post, types = pre ++ t :: post ∧ pre.length = idx := ⟨_, _, _, hsplit, hlen⟩
  have hown : ∀ d, d < bounds.length →
      ((buffer_bindings (FlattenDimensions.buffer_name name n idx) bounds p
          (mks.getD idx false) t).map Prod.fst).count
          (FlattenDimensions.buffer_name name n idx ++ ".min." ++ int_to_string d) = 1
      ∧ ((buffer_bindings (FlattenDimensions.buffer_name name n idx) bounds p
          (mks.getD idx false) t).map Prod.fst).count
          (FlattenDimensions.buffer_name name n idx ++ ".extent." ++ int_to_string d) = 1
      ∧ ((buffer_bindings (FlattenDimensions.buffer_name name n idx) bounds p
          (mks.getD idx false) t).map Prod.fst).count
          (FlattenDimensions.buffer_name name n idx ++ ".stride." ++ int_to_string d) = 1 := by
    intro d hd
    simp only [buffer_bindings, List.map_append, List.count_append]
    refine ⟨?_, ?_, ?_⟩
    · rw [count_min_bounds_bindings, if_pos ⟨Nat.zero_le _, by omega⟩,
        count_other_stride_bindings _ _ _ (fun y e => stride_ne_min _ _ _ e.symm),
        count_descriptor_binding _ _ _ t _ (fun e => buffer_ne_min _ _ e.symm)]
    · rw [count_extent_bounds_bindings, if_pos ⟨Nat.zero_le _, by omega⟩,
        count_other_stride_bindings _ _ _ (fun y e => stride_ne_extent _ _ _ e.symm),
        count_descriptor_binding _ _ _ t _ (fun e => buffer_ne_extent _ _ e.symm)]
    · rw [count_stride_bounds_bindings, count_stride_bindings _ _ bounds.length d hp hd,
        count_descriptor_binding _ _ _ t _ (fun e => buffer_ne_stride _ _ e.symm)]
  have hinner : (Stmt.lets
      (buffer_bindings (FlattenDimensions.buffer_name name n idx) bounds p
        (mks.getD idx false) t)
      (Stmt.Allocate (FlattenDimensions.buffer_name name n idx) t.promote extents
        (realized name n bounds extents p mks pre 0 body))).bindings_to_allocate
        (FlattenDimensions.buffer_name name n idx)
      = some ((buffer_bindings (FlattenDimensions.buffer_name name n idx) bounds p
          (mks.getD idx false) t).map Prod.fst) := by
    rw [bindings_to_allocate_lets, Stmt.bindings_to_allocate, if_pos rfl]
    simp
  rw [realized_append, realized, hpre, Nat.zero_add]
  cases post with
  | nil => exact ⟨_, by rw [realized]; exact hinner, hown⟩
  | cons t2 post2 =>
    have hn1 : 1 < n := by
      simp only [List.length_append, List.length_cons] at hn
      omega
    obtain ⟨outer, h1, h2⟩ := bindings_to_allocate_through name n hn1 bounds extents p mks idx
      (t2 :: post2) (idx + 1) _ _ (by omega) hinner
    refine ⟨_, h1, ?_⟩
    have hzero : ∀ (sfx : List Char), ∀ y : String,
        y.data = (name ++ "." ++ int_to_string idx).data ++ '.' :: sfx → outer.count y = 0 := by
      intro sfx y hy
      rw [List.count_eq_zero]
      intro hmem
      obtain ⟨j, r, hj, hr⟩ := h2 y hmem
      rw [hy] at hr
      have := indexed_name_inj name idx j sfx r hr
      omega
    have hbn : FlattenDimensions.buffer_name name n idx = name ++ "." ++ int_to_string idx := by
      simp [FlattenDimensions.buffer_name, hn1]
    intro d hd
    obtain ⟨o1, o2, o3⟩ := hown d hd
    simp only [List.count_append, o1, o2, o3]
    refine ⟨?_, ?_, ?_⟩
    · rw [hzero ("min." ++ int_to_string d).data _ (by rw [hbn]; simp [String.data_append])]
    · rw [hzero ("extent." ++ int_to_string d).data _ (by rw [hbn]; simp [String.data_append])]
    · rw [hzero ("stride." ++ int_to_string d).data _ (by rw [hbn]; simp [String.data_append])]

/-- C7: a region declaration with `k` output types whose function is in the environment
with a storage order that rearranges its logical dimensions is lowered, without a
fault, to `realized`: for every output, the bindings of its buffer around the allocation
of the promoted type with the lowered bound extents, the first output innermost around
the lowered body.  The result holds `k` allocations more than the lowered body and no
region declaration; the bindings that enclose the allocation of every output buffer
bind each of `min.d`, `extent.d` and `stride.d` of that buffer exactly once for
`d < n`, and `min.d` and `extent.d` are bound to the minimum and extent of bound `d`. -/
theorem realize_becomes_allocations (env : Env) (scope scope1 : Scope) (name : String)
    (types : List IRType) (bounds : List Range) (body body1 : Stmt) (f : Function)
    (hf : env name = some f) (hnd : f.args.Nodup)
    (hperm : f.schedule.storage_dims.Perm f.args) (hdims : bounds.length = f.args.length)
    (hbody : FlattenDimensions.mutateStmt env scope body = some (body1, scope1)) :
    FlattenDimensions.mutateStmt env scope (Stmt.Realize name types bounds body)
        = some (realized name types.length bounds
            (bounds.map (fun b => FlattenDimensions.mutateExpr env scope1 b.extent))
            (storage_order f) (FlattenDimensions.make_buffer_t env name types) types 0 body1,
          scope1)
    ∧ (realized name types.length bounds
          (bounds.map (fun b => FlattenDimensions.mutateExpr env scope1 b.extent))
          (storage_order f) (FlattenDimensions.make_buffer_t env name types) types 0
          body1).count_allocate = types.length + body1.count_allocate
    ∧ (realized name types.length bounds
          (bounds.map (fun b => FlattenDimensions.mutateExpr env scope1 b.extent))
          (storage_order f) (FlattenDimensions.make_buffer_t env name types) types 0
          body1).has_realize = false
    ∧ (∀ (t : IRType) (rest : List IRType) (idx : Nat) (stmt : Stmt),
        realized name types.length bounds
            (bounds.map (fun b => FlattenDimensions.mutateExpr env scope1 b.extent))
            (storage_order f) (FlattenDimensions.make_buffer_t env name types) (t :: rest) idx
            stmt
          = realized name types.length bounds
              (bounds.map (fun b => FlattenDimensions.mutateExpr env scope1 b.extent))
              (storage_order f) (FlattenDimensions.make_buffer_t env name types) rest (idx + 1)
              (Stmt.lets
                (buffer_bindings (FlattenDimensions.buffer_name name types.length idx) bounds
                  (storage_order f)
                  ((FlattenDimensions.make_buffer_t env name types).getD idx false) t)
                (Stmt.Allocate (FlattenDimensions.buffer_name name types.length idx) t.promote
                  (bounds.map (fun b => FlattenDimensions.mutateExpr env scope1 b.extent))
                  stmt)))
    ∧ (∀ idx, idx < types.length →
        ∃ names : List String,
          (realized name types.length bounds
              (bounds.map (fun b => FlattenDimensions.mutateExpr env scope1 b.extent))
              (storage_order f) (FlattenDimensions.make_buffer_t env name types) types 0
              body1).bindings_to_allocate
              (FlattenDimensions.buffer_name name types.length idx) = some names
          ∧ ∀ d, d < bounds.length →
              names.count (FlattenDimensions.buffer_name name types.length idx ++ ".min."
                ++ int_to_string d) = 1
              ∧ names.count (FlattenDimensions.buffer_name name types.length idx ++ ".extent."
                ++ int_to_string d) = 1
              ∧ names.count (FlattenDimensions.buffer_name name types.length idx ++ ".stride."
                ++ int_to_string d) = 1)
    ∧ (∀ (bn : String) (mk : Bool) (t : IRType) (d : Nat) (hd : d < bounds.length),
        (bn ++ ".min." ++ int_to_string d, (bounds.get ⟨d, hd⟩).min)
            ∈ buffer_bindings bn bounds (storage_order f) mk t
        ∧ (bn ++ ".extent." ++ int_to_string d, (bounds.get ⟨d, hd⟩).extent)
            ∈ buffer_bindings bn bounds (storage_order f) mk t) := by
  obtain ⟨hlow, -, hpp, -, -, -⟩ :=
    lower_realize env scope scope1 name types bounds body body1 f hf hnd hperm hdims hbody
  refine ⟨hlow, ?_, ?_, fun t rest idx stmt => rfl, ?_, ?_⟩
  · rw [count_allocate_realized]
  · rw [has_realize_realized]
    exact FlattenDimensions.mutateStmt_no_realize env body scope body1 scope1 hbody
  · intro idx hidx
    exact bindings_to_allocate_realized name bounds _ (storage_order f) _ types types.length
      rfl hpp body1 idx hidx
  · intro bn mk t d hd
    have hmem := bounds_bindings_mem bn bounds 0 d hd
    rw [Nat.zero_add] at hmem
    simp only [buffer_bindings, List.mem_append]
    exact ⟨Or.inl (Or.inl hmem.1), Or.inl (Or.inl hmem.2)⟩

/-! ## The two strategies on integer lists -/

theorem range_split (k i : Nat) (hi : i < k) :
    List.range k = List.range i ++ i :: List.range' (i + 1) (k - (i + 1)) := by
  apply List.ext_getElem
  · simp only [List.length_range, List.length_append, List.length_cons, List.length_range']
    omega
  · intro j h1 h2
    simp only [List.getElem_range, List.getElem_append, List.length_range,
      List.getElem_cons, List.getElem_range']
    split_ifs <;> omega

theorem bind_all_range_lookup (φ : Expr → Int) (ρ : String → Int) (g : Nat → String)
    (v : Nat → Int) (k i : Nat) (hi : i < k) (hg : ∀ a b, g a = g b → a = b)
    (pre post : List (String × Expr)) (hpost : ∀ b ∈ post, b.1 ≠ g i) :
    bind_all φ ρ (pre ++ (List.range k).map (fun j => (g j, Expr.IntImm (v j))) ++ post) (g i)
      = v i := by
  rw [range_split k i hi]
  have := bind_all_lookup φ ρ
    (pre ++ (List.range i).map (fun j => (g j, Expr.IntImm (v j))))
    ((List.range' (i + 1) (k - (i + 1))).map (fun j => (g j, Expr.IntImm (v j))) ++ post)
    (g i) (Expr.IntImm (v i)) (by
      intro b hb
      rcases List.mem_append.mp hb with hb | hb
      · obtain ⟨j, hj, e⟩ := List.mem_map.mp hb
        have hj2 := (List.mem_range'_1.mp hj).1
        rw [← e]
        intro e2
        have := hg _ _ e2
        omega
      · exact hpost b hb)
  simp only [List.map_append, List.map_cons, List.append_assoc, List.cons_append] at this ⊢
  rw [this]
  rfl

theorem symbol_valuation_min (name : String) (m s : List Int) (i : Nat) (hi : i < m.length) :
    symbol_valuation name m s (name ++ ".min." ++ int_to_string i) = m.getD i 0 := by
  have := bind_all_range_lookup (fun _ => 0) (fun _ => 0)
    (fun j => name ++ ".min." ++ int_to_string j) (fun j => m.getD j 0) m.length i hi
    (fun a b e => min_name_inj e) []
    ((List.range s.length).map
      (fun j => (name ++ ".stride." ++ int_to_string j, Expr.IntImm (s.getD j 0))))
    (by
      intro b hb
      obtain ⟨j, -, e⟩ := List.mem_map.mp hb
      rw [← e]
      exact stride_ne_min _ _ _)
  simpa [symbol_valuation] using this

theorem symbol_valuation_stride (name : String) (m s : List Int) (i : Nat)
    (hi : i < s.length) :
    symbol_valuation name m s (name ++ ".stride." ++ int_to_string i) = s.getD i 0 := by
  have := bind_all_range_lookup (fun _ => 0) (fun _ => 0)
    (fun j => name ++ ".stride." ++ int_to_string j) (fun j => s.getD j 0) s.length i hi
    (fun a b e => stride_name_inj e)
    ((List.range m.length).map
      (fun j => (name ++ ".min." ++ int_to_string j, Expr.IntImm (m.getD j 0)))) []
    (by simp)
  simpa [symbol_valuation] using this

/-- On integer coordinates `a` and under the valuation that gives the symbols the
minimums `m` and strides `s`, the address of either strategy is worth the sum of
`(a_i - m_i) * s_i`. -/
theorem eval_flatten_args_lists (env : Env) (name : String) (a m s : List Int)
    (hm : m.length = a.length) (hs : s.length = a.length) (φ : Expr → Int) :
    (FlattenDimensions.flatten_args [] env name (a.map Expr.IntImm)).eval
        (symbol_valuation name m s) φ
      = ((List.range a.length).map
          (fun i => (a.getD i 0 - m.getD i 0) * s.getD i 0)).sum := by
  rw [eval_flatten_args_literals [] env name a (fun _ _ => ⟨rfl, rfl⟩), address]
  congr 1
  apply List.map_congr_left
  intro i hi
  have hi := List.mem_range.mp hi
  rw [symbol_valuation_min name m s i (by omega), symbol_valuation_stride name m s i (by omega)]

namespace FlattenDimensions

/-- C3: for the same coordinates and under the same valuation of the minimum and stride
symbols, the address of the internal strategy (name present in the environment) and
the address of the external strategy (name absent) are worth the same integer, the sum
of `(a_i - m_i) * s_i`; in particular for all lists of `k` integer coordinates `a`,
minimums `m` and strides `s`. -/
theorem internal_external_same_address (scope : Scope) (env_in env_ex : Env)
    (name : String) (args : List Expr) (f : Function) (ρ : String → Int)
    (φ : Expr → Int) (h_in : env_in name = some f) (h_ex : env_ex name = none) :
    (flatten_args scope env_in name args).eval ρ φ
        = (flatten_args scope env_ex name args).eval ρ φ
    ∧ (flatten_args scope env_ex name args).eval ρ φ
        = ∑ i : Fin args.length,
            ((args.get i).eval ρ φ - ρ (min_name scope name i))
              * ρ (stride_name scope name i)
    ∧ (∀ (a m s : List Int), m.length = a.length → s.length = a.length →
        (flatten_args [] env_in name (a.map Expr.IntImm)).eval (symbol_valuation name m s) φ
            = ((List.range a.length).map
                (fun i => (a.getD i 0 - m.getD i 0) * s.getD i 0)).sum
        ∧ (flatten_args [] env_ex name (a.map Expr.IntImm)).eval (symbol_valuation name m s) φ
            = ((List.range a.length).map
                (fun i => (a.getD i 0 - m.getD i 0) * s.getD i 0)).sum) := by
  have h := eval_external_loop scope name ρ φ args 0 (Expr.IntImm 0) (Expr.IntImm 0)
  have key : (flatten_args scope env_ex name args).eval ρ φ
        = ∑ i : Fin args.length,
            ((args.get i).eval ρ φ - ρ (min_name scope name i))
              * ρ (stride_name scope name i) := by
    simp only [flatten_args, h_ex, Option.isSome_none, Bool.false_eq_true, if_false,
      Expr.eval, h.1, h.2, Nat.zero_add, Int.zero_add, ← Finset.sum_sub_distrib]
    exact Finset.sum_congr rfl (fun i _ => by ring)
  refine ⟨?_, key, fun a m s hm hs =>
    ⟨eval_flatten_args_lists env_in name a m s hm hs φ,
      eval_flatten_args_lists env_ex name a m s hm hs φ⟩⟩
  rw [key]
  simp only [flatten_args, h_in, Option.isSome_some, if_true, eval_internal_loop,
    Expr.eval, Nat.zero_add, Int.zero_add]

end FlattenDimensions

/-! ## The state of the visitors at a position -/

namespace FlattenDimensions

/-- The statement visitor leaves the scope as it found it. -/
theorem mutateStmt_scope (env : Env) :
    ∀ (s : Stmt) (scope : Scope) (out : Stmt) (scope1 : Scope),
      mutateStmt env scope s = some (out, scope1) → scope1 = scope
  | .undef, scope, out, scope1, h => by
    simp only [mutateStmt, Option.some.injEq, Prod.mk.injEq] at h
    exact h.2.symm
  | .LetStmt name value body, scope, out, scope1, h => by
    simp only [mutateStmt] at h
    split at h
    · simp at h
    · rename_i b1 s1 h1
      simp only [Option.some.injEq, Prod.mk.injEq] at h
      have ih := mutateStmt_scope env body _ b1 s1 h1
      rw [← h.2, ih]
      by_cases hc : ends_with name ".constrained" = true
      · simp [hc, CreateKernelLoads.pop_push]
      · simp [hc]
  | .For name min extent ft body, scope, out, scope1, h => by
    simp only [mutateStmt] at h
    split at h
    · simp at h
    · rename_i b1 s1 h1
      simp only [Option.some.injEq, Prod.mk.injEq] at h
      rw [← h.2]
      exact mutateStmt_scope env body _ b1 s1 h1
  | .Provide name values args, scope, out, scope1, h => by
    simp only [mutateStmt, Option.some.injEq, Prod.mk.injEq] at h
    exact h.2.symm
  | .Realize name types bounds body, scope, out, scope1, h => by
    simp only [mutateStmt] at h
    split at h
    · simp at h
    · rename_i b1 s1 h1
      split at h
      · simp at h
      · rename_i o1 h2
        simp only [Option.some.injEq, Prod.mk.injEq] at h
        rw [← h.2]
        exact mutateStmt_scope env body _ _ _ h1
  | .Store name value index, scope, out, scope1, h => by
    simp only [mutateStmt, Option.some.injEq, Prod.mk.injEq] at h
    exact h.2.symm
  | .StoreArgs name value args, scope, out, scope1, h => by
    simp only [mutateStmt, Option.some.injEq, Prod.mk.injEq] at h
    exact h.2.symm
  | .Allocate name t extents body, scope, out, scope1, h => by
    simp only [mutateStmt] at h
    split at h
    · simp at h
    · rename_i b1 s1 h1
      simp only [Option.some.injEq, Prod.mk.injEq] at h
      rw [← h.2]
      exact mutateStmt_scope env body _ b1 s1 h1
  | .Block first rest, scope, out, scope1, h => by
    simp only [mutateStmt] at h
    split at h
    · simp at h
    · rename_i f1 s1 h1
      split at h
      · simp at h
      · rename_i r1 s2 h2
        simp only [Option.some.injEq, Prod.mk.injEq] at h
        rw [← h.2, mutateStmt_scope env rest _ _ _ h2]
        exact mutateStmt_scope env first _ _ _ h1

end FlattenDimensions

namespace CreateKernelLoads

/-- The statement visitor leaves the scope and the flag as it found them. -/
theorem mutateStmt_state : ∀ (s : Stmt) (st : State), (mutateStmt st s).2 = st
  | .undef, st => by simp [mutateStmt]
  | .LetStmt name value body, st => by
    by_cases hc : ends_with name ".constrained" = true
    · simp [mutateStmt, hc, mutateStmt_state body, pop_push]
    · simp [mutateStmt, hc, mutateStmt_state body]
  | .For name min extent for_type body, st => by
    by_cases hk : for_type = ForType.Kernel
    · simp [mutateStmt, hk, mutateStmt_state body]
    · simp [mutateStmt, hk, mutateStmt_state body]
  | .Provide name values args, st => by
    by_cases hk : st.inside_kernel_loop = true
    · simp [mutateStmt, hk]
    · simp [mutateStmt, hk]
  | .Realize name types bounds body, st => by simp [mutateStmt, mutateStmt_state body]
  | .Store name value index, st => by simp [mutateStmt]
  | .StoreArgs name value args, st => by simp [mutateStmt]
  | .Allocate name t extents body, st => by simp [mutateStmt, mutateStmt_state body]
  | .Block first rest, st => by
    simp [mutateStmt, mutateStmt_state first, mutateStmt_state rest]

end CreateKernelLoads

theorem fill_fill (c1 c2 : StmtCtx) : ∃ c : StmtCtx, ∀ s, c.fill s = c1.fill (c2.fill s) := by
  induction c1 with
  | hole => exact ⟨c2, fun _ => rfl⟩
  | LetStmt name value c ih =>
    obtain ⟨c3, h⟩ := ih
    exact ⟨.LetStmt name value c3, fun s => by simp [StmtCtx.fill, h]⟩
  | For name min extent ft c ih =>
    obtain ⟨c3, h⟩ := ih
    exact ⟨.For name min extent ft c3, fun s => by simp [StmtCtx.fill, h]⟩
  | Realize name types bounds c ih =>
    obtain ⟨c3, h⟩ := ih
    exact ⟨.Realize name types bounds c3, fun s => by simp [StmtCtx.fill, h]⟩
  | Allocate name t extents c ih =>
    obtain ⟨c3, h⟩ := ih
    exact ⟨.Allocate name t extents c3, fun s => by simp [StmtCtx.fill, h]⟩
  | BlockFirst c rest ih =>
    obtain ⟨c3, h⟩ := ih
    exact ⟨.BlockFirst c3 rest, fun s => by simp [StmtCtx.fill, h]⟩
  | BlockRest first c ih =>
    obtain ⟨c3, h⟩ := ih
    exact ⟨.BlockRest first c3, fun s => by simp [StmtCtx.fill, h]⟩

theorem markers_LetStmt (name : String) (value : Expr) (c : StmtCtx) :
    (StmtCtx.LetStmt name value c).markers
      = c.markers ++ (if ends_with name ".constrained" then [(name, (0 : Int))] else []) := by
  by_cases h : ends_with name ".constrained" = true
  · simp [StmtCtx.markers, StmtCtx.binders, List.filter_append, h]
  · simp [StmtCtx.markers, StmtCtx.binders, List.filter_append, h]

namespace FlattenDimensions

theorem bounds_loop_wraps (bn : String) (bounds : List Range) :
    ∀ (i : Nat) (stmt : Stmt), ∃ c : StmtCtx, bounds_loop bn bounds i stmt = c.fill stmt := by
  induction bounds with
  | nil => intro i stmt; exact ⟨.hole, rfl⟩
  | cons b rest ih =>
    intro i stmt
    obtain ⟨c, h⟩ := ih (i + 1) stmt
    exact ⟨.LetStmt _ b.extent (.LetStmt _ b.min c), by rw [bounds_loop, h]; rfl⟩

theorem stride_loop_wraps (p : List Nat) (sn : List String) (sv ev : List Expr) :
    ∀ (i : Nat) (stmt out : Stmt), stride_loop p sn sv ev i stmt = some out →
      ∃ c : StmtCtx, out = c.fill stmt := by
  intro i
  induction i with
  | zero =>
    intro stmt out h
    simp only [stride_loop, Option.some.injEq] at h
    exact ⟨.hole, h.symm⟩
  | succ i ih =>
    intro stmt out h
    rw [stride_loop] at h
    split at h
    · split at h
      · obtain ⟨c, hc⟩ := ih _ _ h
        obtain ⟨c2, h2⟩ := fill_fill c (.LetStmt _ _ .hole)
        exact ⟨c2, by rw [hc, h2]; rfl⟩
      · simp at h
    · simp at h

theorem innermost_stride_wraps (p : List Nat) (sn : List String) (dims : Nat)
    (stmt out : Stmt) (h : innermost_stride p sn dims stmt = some out) :
    ∃ c : StmtCtx, out = c.fill stmt := by
  unfold innermost_stride at h
  split at h
  · simp only [] at h
    split at h
    · simp only [Option.some.injEq] at h
      exact ⟨.LetStmt _ _ .hole, h.symm⟩
    · simp at h
  · simp only [Option.some.injEq] at h
    exact ⟨.hole, h.symm⟩

theorem realize_buffer_wraps (name : String) (n : Nat) (bounds : List Range)
    (extents : List Expr) (p : List Nat) (mk : Bool) (idx : Nat) (t : IRType)
    (stmt out : Stmt) (h : realize_buffer name n bounds extents p mk idx t stmt = some out) :
    ∃ c : StmtCtx, out = c.fill stmt := by
  unfold realize_buffer at h
  simp only [] at h
  split at h
  · simp at h
  · rename_i s1 h1
    split at h
    · simp at h
    · rename_i s2 h2
      simp only [Option.some.injEq] at h
      obtain ⟨c1, e1⟩ := stride_loop_wraps _ _ _ _ _ _ _ h1
      obtain ⟨c2, e2⟩ := innermost_stride_wraps _ _ _ _ _ h2
      obtain ⟨c3, e3⟩ := bounds_loop_wraps (buffer_name name n idx) bounds 0 s2
      obtain ⟨c0, e0⟩ : ∃ c0 : StmtCtx,
          (if mk = true then
            Stmt.LetStmt (buffer_name name n idx ++ ".buffer")
              (Expr.Call Handle "create_buffer_t"
                (buffer_t_args t (vars (min_names (buffer_name name n idx) bounds.length))
                  (vars (extent_names (buffer_name name n idx) bounds.length))
                  (vars (stride_names (buffer_name name n idx) bounds.length)))
                CallType.Intrinsic 0 0 none none)
              (Stmt.Allocate (buffer_name name n idx) t.promote extents stmt)
          else Stmt.Allocate (buffer_name name n idx) t.promote extents stmt)
            = c0.fill stmt := by
        by_cases hm : mk = true
        · exact ⟨.LetStmt _ _ (.Allocate _ _ _ .hole), by rw [if_pos hm]; rfl⟩
        · exact ⟨.Allocate _ _ _ .hole, by rw [if_neg hm]; rfl⟩
      rw [e0] at e1
      obtain ⟨c4, e4⟩ := fill_fill c1 c0
      obtain ⟨c5, e5⟩ := fill_fill c2 c4
      obtain ⟨c6, e6⟩ := fill_fill c3 c5
      exact ⟨c6, by rw [← h, e3, e2, e1, e6, e5, e4]⟩

theorem realize_loop_wraps (name : String) (n : Nat) (bounds : List Range)
    (extents : List Expr) (p : List Nat) (mks : List Bool) (types : List IRType) :
    ∀ (idx : Nat) (stmt out : Stmt),
      realize_loop name n bounds extents p mks types idx stmt = some out →
      ∃ c : StmtCtx, out = c.fill stmt := by
  induction types with
  | nil =>
    intro idx stmt out h
    simp only [realize_loop, Option.some.injEq] at h
    exact ⟨.hole, h.symm⟩
  | cons t rest ih =>
    intro idx stmt out h
    rw [realize_loop] at h
    split at h
    · simp at h
    · rename_i s1 h1
      obtain ⟨c1, e1⟩ := realize_buffer_wraps _ _ _ _ _ _ _ _ _ _ h1
      obtain ⟨c2, e2⟩ := ih _ _ _ h
      obtain ⟨c3, e3⟩ := fill_fill c2 c1
      exact ⟨c3, by rw [e2, e1, e3]⟩

theorem visit_Realize_wraps (env : Env) (scope : Scope) (name : String)
    (types : List IRType) (bounds : List Range) (body out : Stmt)
    (h : visit_Realize env scope name types bounds body = some out) :
    ∃ c : StmtCtx, out = c.fill body := by
  unfold visit_Realize at h
  simp only [] at h
  split at h
  · simp at h
  · split at h
    · simp at h
    · split at h
      · exact realize_loop_wraps _ _ _ _ _ _ _ _ _ _ h
      · simp at h

/-- The statement at a position of a program the dimension flattener lowers is lowered
with the scope at that position: the entries of the constrained bindings around it on
top of the scope the lowering started with; its lowering stands at a position of the
output. -/
theorem mutateStmt_fill (env : Env) (s : Stmt) :
    ∀ (c : StmtCtx) (scope : Scope) (out : Stmt) (scope1 : Scope),
      mutateStmt env scope (c.fill s) = some (out, scope1) →
      ∃ (out_s : Stmt) (c1 : StmtCtx),
        mutateStmt env (c.markers ++ scope) s = some (out_s, c.markers ++ scope)
        ∧ out = c1.fill out_s
  | .hole, scope, out, scope1, h => by
    have hs := mutateStmt_scope env _ _ _ _ h
    rw [hs] at h
    exact ⟨out, .hole, by simpa [StmtCtx.markers, StmtCtx.binders, StmtCtx.fill] using h, rfl⟩
  | .LetStmt name value c, scope, out, scope1, h => by
    simp only [StmtCtx.fill, mutateStmt] at h
    split at h
    · simp at h
    · rename_i b1 s1 h1
      simp only [Option.some.injEq, Prod.mk.injEq] at h
      obtain ⟨out_s, c1, h2, h3⟩ := mutateStmt_fill env s c _ _ _ h1
      refine ⟨out_s, .LetStmt name _ c1, ?_, by rw [← h.1, h3]; rfl⟩
      rw [markers_LetStmt, List.append_assoc]
      by_cases hc : ends_with name ".constrained" = true
      · simpa [hc, Scope.push] using h2
      · simpa [hc] using h2
  | .For name min extent ft c, scope, out, scope1, h => by
    simp only [StmtCtx.fill, mutateStmt] at h
    split at h
    · simp at h
    · rename_i b1 s1 h1
      simp only [Option.some.injEq, Prod.mk.injEq] at h
      obtain ⟨out_s, c1, h2, h3⟩ := mutateStmt_fill env s c _ _ _ h1
      exact ⟨out_s, .For name _ _ ft c1, h2, by rw [← h.1, h3]; rfl⟩
  | .Realize name types bounds c, scope, out, scope1, h => by
    simp only [StmtCtx.fill, mutateStmt] at h
    split at h
    · simp at h
    · rename_i b1 s1 h1
      split at h
      · simp at h
      · rename_i o1 h4
        simp only [Option.some.injEq, Prod.mk.injEq] at h
        obtain ⟨out_s, c1, h2, h3⟩ := mutateStmt_fill env s c _ _ _ h1
        obtain ⟨c2, e2⟩ := visit_Realize_wraps _ _ _ _ _ _ _ h4
        obtain ⟨c3, e3⟩ := fill_fill c2 c1
        exact ⟨out_s, c3, h2, by rw [← h.1, e2, h3, e3]⟩
  | .Allocate name t extents c, scope, out, scope1, h => by
    simp only [StmtCtx.fill, mutateStmt] at h
    split at h
    · simp at h
    · rename_i b1 s1 h1
      simp only [Option.some.injEq, Prod.mk.injEq] at h
      obtain ⟨out_s, c1, h2, h3⟩ := mutateStmt_fill env s c _ _ _ h1
      exact ⟨out_s, .Allocate name t _ c1, h2, by rw [← h.1, h3]; rfl⟩
  | .BlockFirst c rest, scope, out, scope1, h => by
    simp only [StmtCtx.fill, mutateStmt] at h
    split at h
    · simp at h
    · rename_i f1 s1 h1
      split at h
      · simp at h
      · rename_i r1 s2 h5
        simp only [Option.some.injEq, Prod.mk.injEq] at h
        obtain ⟨out_s, c1, h2, h3⟩ := mutateStmt_fill env s c _ _ _ h1
        exact ⟨out_s, .BlockFirst c1 r1, h2, by rw [← h.1, h3]; rfl⟩
  | .BlockRest first c, scope, out, scope1, h => by
    simp only [StmtCtx.fill, mutateStmt] at h
    split at h
    · simp at h
    · rename_i f1 s1 h1
      split at h
      · simp at h
      · rename_i r1 s2 h5
        simp only [Option.some.injEq, Prod.mk.injEq] at h
        have hs := mutateStmt_scope env _ _ _ _ h1
        rw [hs] at h5
        obtain ⟨out_s, c1, h2, h3⟩ := mutateStmt_fill env s c _ _ _ h5
        exact ⟨out_s, .BlockRest f1 c1, h2, by rw [← h.1, h3]; rfl⟩

end FlattenDimensions

namespace CreateKernelLoads

/-- The statement at a position of a program the kernel rewriter visits is visited with
the state at that position: the entries of the constrained bindings around it on top of
the scope the visit started with, and the flag set when it was set at the start or a
loop of the device-kernel kind is around the position; its rewriting stands at a
position of the output. -/
theorem kernel_mutateStmt_fill (s : Stmt) :
    ∀ (c : StmtCtx) (st : State),
      ∃ c1 : StmtCtx,
        (mutateStmt st (c.fill s)).1
          = c1.fill (mutateStmt
              ⟨c.markers ++ st.scope, st.inside_kernel_loop || c.in_kernel_loop⟩ s).1
  | .hole, st => ⟨.hole, by simp [StmtCtx.markers, StmtCtx.binders, StmtCtx.fill,
      StmtCtx.in_kernel_loop]⟩
  | .LetStmt name value c, st => by
    by_cases hc : ends_with name ".constrained" = true
    · obtain ⟨c1, h⟩ := kernel_mutateStmt_fill s c { st with scope := st.scope.push name 0 }
      refine ⟨.LetStmt name (mutateExpr { st with scope := st.scope.push name 0 } value) c1, ?_⟩
      simp only [StmtCtx.fill, mutateStmt, hc, if_true, h, markers_LetStmt,
        StmtCtx.in_kernel_loop, List.append_assoc]
      rfl
    · obtain ⟨c1, h⟩ := kernel_mutateStmt_fill s c st
      refine ⟨.LetStmt name (mutateExpr st value) c1, ?_⟩
      have hc2 : ends_with name ".constrained" = false := by simpa using hc
      simp only [StmtCtx.fill, mutateStmt, hc2, h, markers_LetStmt,
        StmtCtx.in_kernel_loop, List.append_nil, Bool.false_eq_true, if_false]
  | .For name min extent ft c, st => by
    by_cases hk : ft = ForType.Kernel
    · obtain ⟨c1, h⟩ := kernel_mutateStmt_fill s c { st with inside_kernel_loop := true }
      refine ⟨.For name (mutateExpr { st with inside_kernel_loop := true } min)
        (mutateExpr { st with inside_kernel_loop := true } extent) ft c1, ?_⟩
      simp only [StmtCtx.fill, mutateStmt, hk, if_true, h, StmtCtx.in_kernel_loop,
        StmtCtx.markers, StmtCtx.binders, decide_True, Bool.true_or, Bool.or_true]
    · obtain ⟨c1, h⟩ := kernel_mutateStmt_fill s c st
      refine ⟨.For name (mutateExpr st min) (mutateExpr st extent) ft c1, ?_⟩
      simp only [StmtCtx.fill, mutateStmt, hk, if_false, h, StmtCtx.in_kernel_loop,
        StmtCtx.markers, StmtCtx.binders, decide_False, Bool.false_or]
  | .Realize name types bounds c, st => by
    obtain ⟨c1, h⟩ := kernel_mutateStmt_fill s c st
    exact ⟨.Realize name types
      (bounds.map (fun b => Range.mk (mutateExpr st b.min) (mutateExpr st b.extent))) c1,
      by simp only [StmtCtx.fill, mutateStmt, h, StmtCtx.in_kernel_loop, StmtCtx.markers,
        StmtCtx.binders]⟩
  | .Allocate name t extents c, st => by
    obtain ⟨c1, h⟩ := kernel_mutateStmt_fill s c st
    exact ⟨.Allocate name t (mutateExprs st extents) c1,
      by simp only [StmtCtx.fill, mutateStmt, h, StmtCtx.in_kernel_loop, StmtCtx.markers,
        StmtCtx.binders]⟩
  | .BlockFirst c rest, st => by
    obtain ⟨c1, h⟩ := kernel_mutateStmt_fill s c st
    exact ⟨.BlockFirst c1 (mutateStmt (mutateStmt st (c.fill s)).2 rest).1,
      by simp only [StmtCtx.fill, mutateStmt, h, StmtCtx.in_kernel_loop, StmtCtx.markers,
        StmtCtx.binders]⟩
  | .BlockRest first c, st => by
    obtain ⟨c1, h⟩ := kernel_mutateStmt_fill s c st
    exact ⟨.BlockRest (mutateStmt st first).1 c1,
      by simp only [StmtCtx.fill, mutateStmt, mutateStmt_state, h, StmtCtx.in_kernel_loop,
        StmtCtx.markers, StmtCtx.binders]⟩

end CreateKernelLoads

/-! ## Names of constrained symbols -/

theorem append_right_cancel {a b s : String} (h : a ++ s = b ++ s) : a = b := by
  have := congrArg String.data h
  simp only [String.data_append, List.append_cancel_right_eq] at this
  exact String.ext this

/-- A name that ends in a dot and a decimal numeral splits at its last dot. -/
theorem split_at_last_dot (l1 l2 : List Char) (i j : Nat)
    (h : l1 ++ '.' :: (int_to_string i).data = l2 ++ '.' :: (int_to_string j).data) :
    l1 = l2 ∧ i = j := by
  have hr := congrArg List.reverse h
  simp only [List.reverse_append, List.reverse_cons, List.append_assoc, List.singleton_append]
    at hr
  have hd := append_cons_left_inj _ _ _ _
    (fun m => int_to_string_no_dot i _ (List.mem_reverse.mp m) rfl)
    (fun m => int_to_string_no_dot j _ (List.mem_reverse.mp m) rfl) hr
  have hij : i = j := int_to_string_injective (String.ext (List.reverse_injective hd))
  subst hij
  exact ⟨by simpa using h, rfl⟩

theorem min_names_inj {b1 b2 : String} {i j : Nat}
    (h : b1 ++ ".min." ++ int_to_string i = b2 ++ ".min." ++ int_to_string j) :
    b1 = b2 ∧ i = j := by
  have hd := congrArg String.data h
  simp only [String.data_append] at hd
  have hs := split_at_last_dot (b1.data ++ ".min".data) (b2.data ++ ".min".data) i j
    (by simpa using hd)
  exact ⟨String.ext (by simpa using hs.1), hs.2⟩

theorem stride_names_inj {b1 b2 : String} {i j : Nat}
    (h : b1 ++ ".stride." ++ int_to_string i = b2 ++ ".stride." ++ int_to_string j) :
    b1 = b2 ∧ i = j := by
  have hd := congrArg String.data h
  simp only [String.data_append] at hd
  have hs := split_at_last_dot (b1.data ++ ".stride".data) (b2.data ++ ".stride".data) i j
    (by simpa using hd)
  exact ⟨String.ext (by simpa using hs.1), hs.2⟩

theorem extent_names_inj {b1 b2 : String} {i j : Nat}
    (h : b1 ++ ".extent." ++ int_to_string i = b2 ++ ".extent." ++ int_to_string j) :
    b1 = b2 ∧ i = j := by
  have hd := congrArg String.data h
  simp only [String.data_append] at hd
  have hs := split_at_last_dot (b1.data ++ ".extent".data) (b2.data ++ ".extent".data) i j
    (by simpa using hd)
  exact ⟨String.ext (by simpa using hs.1), hs.2⟩

theorem min_ne_stride_names (b1 b2 : String) (i j : Nat) :
    b1 ++ ".min." ++ int_to_string i ≠ b2 ++ ".stride." ++ int_to_string j := by
  intro h
  have hd := congrArg String.data h
  simp only [String.data_append] at hd
  have hs := split_at_last_dot (b1.data ++ ".min".data) (b2.data ++ ".stride".data) i j
    (by simpa using hd)
  have hr := congrArg List.reverse hs.1
  simp at hr

theorem min_ne_extent_names (b1 b2 : String) (i j : Nat) :
    b1 ++ ".min." ++ int_to_string i ≠ b2 ++ ".extent." ++ int_to_string j := by
  intro h
  have hd := congrArg String.data h
  simp only [String.data_append] at hd
  have hs := split_at_last_dot (b1.data ++ ".min".data) (b2.data ++ ".extent".data) i j
    (by simpa using hd)
  have hr := congrArg List.reverse hs.1
  simp at hr

theorem ends_with_append (a s : String) : ends_with (a ++ s) s = true := by
  simp [ends_with, String.data_append]

theorem ne_append_constrained (a : String) : a ++ ".constrained" ≠ a := by
  intro h
  have := congrArg String.length h
  simp [String.length_append] at this
  revert this
  decide

theorem contains_append (s1 s2 : Scope) (x : String) :
    Scope.contains (s1 ++ s2) x = (Scope.contains s1 x || Scope.contains s2 x) := by
  simp [Scope.contains, List.any_append]

theorem contains_push (s : Scope) (n x : String) (v : Int) :
    Scope.contains (s.push n v) x = (decide (n = x) || Scope.contains s x) := by
  simp only [Scope.contains, Scope.push, List.any_cons]
  congr 1

theorem contains_markers (c : StmtCtx) (x : String) :
    Scope.contains c.markers x = true ↔ x ∈ c.binders ∧ ends_with x ".constrained" = true := by
  simp [Scope.contains, StmtCtx.markers, List.any_eq_true]

/-! ## Constrained shadowing -/

namespace FlattenDimensions

/-- A statement in the body of a binding whose name ends in `.constrained` is lowered
with a scope that contains that name. -/
theorem mutateStmt_in_binding (env : Env) (nm : String) (value : Expr) (c : StmtCtx)
    (s : Stmt) (scope : Scope) (out : Stmt) (scope1 : Scope)
    (hc : ends_with nm ".constrained" = true)
    (h : mutateStmt env scope (Stmt.LetStmt nm value (c.fill s)) = some (out, scope1)) :
    ∃ (out_s : Stmt) (c1 : StmtCtx),
      out = Stmt.LetStmt nm (mutateExpr env (scope.push nm 0) value) (c1.fill out_s)
      ∧ mutateStmt env (c.markers ++ scope.push nm 0) s
          = some (out_s, c.markers ++ scope.push nm 0)
      ∧ Scope.contains (c.markers ++ scope.push nm 0) nm = true := by
  simp only [mutateStmt, hc, if_true] at h
  split at h
  · simp at h
  · rename_i b1 s1 h1
    simp only [Option.some.injEq, Prod.mk.injEq] at h
    obtain ⟨out_s, c1, h2, h3⟩ := mutateStmt_fill env s c _ _ _ h1
    refine ⟨out_s, c1, by rw [← h.1, h3], h2, ?_⟩
    rw [contains_append, contains_push]
    simp

/-- A statement of a whole program that no binding named `nm` encloses is lowered with
a scope that does not contain `nm`. -/
theorem mutate_outside_binding (env : Env) (nm : String) (c : StmtCtx) (s : Stmt)
    (out : Stmt) (hn : nm ∉ c.binders) (h : mutate env (c.fill s) = some out) :
    ∃ (out_s : Stmt) (c1 : StmtCtx),
      out = c1.fill out_s
      ∧ mutateStmt env c.markers s = some (out_s, c.markers)
      ∧ Scope.contains c.markers nm = false := by
  unfold mutate at h
  cases hm : mutateStmt env [] (c.fill s) with
  | none => rw [hm] at h; simp at h
  | some r =>
    obtain ⟨o, sc⟩ := r
    rw [hm] at h
    simp only [Option.map_some', Option.some.injEq] at h
    obtain ⟨out_s, c1, h2, h3⟩ := mutateStmt_fill env s c _ _ _ hm
    rw [List.append_nil] at h2
    refine ⟨out_s, c1, by rw [← h, h3], h2, ?_⟩
    cases hcm : Scope.contains c.markers nm with
    | false => rfl
    | true => exact absurd ((contains_markers c nm).mp hcm).1 hn

end FlattenDimensions

namespace CreateKernelLoads

/-- A statement in the body of a binding whose name ends in `.constrained` is visited
with a scope that contains that name. -/
theorem kernel_mutateStmt_in_binding (nm : String) (value : Expr) (c : StmtCtx) (s : Stmt)
    (st : State) (hc : ends_with nm ".constrained" = true) :
    ∃ c1 : StmtCtx,
      (mutateStmt st (Stmt.LetStmt nm value (c.fill s))).1
        = Stmt.LetStmt nm (mutateExpr { st with scope := st.scope.push nm 0 } value)
            (c1.fill (mutateStmt
              ⟨c.markers ++ st.scope.push nm 0, st.inside_kernel_loop || c.in_kernel_loop⟩ s).1)
      ∧ Scope.contains (c.markers ++ st.scope.push nm 0) nm = true := by
  obtain ⟨c1, h⟩ := kernel_mutateStmt_fill s c { st with scope := st.scope.push nm 0 }
  refine ⟨c1, ?_, ?_⟩
  · simp only [mutateStmt, hc, if_true, h]
  · rw [contains_append, contains_push]
    simp

/-- A statement of a whole program that no binding named `nm` encloses is visited with
a scope that does not contain `nm`. -/
theorem kernel_mutate_outside_binding (nm : String) (c : StmtCtx) (s : Stmt)
    (hn : nm ∉ c.binders) :
    ∃ c1 : StmtCtx,
      mutate (c.fill s) = c1.fill (mutateStmt ⟨c.markers, c.in_kernel_loop⟩ s).1
      ∧ Scope.contains c.markers nm = false := by
  obtain ⟨c1, h⟩ := kernel_mutateStmt_fill s c State.init
  refine ⟨c1, ?_, ?_⟩
  · unfold mutate
    rw [h]
    simp [State.init]
  · cases hcm : Scope.contains c.markers nm with
    | false => rfl
    | true => exact absurd ((contains_markers c nm).mp hcm).1 hn

end CreateKernelLoads

/-- Whether a name is in a scope does not depend on an entry of another name. -/
theorem contains_without (pre post : Scope) (nm x : String) (v : Int) (h : x ≠ nm) :
    Scope.contains (pre ++ (nm, v) :: post) x = Scope.contains (pre ++ post) x := by
  have : (nm == x) = false := by simpa using fun e => h e.symm
  simp [Scope.contains, List.any_append, List.any_cons, this]

/-- C11: for a buffer `b` and a dimension `i`.  Both visitors read the symbols of a
dimension off their scope: with the entry `b.min.i.constrained` in the scope the
minimum of dimension `i` is the variable `b.min.i.constrained`, a different name from
`b.min.i`, and without it the variable `b.min.i`; likewise `b.stride.i.constrained` in
the flattener and `b.extent.i.constrained` in the kernel rewriter.  A write and a read
lowered with a scope take their address from `flatten_args` at that scope, whose worth
is the sum of `(c_j - min_j) * stride_j` over the selected symbols, and a read
rewritten inside a device-kernel loop takes its coordinates from `kernel_coordinate` at
that scope.  A statement at any position in the body of a binding of such a constrained
name is entered with a scope that contains the name; a statement of a whole program
that no binding of that name encloses is entered with a scope that does not; a write
lowers its values and its coordinates with the scope it is entered with.  An entry for
dimension `i` of `b` leaves the symbol selected for every other dimension, every other
buffer and every other kind as it is without the entry. -/
theorem constrained_shadowing (env : Env) (b : String) (i : Nat) :
    (∀ scope : Scope,
      (scope.contains (b ++ ".min." ++ int_to_string i ++ ".constrained") = true →
        FlattenDimensions.mins scope b i
          = Expr.Variable (Int_ 32) (b ++ ".min." ++ int_to_string i ++ ".constrained"))
      ∧ (scope.contains (b ++ ".min." ++ int_to_string i ++ ".constrained") = false →
        FlattenDimensions.mins scope b i
          = Expr.Variable (Int_ 32) (b ++ ".min." ++ int_to_string i))
      ∧ (scope.contains (b ++ ".stride." ++ int_to_string i ++ ".constrained") = true →
        FlattenDimensions.strides scope b i
          = Expr.Variable (Int_ 32) (b ++ ".stride." ++ int_to_string i ++ ".constrained"))
      ∧ (scope.contains (b ++ ".stride." ++ int_to_string i ++ ".constrained") = false →
        FlattenDimensions.strides scope b i
          = Expr.Variable (Int_ 32) (b ++ ".stride." ++ int_to_string i)))
    ∧ (∀ scope : Scope,
      (scope.contains (b ++ ".min." ++ int_to_string i ++ ".constrained") = true →
        CreateKernelLoads.min_name scope b i
          = b ++ ".min." ++ int_to_string i ++ ".constrained")
      ∧ (scope.contains (b ++ ".min." ++ int_to_string i ++ ".constrained") = false →
        CreateKernelLoads.min_name scope b i = b ++ ".min." ++ int_to_string i)
      ∧ (scope.contains (b ++ ".extent." ++ int_to_string i ++ ".constrained") = true →
        CreateKernelLoads.extent_name scope b i
          = b ++ ".extent." ++ int_to_string i ++ ".constrained")
      ∧ (scope.contains (b ++ ".extent." ++ int_to_string i ++ ".constrained") = false →
        CreateKernelLoads.extent_name scope b i = b ++ ".extent." ++ int_to_string i))
    ∧ (b ++ ".min." ++ int_to_string i ++ ".constrained" ≠ b ++ ".min." ++ int_to_string i
      ∧ b ++ ".stride." ++ int_to_string i ++ ".constrained"
          ≠ b ++ ".stride." ++ int_to_string i
      ∧ b ++ ".extent." ++ int_to_string i ++ ".constrained"
          ≠ b ++ ".extent." ++ int_to_string i)
    ∧ (∀ (scope : Scope) (v : Expr) (args : List Expr),
        FlattenDimensions.mutateStmt env scope (Stmt.Provide b [v] args)
          = some (Stmt.Store b (promote_value (FlattenDimensions.mutateExpr env scope v))
              (FlattenDimensions.mutateExpr env scope
                (FlattenDimensions.flatten_args scope env b args)), scope))
    ∧ (∀ (scope : Scope) (t : IRType) (name : String) (args : List Expr) (ct : CallType)
        (outs vi : Nat) (img prm : Option String),
        (ct = CallType.Halide ∨ ct = CallType.Image) → call_name name ct outs vi = b →
        ∃ wrap : Expr → Expr, (wrap = id ∨ wrap = Expr.Cast t) ∧
          FlattenDimensions.mutateExpr env scope (Expr.Call t name args ct outs vi img prm)
            = wrap (Expr.Load t.promote b
                (FlattenDimensions.mutateExpr env scope
                  (FlattenDimensions.flatten_args scope env b args)) img prm))
    ∧ (∀ (scope : Scope) (args : List Expr) (ρ : String → Int) (φ : Expr → Int),
        (FlattenDimensions.flatten_args scope env b args).eval ρ φ
          = ∑ j : Fin args.length,
              ((args.get j).eval ρ φ - ρ (FlattenDimensions.min_name scope b j))
                * ρ (FlattenDimensions.stride_name scope b j))
    ∧ (∀ (st : CreateKernelLoads.State) (t : IRType) (name : String) (args : List Expr)
        (ct : CallType) (outs vi : Nat) (img prm : Option String),
        st.inside_kernel_loop = true → call_name name ct outs vi = b →
        CreateKernelLoads.mutateExpr st (Expr.Call t name args ct outs vi img prm)
          = Expr.LoadArgs t b
              (List.ofFn (fun j : Fin args.length =>
                CreateKernelLoads.kernel_coordinate st.scope b j (args.get j))) img prm)
    ∧ (∀ (scope : Scope) (c : Expr),
        CreateKernelLoads.kernel_coordinate scope b i c
          = if i < 2 then
              Expr.Div
                (Expr.Add
                  (Expr.Cast (Float_ 32)
                    (Expr.Sub c
                      (Expr.Variable (Int_ 32) (CreateKernelLoads.min_name scope b i))))
                  (Expr.FloatImm (1 / 2)))
                (Expr.Cast (Float_ 32)
                  (Expr.Variable (Int_ 32) (CreateKernelLoads.extent_name scope b i)))
            else Expr.Sub c (Expr.Variable (Int_ 32) (CreateKernelLoads.min_name scope b i)))
    ∧ (∀ nm ∈ [b ++ ".min." ++ int_to_string i ++ ".constrained",
          b ++ ".stride." ++ int_to_string i ++ ".constrained"],
        ∀ (value : Expr) (c : StmtCtx) (s : Stmt) (scope : Scope) (out : Stmt)
          (scope1 : Scope),
          FlattenDimensions.mutateStmt env scope (Stmt.LetStmt nm value (c.fill s))
            = some (out, scope1) →
          ∃ (out_s : Stmt) (c1 : StmtCtx),
            out = Stmt.LetStmt nm (FlattenDimensions.mutateExpr env (scope.push nm 0) value)
              (c1.fill out_s)
            ∧ FlattenDimensions.mutateStmt env (c.markers ++ scope.push nm 0) s
                = some (out_s, c.markers ++ scope.push nm 0)
            ∧ Scope.contains (c.markers ++ scope.push nm 0) nm = true)
    ∧ (∀ nm ∈ [b ++ ".min." ++ int_to_string i ++ ".constrained",
          b ++ ".extent." ++ int_to_string i ++ ".constrained"],
        ∀ (value : Expr) (c : StmtCtx) (s : Stmt) (st : CreateKernelLoads.State),
          ∃ c1 : StmtCtx,
            (CreateKernelLoads.mutateStmt st (Stmt.LetStmt nm value (c.fill s))).1
              = Stmt.LetStmt nm
                  (CreateKernelLoads.mutateExpr { st with scope := st.scope.push nm 0 } value)
                  (c1.fill (CreateKernelLoads.mutateStmt
                    ⟨c.markers ++ st.scope.push nm 0,
                      st.inside_kernel_loop || c.in_kernel_loop⟩ s).1)
            ∧ Scope.contains (c.markers ++ st.scope.push nm 0) nm = true)
    ∧ (∀ (nm : String) (c : StmtCtx) (s out : Stmt), nm ∉ c.binders →
        FlattenDimensions.mutate env (c.fill s) = some out →
        ∃ (out_s : Stmt) (c1 : StmtCtx),
          out = c1.fill out_s
          ∧ FlattenDimensions.mutateStmt env c.markers s = some (out_s, c.markers)
          ∧ Scope.contains c.markers nm = false)
    ∧ (∀ (nm : String) (c : StmtCtx) (s : Stmt), nm ∉ c.binders →
        ∃ c1 : StmtCtx,
          CreateKernelLoads.mutate (c.fill s)
            = c1.fill (CreateKernelLoads.mutateStmt ⟨c.markers, c.in_kernel_loop⟩ s).1
          ∧ Scope.contains c.markers nm = false)
    ∧ (∀ (pre post : Scope) (v : Int) (b2 : String) (j : Nat),
        ((b2 ≠ b ∨ j ≠ i) →
          FlattenDimensions.min_name
              (pre ++ (b ++ ".min." ++ int_to_string i ++ ".constrained", v) :: post) b2 j
            = FlattenDimensions.min_name (pre ++ post) b2 j)
        ∧ FlattenDimensions.stride_name
              (pre ++ (b ++ ".min." ++ int_to_string i ++ ".constrained", v) :: post) b2 j
            = FlattenDimensions.stride_name (pre ++ post) b2 j
        ∧ ((b2 ≠ b ∨ j ≠ i) →
          FlattenDimensions.stride_name
              (pre ++ (b ++ ".stride." ++ int_to_string i ++ ".constrained", v) :: post) b2 j
            = FlattenDimensions.stride_name (pre ++ post) b2 j)
        ∧ FlattenDimensions.min_name
              (pre ++ (b ++ ".stride." ++ int_to_string i ++ ".constrained", v) :: post) b2 j
            = FlattenDimensions.min_name (pre ++ post) b2 j)
    ∧ (∀ (pre post : Scope) (v : Int) (b2 : String) (j : Nat),
        ((b2 ≠ b ∨ j ≠ i) →
          CreateKernelLoads.min_name
              (pre ++ (b ++ ".min." ++ int_to_string i ++ ".constrained", v) :: post) b2 j
            = CreateKernelLoads.min_name (pre ++ post) b2 j)
        ∧ CreateKernelLoads.extent_name
              (pre ++ (b ++ ".min." ++ int_to_string i ++ ".constrained", v) :: post) b2 j
            = CreateKernelLoads.extent_name (pre ++ post) b2 j
        ∧ ((b2 ≠ b ∨ j ≠ i) →
          CreateKernelLoads.extent_name
              (pre ++ (b ++ ".extent." ++ int_to_string i ++ ".constrained", v) :: post) b2 j
            = CreateKernelLoads.extent_name (pre ++ post) b2 j)
        ∧ CreateKernelLoads.min_name
              (pre ++ (b ++ ".extent." ++ int_to_string i ++ ".constrained", v) :: post) b2 j
            = CreateKernelLoads.min_name (pre ++ post) b2 j) := by
  have hmm : ∀ (b2 : String) (j : Nat), (b2 ≠ b ∨ j ≠ i) →
      b2 ++ ".min." ++ int_to_string j ++ ".constrained"
        ≠ b ++ ".min." ++ int_to_string i ++ ".constrained" := by
    intro b2 j hne e
    have := min_names_inj (append_right_cancel e)
    rcases hne with h | h
    · exact h this.1
    · exact h this.2
  have hss : ∀ (b2 : String) (j : Nat), (b2 ≠ b ∨ j ≠ i) →
      b2 ++ ".stride." ++ int_to_string j ++ ".constrained"
        ≠ b ++ ".stride." ++ int_to_string i ++ ".constrained" := by
    intro b2 j hne e
    have := stride_names_inj (append_right_cancel e)
    rcases hne with h | h
    · exact h this.1
    · exact h this.2
  have hee : ∀ (b2 : String) (j : Nat), (b2 ≠ b ∨ j ≠ i) →
      b2 ++ ".extent." ++ int_to_string j ++ ".constrained"
        ≠ b ++ ".extent." ++ int_to_string i ++ ".constrained" := by
    intro b2 j hne e
    have := extent_names_inj (append_right_cancel e)
    rcases hne with h | h
    · exact h this.1
    · exact h this.2
  have hsm : ∀ (b2 : String) (j : Nat),
      b2 ++ ".stride." ++ int_to_string j ++ ".constrained"
        ≠ b ++ ".min." ++ int_to_string i ++ ".constrained" :=
    fun b2 j e => min_ne_stride_names b b2 i j (append_right_cancel e).symm
  have hms : ∀ (b2 : String) (j : Nat),
      b2 ++ ".min." ++ int_to_string j ++ ".constrained"
        ≠ b ++ ".stride." ++ int_to_string i ++ ".constrained" :=
    fun b2 j e => min_ne_stride_names b2 b j i (append_right_cancel e)
  have hem : ∀ (b2 : String) (j : Nat),
      b2 ++ ".extent." ++ int_to_string j ++ ".constrained"
        ≠ b ++ ".min." ++ int_to_string i ++ ".constrained" :=
    fun b2 j e => min_ne_extent_names b b2 i j (append_right_cancel e).symm
  have hme : ∀ (b2 : String) (j : Nat),
      b2 ++ ".min." ++ int_to_string j ++ ".constrained"
        ≠ b ++ ".extent." ++ int_to_string i ++ ".constrained" :=
    fun b2 j e => min_ne_extent_names b2 b j i (append_right_cancel e)
  refine ⟨?_, ?_, ⟨ne_append_constrained _, ne_append_constrained _, ne_append_constrained _⟩,
    ?_, ?_, ?_, ?_, ?_, ?_, ?_, ?_, ?_, ?_, ?_⟩
  · intro scope
    refine ⟨?_, ?_, ?_, ?_⟩ <;> intro h
    · simp [FlattenDimensions.mins, FlattenDimensions.min_name, h]
    · simp [FlattenDimensions.mins, FlattenDimensions.min_name, h]
    · simp [FlattenDimensions.strides, FlattenDimensions.stride_name, h]
    · simp [FlattenDimensions.strides, FlattenDimensions.stride_name, h]
  · intro scope
    refine ⟨?_, ?_, ?_, ?_⟩ <;> intro h
    · simp [CreateKernelLoads.min_name, h]
    · simp [CreateKernelLoads.min_name, h]
    · simp [CreateKernelLoads.extent_name, h]
    · simp [CreateKernelLoads.extent_name, h]
  · intro scope v args
    simp [FlattenDimensions.mutateStmt, FlattenDimensions.visit_Provide,
      FlattenDimensions.provide_values, FlattenDimensions.mutateExprs]
  · intro scope t name args ct outs vi img prm hct hb
    have hne : ¬ (ct = CallType.Extern ∨ ct = CallType.Intrinsic) := by
      rcases hct with h | h <;> simp [h]
    by_cases hbits : t.bits ≠ t.promote.bits
    · exact ⟨Expr.Cast t, Or.inr rfl, by
        simp only [FlattenDimensions.mutateExpr, hne, if_false, hb]
        rw [if_pos hbits]⟩
    · exact ⟨id, Or.inl rfl, by
        simp only [FlattenDimensions.mutateExpr, hne, if_false, hb]
        rw [if_neg hbits]
        rfl⟩
  · intro scope args ρ φ
    exact eval_flatten_args scope env b args ρ φ
  · intro st t name args ct outs vi img prm hin hb
    simp [CreateKernelLoads.mutateExpr, hin, hb, CreateKernelLoads.kernel_idx_eq]
  · intro scope c
    rfl
  · intro nm hnm value c s scope out scope1 h
    have hc : ends_with nm ".constrained" = true := by
      simp only [List.mem_cons, List.mem_singleton, List.not_mem_nil, or_false] at hnm
      rcases hnm with e | e <;> rw [e] <;> exact ends_with_append _ _
    exact FlattenDimensions.mutateStmt_in_binding env nm value c s scope out scope1 hc h
  · intro nm hnm value c s st
    have hc : ends_with nm ".constrained" = true := by
      simp only [List.mem_cons, List.mem_singleton, List.not_mem_nil, or_false] at hnm
      rcases hnm with e | e <;> rw [e] <;> exact ends_with_append _ _
    exact CreateKernelLoads.kernel_mutateStmt_in_binding nm value c s st hc
  · intro nm c s out hn h
    exact FlattenDimensions.mutate_outside_binding env nm c s out hn h
  · intro nm c s hn
    exact CreateKernelLoads.kernel_mutate_outside_binding nm c s hn
  · intro pre post v b2 j
    refine ⟨fun hne => ?_, ?_, fun hne => ?_, ?_⟩
    · simp only [FlattenDimensions.min_name, contains_without pre post _ _ v (hmm b2 j hne)]
    · simp only [FlattenDimensions.stride_name, contains_without pre post _ _ v (hsm b2 j)]
    · simp only [FlattenDimensions.stride_name, contains_without pre post _ _ v (hss b2 j hne)]
    · simp only [FlattenDimensions.min_name, contains_without pre post _ _ v (hms b2 j)]
  · intro pre post v b2 j
    refine ⟨fun hne => ?_, ?_, fun hne => ?_, ?_⟩
    · simp only [CreateKernelLoads.min_name, contains_without pre post _ _ v (hmm b2 j hne)]
    · simp only [CreateKernelLoads.extent_name, contains_without pre post _ _ v (hem b2 j)]
    · simp only [CreateKernelLoads.extent_name, contains_without pre post _ _ v (hee b2 j hne)]
    · simp only [CreateKernelLoads.min_name, contains_without pre post _ _ v (hme b2 j)]

/-! ## Bit-width promotion -/

theorem promote_bits (t : IRType) : t.promote.bits = (t.bits + 7) / 8 * 8 := rfl

theorem promote_bits_eq_iff (t : IRType) : t.promote.bits = t.bits ↔ 8 ∣ t.bits := by
  rw [promote_bits]
  constructor
  · intro h
    exact ⟨(t.bits + 7) / 8, by omega⟩
  · rintro ⟨k, hk⟩
    omega

theorem promote_eq_self (t : IRType) (h : 8 ∣ t.bits) : t.promote = t := by
  have hb := (promote_bits_eq_iff t).mpr h
  cases t with
  | mk code bits width =>
    simp only [IRType.promote, IRType.mk.injEq, true_and, and_true]
    exact hb

theorem promote_bits_least (t : IRType) :
    8 ∣ t.promote.bits ∧ t.bits ≤ t.promote.bits
      ∧ (∀ m, 8 ∣ m → t.bits ≤ m → t.promote.bits ≤ m)
      ∧ t.promote.code = t.code ∧ t.promote.width = t.width := by
  refine ⟨⟨(t.bits + 7) / 8, by rw [promote_bits]; omega⟩, by rw [promote_bits]; omega, ?_,
    rfl, rfl⟩
  rintro m ⟨k, hk⟩ hm
  rw [promote_bits]
  omega

theorem promote_value_eq (v : Expr) :
    promote_value v = if 8 ∣ v.type.bits then v else Expr.Cast v.type.promote v := by
  unfold promote_value
  by_cases h : 8 ∣ v.type.bits
  · rw [if_pos h, if_neg (by simpa using (promote_bits_eq_iff _).mpr h)]
  · rw [if_neg h, if_pos (fun e => h ((promote_bits_eq_iff _).mp e))]

theorem promote_value_type (v : Expr) : (promote_value v).type = v.type.promote := by
  rw [promote_value_eq]
  by_cases h : 8 ∣ v.type.bits
  · rw [if_pos h, promote_eq_self _ h]
  · rw [if_neg h]
    rfl

namespace FlattenDimensions

/-- The dimension flattener keeps the type of every expression. -/
theorem mutateExpr_type (env : Env) (scope : Scope) :
    ∀ e : Expr, (mutateExpr env scope e).type = e.type
  | .IntImm _ => by simp [mutateExpr]
  | .FloatImm _ => by simp [mutateExpr]
  | .Variable _ _ => by simp [mutateExpr]
  | .Cast _ _ => by simp [mutateExpr, Expr.type]
  | .Add a _ => by simp [mutateExpr, Expr.type, mutateExpr_type env scope a]
  | .Sub a _ => by simp [mutateExpr, Expr.type, mutateExpr_type env scope a]
  | .Mul a _ => by simp [mutateExpr, Expr.type, mutateExpr_type env scope a]
  | .Div a _ => by simp [mutateExpr, Expr.type, mutateExpr_type env scope a]
  | .Let _ _ b => by simp [mutateExpr, Expr.type, mutateExpr_type env scope b]
  | .Call t name args ct outs vi img prm => by
    simp only [mutateExpr]
    split
    · split <;> rfl
    · by_cases h : t.bits ≠ t.promote.bits
      · rw [if_pos h]; rfl
      · rw [if_neg h]
        have h8 : 8 ∣ t.bits := (promote_bits_eq_iff t).mp (not_not.mp h).symm
        simp only [Expr.type]
        exact promote_eq_self t h8
  | .Load _ _ _ _ _ => by simp [mutateExpr, Expr.type]
  | .LoadArgs _ _ _ _ _ => by simp [mutateExpr, Expr.type]

/-- A write with one value is lowered to one store of the promoted value. -/
theorem mutateStmt_single (env : Env) (scope : Scope) (name : String) (v : Expr)
    (args : List Expr) :
    mutateStmt env scope (Stmt.Provide name [v] args)
      = some (Stmt.Store name (promote_value (mutateExpr env scope v))
          (mutateExpr env scope (flatten_args scope env name args)), scope) := by
  simp [mutateStmt, visit_Provide, provide_values, mutateExprs]

/-- A write with several values is lowered to `tuple_write` of the promoted values. -/
theorem mutateStmt_tuple (env : Env) (scope : Scope) (name : String)
    (values args : List Expr) (hn : 2 ≤ values.length) :
    mutateStmt env scope (Stmt.Provide name values args)
      = some (tuple_write
          (fun n var => Stmt.Store n var
            (mutateExpr env scope (flatten_args scope env n args)))
          name (values.map (fun v => promote_value (mutateExpr env scope v))), scope) := by
  simp only [mutateStmt, provide_values, flatten_mutateExprs_eq_map, List.map_map]
  match values, hn with
  | v1 :: v2 :: rest, _ =>
    simp only [visit_Provide, List.map_cons, let_loop_eq, tuple_write]
    rw [store_loop_eq (fun n var => Stmt.Store n var
      (mutateExpr env scope (flatten_args scope env n args))) _ (fun _ _ => rfl)]
    simp [List.enum, Function.comp_def]

/-- A read of a named computation or image is lowered to a load at the promoted type,
under a cast to the type of the read when that is not byte-aligned. -/
theorem mutateExpr_read (env : Env) (scope : Scope) (t : IRType) (name : String)
    (args : List Expr) (ct : CallType) (outs vi : Nat) (img prm : Option String)
    (hct : ct = CallType.Halide ∨ ct = CallType.Image) :
    mutateExpr env scope (Expr.Call t name args ct outs vi img prm)
      = if 8 ∣ t.bits then
          Expr.Load t (call_name name ct outs vi)
            (mutateExpr env scope (flatten_args scope env (call_name name ct outs vi) args))
            img prm
        else
          Expr.Cast t (Expr.Load t.promote (call_name name ct outs vi)
            (mutateExpr env scope (flatten_args scope env (call_name name ct outs vi) args))
            img prm) := by
  have hne : ¬ (ct = CallType.Extern ∨ ct = CallType.Intrinsic) := by
    rcases hct with h | h <;> simp [h]
  simp only [mutateExpr, hne, if_false]
  by_cases h : 8 ∣ t.bits
  · rw [if_pos h, if_neg (by simpa using ((promote_bits_eq_iff t).mpr h).symm),
      promote_eq_self t h]
  · rw [if_neg h, if_pos (fun e => h ((promote_bits_eq_iff t).mp e.symm))]

end FlattenDimensions

/-- C12: in the dimension flattener.  The promoted width `t.promote.bits` is the least
multiple of 8 that is at least the width of `t`, and code and vector width are kept.
Lowering keeps the type of a value.  A write of one value whose width is not a multiple
of 8 stores the cast of the lowered value to the promoted type, and a value whose width
is a multiple of 8 is stored as it is; a write of several values binds and stores them
promoted in the same way, and every stored value has the promoted type.  A read of a
named computation or image whose width is not a multiple of 8 becomes the cast to the
type of the read of a load at the promoted type, and a read whose width is a multiple
of 8 a bare load at its type.  The allocation a region declaration makes for an output
of type `t` has the promoted type. -/
theorem bit_width_promotion (env : Env) (scope : Scope) :
    (∀ t : IRType, 8 ∣ t.promote.bits ∧ t.bits ≤ t.promote.bits
      ∧ (∀ m, 8 ∣ m → t.bits ≤ m → t.promote.bits ≤ m)
      ∧ t.promote.code = t.code ∧ t.promote.width = t.width)
    ∧ (∀ v : Expr, (FlattenDimensions.mutateExpr env scope v).type = v.type)
    ∧ (∀ (name : String) (v : Expr) (args : List Expr), ¬ 8 ∣ v.type.bits →
        FlattenDimensions.mutateStmt env scope (Stmt.Provide name [v] args)
          = some (Stmt.Store name
              (Expr.Cast v.type.promote (FlattenDimensions.mutateExpr env scope v))
              (FlattenDimensions.mutateExpr env scope
                (FlattenDimensions.flatten_args scope env name args)), scope))
    ∧ (∀ (name : String) (v : Expr) (args : List Expr), 8 ∣ v.type.bits →
        FlattenDimensions.mutateStmt env scope (Stmt.Provide name [v] args)
          = some (Stmt.Store name (FlattenDimensions.mutateExpr env scope v)
              (FlattenDimensions.mutateExpr env scope
                (FlattenDimensions.flatten_args scope env name args)), scope))
    ∧ (∀ (name : String) (values args : List Expr), 2 ≤ values.length →
        FlattenDimensions.mutateStmt env scope (Stmt.Provide name values args)
          = some (tuple_write
              (fun n var => Stmt.Store n var
                (FlattenDimensions.mutateExpr env scope
                  (FlattenDimensions.flatten_args scope env n args)))
              name
              (values.map (fun v =>
                if 8 ∣ v.type.bits then FlattenDimensions.mutateExpr env scope v
                else Expr.Cast v.type.promote (FlattenDimensions.mutateExpr env scope v))),
            scope))
    ∧ (∀ v : Expr,
        (if 8 ∣ v.type.bits then FlattenDimensions.mutateExpr env scope v
          else Expr.Cast v.type.promote (FlattenDimensions.mutateExpr env scope v)).type
          = v.type.promote)
    ∧ (∀ (t : IRType) (name : String) (args : List Expr) (ct : CallType) (outs vi : Nat)
        (img prm : Option String), (ct = CallType.Halide ∨ ct = CallType.Image) →
        ¬ 8 ∣ t.bits →
        FlattenDimensions.mutateExpr env scope (Expr.Call t name args ct outs vi img prm)
          = Expr.Cast t (Expr.Load t.promote (call_name name ct outs vi)
              (FlattenDimensions.mutateExpr env scope
                (FlattenDimensions.flatten_args scope env (call_name name ct outs vi) args))
              img prm))
    ∧ (∀ (t : IRType) (name : String) (args : List Expr) (ct : CallType) (outs vi : Nat)
        (img prm : Option String), (ct = CallType.Halide ∨ ct = CallType.Image) →
        8 ∣ t.bits →
        FlattenDimensions.mutateExpr env scope (Expr.Call t name args ct outs vi img prm)
          = Expr.Load t (call_name name ct outs vi)
              (FlattenDimensions.mutateExpr env scope
                (FlattenDimensions.flatten_args scope env (call_name name ct outs vi) args))
              img prm)
    ∧ (∀ (scope1 : Scope) (name : String) (types : List IRType) (bounds : List Range)
        (body body1 : Stmt) (f : Function), env name = some f → f.args.Nodup →
        f.schedule.storage_dims.Perm f.args → bounds.length = f.args.length →
        FlattenDimensions.mutateStmt env scope body = some (body1, scope1) →
        FlattenDimensions.mutateStmt env scope (Stmt.Realize name types bounds body)
            = some (realized name types.length bounds
                (bounds.map (fun b => FlattenDimensions.mutateExpr env scope1 b.extent))
                (storage_order f) (FlattenDimensions.make_buffer_t env name types) types 0
                body1, scope1)
        ∧ ∀ (t : IRType) (rest : List IRType) (idx : Nat) (stmt : Stmt),
            realized name types.length bounds
                (bounds.map (fun b => FlattenDimensions.mutateExpr env scope1 b.extent))
                (storage_order f) (FlattenDimensions.make_buffer_t env name types)
                (t :: rest) idx stmt
              = realized name types.length bounds
                  (bounds.map (fun b => FlattenDimensions.mutateExpr env scope1 b.extent))
                  (storage_order f) (FlattenDimensions.make_buffer_t env name types) rest
                  (idx + 1)
                  (Stmt.lets
                    (buffer_bindings (FlattenDimensions.buffer_name name types.length idx)
                      bounds (storage_order f)
                      ((FlattenDimensions.make_buffer_t env name types).getD idx false) t)
                    (Stmt.Allocate (FlattenDimensions.buffer_name name types.length idx)
                      t.promote
                      (bounds.map (fun b => FlattenDimensions.mutateExpr env scope1 b.extent))
                      stmt))) := by
  have hpv : ∀ v : Expr, promote_value (FlattenDimensions.mutateExpr env scope v)
      = if 8 ∣ v.type.bits then FlattenDimensions.mutateExpr env scope v
        else Expr.Cast v.type.promote (FlattenDimensions.mutateExpr env scope v) := by
    intro v
    rw [promote_value_eq, FlattenDimensions.mutateExpr_type]
  refine ⟨promote_bits_least, FlattenDimensions.mutateExpr_type env scope, ?_, ?_, ?_, ?_, ?_,
    ?_, ?_⟩
  · intro name v args h
    rw [FlattenDimensions.mutateStmt_single, hpv, if_neg h]
  · intro name v args h
    rw [FlattenDimensions.mutateStmt_single, hpv, if_pos h]
  · intro name values args hn
    rw [FlattenDimensions.mutateStmt_tuple env scope name values args hn]
    simp only [hpv]
  · intro v
    rw [← hpv, promote_value_type, FlattenDimensions.mutateExpr_type]
  · intro t name args ct outs vi img prm hct h
    rw [FlattenDimensions.mutateExpr_read env scope t name args ct outs vi img prm hct,
      if_neg h]
  · intro t name args ct outs vi img prm hct h
    rw [FlattenDimensions.mutateExpr_read env scope t name args ct outs vi img prm hct,
      if_pos h]
  · intro scope1 name types bounds body body1 f hf hnd hperm hdims hbody
    exact ⟨(lower_realize env scope scope1 name types bounds body body1 f hf hnd hperm hdims
      hbody).1, fun t rest idx stmt => rfl⟩

theorem ceil_eighth (w : Nat) : ⌈(w : ℚ) / 8⌉₊ = (w + 7) / 8 := by
  rcases Nat.eq_zero_or_pos w with h | h
  · subst h; simp
  · have hk : (w + 7) / 8 ≠ 0 := by omega
    rw [Nat.ceil_eq_iff hk]
    have h1 : 8 * ((w + 7) / 8 - 1) < w := by omega
    have h2 : w ≤ 8 * ((w + 7) / 8) := by omega
    constructor
    · rw [lt_div_iff₀ (by norm_num)]
      have : ((8 * ((w + 7) / 8 - 1) : ℕ) : ℚ) < (w : ℚ) := by exact_mod_cast h1
      push_cast at this ⊢
      linarith
    · rw [div_le_iff₀ (by norm_num)]
      have : ((w : ℕ) : ℚ) ≤ ((8 * ((w + 7) / 8) : ℕ) : ℚ) := by exact_mod_cast h2
      push_cast at this ⊢
      linarith

/-- C13: for an element type `t` of any width `w`, so of every width `w ≥ 1`, and an
unsigned value `v` that `w` bits represent.  The promoted width is `8 * ⌈w / 8⌉`.  The cast to the promoted type,
which the flattener puts on a stored value whose width is not a multiple of 8, keeps
`v`; the cast back to `t`, which it puts on the load of a read of such a width, gives
`v` again; a value whose width is a multiple of 8 is stored and loaded without a cast.
For a 1-bit element the promoted width is 8 and both values 0 and 1 come back
unchanged. -/
theorem promotion_round_trip (env : Env) (scope : Scope) (t : IRType) (v : Nat)
    (hv : v < 2 ^ t.bits) :
    t.promote.bits = 8 * ⌈(t.bits : ℚ) / 8⌉₊
    ∧ cast_unsigned t.promote v = v
    ∧ cast_unsigned t (cast_unsigned t.promote v) = v
    ∧ (∀ x : Expr, x.type = t →
        promote_value x = if 8 ∣ t.bits then x else Expr.Cast t.promote x)
    ∧ (∀ (name : String) (args : List Expr) (ct : CallType) (outs vi : Nat)
        (img prm : Option String), (ct = CallType.Halide ∨ ct = CallType.Image) →
        FlattenDimensions.mutateExpr env scope (Expr.Call t name args ct outs vi img prm)
          = if 8 ∣ t.bits then
              Expr.Load t (call_name name ct outs vi)
                (FlattenDimensions.mutateExpr env scope
                  (FlattenDimensions.flatten_args scope env (call_name name ct outs vi) args))
                img prm
            else
              Expr.Cast t (Expr.Load t.promote (call_name name ct outs vi)
                (FlattenDimensions.mutateExpr env scope
                  (FlattenDimensions.flatten_args scope env (call_name name ct outs vi) args))
                img prm))
    ∧ (t.bits = 1 → t.promote.bits = 8 ∧ (v = 0 ∨ v = 1)
        ∧ cast_unsigned t (cast_unsigned t.promote 0) = 0
        ∧ cast_unsigned t (cast_unsigned t.promote 1) = 1) := by
  have hle : t.bits ≤ t.promote.bits := (promote_bits_least t).2.1
  have hlt : v < 2 ^ t.promote.bits :=
    lt_of_lt_of_le hv (Nat.pow_le_pow_right (by norm_num) hle)
  have h1 : cast_unsigned t.promote v = v := Nat.mod_eq_of_lt hlt
  refine ⟨?_, h1, ?_, ?_, ?_, ?_⟩
  · rw [ceil_eighth, promote_bits, Nat.mul_comm]
  · rw [h1]
    exact Nat.mod_eq_of_lt hv
  · intro x hx
    rw [promote_value_eq, hx]
  · intro name args ct outs vi img prm hct
    exact FlattenDimensions.mutateExpr_read env scope t name args ct outs vi img prm hct
  · intro hb
    rw [hb] at hv
    refine ⟨by rw [promote_bits, hb], by omega, ?_, ?_⟩
    · simp [cast_unsigned]
    · simp [cast_unsigned, promote_bits, hb]

/-! ## A read in the bound of a region declaration -/

/-- The address of `g(x, y)` with no override in scope. -/
theorem example_address :
    FlattenDimensions.mutateExpr example_env []
        (FlattenDimensions.flatten_args [] example_env "g" example_args)
      = Expr.Add
          (Expr.Add (Expr.IntImm 0)
            (Expr.Mul
              (Expr.Sub (Expr.Variable (Int_ 32) "x") (Expr.Variable (Int_ 32) "g.min.0"))
              (Expr.Variable (Int_ 32) "g.stride.0")))
          (Expr.Mul
            (Expr.Sub (Expr.Variable (Int_ 32) "y") (Expr.Variable (Int_ 32) "g.min.1"))
            (Expr.Variable (Int_ 32) "g.stride.1")) := by
  have h0 : int_to_string 0 = "0" := by decide
  have h1 : int_to_string 1 = "1" := by decide
  have hg : (example_env "g").isSome = true := by decide
  simp only [FlattenDimensions.flatten_args, hg, if_true, example_args,
    FlattenDimensions.internal_loop, FlattenDimensions.mins, FlattenDimensions.strides,
    FlattenDimensions.min_name, FlattenDimensions.stride_name, Scope.contains, List.any_nil,
    FlattenDimensions.mutateExpr, h0, h1, Nat.zero_add]
  rfl

/-- C14, the code at the input `example_bounded_by_read`: the lowering succeeds and its
output binds `g.min.0` to the read `f(0, 0, 0)` as it stands in the bound, so the
output holds a multi-index read; it holds no loop at all, and so the read is outside
every device-kernel loop. -/
theorem read_in_bound_survives :
    storage_flattening example_bounded_by_read example_env
      = some example_bounded_by_read_lowered
    ∧ example_read.is_read = true
    ∧ example_bounded_by_read_lowered.any (fun _ => false) Expr.is_read = true
    ∧ example_bounded_by_read_lowered.has_kernel_loop = false := by
  have hckl : CreateKernelLoads.mutate example_bounded_by_read = example_bounded_by_read := by
    unfold CreateKernelLoads.mutate
    rw [CreateKernelLoads.mutateStmt_outside _ _ rfl (by decide)]
  have hbody : FlattenDimensions.mutateStmt example_env []
      (Stmt.Provide "g" [Expr.IntImm 1] example_args)
      = some (Stmt.Store "g" (Expr.IntImm 1)
          (FlattenDimensions.mutateExpr example_env []
            (FlattenDimensions.flatten_args [] example_env "g" example_args)), []) := by
    rw [FlattenDimensions.mutateStmt_single]
    simp [FlattenDimensions.mutateExpr, promote_value, Expr.type, Int_, IRType.promote,
      IRType.bytes]
  have hlow := (lower_realize example_env [] [] "g" [Int_ 32]
    [⟨example_read, Expr.IntImm 4⟩, ⟨Expr.IntImm 0, Expr.IntImm 3⟩] _ _ example_function_2d rfl
    (by decide) (by decide) rfl hbody).1
  refine ⟨?_, rfl, ?_, ?_⟩
  · unfold storage_flattening FlattenDimensions.mutate
    rw [hckl]
    unfold example_bounded_by_read
    rw [hlow]
    simp only [Option.map_some', Option.some.injEq, List.map_cons, List.map_nil,
      FlattenDimensions.mutateExpr, example_address]
    rfl
  · simp [example_bounded_by_read_lowered, Stmt.any, Stmt.node_holds, Stmt.exprs,
      Expr.any_list, Expr.any, example_read, Expr.is_read]
  · rfl

/-! ## Addressing around a device-kernel loop -/

theorem example_names :
    int_to_string 0 = "0" ∧ int_to_string 1 = "1" ∧ int_to_string 2 = "2" := by decide

/-- C15, the code at the inputs `example_kernel_loop_from_read` and
`example_kernel_nested_read`, which hold only loops, writes and reads.  A read in the
minimum of a loop of the device-kernel kind is lowered to a coordinate-vector-addressed
load, at a position outside the body of the loop; a read that is a coordinate of
another read in the body of such a loop is lowered to a linear-addressed load, at a
position inside the body. -/
theorem kernel_loop_addressing :
    storage_flattening example_kernel_loop_from_read example_env
      = some example_kernel_loop_from_read_lowered
    ∧ example_kernel_loop_from_read_lowered.outside_kernel_body Stmt.is_store_args
        Expr.is_load_args = true
    ∧ storage_flattening example_kernel_nested_read example_env
      = some example_kernel_nested_read_lowered
    ∧ example_kernel_nested_read_lowered.inside_kernel_body Stmt.is_store Expr.is_load
        = true := by
  obtain ⟨h0, h1, h2⟩ := example_names
  have hf : (example_env "f").isSome = true := by decide
  have hp : promote_value (Expr.IntImm 1) = Expr.IntImm 1 := by
    simp [promote_value, Expr.type, Int_, IRType.promote, IRType.bytes]
  have ht : (Int_ 32).promote = Int_ 32 := by decide
  refine ⟨?_, ?_, ?_, ?_⟩
  · simp only [storage_flattening, CreateKernelLoads.mutate, FlattenDimensions.mutate,
      example_kernel_loop_from_read, example_read, CreateKernelLoads.mutateStmt,
      CreateKernelLoads.State.init, if_true, CreateKernelLoads.mutateExpr, Bool.not_true,
      Bool.false_eq_true, if_false, call_name, CreateKernelLoads.kernel_idx,
      CreateKernelLoads.kernel_coordinate, CreateKernelLoads.min_name,
      CreateKernelLoads.extent_name, Scope.contains, List.any_nil,
      CreateKernelLoads.visit_Provide, CreateKernelLoads.provide_values,
      CreateKernelLoads.mutateExprs, List.map_cons, List.map_nil, hp,
      FlattenDimensions.mutateStmt, FlattenDimensions.mutateExpr,
      FlattenDimensions.mutateExprs, example_args, Option.map_some', h0, h1, h2,
      Nat.zero_add]
    simp [example_kernel_loop_from_read_lowered, example_read_coordinates, example_args,
      FlattenDimensions.mutateExpr]
  · simp [example_kernel_loop_from_read_lowered, Stmt.outside_kernel_body, Stmt.node_holds,
      Stmt.exprs, Expr.any_list, Expr.any, Expr.is_load_args]
  · simp only [storage_flattening, CreateKernelLoads.mutate, FlattenDimensions.mutate,
      example_kernel_nested_read, example_read, CreateKernelLoads.mutateStmt,
      CreateKernelLoads.State.init, if_true, CreateKernelLoads.mutateExpr, Bool.not_true,
      Bool.false_eq_true, if_false, call_name, CreateKernelLoads.kernel_idx,
      CreateKernelLoads.kernel_coordinate, CreateKernelLoads.min_name,
      CreateKernelLoads.extent_name, Scope.contains, List.any_nil,
      CreateKernelLoads.visit_Provide, CreateKernelLoads.provide_values,
      CreateKernelLoads.mutateExprs, List.map_cons, List.map_nil,
      FlattenDimensions.mutateStmt, FlattenDimensions.mutateExpr,
      FlattenDimensions.mutateExprs, example_args, Option.map_some', h0, h1, h2,
      Nat.zero_add, FlattenDimensions.flatten_args, hf, FlattenDimensions.internal_loop,
      FlattenDimensions.mins, FlattenDimensions.strides, FlattenDimensions.min_name,
      FlattenDimensions.stride_name, ht]
    simp [example_kernel_nested_read_lowered, example_read_address, example_args,
      promote_value, Expr.type, Int_, IRType.promote, IRType.bytes,
      FlattenDimensions.mutateExpr, FlattenDimensions.mutateExprs, call_name,
      FlattenDimensions.flatten_args, hf, FlattenDimensions.internal_loop,
      FlattenDimensions.mins, FlattenDimensions.strides, FlattenDimensions.min_name,
      FlattenDimensions.stride_name, Scope.contains, h0, h1, h2]
  · simp [example_kernel_nested_read_lowered, Stmt.inside_kernel_body, Stmt.any,
      Stmt.node_holds, Stmt.exprs, Expr.any_list, Expr.any, Expr.is_load, Stmt.is_store]

/-! ## Faults of a region declaration -/

namespace FlattenDimensions

theorem visit_Realize_absent (env : Env) (scope : Scope) (name : String)
    (types : List IRType) (bounds : List Range) (body : Stmt) (h : env name = none) :
    visit_Realize env scope name types bounds body = none := by
  simp [visit_Realize, h]

theorem visit_Realize_mismatch (env : Env) (scope : Scope) (name : String)
    (types : List IRType) (bounds : List Range) (body : Stmt) (f : Function) (p : List Nat)
    (hf : env name = some f) (hp : storage_permutation f = some p)
    (hne : p.length ≠ bounds.length) :
    visit_Realize env scope name types bounds body = none := by
  simp [visit_Realize, hf, hp, hne]

theorem mutateStmt_Realize_none (env : Env) (scope : Scope) (name : String)
    (types : List IRType) (bounds : List Range) (body : Stmt)
    (h : ∀ (sc : Scope) (b : Stmt), visit_Realize env sc name types bounds b = none) :
    mutateStmt env scope (Stmt.Realize name types bounds body) = none := by
  simp only [mutateStmt]
  cases mutateStmt env scope body with
  | none => rfl
  | some r =>
    obtain ⟨b1, s1⟩ := r
    simp only [h s1 b1]

/-- A statement that fails from every scope fails at every position of a program. -/
theorem mutateStmt_fill_none (env : Env) (s : Stmt)
    (h : ∀ scope : Scope, mutateStmt env scope s = none) (c : StmtCtx) (scope : Scope) :
    mutateStmt env scope (c.fill s) = none := by
  cases hm : mutateStmt env scope (c.fill s) with
  | none => rfl
  | some r =>
    obtain ⟨out, sc⟩ := r
    obtain ⟨out_s, c1, h2, -⟩ := mutateStmt_fill env s c scope out sc hm
    rw [h] at h2
    simp at h2

end FlattenDimensions

/-- C16: lowering a region declaration fails, with no output, when its name is not in
the environment, and when the number of its bounds is not the size of the storage
permutation computed from the storage dimensions of its function; so does
`storage_flattening` of every program that holds such a region declaration at a
statement position. -/
theorem realize_faults (env : Env) (name : String) (types : List IRType)
    (bounds : List Range) (body : Stmt) :
    (env name = none →
      (∀ scope : Scope,
        FlattenDimensions.mutateStmt env scope (Stmt.Realize name types bounds body) = none)
      ∧ ∀ c : StmtCtx,
          storage_flattening (c.fill (Stmt.Realize name types bounds body)) env = none)
    ∧ (∀ (f : Function) (p : List Nat), env name = some f →
        FlattenDimensions.storage_permutation f = some p → p.length ≠ bounds.length →
        (∀ scope : Scope,
          FlattenDimensions.mutateStmt env scope (Stmt.Realize name types bounds body) = none)
        ∧ ∀ c : StmtCtx,
            storage_flattening (c.fill (Stmt.Realize name types bounds body)) env = none) := by
  have hflat : ∀ (c : StmtCtx),
      (∀ (bs : List Range), bs.length = bounds.length → ∀ (sc : Scope) (b : Stmt),
        FlattenDimensions.visit_Realize env sc name types bs b = none) →
      storage_flattening (c.fill (Stmt.Realize name types bounds body)) env = none := by
    intro c hv
    obtain ⟨c1, h1⟩ := CreateKernelLoads.kernel_mutateStmt_fill (Stmt.Realize name types bounds body) c
      CreateKernelLoads.State.init
    unfold storage_flattening FlattenDimensions.mutate CreateKernelLoads.mutate
    rw [h1]
    simp only [CreateKernelLoads.mutateStmt]
    rw [FlattenDimensions.mutateStmt_fill_none env _
      (fun scope => FlattenDimensions.mutateStmt_Realize_none env scope name types _ _
        (hv _ (by simp)))]
    rfl
  refine ⟨fun h => ⟨fun scope => ?_, fun c => ?_⟩, fun f p hf hp hne => ⟨fun scope => ?_, fun c => ?_⟩⟩
  · exact FlattenDimensions.mutateStmt_Realize_none env scope name types bounds body
      (fun sc b => FlattenDimensions.visit_Realize_absent env sc name types bounds b h)
  · exact hflat c
      (fun bs _ sc b => FlattenDimensions.visit_Realize_absent env sc name types bs b h)
  · exact FlattenDimensions.mutateStmt_Realize_none env scope name types bounds body
      (fun sc b => FlattenDimensions.visit_Realize_mismatch env sc name types bounds b f p hf
        hp hne)
  · exact hflat c
      (fun bs hbs sc b => FlattenDimensions.visit_Realize_mismatch env sc name types bs b f p
        hf hp (by rw [hbs]; exact hne))

/-! ## The number of coordinates of an access -/

/-- C17, counterexample: the function `g` of `example_env` has two logical dimensions.
A write to `g` with one coordinate is lowered to a store, and so is a write whose value
is a read of `g` with one coordinate, to a store of a load: nothing aborts. -/
theorem coordinate_count_not_checked :
    example_env "g" = some example_function_2d
    ∧ example_function_2d.args.length = 2
    ∧ [Expr.Variable (Int_ 32) "x"].length = 1
    ∧ storage_flattening
        (Stmt.Provide "g" [Expr.IntImm 7] [Expr.Variable (Int_ 32) "x"]) example_env
      = some (Stmt.Store "g" (Expr.IntImm 7)
          (Expr.Add (Expr.IntImm 0)
            (Expr.Mul
              (Expr.Sub (Expr.Variable (Int_ 32) "x") (Expr.Variable (Int_ 32) "g.min.0"))
              (Expr.Variable (Int_ 32) "g.stride.0"))))
    ∧ storage_flattening
        (Stmt.Provide "g"
          [Expr.Call (Int_ 32) "g" [Expr.Variable (Int_ 32) "x"] CallType.Halide 1 0 none none]
          [Expr.Variable (Int_ 32) "x"]) example_env
      = some (Stmt.Store "g"
          (Expr.Load (Int_ 32) "g"
            (Expr.Add (Expr.IntImm 0)
              (Expr.Mul
                (Expr.Sub (Expr.Variable (Int_ 32) "x") (Expr.Variable (Int_ 32) "g.min.0"))
                (Expr.Variable (Int_ 32) "g.stride.0")))
            none none)
          (Expr.Add (Expr.IntImm 0)
            (Expr.Mul
              (Expr.Sub (Expr.Variable (Int_ 32) "x") (Expr.Variable (Int_ 32) "g.min.0"))
              (Expr.Variable (Int_ 32) "g.stride.0")))) := by
  obtain ⟨h0, -, -⟩ := example_names
  have hg : (example_env "g").isSome = true := by decide
  refine ⟨rfl, rfl, rfl, ?_, ?_⟩
  · simp [storage_flattening, CreateKernelLoads.mutate, FlattenDimensions.mutate,
      CreateKernelLoads.mutateStmt, CreateKernelLoads.State.init,
      CreateKernelLoads.mutateExprs, CreateKernelLoads.mutateExpr,
      FlattenDimensions.mutateStmt, FlattenDimensions.visit_Provide,
      FlattenDimensions.provide_values, FlattenDimensions.mutateExprs,
      FlattenDimensions.mutateExpr, FlattenDimensions.flatten_args, hg,
      FlattenDimensions.internal_loop, FlattenDimensions.mins, FlattenDimensions.strides,
      FlattenDimensions.min_name, FlattenDimensions.stride_name, Scope.contains, h0,
      promote_value, Expr.type, Int_, IRType.promote, IRType.bytes]
  · simp [storage_flattening, CreateKernelLoads.mutate, FlattenDimensions.mutate,
      CreateKernelLoads.mutateStmt, CreateKernelLoads.State.init,
      CreateKernelLoads.mutateExprs, CreateKernelLoads.mutateExpr,
      FlattenDimensions.mutateStmt, FlattenDimensions.visit_Provide,
      FlattenDimensions.provide_values, FlattenDimensions.mutateExprs,
      FlattenDimensions.mutateExpr, FlattenDimensions.flatten_args, hg, call_name,
      FlattenDimensions.internal_loop, FlattenDimensions.mins, FlattenDimensions.strides,
      FlattenDimensions.min_name, FlattenDimensions.stride_name, Scope.contains, h0,
      promote_value, Expr.type, Int_, IRType.promote, IRType.bytes]

/-- C17, amended: lowering a write or a read compares its number of coordinates with
nothing.  For any coordinates a write is lowered, without a fault and with the scope
kept, to a store when it has one value, and a read of a named computation or image to
a load, under a cast when its width is not byte-aligned; the address is `flatten_args`
of the coordinates given, worth one term `(c_j - min_j) * stride_j` per coordinate. -/
theorem coordinate_count_free (env : Env) (scope : Scope) (name : String)
    (args : List Expr) :
    (∀ values : List Expr,
      FlattenDimensions.mutateStmt env scope (Stmt.Provide name values args)
        = some (FlattenDimensions.visit_Provide env scope name
            (FlattenDimensions.provide_values env scope values) args, scope))
    ∧ (∀ v : Expr,
      FlattenDimensions.mutateStmt env scope (Stmt.Provide name [v] args)
        = some (Stmt.Store name (promote_value (FlattenDimensions.mutateExpr env scope v))
            (FlattenDimensions.mutateExpr env scope
              (FlattenDimensions.flatten_args scope env name args)), scope))
    ∧ (∀ (t : IRType) (ct : CallType) (outs vi : Nat) (img prm : Option String),
        (ct = CallType.Halide ∨ ct = CallType.Image) →
        FlattenDimensions.mutateExpr env scope (Expr.Call t name args ct outs vi img prm)
          = if 8 ∣ t.bits then
              Expr.Load t (call_name name ct outs vi)
                (FlattenDimensions.mutateExpr env scope
                  (FlattenDimensions.flatten_args scope env (call_name name ct outs vi) args))
                img prm
            else
              Expr.Cast t (Expr.Load t.promote (call_name name ct outs vi)
                (FlattenDimensions.mutateExpr env scope
                  (FlattenDimensions.flatten_args scope env (call_name name ct outs vi) args))
                img prm))
    ∧ (∀ (ρ : String → Int) (φ : Expr → Int),
        (FlattenDimensions.flatten_args scope env name args).eval ρ φ
          = ∑ j : Fin args.length,
              ((args.get j).eval ρ φ - ρ (FlattenDimensions.min_name scope name j))
                * ρ (FlattenDimensions.stride_name scope name j))
    ∧ (∀ values : List Expr,
        ∃ out : Stmt, storage_flattening (Stmt.Provide name values args) env = some out) := by
  refine ⟨fun values => rfl, fun v => FlattenDimensions.mutateStmt_single env scope name v args,
    fun t ct outs vi img prm hct =>
      FlattenDimensions.mutateExpr_read env scope t name args ct outs vi img prm hct,
    fun ρ φ => eval_flatten_args scope env name args ρ φ, fun values => ?_⟩
  simp [storage_flattening, CreateKernelLoads.mutate, FlattenDimensions.mutate,
    CreateKernelLoads.mutateStmt, CreateKernelLoads.State.init, FlattenDimensions.mutateStmt]

/-! ## A region declaration with no dimension -/

namespace FlattenDimensions

theorem storage_permutation_loop_length (args : List String) :
    ∀ (sds : List String) (i : Nat) (perm p : List Nat),
      storage_permutation_loop args sds i perm = some p → perm.length = i →
      p.length = i + sds.length := by
  intro sds
  induction sds with
  | nil =>
    intro i perm p h hl
    simp only [storage_permutation_loop, Option.some.injEq] at h
    rw [← h, hl]; rfl
  | cons sd rest ih =>
    intro i perm p h hl
    simp only [storage_permutation_loop] at h
    split at h
    · rename_i hlen
      rw [ih _ _ _ h hlen, List.length_cons]
      omega
    · simp at h

end FlattenDimensions

/-- C18, counterexample: the function `s` of `example_env_more` has no dimension.  Its
region declaration with an empty list of bounds is lowered to an allocation with no
extent around the lowered body: nothing aborts. -/
theorem zero_dimensions_allocate :
    example_env_more "s" = some example_function_0d
    ∧ storage_flattening
        (Stmt.Realize "s" [Int_ 32] [] (Stmt.Provide "s" [Expr.IntImm 1] [])) example_env_more
      = some (Stmt.Allocate "s" (Int_ 32) []
          (Stmt.Store "s" (Expr.IntImm 1) (Expr.IntImm 0))) := by
  have hs : (example_env_more "s").isSome = true := by decide
  have hs2 : example_env_more "s" = some example_function_0d := rfl
  refine ⟨hs2, ?_⟩
  simp [storage_flattening, CreateKernelLoads.mutate, FlattenDimensions.mutate,
    CreateKernelLoads.mutateStmt, CreateKernelLoads.State.init,
    CreateKernelLoads.mutateExprs, CreateKernelLoads.mutateExpr,
    FlattenDimensions.mutateStmt, FlattenDimensions.visit_Provide,
    FlattenDimensions.provide_values, FlattenDimensions.mutateExprs,
    FlattenDimensions.mutateExpr, FlattenDimensions.flatten_args, hs, hs2,
    FlattenDimensions.internal_loop, promote_value, Expr.type, Int_, IRType.promote,
    IRType.bytes, FlattenDimensions.visit_Realize, FlattenDimensions.storage_permutation,
    FlattenDimensions.storage_permutation_loop, example_function_0d,
    FlattenDimensions.realize_loop, FlattenDimensions.realize_buffer,
    FlattenDimensions.make_buffer_t, FlattenDimensions.is_kernel_loop,
    FlattenDimensions.stride_loop, FlattenDimensions.innermost_stride,
    FlattenDimensions.bounds_loop, FlattenDimensions.buffer_name]

/-- C18, amended: a region declaration with no bound whose function is in the
environment with no storage dimension, and whose body is lowered, is lowered without a
fault: every output gets its allocation at the promoted type with no extent, and no
minimum, extent or stride is bound around it, only the device-buffer descriptor when
the function asks for one; the result holds one allocation per output more than the
lowered body.  With a function that has storage dimensions the lowering fails, on the
assertion that compares the numbers of bounds and of storage dimensions. -/
theorem zero_dimensions_lowered (env : Env) (scope scope1 : Scope) (name : String)
    (types : List IRType) (body body1 : Stmt) (f : Function) (hf : env name = some f)
    (hbody : FlattenDimensions.mutateStmt env scope body = some (body1, scope1)) :
    (f.schedule.storage_dims = [] →
      FlattenDimensions.mutateStmt env scope (Stmt.Realize name types [] body)
        = some (realized name types.length [] [] []
            (FlattenDimensions.make_buffer_t env name types) types 0 body1, scope1)
      ∧ (realized name types.length [] [] []
          (FlattenDimensions.make_buffer_t env name types) types 0 body1).count_allocate
          = types.length + body1.count_allocate)
    ∧ (∀ (bn : String) (mk : Bool) (t : IRType),
        buffer_bindings bn [] [] mk t = descriptor_binding bn 0 mk t
        ∧ Stmt.lets (buffer_bindings bn [] [] false t) (Stmt.Allocate bn t.promote [] body1)
          = Stmt.Allocate bn t.promote [] body1)
    ∧ (∀ (t : IRType) (rest : List IRType) (idx : Nat) (stmt : Stmt),
        realized name types.length [] [] [] (FlattenDimensions.make_buffer_t env name types)
            (t :: rest) idx stmt
          = realized name types.length [] [] []
              (FlattenDimensions.make_buffer_t env name types) rest (idx + 1)
              (Stmt.lets
                (descriptor_binding (FlattenDimensions.buffer_name name types.length idx) 0
                  ((FlattenDimensions.make_buffer_t env name types).getD idx false) t)
                (Stmt.Allocate (FlattenDimensions.buffer_name name types.length idx) t.promote
                  [] stmt)))
    ∧ (f.schedule.storage_dims ≠ [] →
        FlattenDimensions.mutateStmt env scope (Stmt.Realize name types [] body) = none) := by
  refine ⟨fun hsd => ⟨?_, ?_⟩, fun bn mk t => ⟨?_, ?_⟩, fun t rest idx stmt => ?_, fun hsd => ?_⟩
  · have hp : FlattenDimensions.storage_permutation f = some [] := by
      simp [FlattenDimensions.storage_permutation, hsd,
        FlattenDimensions.storage_permutation_loop]
    simp only [FlattenDimensions.mutateStmt, hbody]
    rw [FlattenDimensions.visit_Realize_eq env scope1 name types [] body1 f [] hf hp rfl
      (fun j hj => absurd hj (List.not_mem_nil j))]
    rfl
  · rw [count_allocate_realized]
  · simp [buffer_bindings, bounds_bindings, stride_bindings]
  · simp [buffer_bindings, bounds_bindings, stride_bindings, descriptor_binding, Stmt.lets]
  · simp [realized, buffer_bindings, bounds_bindings, stride_bindings]
  · simp only [FlattenDimensions.mutateStmt, hbody]
    cases hp : FlattenDimensions.storage_permutation f with
    | none => simp [FlattenDimensions.visit_Realize, hf, hp]
    | some p =>
      have hlen := FlattenDimensions.storage_permutation_loop_length f.args _ 0 [] p hp rfl
      have hne : p.length ≠ ([] : List Range).length := by
        rw [hlen, List.length_nil, Nat.zero_add]
        exact fun e => hsd (List.length_eq_zero.mp e)
      rw [FlattenDimensions.visit_Realize_mismatch env scope1 name types [] body1 f p hf hp hne]

/-! ## The device-buffer descriptor -/

namespace FlattenDimensions

theorem buffer_t_triples_length :
    ∀ (ms es ss : List Expr) (n : Nat), ms.length = n → es.length = n → ss.length = n →
      (buffer_t_triples ms es ss).length = 3 * n
  | [], _, _, n, h, _, _ => by simp at h; subst h; simp [buffer_t_triples]
  | m :: ms, [], _, n, h1, h2, _ => by simp at h1 h2; omega
  | m :: ms, e :: es, [], n, h1, _, h3 => by simp at h1 h3; omega
  | m :: ms, e :: es, s :: ss, n, h1, h2, h3 => by
    simp only [List.length_cons] at h1 h2 h3
    simp only [buffer_t_triples, List.length_cons]
    rw [buffer_t_triples_length ms es ss (n - 1) (by omega) (by omega) (by omega)]
    omega

theorem buffer_t_triples_get :
    ∀ (ms es ss : List Expr) (d : Nat), d < ms.length → d < es.length → d < ss.length →
      (buffer_t_triples ms es ss)[3 * d]? = ms[d]?
      ∧ (buffer_t_triples ms es ss)[3 * d + 1]? = es[d]?
      ∧ (buffer_t_triples ms es ss)[3 * d + 2]? = ss[d]?
  | [], _, _, d, h, _, _ => by simp at h
  | m :: ms, [], _, d, _, h2, _ => by simp at h2
  | m :: ms, e :: es, [], d, _, _, h3 => by simp at h3
  | m :: ms, e :: es, s :: ss, 0, _, _, _ => by simp [buffer_t_triples]
  | m :: ms, e :: es, s :: ss, d + 1, h1, h2, h3 => by
    simp only [List.length_cons] at h1 h2 h3
    obtain ⟨a, b, c⟩ := buffer_t_triples_get ms es ss d (by omega) (by omega) (by omega)
    have e0 : 3 * (d + 1) = 3 * d + 1 + 1 + 1 := by omega
    have e1 : 3 * (d + 1) + 1 = 3 * d + 1 + 1 + 1 + 1 := by omega
    have e2 : 3 * (d + 1) + 2 = 3 * d + 2 + 1 + 1 + 1 := by omega
    refine ⟨?_, ?_, ?_⟩
    · rw [e0]; simpa [buffer_t_triples] using a
    · rw [e1]; simpa [buffer_t_triples] using b
    · rw [e2]; simpa [buffer_t_triples] using c

theorem free_vars_buffer_t_triples :
    ∀ (ms es ss : List Expr) (x : String),
      x ∈ Expr.free_vars_list (buffer_t_triples ms es ss) →
      x ∈ Expr.free_vars_list ms ∨ x ∈ Expr.free_vars_list es ∨ x ∈ Expr.free_vars_list ss
  | [], _, _, x, h => by simp [buffer_t_triples, Expr.free_vars_list] at h
  | m :: ms, [], _, x, h => by simp [buffer_t_triples, Expr.free_vars_list] at h
  | m :: ms, e :: es, [], x, h => by simp [buffer_t_triples, Expr.free_vars_list] at h
  | m :: ms, e :: es, s :: ss, x, h => by
    simp only [buffer_t_triples, Expr.free_vars_list, List.mem_append] at h ⊢
    rcases h with h | h | h | h
    · exact Or.inl (Or.inl h)
    · exact Or.inr (Or.inl (Or.inl h))
    · exact Or.inr (Or.inr (Or.inl h))
    · rcases free_vars_buffer_t_triples ms es ss x h with h | h | h
      · exact Or.inl (Or.inr h)
      · exact Or.inr (Or.inl (Or.inr h))
      · exact Or.inr (Or.inr (Or.inr h))

theorem free_vars_vars (names : List String) : Expr.free_vars_list (vars names) = names := by
  induction names with
  | nil => rfl
  | cons n rest ih =>
    simp only [vars, List.map_cons, Expr.free_vars_list, Expr.free_vars] at ih ⊢
    rw [ih]
    rfl

theorem make_buffer_t_getD (env : Env) (name : String) (types : List IRType) (f : Function)
    (hf : env name = some f) (idx : Nat) (hidx : idx < types.length) :
    (make_buffer_t env name types).getD idx false = is_kernel_loop f.schedule := by
  simp only [make_buffer_t, hf, List.getD_eq_getElem?_getD, List.getElem?_map,
    List.getElem?_eq_getElem hidx, Option.map_some', Option.getD_some]

end FlattenDimensions

theorem bounds_bindings_fst (bn : String) (bounds : List Range) :
    ∀ (i : Nat), ∀ x ∈ (bounds_bindings bn bounds i).map Prod.fst,
      ∃ k, x = bn ++ ".extent." ++ int_to_string k ∨ x = bn ++ ".min." ++ int_to_string k := by
  induction bounds with
  | nil => intro i x hx; simp [bounds_bindings] at hx
  | cons b rest ih =>
    intro i x hx
    simp only [bounds_bindings, List.map_cons, List.mem_cons] at hx
    rcases hx with h | h | h
    · exact ⟨i, Or.inl h⟩
    · exact ⟨i, Or.inr h⟩
    · exact ih (i + 1) x h

theorem count_buffer_bindings (bn : String) (bounds : List Range) (p : List Nat) (mk : Bool)
    (t : IRType) :
    ((buffer_bindings bn bounds p mk t).map Prod.fst).count (bn ++ ".buffer")
      = if mk then 1 else 0 := by
  have h1 : ((bounds_bindings bn bounds 0).map Prod.fst).count (bn ++ ".buffer") = 0 := by
    rw [List.count_eq_zero]
    intro h
    obtain ⟨k, hk | hk⟩ := bounds_bindings_fst bn bounds 0 _ h
    · exact buffer_ne_extent _ _ hk
    · exact buffer_ne_min _ _ hk
  have h2 : ((stride_bindings bn p).map Prod.fst).count (bn ++ ".buffer") = 0 := by
    rw [List.count_eq_zero, stride_bindings_names]
    intro h
    obtain ⟨j, -, hj⟩ := List.mem_map.mp h
    exact buffer_ne_stride _ _ hj.symm
  simp only [buffer_bindings, List.map_append, List.count_append, h1, h2, Nat.zero_add]
  cases mk <;> simp [descriptor_binding]

/-- C19: a region declaration of a function `f` of the environment, with `n` bounds and
a storage order that rearranges the logical dimensions of `f`, is lowered to `realized`.
The descriptor flag of every output is whether some loop dimension of the schedule of
`f` has the device-kernel kind.  Around the allocation of every output stand the
minimum, extent and stride bindings of its buffer and, innermost and directly around
the allocation, the descriptor binding: with the flag set it is the one binding
`<buffer>.buffer` of the intrinsic call `create_buffer_t`, with the flag clear no
binding, so the name `<buffer>.buffer` is bound once or not at all.  The call has
`3 * n + 2` arguments: the call of the intrinsic `null_handle`, the byte size of the
element type, which is also that of the promoted type, and for every dimension `d`, in
ascending order, the variables `<buffer>.min.d`, `<buffer>.extent.d` and
`<buffer>.stride.d`.  Every variable the call reads is bound by a binding that
encloses the descriptor binding. -/
theorem descriptor_binding_shape (env : Env) (scope scope1 : Scope) (name : String)
    (types : List IRType) (bounds : List Range) (body body1 : Stmt) (f : Function)
    (hf : env name = some f) (hnd : f.args.Nodup)
    (hperm : f.schedule.storage_dims.Perm f.args) (hdims : bounds.length = f.args.length)
    (hbody : FlattenDimensions.mutateStmt env scope body = some (body1, scope1)) :
    FlattenDimensions.mutateStmt env scope (Stmt.Realize name types bounds body)
        = some (realized name types.length bounds
            (bounds.map (fun b => FlattenDimensions.mutateExpr env scope1 b.extent))
            (storage_order f) (FlattenDimensions.make_buffer_t env name types) types 0 body1,
          scope1)
    ∧ (∀ idx, idx < types.length →
        (FlattenDimensions.make_buffer_t env name types).getD idx false
          = FlattenDimensions.is_kernel_loop f.schedule)
    ∧ (∀ (t : IRType) (rest : List IRType) (idx : Nat) (stmt : Stmt),
        realized name types.length bounds
            (bounds.map (fun b => FlattenDimensions.mutateExpr env scope1 b.extent))
            (storage_order f) (FlattenDimensions.make_buffer_t env name types) (t :: rest) idx
            stmt
          = realized name types.length bounds
              (bounds.map (fun b => FlattenDimensions.mutateExpr env scope1 b.extent))
              (storage_order f) (FlattenDimensions.make_buffer_t env name types) rest (idx + 1)
              (Stmt.lets
                (bounds_bindings (FlattenDimensions.buffer_name name types.length idx) bounds 0
                  ++ stride_bindings (FlattenDimensions.buffer_name name types.length idx)
                    (storage_order f))
                (Stmt.lets
                  (descriptor_binding (FlattenDimensions.buffer_name name types.length idx)
                    bounds.length
                    ((FlattenDimensions.make_buffer_t env name types).getD idx false) t)
                  (Stmt.Allocate (FlattenDimensions.buffer_name name types.length idx)
                    t.promote
                    (bounds.map (fun b => FlattenDimensions.mutateExpr env scope1 b.extent))
                    stmt))))
    ∧ (∀ (bn : String) (t : IRType) (inner : Stmt),
        Stmt.lets (descriptor_binding bn bounds.length true t) inner
          = Stmt.LetStmt (bn ++ ".buffer")
              (Expr.Call Handle "create_buffer_t"
                (FlattenDimensions.buffer_t_args t
                  (FlattenDimensions.vars (FlattenDimensions.min_names bn bounds.length))
                  (FlattenDimensions.vars (FlattenDimensions.extent_names bn bounds.length))
                  (FlattenDimensions.vars (FlattenDimensions.stride_names bn bounds.length)))
                CallType.Intrinsic 0 0 none none)
              inner
        ∧ Stmt.lets (descriptor_binding bn bounds.length false t) inner = inner)
    ∧ (∀ (bn : String) (mk : Bool) (t : IRType),
        ((buffer_bindings bn bounds (storage_order f) mk t).map Prod.fst).count
          (bn ++ ".buffer") = if mk then 1 else 0)
    ∧ (∀ (bn : String) (t : IRType),
        (FlattenDimensions.buffer_t_args t
          (FlattenDimensions.vars (FlattenDimensions.min_names bn bounds.length))
          (FlattenDimensions.vars (FlattenDimensions.extent_names bn bounds.length))
          (FlattenDimensions.vars (FlattenDimensions.stride_names bn bounds.length))).length
          = 3 * bounds.length + 2
        ∧ (FlattenDimensions.buffer_t_args t
          (FlattenDimensions.vars (FlattenDimensions.min_names bn bounds.length))
          (FlattenDimensions.vars (FlattenDimensions.extent_names bn bounds.length))
          (FlattenDimensions.vars (FlattenDimensions.stride_names bn bounds.length)))[0]?
          = some (Expr.Call Handle "null_handle" [] CallType.Intrinsic 0 0 none none)
        ∧ (FlattenDimensions.buffer_t_args t
          (FlattenDimensions.vars (FlattenDimensions.min_names bn bounds.length))
          (FlattenDimensions.vars (FlattenDimensions.extent_names bn bounds.length))
          (FlattenDimensions.vars (FlattenDimensions.stride_names bn bounds.length)))[1]?
          = some (Expr.IntImm t.bytes)
        ∧ ∀ d, d < bounds.length →
          (FlattenDimensions.buffer_t_args t
            (FlattenDimensions.vars (FlattenDimensions.min_names bn bounds.length))
            (FlattenDimensions.vars (FlattenDimensions.extent_names bn bounds.length))
            (FlattenDimensions.vars (FlattenDimensions.stride_names bn bounds.length)))[
              3 * d + 2]?
            = some (Expr.Variable (Int_ 32) (bn ++ ".min." ++ int_to_string d))
          ∧ (FlattenDimensions.buffer_t_args t
            (FlattenDimensions.vars (FlattenDimensions.min_names bn bounds.length))
            (FlattenDimensions.vars (FlattenDimensions.extent_names bn bounds.length))
            (FlattenDimensions.vars (FlattenDimensions.stride_names bn bounds.length)))[
              3 * d + 3]?
            = some (Expr.Variable (Int_ 32) (bn ++ ".extent." ++ int_to_string d))
          ∧ (FlattenDimensions.buffer_t_args t
            (FlattenDimensions.vars (FlattenDimensions.min_names bn bounds.length))
            (FlattenDimensions.vars (FlattenDimensions.extent_names bn bounds.length))
            (FlattenDimensions.vars (FlattenDimensions.stride_names bn bounds.length)))[
              3 * d + 4]?
            = some (Expr.Variable (Int_ 32) (bn ++ ".stride." ++ int_to_string d)))
    ∧ (∀ t : IRType, t.promote.bytes = t.bytes)
    ∧ (∀ (bn : String) (t : IRType),
        ∀ x ∈ (Expr.Call Handle "create_buffer_t"
            (FlattenDimensions.buffer_t_args t
              (FlattenDimensions.vars (FlattenDimensions.min_names bn bounds.length))
              (FlattenDimensions.vars (FlattenDimensions.extent_names bn bounds.length))
              (FlattenDimensions.vars (FlattenDimensions.stride_names bn bounds.length)))
            CallType.Intrinsic 0 0 none none).free_vars,
          x ∈ (bounds_bindings bn bounds 0 ++ stride_bindings bn (storage_order f)).map
            Prod.fst) := by
  obtain ⟨hlow, -, hpp, -, -, -⟩ :=
    lower_realize env scope scope1 name types bounds body body1 f hf hnd hperm hdims hbody
  have hl : ∀ (g : Nat → String),
      (FlattenDimensions.vars ((List.range bounds.length).map g)).length = bounds.length := by
    intro g; simp [FlattenDimensions.vars]
  refine ⟨hlow, fun idx hidx => FlattenDimensions.make_buffer_t_getD env name types f hf idx hidx,
    fun t rest idx stmt => ?_, fun bn t inner => ⟨?_, ?_⟩, fun bn mk t =>
      count_buffer_bindings bn bounds (storage_order f) mk t, fun bn t => ⟨?_, ?_, ?_, ?_⟩,
    fun t => ?_, fun bn t x hx => ?_⟩
  · rw [← lets_append]
    rfl
  · simp [descriptor_binding, Stmt.lets]
  · simp [descriptor_binding, Stmt.lets]
  · simp only [FlattenDimensions.buffer_t_args, List.length_cons]
    rw [FlattenDimensions.buffer_t_triples_length _ _ _ bounds.length
      (by rw [FlattenDimensions.min_names, hl]) (by rw [FlattenDimensions.extent_names, hl])
      (by rw [FlattenDimensions.stride_names, hl])]
  · rfl
  · simp [FlattenDimensions.buffer_t_args]
  · intro d hd
    have hg := FlattenDimensions.buffer_t_triples_get
      (FlattenDimensions.vars (FlattenDimensions.min_names bn bounds.length))
      (FlattenDimensions.vars (FlattenDimensions.extent_names bn bounds.length))
      (FlattenDimensions.vars (FlattenDimensions.stride_names bn bounds.length)) d
      (by rw [FlattenDimensions.min_names, hl]; exact hd)
      (by rw [FlattenDimensions.extent_names, hl]; exact hd)
      (by rw [FlattenDimensions.stride_names, hl]; exact hd)
    simp only [FlattenDimensions.min_names, FlattenDimensions.extent_names,
      FlattenDimensions.stride_names, FlattenDimensions.getElem?_vars _ _ _ hd] at hg
    simp only [FlattenDimensions.buffer_t_args, FlattenDimensions.min_names,
      FlattenDimensions.extent_names, FlattenDimensions.stride_names]
    have e3 : 3 * d + 3 = 3 * d + 1 + 1 + 1 := by omega
    have e4 : 3 * d + 4 = 3 * d + 2 + 1 + 1 := by omega
    refine ⟨?_, ?_, ?_⟩
    · simpa using hg.1
    · rw [e3]; simpa using hg.2.1
    · rw [e4]; simpa using hg.2.2
  · simp only [IRType.promote, IRType.bytes]
    omega
  · simp only [Expr.free_vars, FlattenDimensions.buffer_t_args, Expr.free_vars_list,
      List.nil_append] at hx
    rcases FlattenDimensions.free_vars_buffer_t_triples _ _ _ x hx with h | h | h
    · rw [FlattenDimensions.free_vars_vars, FlattenDimensions.min_names] at h
      obtain ⟨d, hd, rfl⟩ := List.mem_map.mp h
      have hm := (bounds_bindings_mem bn bounds 0 d (List.mem_range.mp hd)).1
      rw [Nat.zero_add] at hm
      rw [List.map_append]
      exact List.mem_append_left _ (List.mem_map.mpr ⟨_, hm, rfl⟩)
    · rw [FlattenDimensions.free_vars_vars, FlattenDimensions.extent_names] at h
      obtain ⟨d, hd, rfl⟩ := List.mem_map.mp h
      have hm := (bounds_bindings_mem bn bounds 0 d (List.mem_range.mp hd)).2
      rw [Nat.zero_add] at hm
      rw [List.map_append]
      exact List.mem_append_left _ (List.mem_map.mpr ⟨_, hm, rfl⟩)
    · rw [FlattenDimensions.free_vars_vars, FlattenDimensions.stride_names] at h
      obtain ⟨d, hd, rfl⟩ := List.mem_map.mp h
      rw [List.map_append, stride_bindings_names]
      exact List.mem_append_right _
        (List.mem_map.mpr ⟨d, hpp.mem_iff.mpr hd, rfl⟩)

/-! ## Calls in the dimension flattener -/

namespace FlattenDimensions

mutual
/-- An expression comes back from the visitor as another node exactly when it holds a
multi-index read. -/
theorem changed_eq_any : ∀ e : Expr, changed e = e.any Expr.is_read
  | .IntImm _ => by simp [changed, Expr.any, Expr.is_read]
  | .FloatImm _ => by simp [changed, Expr.any, Expr.is_read]
  | .Variable _ _ => by simp [changed, Expr.any, Expr.is_read]
  | .Cast _ v => by simp [changed, Expr.any, Expr.is_read, changed_eq_any v]
  | .Add a b => by simp [changed, Expr.any, Expr.is_read, changed_eq_any a, changed_eq_any b]
  | .Sub a b => by simp [changed, Expr.any, Expr.is_read, changed_eq_any a, changed_eq_any b]
  | .Mul a b => by simp [changed, Expr.any, Expr.is_read, changed_eq_any a, changed_eq_any b]
  | .Div a b => by simp [changed, Expr.any, Expr.is_read, changed_eq_any a, changed_eq_any b]
  | .Let _ v b => by simp [changed, Expr.any, Expr.is_read, changed_eq_any v, changed_eq_any b]
  | .Call _ _ args ct _ _ _ _ => by
    cases ct <;> simp [changed, Expr.any, Expr.is_read, changedList_eq_any args]
  | .Load _ _ i _ _ => by simp [changed, Expr.any, Expr.is_read, changed_eq_any i]
  | .LoadArgs _ _ is _ _ => by simp [changed, Expr.any, Expr.is_read, changedList_eq_any is]
theorem changedList_eq_any : ∀ es : List Expr, changedList es = Expr.any_list Expr.is_read es
  | [] => by simp [changedList, Expr.any_list]
  | e :: es => by simp [changedList, Expr.any_list, changed_eq_any e, changedList_eq_any es]
end

mutual
/-- An expression that holds no multi-index read is lowered to itself. -/
theorem mutateExpr_unchanged (env : Env) (scope : Scope) :
    ∀ e : Expr, changed e = false → mutateExpr env scope e = e
  | .IntImm _, _ => by simp [mutateExpr]
  | .FloatImm _, _ => by simp [mutateExpr]
  | .Variable _ _, _ => by simp [mutateExpr]
  | .Cast _ v, h => by
    simp only [changed] at h
    simp [mutateExpr, mutateExpr_unchanged env scope v h]
  | .Add a b, h => by
    simp only [changed, Bool.or_eq_false_iff] at h
    simp [mutateExpr, mutateExpr_unchanged env scope a h.1, mutateExpr_unchanged env scope b h.2]
  | .Sub a b, h => by
    simp only [changed, Bool.or_eq_false_iff] at h
    simp [mutateExpr, mutateExpr_unchanged env scope a h.1, mutateExpr_unchanged env scope b h.2]
  | .Mul a b, h => by
    simp only [changed, Bool.or_eq_false_iff] at h
    simp [mutateExpr, mutateExpr_unchanged env scope a h.1, mutateExpr_unchanged env scope b h.2]
  | .Div a b, h => by
    simp only [changed, Bool.or_eq_false_iff] at h
    simp [mutateExpr, mutateExpr_unchanged env scope a h.1, mutateExpr_unchanged env scope b h.2]
  | .Let _ v b, h => by
    simp only [changed, Bool.or_eq_false_iff] at h
    simp [mutateExpr, mutateExpr_unchanged env scope v h.1, mutateExpr_unchanged env scope b h.2]
  | .Call _ _ args ct _ _ _ _, h => by
    simp only [changed] at h
    split at h
    · rename_i hct
      simp [mutateExpr, hct, h]
    · simp at h
  | .Load _ _ i _ _, h => by
    simp only [changed] at h
    simp [mutateExpr, mutateExpr_unchanged env scope i h]
  | .LoadArgs _ _ is _ _, h => by
    simp only [changed] at h
    simp [mutateExpr, mutateExprs_unchanged env scope is h]
theorem mutateExprs_unchanged (env : Env) (scope : Scope) :
    ∀ es : List Expr, changedList es = false → mutateExprs env scope es = es
  | [], _ => by simp [mutateExprs]
  | e :: es, h => by
    simp only [changedList, Bool.or_eq_false_iff] at h
    simp [mutateExprs, mutateExpr_unchanged env scope e h.1,
      mutateExprs_unchanged env scope es h.2]
end

theorem any_read_internal_loop (sc : Scope) (nm : String) (l : List Expr) :
    ∀ (i : Nat) (acc : Expr),
      (internal_loop sc nm l i acc).any Expr.is_read
        = (acc.any Expr.is_read || Expr.any_list Expr.is_read l) := by
  induction l with
  | nil => intro i acc; simp [internal_loop, Expr.any_list]
  | cons a rest ih =>
    intro i acc
    simp [internal_loop, ih, Expr.any_list, Expr.any, Expr.is_read, mins, strides,
      Bool.or_assoc]

theorem any_read_external_loop (sc : Scope) (nm : String) (l : List Expr) :
    ∀ (i : Nat) (idx base : Expr),
      (external_loop sc nm l i (idx, base)).1.any Expr.is_read
          = (idx.any Expr.is_read || Expr.any_list Expr.is_read l)
        ∧ (external_loop sc nm l i (idx, base)).2.any Expr.is_read = base.any Expr.is_read := by
  induction l with
  | nil => intro i idx base; simp [external_loop, Expr.any_list]
  | cons a rest ih =>
    intro i idx base
    simp [external_loop, ih, Expr.any_list, Expr.any, Expr.is_read, mins, strides,
      Bool.or_assoc]

/-- The address `flatten_args` builds holds a multi-index read exactly when a
coordinate does. -/
theorem any_read_flatten_args (sc : Scope) (env : Env) (nm : String) (l : List Expr) :
    (flatten_args sc env nm l).any Expr.is_read = Expr.any_list Expr.is_read l := by
  unfold flatten_args
  split
  · simp [any_read_internal_loop, Expr.any, Expr.is_read]
  · have h := any_read_external_loop sc nm l 0 (Expr.IntImm 0) (Expr.IntImm 0)
    simp [Expr.any, h.1, h.2, Expr.is_read]

mutual
/-- No expression the dimension flattener returns holds a multi-index read. -/
theorem mutateExpr_no_read (env : Env) (scope : Scope) :
    ∀ e : Expr, (mutateExpr env scope e).any Expr.is_read = false
  | .IntImm _ => by simp [mutateExpr, Expr.any, Expr.is_read]
  | .FloatImm _ => by simp [mutateExpr, Expr.any, Expr.is_read]
  | .Variable _ _ => by simp [mutateExpr, Expr.any, Expr.is_read]
  | .Cast _ v => by simp [mutateExpr, Expr.any, Expr.is_read, mutateExpr_no_read env scope v]
  | .Add a b => by
    simp [mutateExpr, Expr.any, Expr.is_read, mutateExpr_no_read env scope a,
      mutateExpr_no_read env scope b]
  | .Sub a b => by
    simp [mutateExpr, Expr.any, Expr.is_read, mutateExpr_no_read env scope a,
      mutateExpr_no_read env scope b]
  | .Mul a b => by
    simp [mutateExpr, Expr.any, Expr.is_read, mutateExpr_no_read env scope a,
      mutateExpr_no_read env scope b]
  | .Div a b => by
    simp [mutateExpr, Expr.any, Expr.is_read, mutateExpr_no_read env scope a,
      mutateExpr_no_read env scope b]
  | .Let _ v b => by
    simp [mutateExpr, Expr.any, Expr.is_read, mutateExpr_no_read env scope v,
      mutateExpr_no_read env scope b]
  | .Call t name args ct outs vi img prm => by
    have ih := mutateExprs_no_read env scope args
    simp only [mutateExpr]
    split
    · rename_i hct
      have hr : decide (ct = CallType.Halide ∨ ct = CallType.Image) = false := by
        rcases hct with h | h <;> simp [h]
      split
      · simp [Expr.any, Expr.is_read, hr, flatten_mutateExprs_eq_map, ih]
      · rename_i hch
        have := changedList_eq_any args
        simp only [Bool.not_eq_true] at hch
        rw [hch] at this
        simp [Expr.any, Expr.is_read, hr, ← this]
    · rw [mutateExpr_flatten_args]
      split <;> simp [Expr.any, Expr.is_read, any_read_flatten_args, ih]
  | .Load _ _ i _ _ => by
    simp [mutateExpr, Expr.any, Expr.is_read, mutateExpr_no_read env scope i]
  | .LoadArgs _ _ is _ _ => by
    simp [mutateExpr, Expr.any, Expr.is_read, flatten_mutateExprs_eq_map,
      mutateExprs_no_read env scope is]
theorem mutateExprs_no_read (env : Env) (scope : Scope) :
    ∀ es : List Expr, Expr.any_list Expr.is_read (es.map (mutateExpr env scope)) = false
  | [] => by simp [Expr.any_list]
  | e :: es => by
    simp [Expr.any_list, mutateExpr_no_read env scope e, mutateExprs_no_read env scope es]
end

/-- The arguments of a call come back as they are exactly when none of them holds a
multi-index read. -/
theorem map_mutateExpr_eq_iff (env : Env) (scope : Scope) (args : List Expr) :
    args.map (mutateExpr env scope) = args ↔ changedList args = false := by
  constructor
  · intro h
    rw [changedList_eq_any, ← h]
    exact mutateExprs_no_read env scope args
  · intro h
    rw [← flatten_mutateExprs_eq_map]
    exact mutateExprs_unchanged env scope args h

end FlattenDimensions

/-- C20: in the dimension flattener, a call to an external or intrinsic function is
lowered to a call of the same name, type and kind whose arguments are the lowered
arguments in their order: the call itself when no argument changes, and otherwise the
call built from those four, with the function, output index, image and parameter it
carries left at their defaults.  It is never lowered to a load or a cast.  A call of
any other kind is lowered to a load, under a cast when the width of its type is not a
multiple of 8. -/
theorem external_calls_kept (env : Env) (scope : Scope) (t : IRType) (name : String)
    (args : List Expr) (ct : CallType) (outs vi : Nat) (img prm : Option String) :
    ((ct = CallType.Extern ∨ ct = CallType.Intrinsic) →
      (∃ (o v : Nat) (i p : Option String),
        FlattenDimensions.mutateExpr env scope (Expr.Call t name args ct outs vi img prm)
          = Expr.Call t name (args.map (FlattenDimensions.mutateExpr env scope)) ct o v i p)
      ∧ (args.map (FlattenDimensions.mutateExpr env scope) = args →
        FlattenDimensions.mutateExpr env scope (Expr.Call t name args ct outs vi img prm)
          = Expr.Call t name args ct outs vi img prm)
      ∧ (args.map (FlattenDimensions.mutateExpr env scope) ≠ args →
        FlattenDimensions.mutateExpr env scope (Expr.Call t name args ct outs vi img prm)
          = Expr.Call t name (args.map (FlattenDimensions.mutateExpr env scope)) ct 0 0 none
              none)
      ∧ (args.map (FlattenDimensions.mutateExpr env scope) = args
          ↔ FlattenDimensions.changedList args = false)
      ∧ (FlattenDimensions.mutateExpr env scope
          (Expr.Call t name args ct outs vi img prm)).is_load = false
      ∧ (∀ (t2 : IRType) (e : Expr),
          FlattenDimensions.mutateExpr env scope (Expr.Call t name args ct outs vi img prm)
            ≠ Expr.Cast t2 e))
    ∧ ((ct = CallType.Halide ∨ ct = CallType.Image) →
        FlattenDimensions.mutateExpr env scope (Expr.Call t name args ct outs vi img prm)
          = if 8 ∣ t.bits then
              Expr.Load t (call_name name ct outs vi)
                (FlattenDimensions.mutateExpr env scope
                  (FlattenDimensions.flatten_args scope env (call_name name ct outs vi) args))
                img prm
            else
              Expr.Cast t (Expr.Load t.promote (call_name name ct outs vi)
                (FlattenDimensions.mutateExpr env scope
                  (FlattenDimensions.flatten_args scope env (call_name name ct outs vi) args))
                img prm)) := by
  refine ⟨fun hct => ?_, fun hct =>
    FlattenDimensions.mutateExpr_read env scope t name args ct outs vi img prm hct⟩
  have hiff := FlattenDimensions.map_mutateExpr_eq_iff env scope args
  have hsame : FlattenDimensions.changedList args = false →
      FlattenDimensions.mutateExpr env scope (Expr.Call t name args ct outs vi img prm)
        = Expr.Call t name args ct outs vi img prm := by
    intro h
    simp [FlattenDimensions.mutateExpr, hct, h]
  have hnew : FlattenDimensions.changedList args = true →
      FlattenDimensions.mutateExpr env scope (Expr.Call t name args ct outs vi img prm)
        = Expr.Call t name (args.map (FlattenDimensions.mutateExpr env scope)) ct 0 0 none
            none := by
    intro h
    simp [FlattenDimensions.mutateExpr, hct, h, FlattenDimensions.flatten_mutateExprs_eq_map]
  have hex : ∃ (o v : Nat) (i p : Option String),
      FlattenDimensions.mutateExpr env scope (Expr.Call t name args ct outs vi img prm)
        = Expr.Call t name (args.map (FlattenDimensions.mutateExpr env scope)) ct o v i p := by
    cases hc : FlattenDimensions.changedList args with
    | false =>
      refine ⟨outs, vi, img, prm, ?_⟩
      rw [hsame hc, hiff.mpr hc]
    | true => exact ⟨0, 0, none, none, hnew hc⟩
  refine ⟨hex, fun h => hsame (hiff.mp h), fun h => hnew ?_, hiff, ?_, ?_⟩
  · cases hc : FlattenDimensions.changedList args with
    | false => exact absurd (hiff.mpr hc) h
    | true => rfl
  · obtain ⟨o, v, i, p, h⟩ := hex
    rw [h]
    rfl
  · intro t2 e he
    obtain ⟨o, v, i, p, h⟩ := hex
    rw [h] at he
    cases he

/-! ## The scope stack and the flag across a traversal -/

/-- C28: in both passes the state after a traversal that completes is the state before
it: the dimension flattener returns the scope it was entered with, and the kernel
rewriter, which always completes, the scope and the flag it was entered with.  A pop
removes the one entry the matching push added, and with two entries of one name a pop
leaves the older one, so the name stays in the scope.  In a program, the statement that
follows an inner binding of the name `nm` inside the body of an outer binding of `nm`
is entered with the scope of the outer body, which contains `nm`, and the body of the
inner binding with one entry more. -/
theorem scope_restored (env : Env) :
    (∀ (s : Stmt) (scope : Scope) (out : Stmt) (scope1 : Scope),
      FlattenDimensions.mutateStmt env scope s = some (out, scope1) → scope1 = scope)
    ∧ (∀ (s : Stmt) (st : CreateKernelLoads.State),
        (CreateKernelLoads.mutateStmt st s).2 = st)
    ∧ (∀ (scope : Scope) (name : String) (v : Int), (scope.push name v).pop name = scope)
    ∧ (∀ (scope : Scope) (name : String) (v w : Int),
        ((scope.push name v).push name w).pop name = scope.push name v
        ∧ Scope.contains (((scope.push name v).push name w).pop name) name = true)
    ∧ (∀ (nm : String) (value value2 : Expr) (body2 s : Stmt) (scope : Scope) (out : Stmt)
        (scope1 : Scope), ends_with nm ".constrained" = true →
        FlattenDimensions.mutateStmt env scope
            (Stmt.LetStmt nm value (Stmt.Block (Stmt.LetStmt nm value2 body2) s))
          = some (out, scope1) →
        scope1 = scope
        ∧ (∃ out_s : Stmt,
            FlattenDimensions.mutateStmt env (scope.push nm 0) s
              = some (out_s, scope.push nm 0))
        ∧ (∃ out_b : Stmt,
            FlattenDimensions.mutateStmt env ((scope.push nm 0).push nm 0) body2
              = some (out_b, (scope.push nm 0).push nm 0))
        ∧ Scope.contains (scope.push nm 0) nm = true)
    ∧ (∀ (nm : String) (value value2 : Expr) (body2 s : Stmt) (st : CreateKernelLoads.State),
        ends_with nm ".constrained" = true →
        (CreateKernelLoads.mutateStmt st
            (Stmt.LetStmt nm value (Stmt.Block (Stmt.LetStmt nm value2 body2) s))).1
          = Stmt.LetStmt nm
              (CreateKernelLoads.mutateExpr { st with scope := st.scope.push nm 0 } value)
              (Stmt.Block
                (Stmt.LetStmt nm
                  (CreateKernelLoads.mutateExpr
                    { st with scope := (st.scope.push nm 0).push nm 0 } value2)
                  (CreateKernelLoads.mutateStmt
                    { st with scope := (st.scope.push nm 0).push nm 0 } body2).1)
                (CreateKernelLoads.mutateStmt { st with scope := st.scope.push nm 0 } s).1)) := by
  refine ⟨FlattenDimensions.mutateStmt_scope env, CreateKernelLoads.mutateStmt_state,
    CreateKernelLoads.pop_push, fun scope name v w => ?_, ?_, ?_⟩
  · rw [CreateKernelLoads.pop_push]
    exact ⟨rfl, by simp [Scope.contains, Scope.push]⟩
  · intro nm value value2 body2 s scope out scope1 hc h
    refine ⟨FlattenDimensions.mutateStmt_scope env _ _ _ _ h, ?_, ?_,
      by simp [Scope.contains, Scope.push]⟩
    · obtain ⟨out_s, c1, -, h2, -⟩ := FlattenDimensions.mutateStmt_in_binding env nm value
        (StmtCtx.BlockRest (Stmt.LetStmt nm value2 body2) StmtCtx.hole) s scope out scope1 hc h
      exact ⟨out_s, by simpa [StmtCtx.markers, StmtCtx.binders] using h2⟩
    · obtain ⟨out_b, c1, -, h2, -⟩ := FlattenDimensions.mutateStmt_in_binding env nm value
        (StmtCtx.BlockFirst (StmtCtx.LetStmt nm value2 StmtCtx.hole) s) body2 scope out scope1
        hc h
      exact ⟨out_b, by simpa [StmtCtx.markers, StmtCtx.binders, hc, Scope.push] using h2⟩
  · intro nm value value2 body2 s st hc
    simp [CreateKernelLoads.mutateStmt, hc, CreateKernelLoads.mutateStmt_state,
      CreateKernelLoads.pop_push]

/-- C24: in the kernel rewriter.  A loop is left with the state it was entered with,
and its minimum, its extent and its body are visited with the flag set when it was set
on entry or the loop has the device-kernel kind: a loop of another kind inside a
device-kernel loop keeps the flag set.  Every other statement visits its own
expressions and its sub-statements with the flag it was entered with.  So the
statement at any position of a program is visited with the flag set exactly when the
flag was set at the start or a loop of the device-kernel kind is around the position;
from the constructor state, exactly when such a loop is around it. -/
theorem kernel_flag (s : Stmt) :
    (∀ (st : CreateKernelLoads.State) (name : String) (mn ex : Expr) (ft : ForType)
        (body : Stmt),
        CreateKernelLoads.mutateStmt st (Stmt.For name mn ex ft body)
          = (Stmt.For name
              (CreateKernelLoads.mutateExpr
                ⟨st.scope, st.inside_kernel_loop || decide (ft = ForType.Kernel)⟩ mn)
              (CreateKernelLoads.mutateExpr
                ⟨st.scope, st.inside_kernel_loop || decide (ft = ForType.Kernel)⟩ ex)
              ft
              (CreateKernelLoads.mutateStmt
                ⟨st.scope, st.inside_kernel_loop || decide (ft = ForType.Kernel)⟩ body).1,
            st))
    ∧ (∀ (st : CreateKernelLoads.State) (name : String) (value : Expr) (body : Stmt),
        ∃ sc : Scope,
          (CreateKernelLoads.mutateStmt st (Stmt.LetStmt name value body)).1
            = Stmt.LetStmt name
                (CreateKernelLoads.mutateExpr ⟨sc, st.inside_kernel_loop⟩ value)
                (CreateKernelLoads.mutateStmt ⟨sc, st.inside_kernel_loop⟩ body).1)
    ∧ (∀ (st : CreateKernelLoads.State) (first rest : Stmt),
        (CreateKernelLoads.mutateStmt st (Stmt.Block first rest)).1
          = Stmt.Block (CreateKernelLoads.mutateStmt st first).1
              (CreateKernelLoads.mutateStmt st rest).1)
    ∧ (∀ (c : StmtCtx) (st : CreateKernelLoads.State),
        ∃ c1 : StmtCtx,
          (CreateKernelLoads.mutateStmt st (c.fill s)).1
            = c1.fill (CreateKernelLoads.mutateStmt
                ⟨c.markers ++ st.scope, st.inside_kernel_loop || c.in_kernel_loop⟩ s).1)
    ∧ (∀ c : StmtCtx,
        ∃ c1 : StmtCtx,
          CreateKernelLoads.mutate (c.fill s)
            = c1.fill (CreateKernelLoads.mutateStmt ⟨c.markers, c.in_kernel_loop⟩ s).1)
    ∧ (∀ (name name2 : String) (mn ex mn2 ex2 : Expr) (ft : ForType) (c : StmtCtx),
        (StmtCtx.For name mn ex ForType.Kernel
          (StmtCtx.For name2 mn2 ex2 ft c)).in_kernel_loop = true)
    ∧ (∀ (name : String) (mn ex : Expr) (ft : ForType) (c : StmtCtx),
        (StmtCtx.For name mn ex ft c).in_kernel_loop
          = (decide (ft = ForType.Kernel) || c.in_kernel_loop))
    ∧ StmtCtx.hole.in_kernel_loop = false
    ∧ (∀ (st : CreateKernelLoads.State) (s2 : Stmt),
        (CreateKernelLoads.mutateStmt st s2).2.inside_kernel_loop = st.inside_kernel_loop) := by
  refine ⟨?_, ?_, ?_, fun c st => CreateKernelLoads.kernel_mutateStmt_fill s c st, ?_, ?_,
    fun _ _ _ _ _ => rfl, rfl, fun st s2 => by rw [CreateKernelLoads.mutateStmt_state]⟩
  · intro st name mn ex ft body
    by_cases hk : ft = ForType.Kernel
    · simp [CreateKernelLoads.mutateStmt, hk, CreateKernelLoads.mutateStmt_state]
    · simp [CreateKernelLoads.mutateStmt, hk, CreateKernelLoads.mutateStmt_state]
  · intro st name value body
    by_cases hc : ends_with name ".constrained" = true
    · exact ⟨st.scope.push name 0, by simp [CreateKernelLoads.mutateStmt, hc]⟩
    · exact ⟨st.scope, by simp [CreateKernelLoads.mutateStmt, hc]⟩
  · intro st first rest
    simp [CreateKernelLoads.mutateStmt, CreateKernelLoads.mutateStmt_state]
  · intro c
    obtain ⟨c1, h⟩ := CreateKernelLoads.kernel_mutateStmt_fill s c CreateKernelLoads.State.init
    exact ⟨c1, by
      unfold CreateKernelLoads.mutate
      rw [h]
      simp [CreateKernelLoads.State.init]⟩
  · intro name name2 mn ex mn2 ex2 ft c
    simp [StmtCtx.in_kernel_loop]

/-! ## The strategy of a write of several values -/

/-- C22, the code at the input `example_tuple_write`: `g`, of one output, and `h`, of
two outputs, are both in the environment.  The write of one value to `g` is addressed
by the internal strategy.  The write of two values to `h` stores into `h.0` and `h.1`,
names that are not in the environment, and both stores are addressed by the external
strategy, as is the load of the read of output 1 of `h`. -/
theorem tuple_write_strategy :
    example_env_pair "g" = some example_function_2d
    ∧ example_env_pair "h" = some example_function_pair
    ∧ example_function_pair.outputs = 2
    ∧ example_env_pair "h.0" = none ∧ example_env_pair "h.1" = none
    ∧ storage_flattening (Stmt.Provide "g" [Expr.IntImm 1] example_args) example_env_pair
      = some (Stmt.Store "g" (Expr.IntImm 1) (example_internal_address "g"))
    ∧ storage_flattening example_tuple_write example_env_pair
      = some example_tuple_write_lowered
    ∧ FlattenDimensions.mutateExpr example_env_pair [] example_tuple_read
      = Expr.Load (Int_ 32) "h.1" (example_external_address "h.1") none none
    ∧ (∀ buffer : String, example_external_address buffer ≠ example_internal_address buffer) := by
  obtain ⟨h0, h1, -⟩ := example_names
  have hg : (example_env_pair "g").isSome = true := by decide
  have hg0 : (example_env_pair "h.0").isSome = false := by decide
  have hg1 : (example_env_pair "h.1").isSome = false := by decide
  refine ⟨rfl, rfl, rfl, rfl, rfl, ?_, ?_, ?_, ?_⟩
  · simp [storage_flattening, CreateKernelLoads.mutate, FlattenDimensions.mutate,
      CreateKernelLoads.mutateStmt, CreateKernelLoads.State.init,
      CreateKernelLoads.mutateExprs, CreateKernelLoads.mutateExpr, example_args,
      FlattenDimensions.mutateStmt, FlattenDimensions.visit_Provide,
      FlattenDimensions.provide_values, FlattenDimensions.mutateExprs,
      FlattenDimensions.mutateExpr, FlattenDimensions.flatten_args, hg,
      FlattenDimensions.internal_loop, FlattenDimensions.mins, FlattenDimensions.strides,
      FlattenDimensions.min_name, FlattenDimensions.stride_name, Scope.contains, h0, h1,
      promote_value, Expr.type, Int_, IRType.promote, IRType.bytes, example_internal_address]
  · have e0 : "h" ++ "." ++ "0" = "h.0" := by decide
    have e1 : "h" ++ "." ++ "1" = "h.1" := by decide
    have v0 : "h.0" ++ ".value" = "h.0.value" := by decide
    have v1 : "h.1" ++ ".value" = "h.1.value" := by decide
    simp [storage_flattening, CreateKernelLoads.mutate, FlattenDimensions.mutate,
      CreateKernelLoads.mutateStmt, CreateKernelLoads.State.init, example_tuple_write,
      CreateKernelLoads.mutateExprs, CreateKernelLoads.mutateExpr, example_args,
      FlattenDimensions.mutateStmt, FlattenDimensions.visit_Provide,
      FlattenDimensions.provide_values, FlattenDimensions.mutateExprs,
      FlattenDimensions.mutateExpr, FlattenDimensions.flatten_args, hg0, hg1,
      FlattenDimensions.external_loop, FlattenDimensions.mins, FlattenDimensions.strides,
      FlattenDimensions.min_name, FlattenDimensions.stride_name, Scope.contains, h0, h1,
      promote_value, Expr.type, Int_, IRType.promote, IRType.bytes, let_loop, store_loop,
      Stmt.defined, example_tuple_write_lowered, example_external_address, e0, e1, v0, v1]
  · have e1 : "h" ++ "." ++ "1" = "h.1" := by decide
    simp [example_tuple_read, FlattenDimensions.mutateExpr, call_name, example_args,
      FlattenDimensions.flatten_args, hg1, FlattenDimensions.external_loop,
      FlattenDimensions.mins, FlattenDimensions.strides, FlattenDimensions.min_name,
      FlattenDimensions.stride_name, Scope.contains, h0, h1, e1, Int_, IRType.promote,
      IRType.bytes, example_external_address]
  · intro buffer h
    simp [example_external_address, example_internal_address] at h

/-! ## An access in the value of a constrained binding -/

/-- C25, the code at the input `example_binding_of_read`: the read `g(x, y)` stands in
the value of the binding of `g.min.0.constrained`, not in its body.  Both visitors push
the name before the value is visited, so the load is addressed with
`g.min.0.constrained` in place of `g.min.0`: the value of the binding reads the very
symbol the binding binds.  Inside a device-kernel loop the coordinate of the read is
made with `g.min.0.constrained` in the same way. -/
theorem value_of_binding_uses_override :
    storage_flattening example_binding_of_read example_env
      = some example_binding_of_read_lowered
    ∧ "g.min.0.constrained" ∈ (Expr.Load (Int_ 32) "g" example_constrained_address none
        none).free_vars
    ∧ "g.min.0" ∉ (Expr.Load (Int_ 32) "g" example_constrained_address none none).free_vars
    ∧ (CreateKernelLoads.mutateStmt example_kernel_state example_binding_of_read).1
      = Stmt.LetStmt "g.min.0.constrained"
          (Expr.LoadArgs (Int_ 32) "g"
            [Expr.Div
                (Expr.Add
                  (Expr.Cast (Float_ 32)
                    (Expr.Sub (Expr.Variable (Int_ 32) "x")
                      (Expr.Variable (Int_ 32) "g.min.0.constrained")))
                  (Expr.FloatImm (1 / 2)))
                (Expr.Cast (Float_ 32) (Expr.Variable (Int_ 32) "g.extent.0")),
              Expr.Div
                (Expr.Add
                  (Expr.Cast (Float_ 32)
                    (Expr.Sub (Expr.Variable (Int_ 32) "y")
                      (Expr.Variable (Int_ 32) "g.min.1")))
                  (Expr.FloatImm (1 / 2)))
                (Expr.Cast (Float_ 32) (Expr.Variable (Int_ 32) "g.extent.1"))]
            none none)
          (Stmt.StoreArgs "g" (Expr.IntImm 1) example_args) := by
  obtain ⟨h0, h1, -⟩ := example_names
  have hg : (example_env "g").isSome = true := by decide
  have hc : ends_with "g.min.0.constrained" ".constrained" = true := by decide
  have n0 : "g" ++ ".min." ++ "0" ++ ".constrained" = "g.min.0.constrained" := by decide
  have n1 : "g" ++ ".min." ++ "1" ++ ".constrained" = "g.min.1.constrained" := by decide
  have s0 : "g" ++ ".stride." ++ "0" ++ ".constrained" = "g.stride.0.constrained" := by
    decide
  have s1 : "g" ++ ".stride." ++ "1" ++ ".constrained" = "g.stride.1.constrained" := by
    decide
  have x0 : "g" ++ ".extent." ++ "0" ++ ".constrained" = "g.extent.0.constrained" := by
    decide
  have x1 : "g" ++ ".extent." ++ "1" ++ ".constrained" = "g.extent.1.constrained" := by
    decide
  refine ⟨?_, ?_, ?_, ?_⟩
  · simp [storage_flattening, CreateKernelLoads.mutate, FlattenDimensions.mutate,
      CreateKernelLoads.mutateStmt, CreateKernelLoads.State.init, example_binding_of_read,
      example_read_2d, CreateKernelLoads.mutateExprs, CreateKernelLoads.mutateExpr,
      example_args, hc, FlattenDimensions.mutateStmt, FlattenDimensions.visit_Provide,
      FlattenDimensions.provide_values, FlattenDimensions.mutateExprs,
      FlattenDimensions.mutateExpr, FlattenDimensions.flatten_args, hg, call_name,
      FlattenDimensions.internal_loop, FlattenDimensions.mins, FlattenDimensions.strides,
      FlattenDimensions.min_name, FlattenDimensions.stride_name, Scope.contains, Scope.push,
      Scope.pop, h0, h1, n0, n1, s0, s1, promote_value, Expr.type, Int_, IRType.promote,
      IRType.bytes, example_binding_of_read_lowered, example_constrained_address]
  · simp [example_constrained_address, Expr.free_vars]
  · simp [example_constrained_address, Expr.free_vars]
  · simp [CreateKernelLoads.mutateStmt, example_kernel_state, example_binding_of_read,
      example_read_2d, CreateKernelLoads.mutateExpr, example_args, hc, call_name,
      CreateKernelLoads.kernel_idx, CreateKernelLoads.kernel_coordinate,
      CreateKernelLoads.min_name, CreateKernelLoads.extent_name, Scope.contains, Scope.push,
      h0, h1, n0, n1, x0, x1, CreateKernelLoads.visit_Provide,
      CreateKernelLoads.provide_values, CreateKernelLoads.mutateExprs, promote_value,
      Expr.type, Int_, IRType.promote, IRType.bytes]

/-! ## The width of a load inside a device-kernel loop -/

/-- C26, the code at the input `example_kernel_bit_copy`: inside a device-kernel loop
the read of a one-bit element becomes a coordinate-vector-addressed load at the type of
the read, one bit wide, and no cast to the type of the read is put on it; the stored
value is the cast of that load to the promoted width 8.  So does every read, whatever
its type: the kernel rewriter gives the load the type of the read, and the dimension
flattener leaves the type of such a load as it is. -/
theorem kernel_load_width :
    storage_flattening example_kernel_bit_copy example_env
      = some example_kernel_bit_copy_lowered
    ∧ (Expr.LoadArgs ⟨TypeCode.UInt, 1, 1⟩ "g" example_read_2d_coordinates none none).type.bits
      = 1
    ∧ (IRType.mk TypeCode.UInt 1 1).promote.bits = 8
    ∧ (∀ (st : CreateKernelLoads.State) (t : IRType) (name : String) (args : List Expr)
        (ct : CallType) (outs vi : Nat) (img prm : Option String),
        st.inside_kernel_loop = true →
        CreateKernelLoads.mutateExpr st (Expr.Call t name args ct outs vi img prm)
          = Expr.LoadArgs t (call_name name ct outs vi)
              (CreateKernelLoads.kernel_idx st.scope (call_name name ct outs vi) args 0)
              img prm)
    ∧ (∀ (env : Env) (scope : Scope) (t : IRType) (name : String) (is : List Expr)
        (img prm : Option String),
        FlattenDimensions.mutateExpr env scope (Expr.LoadArgs t name is img prm)
          = Expr.LoadArgs t name (FlattenDimensions.mutateExprs env scope is) img prm) := by
  obtain ⟨h0, h1, -⟩ := example_names
  refine ⟨?_, rfl, by decide, ?_, ?_⟩
  · simp [storage_flattening, CreateKernelLoads.mutate, FlattenDimensions.mutate,
      CreateKernelLoads.mutateStmt, CreateKernelLoads.State.init, example_kernel_bit_copy,
      example_bit_read, CreateKernelLoads.mutateExprs, CreateKernelLoads.mutateExpr,
      example_args, call_name, CreateKernelLoads.kernel_idx,
      CreateKernelLoads.kernel_coordinate, CreateKernelLoads.min_name,
      CreateKernelLoads.extent_name, Scope.contains, h0, h1,
      CreateKernelLoads.visit_Provide, CreateKernelLoads.provide_values, promote_value,
      Expr.type, Int_, IRType.promote, IRType.bytes, FlattenDimensions.mutateStmt,
      FlattenDimensions.mutateExprs, FlattenDimensions.mutateExpr,
      example_kernel_bit_copy_lowered, example_read_2d_coordinates]
  · intro st t name args ct outs vi img prm hin
    simp [CreateKernelLoads.mutateExpr, hin]
  · intro env scope t name is img prm
    simp [FlattenDimensions.mutateExpr]

/-! ## The buffers of a function of several outputs -/

theorem stored_lets (l : List (String × Expr)) (s : Stmt) :
    (Stmt.lets l s).stored = s.stored := by
  simp only [Stmt.stored, events_lets, List.filterMap_append]
  have : List.filterMap (fun e : String ⊕ String => match e with
      | Sum.inr n => some n
      | Sum.inl _ => none) (l.map (fun b => (Sum.inl b.1 : String ⊕ String))) = [] := by
    induction l with
    | nil => rfl
    | cons b rest ih => simp [ih]
  rw [this, List.nil_append]

theorem stored_tuple_write (mk_store : String → Expr → Stmt) (name : String)
    (vals : List Expr) (hmk : ∀ n v, (mk_store n v).events = [Sum.inr n]) :
    (tuple_write mk_store name vals).stored
      = (List.range vals.length).map (fun i => name ++ "." ++ int_to_string i) := by
  simp only [Stmt.stored, events_tuple_write mk_store name vals hmk, List.filterMap_append]
  have h1 : ∀ l : List Nat, List.filterMap (fun e : String ⊕ String => match e with
      | Sum.inr n => some n
      | Sum.inl _ => none)
      (l.map (fun i => (Sum.inl (name ++ "." ++ int_to_string i ++ ".value") : String ⊕ String)))
      = [] := by
    intro l
    induction l with
    | nil => rfl
    | cons b rest ih => simp [ih]
  have h2 : ∀ l : List Nat, List.filterMap (fun e : String ⊕ String => match e with
      | Sum.inr n => some n
      | Sum.inl _ => none)
      (l.map (fun i => (Sum.inr (name ++ "." ++ int_to_string i) : String ⊕ String)))
      = l.map (fun i => name ++ "." ++ int_to_string i) := by
    intro l
    induction l with
    | nil => rfl
    | cons b rest ih => simpa using ih
  rw [h1, h2, List.nil_append]

theorem allocated_lets (l : List (String × Expr)) (s : Stmt) :
    (Stmt.lets l s).allocated = s.allocated := by
  induction l with
  | nil => rfl
  | cons b rest ih => simpa [Stmt.lets, Stmt.allocated] using ih

theorem allocated_realized (name : String) (n : Nat) (bounds : List Range)
    (extents : List Expr) (p : List Nat) (mks : List Bool) (types : List IRType) :
    ∀ (idx : Nat) (stmt : Stmt),
      (realized name n bounds extents p mks types idx stmt).allocated
        = ((List.range' idx types.length).map (FlattenDimensions.buffer_name name n)).reverse
          ++ stmt.allocated := by
  induction types with
  | nil => intro idx stmt; simp [realized]
  | cons t rest ih =>
    intro idx stmt
    rw [realized, ih, allocated_lets]
    simp [Stmt.allocated, List.range'_succ]

theorem call_name_eq_buffer_name (name : String) (k i : Nat) :
    call_name name CallType.Halide k i = FlattenDimensions.buffer_name name k i := by
  simp [call_name, FlattenDimensions.buffer_name]

namespace FlattenDimensions

theorem stored_write (env : Env) (scope : Scope) (name : String) (values args : List Expr) :
    ∃ out : Stmt,
      mutateStmt env scope (Stmt.Provide name values args) = some (out, scope)
      ∧ out.stored = (List.range values.length).map (buffer_name name values.length) := by
  match values with
  | [] =>
    exact ⟨_, rfl, by
      simp [visit_Provide, provide_values, mutateExprs, let_loop, store_loop, Stmt.stored,
        Stmt.events]⟩
  | [v] =>
    exact ⟨_, mutateStmt_single env scope name v args, by
      simp [Stmt.stored, Stmt.events, buffer_name, List.range_succ]⟩
  | v1 :: v2 :: rest =>
    refine ⟨_, mutateStmt_tuple env scope name (v1 :: v2 :: rest) args (by simp), ?_⟩
    rw [stored_tuple_write (fun n var => Stmt.Store n var
      (mutateExpr env scope (flatten_args scope env n args))) _ _ (fun _ _ => rfl)]
    simp [buffer_name]

end FlattenDimensions

namespace CreateKernelLoads

theorem kernel_stored_write (st : State) (name : String) (values args : List Expr)
    (hk : st.inside_kernel_loop = true) :
    (mutateStmt st (Stmt.Provide name values args)).1.stored
      = (List.range values.length).map (FlattenDimensions.buffer_name name values.length) := by
  match values with
  | [] =>
    simp [mutateStmt, hk, visit_Provide, provide_values, mutateExprs, let_loop, store_loop,
      Stmt.stored, Stmt.events]
  | [v] =>
    simp [mutateStmt, hk, visit_Provide, provide_values, mutateExprs, Stmt.stored, Stmt.events,
      FlattenDimensions.buffer_name, List.range_succ]
  | v1 :: v2 :: rest =>
    have h : mutateStmt st (Stmt.Provide name (v1 :: v2 :: rest) args)
        = (tuple_write (fun n var => Stmt.StoreArgs n var args) name
            ((v1 :: v2 :: rest).map (fun v => promote_value (mutateExpr st v))), st) := by
      simp only [mutateStmt, hk, provide_values, kernel_mutateExprs_eq_map, List.map_map]
      simp only [visit_Provide, List.map_cons, let_loop_eq, tuple_write]
      rw [store_loop_eq (fun n var => Stmt.StoreArgs n var args) _ (fun _ _ => rfl)]
      simp [List.enum, Function.comp_def]
    rw [h, stored_tuple_write (fun n var => Stmt.StoreArgs n var args) _ _ (fun _ _ => rfl)]
    simp [FlattenDimensions.buffer_name]

end CreateKernelLoads

/-- C21: for a function `f` of `k` outputs.  The buffer of output `i` is `f.i` when
`k > 1` and `f` when `k ≤ 1`, and the read of output `i` is lowered to a load from that
buffer, by the dimension flattener and, inside a device-kernel loop, by the kernel
rewriter.  A write of `k` values is lowered, by both, to stores into the buffers of the
outputs `0 .. k-1`, in that order: into `f` alone when `k = 1`.  The region
declaration of `f` with `k` output types allocates the buffers of the outputs
`k-1 .. 0`, from the outside in, around the allocations of its lowered body.  So every
buffer a lowered write of `k` values stores into, and the buffer a lowered read of an
output `i < k` loads from, is one of the buffers the region declaration allocates. -/
theorem output_buffer_names (env : Env) (scope scope1 : Scope) (f : String) (k : Nat)
    (fn : Function) (types : List IRType) (bounds : List Range) (body body1 : Stmt)
    (hk : types.length = k) (hf : env f = some fn) (hnd : fn.args.Nodup)
    (hperm : fn.schedule.storage_dims.Perm fn.args) (hdims : bounds.length = fn.args.length)
    (hbody : FlattenDimensions.mutateStmt env scope body = some (body1, scope1)) :
    (∀ i : Nat,
      FlattenDimensions.buffer_name f k i
        = if k > 1 then f ++ "." ++ int_to_string i else f)
    ∧ (∀ (sc : Scope) (t : IRType) (args : List Expr) (i : Nat) (img prm : Option String),
        FlattenDimensions.mutateExpr env sc (Expr.Call t f args CallType.Halide k i img prm)
          = if 8 ∣ t.bits then
              Expr.Load t (FlattenDimensions.buffer_name f k i)
                (FlattenDimensions.mutateExpr env sc
                  (FlattenDimensions.flatten_args sc env (FlattenDimensions.buffer_name f k i)
                    args))
                img prm
            else
              Expr.Cast t (Expr.Load t.promote (FlattenDimensions.buffer_name f k i)
                (FlattenDimensions.mutateExpr env sc
                  (FlattenDimensions.flatten_args sc env (FlattenDimensions.buffer_name f k i)
                    args))
                img prm))
    ∧ (∀ (st : CreateKernelLoads.State) (t : IRType) (args : List Expr) (i : Nat)
        (img prm : Option String), st.inside_kernel_loop = true →
        CreateKernelLoads.mutateExpr st (Expr.Call t f args CallType.Halide k i img prm)
          = Expr.LoadArgs t (FlattenDimensions.buffer_name f k i)
              (CreateKernelLoads.kernel_idx st.scope (FlattenDimensions.buffer_name f k i)
                args 0)
              img prm)
    ∧ (∀ (sc : Scope) (values args : List Expr), values.length = k →
        ∃ out : Stmt,
          FlattenDimensions.mutateStmt env sc (Stmt.Provide f values args) = some (out, sc)
          ∧ out.stored = (List.range k).map (FlattenDimensions.buffer_name f k)
          ∧ ∀ b ∈ out.stored,
              b ∈ (realized f types.length bounds
                (bounds.map (fun b => FlattenDimensions.mutateExpr env scope1 b.extent))
                (storage_order fn) (FlattenDimensions.make_buffer_t env f types) types 0
                body1).allocated)
    ∧ (∀ (st : CreateKernelLoads.State) (values args : List Expr), values.length = k →
        st.inside_kernel_loop = true →
        (CreateKernelLoads.mutateStmt st (Stmt.Provide f values args)).1.stored
          = (List.range k).map (FlattenDimensions.buffer_name f k))
    ∧ (k = 1 → ∀ (sc : Scope) (v : Expr) (args : List Expr),
        FlattenDimensions.mutateStmt env sc (Stmt.Provide f [v] args)
          = some (Stmt.Store f (promote_value (FlattenDimensions.mutateExpr env sc v))
              (FlattenDimensions.mutateExpr env sc
                (FlattenDimensions.flatten_args sc env f args)), sc))
    ∧ FlattenDimensions.mutateStmt env scope (Stmt.Realize f types bounds body)
        = some (realized f types.length bounds
            (bounds.map (fun b => FlattenDimensions.mutateExpr env scope1 b.extent))
            (storage_order fn) (FlattenDimensions.make_buffer_t env f types) types 0 body1,
          scope1)
    ∧ (realized f types.length bounds
          (bounds.map (fun b => FlattenDimensions.mutateExpr env scope1 b.extent))
          (storage_order fn) (FlattenDimensions.make_buffer_t env f types) types 0
          body1).allocated
        = ((List.range k).map (FlattenDimensions.buffer_name f k)).reverse ++ body1.allocated
    ∧ (∀ i, i < k →
        FlattenDimensions.buffer_name f k i
          ∈ (realized f types.length bounds
              (bounds.map (fun b => FlattenDimensions.mutateExpr env scope1 b.extent))
              (storage_order fn) (FlattenDimensions.make_buffer_t env f types) types 0
              body1).allocated) := by
  have hlow := (lower_realize env scope scope1 f types bounds body body1 fn hf hnd hperm hdims
    hbody).1
  have halloc : (realized f types.length bounds
      (bounds.map (fun b => FlattenDimensions.mutateExpr env scope1 b.extent))
      (storage_order fn) (FlattenDimensions.make_buffer_t env f types) types 0
      body1).allocated
      = ((List.range k).map (FlattenDimensions.buffer_name f k)).reverse ++ body1.allocated := by
    rw [allocated_realized, hk, List.range_eq_range']
  have hmem : ∀ i, i < k →
      FlattenDimensions.buffer_name f k i
        ∈ (realized f types.length bounds
            (bounds.map (fun b => FlattenDimensions.mutateExpr env scope1 b.extent))
            (storage_order fn) (FlattenDimensions.make_buffer_t env f types) types 0
            body1).allocated := by
    intro i hi
    rw [halloc]
    exact List.mem_append_left _ (List.mem_reverse.mpr
      (List.mem_map.mpr ⟨i, List.mem_range.mpr hi, rfl⟩))
  refine ⟨fun i => rfl, ?_, ?_, ?_, ?_, ?_, hlow, halloc, hmem⟩
  · intro sc t args i img prm
    rw [FlattenDimensions.mutateExpr_read env sc t f args CallType.Halide k i img prm
      (Or.inl rfl), call_name_eq_buffer_name]
  · intro st t args i img prm hin
    simp [CreateKernelLoads.mutateExpr, hin, call_name_eq_buffer_name]
  · intro sc values args hv
    obtain ⟨out, h1, h2⟩ := FlattenDimensions.stored_write env sc f values args
    rw [hv] at h2
    refine ⟨out, h1, h2, ?_⟩
    intro b hb
    rw [h2] at hb
    obtain ⟨i, hi, rfl⟩ := List.mem_map.mp hb
    exact hmem i (List.mem_range.mp hi)
  · intro st values args hv hin
    rw [CreateKernelLoads.kernel_stored_write st f values args hin, hv]
  · intro _ sc v args
    exact FlattenDimensions.mutateStmt_single env sc f v args

/-! ## Addresses within the allocation -/

theorem bind_all_cons (φ : Expr → Int) (ρ : String → Int) (b : String × Expr)
    (l : List (String × Expr)) :
    bind_all φ ρ (b :: l) = bind_all φ (bind_value ρ b.1 (b.2.eval ρ φ)) l := rfl

/-- After the bindings of the bounds of a buffer, and bindings of other names, the
extent symbol of a dimension whose extent is an integer literal is worth that
literal. -/
theorem bind_all_bounds_extent (φ : Expr → Int) (bn : String) :
    ∀ (bounds : List Range) (i d : Nat) (hd : d < bounds.length) (e : Int)
      (ρ : String → Int) (post : List (String × Expr)),
      (bounds.get ⟨d, hd⟩).extent = Expr.IntImm e →
      (∀ b ∈ post, b.1 ≠ bn ++ ".extent." ++ int_to_string (i + d)) →
      bind_all φ ρ (bounds_bindings bn bounds i ++ post)
        (bn ++ ".extent." ++ int_to_string (i + d)) = e := by
  intro bounds
  induction bounds with
  | nil => intro i d hd; simp at hd
  | cons b rest ih =>
    intro i d hd e ρ post he hpost
    cases d with
    | zero =>
      simp only [List.get_eq_getElem, List.getElem_cons_zero] at he
      have := bind_all_lookup φ ρ []
        ((bn ++ ".min." ++ int_to_string i, b.min) :: (bounds_bindings bn rest (i + 1) ++ post))
        (bn ++ ".extent." ++ int_to_string i) b.extent (by
          intro c hc
          rcases List.mem_cons.mp hc with hc | hc
          · rw [hc]
            exact fun e2 => extent_ne_min _ _ _ e2.symm
          · rcases List.mem_append.mp hc with hc | hc
            · intro e2
              have hcount := count_extent_bounds_bindings bn rest (i + 1) i
              rw [if_neg (by omega), List.count_eq_zero] at hcount
              exact hcount (List.mem_map.mpr ⟨c, hc, e2⟩)
            · exact hpost c hc)
      simp only [bounds_bindings, List.cons_append, List.nil_append, Nat.add_zero] at this ⊢
      rw [this, he]
      rfl
    | succ d =>
      have hd2 : d < rest.length := by simpa using hd
      have he2 : (rest.get ⟨d, hd2⟩).extent = Expr.IntImm e := by
        simpa using he
      have hidx : i + (d + 1) = i + 1 + d := by omega
      simp only [bounds_bindings, List.cons_append, bind_all_cons]
      rw [hidx]
      exact ih (i + 1) d hd2 e _ post he2 (by rw [← hidx]; exact hpost)

/-- After all the bindings of a buffer the extent symbol of a dimension whose extent is
an integer literal is worth that literal. -/
theorem bind_all_buffer_extent (φ : Expr → Int) (bn : String) (bounds : List Range)
    (p : List Nat) (mk : Bool) (t : IRType) (ρ : String → Int) (d : Nat)
    (hd : d < bounds.length) (e : Int) (he : (bounds.get ⟨d, hd⟩).extent = Expr.IntImm e) :
    bind_all φ ρ (buffer_bindings bn bounds p mk t) (bn ++ ".extent." ++ int_to_string d)
      = e := by
  have h := bind_all_bounds_extent φ bn bounds 0 d hd e ρ
    (stride_bindings bn p ++ descriptor_binding bn bounds.length mk t) he (by
      intro b hb
      rw [Nat.zero_add]
      rcases List.mem_append.mp hb with hb | hb
      · intro e2
        have hc := count_other_stride_bindings bn p (bn ++ ".extent." ++ int_to_string d)
          (fun y e3 => stride_ne_extent _ _ _ e3.symm)
        rw [List.count_eq_zero] at hc
        exact hc (List.mem_map.mpr ⟨b, hb, e2⟩)
      · rw [descriptor_binding_name bn _ mk t b hb]
        exact buffer_ne_extent _ _)
  rw [Nat.zero_add] at h
  rw [buffer_bindings, List.append_assoc]
  exact h

/-- With the strides derived for the storage order `p`, the address of coordinates
within the bounds is at least 0 and less than the product of the extents. -/
theorem address_bound (bn : String) (p : List Nat) (ρ : String → Int) (x : List Int)
    (hp : p.Perm (List.range x.length)) (hs : strides_derived bn p ρ)
    (hx : in_bounds bn ρ x) :
    0 ≤ address bn ρ x
    ∧ address bn ρ x
      < ((List.range x.length).map (fun d => ρ (bn ++ ".extent." ++ int_to_string d))).prod := by
  rw [address_eq_radix bn p ρ x hp hs,
    ← (hp.map (fun d => ρ (bn ++ ".extent." ++ int_to_string d))).prod_eq]
  exact radix_value_bound _ _ (digits_in_range bn p ρ x hp hx)

/-- The value of an expression depends on the valuation only through its free
variables. -/
theorem eval_congr (φ : Expr → Int) (ρ ρ2 : String → Int) :
    ∀ e : Expr, (∀ v ∈ e.free_vars, ρ v = ρ2 v) → e.eval ρ φ = e.eval ρ2 φ
  | .IntImm _, _ => by simp [Expr.eval]
  | .FloatImm _, _ => by simp [Expr.eval]
  | .Variable _ n, h => by
    simpa [Expr.eval] using h n (by simp [Expr.free_vars])
  | .Cast _ _, _ => by simp [Expr.eval]
  | .Add a b, h => by
    simp only [Expr.free_vars, List.mem_append] at h
    simp only [Expr.eval]
    rw [eval_congr φ ρ ρ2 a (fun v hv => h v (Or.inl hv)),
      eval_congr φ ρ ρ2 b (fun v hv => h v (Or.inr hv))]
  | .Sub a b, h => by
    simp only [Expr.free_vars, List.mem_append] at h
    simp only [Expr.eval]
    rw [eval_congr φ ρ ρ2 a (fun v hv => h v (Or.inl hv)),
      eval_congr φ ρ ρ2 b (fun v hv => h v (Or.inr hv))]
  | .Mul a b, h => by
    simp only [Expr.free_vars, List.mem_append] at h
    simp only [Expr.eval]
    rw [eval_congr φ ρ ρ2 a (fun v hv => h v (Or.inl hv)),
      eval_congr φ ρ ρ2 b (fun v hv => h v (Or.inr hv))]
  | .Div _ _, _ => by simp [Expr.eval]
  | .Let _ _ _, _ => by simp [Expr.eval]
  | .Call _ _ _ _ _ _ _ _, _ => by simp [Expr.eval]
  | .Load _ _ _ _ _, _ => by simp [Expr.eval]
  | .LoadArgs _ _ _ _ _, _ => by simp [Expr.eval]

theorem extents_at_allocate_lets (target : String) (l : List (String × Expr)) (s : Stmt) :
    (Stmt.lets l s).extents_at_allocate target = s.extents_at_allocate target := by
  induction l with
  | nil => rfl
  | cons b rest ih =>
    show (Stmt.LetStmt b.1 b.2 (Stmt.lets rest s)).extents_at_allocate target = _
    rw [Stmt.extents_at_allocate, ih]

/-- Every allocation a lowered region declaration makes has the same extents. -/
theorem extents_at_allocate_wrapped (target name : String) (n : Nat) (bounds : List Range)
    (extents : List Expr) (p : List Nat) (mks : List Bool) (types : List IRType) :
    ∀ (i : Nat) (inner : Stmt), inner.extents_at_allocate target = some extents →
      (realized name n bounds extents p mks types i inner).extents_at_allocate target
        = some extents := by
  induction types with
  | nil => intro i inner h; exact h
  | cons t rest ih =>
    intro i inner h
    rw [realized]
    apply ih
    rw [extents_at_allocate_lets, Stmt.extents_at_allocate]
    split
    · rfl
    · exact h

/-- The allocation of output `idx` of a lowered region declaration is made with the
extents the declaration was lowered with. -/
theorem extents_at_allocate_realized (name : String) (n : Nat) (bounds : List Range)
    (extents : List Expr) (p : List Nat) (mks : List Bool) (types : List IRType)
    (body : Stmt) (idx : Nat) (hidx : idx < types.length) :
    (realized name n bounds extents p mks types 0 body).extents_at_allocate
        (FlattenDimensions.buffer_name name n idx) = some extents := by
  have hsplit : types = types.take idx ++ (types[idx] :: types.drop (idx + 1)) := by
    rw [← List.drop_eq_getElem_cons hidx, List.take_append_drop]
  have hlen : (types.take idx).length = idx := by
    rw [List.length_take]; omega
  obtain ⟨pre, t, post, rfl, hpre⟩ :
      ∃ pre t post, types = pre ++ t :: post ∧ pre.length = idx := ⟨_, _, _, hsplit, hlen⟩
  rw [realized_append, realized, hpre, Nat.zero_add]
  apply extents_at_allocate_wrapped
  rw [extents_at_allocate_lets, Stmt.extents_at_allocate, if_pos rfl]

/-- The names the bindings of a buffer bind: its minimum, extent and stride symbols and
its descriptor. -/
theorem buffer_bindings_fst (bn : String) (bounds : List Range) (p : List Nat) (mk : Bool)
    (t : IRType) :
    ∀ c ∈ buffer_bindings bn bounds p mk t,
      (∃ d : Nat, c.1 = bn ++ ".min." ++ int_to_string d
        ∨ c.1 = bn ++ ".extent." ++ int_to_string d
        ∨ c.1 = bn ++ ".stride." ++ int_to_string d)
      ∨ c.1 = bn ++ ".buffer" := by
  intro c hc
  simp only [buffer_bindings, List.mem_append] at hc
  rcases hc with (hc | hc) | hc
  · obtain ⟨k, hk⟩ := bounds_bindings_fst bn bounds 0 c.1 (List.mem_map.mpr ⟨c, hc, rfl⟩)
    rcases hk with hk | hk
    · exact Or.inl ⟨k, Or.inr (Or.inl hk)⟩
    · exact Or.inl ⟨k, Or.inl hk⟩
  · have hm : c.1 ∈ (stride_bindings bn p).map Prod.fst := List.mem_map.mpr ⟨c, hc, rfl⟩
    rw [stride_bindings_names] at hm
    obtain ⟨j, -, hj⟩ := List.mem_map.mp hm
    exact Or.inl ⟨j, Or.inr (Or.inr hj.symm)⟩
  · exact Or.inr (descriptor_binding_name bn _ mk t c hc)

/-- After the bindings of the bounds of a buffer, and bindings of other names, the
extent symbol of a dimension is worth the extent of its bound under the valuation
before the bindings, when that extent mentions none of the names bound. -/
theorem bind_all_bounds_extent_eval (φ : Expr → Int) (bn : String) :
    ∀ (bounds : List Range) (i d : Nat) (hd : d < bounds.length)
      (ρ : String → Int) (post : List (String × Expr)),
      (∀ b ∈ post, b.1 ≠ bn ++ ".extent." ++ int_to_string (i + d)) →
      (∀ v ∈ (bounds.get ⟨d, hd⟩).extent.free_vars,
        ∀ c ∈ bounds_bindings bn bounds i, c.1 ≠ v) →
      bind_all φ ρ (bounds_bindings bn bounds i ++ post)
        (bn ++ ".extent." ++ int_to_string (i + d)) = (bounds.get ⟨d, hd⟩).extent.eval ρ φ := by
  intro bounds
  induction bounds with
  | nil => intro i d hd; simp at hd
  | cons b rest ih =>
    intro i d hd ρ post hpost hfr
    cases d with
    | zero =>
      have := bind_all_lookup φ ρ []
        ((bn ++ ".min." ++ int_to_string i, b.min) :: (bounds_bindings bn rest (i + 1) ++ post))
        (bn ++ ".extent." ++ int_to_string i) b.extent (by
          intro c hc
          rcases List.mem_cons.mp hc with hc | hc
          · rw [hc]
            exact fun e2 => extent_ne_min _ _ _ e2.symm
          · rcases List.mem_append.mp hc with hc | hc
            · intro e2
              have hcount := count_extent_bounds_bindings bn rest (i + 1) i
              rw [if_neg (by omega), List.count_eq_zero] at hcount
              exact hcount (List.mem_map.mpr ⟨c, hc, e2⟩)
            · exact hpost c hc)
      simp only [bounds_bindings, List.cons_append, List.nil_append, Nat.add_zero] at this ⊢
      rw [this]
      rfl
    | succ d =>
      have hd2 : d < rest.length := by simpa using hd
      have hidx : i + (d + 1) = i + 1 + d := by omega
      have hget : (List.get (b :: rest) ⟨d + 1, hd⟩).extent = (rest.get ⟨d, hd2⟩).extent := rfl
      simp only [bounds_bindings, List.cons_append, bind_all_cons]
      rw [hidx, hget]
      rw [ih (i + 1) d hd2 _ post (by rw [← hidx]; exact hpost)
        (fun v hv c hc => hfr v hv c (by
          simp only [bounds_bindings, List.mem_cons]
          exact Or.inr (Or.inr hc)))]
      apply eval_congr
      intro v hv
      have h1 : bn ++ ".extent." ++ int_to_string i ≠ v :=
        hfr v hv (bn ++ ".extent." ++ int_to_string i, b.extent) (by simp [bounds_bindings])
      have h2 : bn ++ ".min." ++ int_to_string i ≠ v :=
        hfr v hv (bn ++ ".min." ++ int_to_string i, b.min) (by simp [bounds_bindings])
      simp [bind_value, h1.symm, h2.symm]

/-- After all the bindings of a buffer the extent symbol of a dimension is worth the
extent of its bound under the same valuation, when that extent mentions none of the
names bound. -/
theorem bind_all_buffer_extent_eval (φ : Expr → Int) (bn : String) (bounds : List Range)
    (p : List Nat) (mk : Bool) (t : IRType) (ρ : String → Int) (d : Nat)
    (hd : d < bounds.length)
    (hfr : ∀ v ∈ (bounds.get ⟨d, hd⟩).extent.free_vars,
      ∀ c ∈ buffer_bindings bn bounds p mk t, c.1 ≠ v) :
    bind_all φ ρ (buffer_bindings bn bounds p mk t) (bn ++ ".extent." ++ int_to_string d)
      = (bounds.get ⟨d, hd⟩).extent.eval (bind_all φ ρ (buffer_bindings bn bounds p mk t)) φ := by
  have h := bind_all_bounds_extent_eval φ bn bounds 0 d hd ρ
    (stride_bindings bn p ++ descriptor_binding bn bounds.length mk t) (by
      intro b hb
      rw [Nat.zero_add]
      rcases List.mem_append.mp hb with hb | hb
      · intro e2
        have hc := count_other_stride_bindings bn p (bn ++ ".extent." ++ int_to_string d)
          (fun y e3 => stride_ne_extent _ _ _ e3.symm)
        rw [List.count_eq_zero] at hc
        exact hc (List.mem_map.mpr ⟨b, hb, e2⟩)
      · rw [descriptor_binding_name bn _ mk t b hb]
        exact buffer_ne_extent _ _)
    (fun v hv c hc => hfr v hv c (by
      simp only [buffer_bindings, List.mem_append]
      exact Or.inl (Or.inl hc)))
  rw [Nat.zero_add] at h
  have h2 : buffer_bindings bn bounds p mk t
      = bounds_bindings bn bounds 0
        ++ (stride_bindings bn p ++ descriptor_binding bn bounds.length mk t) := by
    rw [buffer_bindings, List.append_assoc]
  rw [← h2] at h
  rw [h]
  apply eval_congr
  intro v hv
  exact (bind_all_not_bound φ _ v ρ (fun c hc => hfr v hv c hc)).symm

/-- C27: for a lowered region declaration of `n` dimensions, any storage order that
rearranges the logical dimensions and the strides the lowering derives (the valuation
at the buffer's allocation), a coordinate vector within the bounds is flattened by
`flatten_args` to an address that is at least 0 and less than the product of the
extents of the buffer, every one of which is positive.  When the extents of the bounds
are integer literals, the extents the allocation is made with are those literals, and
the address is less than their product: it lies inside the allocation.  The allocation
of the buffer is made with the lowered extents of the bounds.  When the extents of the
bounds hold no read and mention no symbol the lowering binds for the buffer (its
minimums, extents, strides and descriptor), each extent of the allocation is worth, at
the allocation, what the extent symbol of its dimension is worth, so the address is
less than the product of the extents the allocation is made with.  The same holds
for extents with reads whenever lowering an extent does not change what it is worth at
the allocation. -/
theorem address_within_allocation (env : Env) (scope scope1 scope2 : Scope)
    (name : String) (types : List IRType) (bounds : List Range) (body body1 : Stmt)
    (f : Function) (idx : Nat) (φ : Expr → Int) (ρ ρ1 : String → Int) (x : List Int)
    (hf : env name = some f) (hnd : f.args.Nodup)
    (hperm : f.schedule.storage_dims.Perm f.args) (hdims : bounds.length = f.args.length)
    (hbody : FlattenDimensions.mutateStmt env scope body = some (body1, scope1))
    (hidx : idx < types.length)
    (hρ : (lowered_realize env scope1 name types bounds f body1).env_at_allocate φ
      (FlattenDimensions.buffer_name name types.length idx) ρ = some ρ1)
    (hno : no_override scope2 (FlattenDimensions.buffer_name name types.length idx)
      bounds.length)
    (hx : x.length = bounds.length)
    (hxb : in_bounds (FlattenDimensions.buffer_name name types.length idx) ρ1 x) :
    FlattenDimensions.mutateStmt env scope (Stmt.Realize name types bounds body)
        = some (lowered_realize env scope1 name types bounds f body1, scope1)
    ∧ 0 ≤ (FlattenDimensions.flatten_args scope2 env
          (FlattenDimensions.buffer_name name types.length idx) (x.map Expr.IntImm)).eval ρ1 φ
    ∧ (FlattenDimensions.flatten_args scope2 env
          (FlattenDimensions.buffer_name name types.length idx) (x.map Expr.IntImm)).eval ρ1 φ
        < ((List.range bounds.length).map
            (fun d => ρ1 (FlattenDimensions.buffer_name name types.length idx ++ ".extent."
              ++ int_to_string d))).prod
    ∧ (∀ d, d < bounds.length →
        0 < ρ1 (FlattenDimensions.buffer_name name types.length idx ++ ".extent."
          ++ int_to_string d))
    ∧ (∀ es : List Int, bounds.map Range.extent = es.map Expr.IntImm →
        bounds.map (fun b => FlattenDimensions.mutateExpr env scope1 b.extent)
          = es.map Expr.IntImm
        ∧ ((List.range bounds.length).map
            (fun d => ρ1 (FlattenDimensions.buffer_name name types.length idx ++ ".extent."
              ++ int_to_string d))) = es
        ∧ (FlattenDimensions.flatten_args scope2 env
            (FlattenDimensions.buffer_name name types.length idx)
            (x.map Expr.IntImm)).eval ρ1 φ < es.prod)
    ∧ (lowered_realize env scope1 name types bounds f body1).extents_at_allocate
          (FlattenDimensions.buffer_name name types.length idx)
        = some (bounds.map (fun b => FlattenDimensions.mutateExpr env scope1 b.extent))
    ∧ ((∀ b ∈ bounds, b.extent.any Expr.is_read = false) →
        (∀ b ∈ bounds, ∀ v ∈ b.extent.free_vars,
          (∀ d : Nat,
            v ≠ FlattenDimensions.buffer_name name types.length idx ++ ".min."
                ++ int_to_string d
            ∧ v ≠ FlattenDimensions.buffer_name name types.length idx ++ ".extent."
                ++ int_to_string d
            ∧ v ≠ FlattenDimensions.buffer_name name types.length idx ++ ".stride."
                ++ int_to_string d)
          ∧ v ≠ FlattenDimensions.buffer_name name types.length idx ++ ".buffer") →
        bounds.map (fun b => (FlattenDimensions.mutateExpr env scope1 b.extent).eval ρ1 φ)
          = (List.range bounds.length).map
              (fun d => ρ1 (FlattenDimensions.buffer_name name types.length idx ++ ".extent."
                ++ int_to_string d))
        ∧ (FlattenDimensions.flatten_args scope2 env
            (FlattenDimensions.buffer_name name types.length idx)
            (x.map Expr.IntImm)).eval ρ1 φ
          < (bounds.map
              (fun b => (FlattenDimensions.mutateExpr env scope1 b.extent).eval ρ1 φ)).prod)
    ∧ ((∀ b ∈ bounds,
          (FlattenDimensions.mutateExpr env scope1 b.extent).eval ρ1 φ = b.extent.eval ρ1 φ) →
        (∀ b ∈ bounds, ∀ v ∈ b.extent.free_vars,
          (∀ d : Nat,
            v ≠ FlattenDimensions.buffer_name name types.length idx ++ ".min."
                ++ int_to_string d
            ∧ v ≠ FlattenDimensions.buffer_name name types.length idx ++ ".extent."
                ++ int_to_string d
            ∧ v ≠ FlattenDimensions.buffer_name name types.length idx ++ ".stride."
                ++ int_to_string d)
          ∧ v ≠ FlattenDimensions.buffer_name name types.length idx ++ ".buffer") →
        bounds.map (fun b => (FlattenDimensions.mutateExpr env scope1 b.extent).eval ρ1 φ)
          = (List.range bounds.length).map
              (fun d => ρ1 (FlattenDimensions.buffer_name name types.length idx ++ ".extent."
                ++ int_to_string d))
        ∧ (FlattenDimensions.flatten_args scope2 env
            (FlattenDimensions.buffer_name name types.length idx)
            (x.map Expr.IntImm)).eval ρ1 φ
          < (bounds.map
              (fun b => (FlattenDimensions.mutateExpr env scope1 b.extent).eval ρ1 φ)).prod) := by
  obtain ⟨hlow, -, hpp, hpnd, -, -⟩ :=
    lower_realize env scope scope1 name types bounds body body1 f hf hnd hperm hdims hbody
  have hs := strides_derived_at_allocate env scope1 name types bounds body1 f hpnd idx hidx
    φ ρ ρ1 hρ
  have hb := address_bound (FlattenDimensions.buffer_name name types.length idx)
    (storage_order f) ρ1 x (hx ▸ hpp) hs hxb
  rw [hx] at hb
  rw [eval_flatten_args_literals scope2 env _ x (hx ▸ hno) ρ1 φ]
  have hgen : (∀ b ∈ bounds,
        (FlattenDimensions.mutateExpr env scope1 b.extent).eval ρ1 φ = b.extent.eval ρ1 φ) →
      (∀ b ∈ bounds, ∀ v ∈ b.extent.free_vars,
        (∀ d : Nat,
          v ≠ FlattenDimensions.buffer_name name types.length idx ++ ".min."
              ++ int_to_string d
          ∧ v ≠ FlattenDimensions.buffer_name name types.length idx ++ ".extent."
              ++ int_to_string d
          ∧ v ≠ FlattenDimensions.buffer_name name types.length idx ++ ".stride."
              ++ int_to_string d)
        ∧ v ≠ FlattenDimensions.buffer_name name types.length idx ++ ".buffer") →
      bounds.map (fun b => (FlattenDimensions.mutateExpr env scope1 b.extent).eval ρ1 φ)
        = (List.range bounds.length).map
            (fun d => ρ1 (FlattenDimensions.buffer_name name types.length idx ++ ".extent."
              ++ int_to_string d))
      ∧ address (FlattenDimensions.buffer_name name types.length idx) ρ1 x
        < (bounds.map
            (fun b => (FlattenDimensions.mutateExpr env scope1 b.extent).eval ρ1 φ)).prod := by
    intro hsame hfresh
    obtain ⟨ρ_mid, t, h⟩ := env_at_allocate_realized φ name bounds
      (bounds.map (fun b => FlattenDimensions.mutateExpr env scope1 b.extent))
      (storage_order f) (FlattenDimensions.make_buffer_t env name types) types types.length rfl
      body1 idx hidx ρ
    rw [lowered_realize, h, Option.some.injEq] at hρ
    have hval : bounds.map
        (fun b => (FlattenDimensions.mutateExpr env scope1 b.extent).eval ρ1 φ)
        = (List.range bounds.length).map
            (fun d => ρ1 (FlattenDimensions.buffer_name name types.length idx ++ ".extent."
              ++ int_to_string d)) := by
      apply List.ext_getElem
      · simp
      · intro d h1 h2
        have hd : d < bounds.length := by simpa using h1
        have hmem : bounds.get ⟨d, hd⟩ ∈ bounds := List.get_mem _ _ _
        simp only [List.getElem_map, List.getElem_range]
        rw [hsame _ (List.getElem_mem _)]
        have key := bind_all_buffer_extent_eval φ
          (FlattenDimensions.buffer_name name types.length idx) bounds (storage_order f)
          ((FlattenDimensions.make_buffer_t env name types).getD idx false) t ρ_mid d hd (by
          intro v hv c hc
          obtain ⟨hd3, hb3⟩ := hfresh _ hmem v hv
          rcases buffer_bindings_fst _ bounds _ _ t c hc with ⟨k, hk | hk | hk⟩ | hk
          · rw [hk]; exact fun e => (hd3 k).1 e.symm
          · rw [hk]; exact fun e => (hd3 k).2.1 e.symm
          · rw [hk]; exact fun e => (hd3 k).2.2 e.symm
          · rw [hk]; exact fun e => hb3 e.symm)
        rw [hρ] at key
        exact key.symm
    exact ⟨hval, by rw [hval]; exact hb.2⟩
  refine ⟨hlow, hb.1, hb.2, ?_, ?_, ?_, ?_, hgen⟩
  · intro d hd
    have := hxb d (by omega)
    omega
  · intro es hes
    have hlen : es.length = bounds.length := by
      have := congrArg List.length hes
      simpa using this.symm
    have hget : ∀ d (hd : d < bounds.length),
        (bounds.get ⟨d, hd⟩).extent = Expr.IntImm (es.getD d 0) := by
      intro d hd
      have h1 : (bounds.map Range.extent)[d]? = (es.map Expr.IntImm)[d]? := by rw [hes]
      rw [List.getElem?_map, List.getElem?_map, List.getElem?_eq_getElem hd,
        List.getElem?_eq_getElem (by omega : d < es.length)] at h1
      simp only [Option.map_some', Option.some.injEq] at h1
      rw [List.getD_eq_getElem _ _ (by omega : d < es.length), List.get_eq_getElem]
      exact h1
    obtain ⟨ρ_mid, t, h⟩ := env_at_allocate_realized φ name bounds
      (bounds.map (fun b => FlattenDimensions.mutateExpr env scope1 b.extent))
      (storage_order f) (FlattenDimensions.make_buffer_t env name types) types types.length rfl
      body1 idx hidx ρ
    rw [lowered_realize, h, Option.some.injEq] at hρ
    have hval : (List.range bounds.length).map
        (fun d => ρ1 (FlattenDimensions.buffer_name name types.length idx ++ ".extent."
          ++ int_to_string d)) = es := by
      apply List.ext_getElem
      · simp [hlen]
      · intro d h1 h2
        have hd : d < bounds.length := by simpa using h1
        simp only [List.getElem_map, List.getElem_range]
        rw [← hρ, bind_all_buffer_extent φ _ bounds _ _ t ρ_mid d hd _ (hget d hd),
          List.getD_eq_getElem _ _ h2]
    refine ⟨?_, hval, by rw [← hval]; exact hb.2⟩
    have hm : ∀ l : List Expr, ∀ es : List Int, l = es.map Expr.IntImm →
        l.map (FlattenDimensions.mutateExpr env scope1) = es.map Expr.IntImm := by
      intro l es h
      subst h
      induction es with
      | nil => rfl
      | cons e rest ih => simp [FlattenDimensions.mutateExpr, ih]
    have := hm _ es hes
    simpa [List.map_map, Function.comp_def] using this
  · rw [lowered_realize]
    exact extents_at_allocate_realized name types.length bounds _ _ _ types body1 idx hidx
  · intro hread hfresh
    exact hgen (fun b hb => by
      rw [FlattenDimensions.mutateExpr_unchanged env scope1 _
        (by rw [FlattenDimensions.changed_eq_any]; exact hread b hb)]) hfresh

/-! ## The storage permutation of a lowered region declaration -/

namespace FlattenDimensions

theorem lt_of_getElem?_some {α : Type} (l : List α) (n : Nat) (a : α)
    (h : l[n]? = some a) : n < l.length := by
  by_contra hc
  rw [List.getElem?_eq_none (Nat.le_of_not_lt hc)] at h
  cases h

/-- A region declaration that is lowered: its function is in the environment, the
permutation passed its assertions and has one entry per bound, and the loop over the
outputs read no vector out of range. -/
theorem mutateStmt_Realize_some (env : Env) (scope scope1 : Scope) (name : String)
    (types : List IRType) (bounds : List Range) (body out : Stmt)
    (h : mutateStmt env scope (Stmt.Realize name types bounds body) = some (out, scope1)) :
    ∃ f p body1, env name = some f ∧ storage_permutation f = some p
      ∧ p.length = bounds.length
      ∧ realize_loop name types.length bounds
          (bounds.map (fun b => mutateExpr env scope1 b.extent)) p
          (make_buffer_t env name types) types 0 body1 = some out := by
  simp only [mutateStmt] at h
  split at h
  · simp at h
  · rename_i body1 sc1 hb
    split at h
    · simp at h
    · rename_i stmt hv
      simp only [Option.some.injEq, Prod.mk.injEq] at h
      obtain ⟨rfl, rfl⟩ := h
      simp only [visit_Realize] at hv
      split at hv
      · simp at hv
      · rename_i f hf
        split at hv
        · simp at hv
        · rename_i p hp
          split at hv
          · rename_i hlen
            exact ⟨f, p, body1, hf, hp, hlen, hv⟩
          · simp at hv

end FlattenDimensions

/-- C23: in an environment of the data model, where the logical dimension names of a
function are distinct and its storage dimensions are a rearrangement of them, every
region declaration of the function that is lowered without a fault has a storage
permutation `p` with `n` entries, `n` being the bound count of the declaration.  It is
a bijection onto `\x7b 0, .., n-1 \x7d`: a rearrangement of `0, .., n-1` without
repetition, whose entries are the indices below `n`, each at exactly one position.
Entry `i` is the logical index of the `i`-th storage dimension name, the one logical
dimension of that name. -/
theorem storage_permutation_bijection (env : Env) (scope scope1 : Scope) (name : String)
    (types : List IRType) (bounds : List Range) (body out : Stmt) (f : Function)
    (hf : env name = some f) (hnd : f.args.Nodup)
    (hperm : f.schedule.storage_dims.Perm f.args)
    (hlow : FlattenDimensions.mutateStmt env scope (Stmt.Realize name types bounds body)
      = some (out, scope1)) :
    ∃ p : List Nat, FlattenDimensions.storage_permutation f = some p
      ∧ p = storage_order f
      ∧ p.length = bounds.length
      ∧ p.Perm (List.range bounds.length)
      ∧ p.Nodup
      ∧ (∀ j : Nat, j ∈ p ↔ j < bounds.length)
      ∧ (∀ j : Nat, j < bounds.length → ∃! i : Nat, i < bounds.length ∧ p[i]? = some j)
      ∧ (∀ (i : Nat) (sd : String), f.schedule.storage_dims[i]? = some sd →
          p[i]? = some (f.args.indexOf sd)
          ∧ f.args[f.args.indexOf sd]? = some sd
          ∧ ∀ k : Nat, f.args[k]? = some sd → k = f.args.indexOf sd) := by
  obtain ⟨f1, p, body1, hf1, hp, hlen, -⟩ :=
    FlattenDimensions.mutateStmt_Realize_some env scope scope1 name types bounds body out hlow
  rw [hf, Option.some.injEq] at hf1
  subst hf1
  obtain ⟨hso, hpp⟩ := FlattenDimensions.storage_permutation_of_perm f hnd hperm
  have hpe : p = storage_order f := by
    rw [hso, Option.some.injEq] at hp
    exact hp.symm
  have hn : f.args.length = bounds.length := by
    rw [← hlen, hpe, storage_order, List.length_map]
    exact hperm.length_eq.symm
  have hpr : p.Perm (List.range bounds.length) := by
    rw [hpe, ← hn]
    exact hpp
  have hnodup : p.Nodup := hpr.nodup_iff.mpr (List.nodup_range _)
  have hmem : ∀ j : Nat, j ∈ p ↔ j < bounds.length := fun j => by
    rw [hpr.mem_iff, List.mem_range]
  refine ⟨p, hp, hpe, hlen, hpr, hnodup, hmem, ?_, ?_⟩
  · intro j hj
    obtain ⟨i, hi, hij⟩ := List.mem_iff_getElem.mp ((hmem j).mpr hj)
    refine ⟨i, ⟨by omega, by rw [List.getElem?_eq_getElem hi, hij]⟩, ?_⟩
    rintro k ⟨hk, hkj⟩
    have hk2 : k < p.length := by omega
    rw [List.getElem?_eq_getElem hk2, Option.some.injEq] at hkj
    exact (List.Nodup.getElem_inj_iff hnodup).mp (hkj.trans hij.symm)
  · intro i sd hi
    have hsd : sd ∈ f.args := hperm.mem_iff.mp (List.getElem?_mem hi)
    have hlt : f.args.indexOf sd < f.args.length := List.indexOf_lt_length.mpr hsd
    refine ⟨?_, ?_, ?_⟩
    · rw [hpe, storage_order, List.getElem?_map, hi]
      rfl
    · rw [List.getElem?_eq_getElem hlt, List.getElem_indexOf hlt]
    · intro k hk
      have hk2 : k < f.args.length := FlattenDimensions.lt_of_getElem?_some _ _ _ hk
      rw [List.getElem?_eq_getElem hk2, Option.some.injEq] at hk
      rw [← hk, List.indexOf_getElem hnd]

/-! ## A read in a coordinate inside a device-kernel loop -/

/-- C10, the code at the input `example_kernel_nested_read`, a loop of the device-kernel
kind whose body writes `g(x, y) = g(f(0, 0, 0), y)`.  Both reads are inside the loop.
The kernel rewriter makes the read of `g` a coordinate-vector-addressed load with two
coordinates, `(cast(c_i - g.min.i) + 0.5) / cast(g.extent.i)`, but it takes the
coordinates as they stand: the read `f(0, 0, 0)` in the first coordinate is not
visited and is still a read in its output, not a coordinate-vector-addressed load.
The last parts are the rule for the read the rewriter does visit: with the flag set it
becomes the load of one coordinate per argument, normalized below axis 2, which read
over the rationals with extent 256 and minimum 0 is `(x + 1/2) / 256`. -/
theorem nested_read_not_rewritten :
    example_kernel_nested_read.inside_kernel_body (fun _ => false) Expr.is_read = true
    ∧ CreateKernelLoads.mutate example_kernel_nested_read
      = example_kernel_nested_read_rewritten
    ∧ example_read.is_read = true
    ∧ example_read.is_load_args = false
    ∧ example_kernel_nested_read_rewritten.inside_kernel_body (fun _ => false) Expr.is_read
      = true
    ∧ (∀ (st : CreateKernelLoads.State) (t : IRType) (b : String) (args : List Expr)
        (ct : CallType) (outs vi : Nat) (img prm : Option String),
        st.inside_kernel_loop = true →
        CreateKernelLoads.mutateExpr st (Expr.Call t b args ct outs vi img prm)
          = Expr.LoadArgs t (call_name b ct outs vi)
              (List.ofFn (fun i : Fin args.length =>
                CreateKernelLoads.kernel_coordinate st.scope (call_name b ct outs vi) i
                  (args.get i)))
              img prm)
    ∧ (∀ (scope : Scope) (name : String) (i : Nat) (c : Expr),
        CreateKernelLoads.kernel_coordinate scope name i c
          = if i < 2 then
              Expr.Div
                (Expr.Add
                  (Expr.Cast (Float_ 32)
                    (Expr.Sub c
                      (Expr.Variable (Int_ 32) (CreateKernelLoads.min_name scope name i))))
                  (Expr.FloatImm (1 / 2)))
                (Expr.Cast (Float_ 32)
                  (Expr.Variable (Int_ 32) (CreateKernelLoads.extent_name scope name i)))
            else
              Expr.Sub c (Expr.Variable (Int_ 32) (CreateKernelLoads.min_name scope name i)))
    ∧ (∀ (scope : Scope) (ρ : String → Rat) (φ : Expr → Rat) (name : String) (x : Expr),
        ρ (CreateKernelLoads.extent_name scope name 0) = 256 →
        ρ (CreateKernelLoads.min_name scope name 0) = 0 →
        (CreateKernelLoads.kernel_coordinate scope name 0 x).evalQ ρ φ
          = (x.evalQ ρ φ + 1 / 2) / 256) := by
  obtain ⟨h0, h1, -⟩ := example_names
  refine ⟨?_, ?_, ?_, rfl, ?_, ?_, ?_, ?_⟩
  · simp [example_kernel_nested_read, Stmt.inside_kernel_body, Stmt.any, Stmt.node_holds,
      Stmt.exprs, Expr.any_list, Expr.any, Expr.is_read, example_read]
  · simp only [CreateKernelLoads.mutate, example_kernel_nested_read,
      CreateKernelLoads.mutateStmt, CreateKernelLoads.State.init, if_true,
      CreateKernelLoads.mutateExpr, Bool.not_true, Bool.false_eq_true, if_false, call_name,
      CreateKernelLoads.kernel_idx, CreateKernelLoads.kernel_coordinate,
      CreateKernelLoads.min_name, CreateKernelLoads.extent_name, Scope.contains,
      List.any_nil, CreateKernelLoads.visit_Provide, CreateKernelLoads.provide_values,
      CreateKernelLoads.mutateExprs, List.map_cons, List.map_nil, example_args, h0, h1,
      Nat.zero_add]
    simp [example_kernel_nested_read_rewritten, example_args, promote_value, Expr.type,
      Int_, IRType.promote, IRType.bytes]
  · simp [example_read, Expr.is_read]
  · simp [example_kernel_nested_read_rewritten, Stmt.inside_kernel_body, Stmt.any,
      Stmt.node_holds, Stmt.exprs, Expr.any_list, Expr.any, Expr.is_read, example_read]
  · intro st t b args ct outs vi img prm h
    simp [CreateKernelLoads.mutateExpr, h, CreateKernelLoads.kernel_idx_eq]
  · intro scope name i c
    by_cases hi : i < 2 <;> simp [CreateKernelLoads.kernel_coordinate, hi]
  · intro scope ρ φ name x h1 h2
    simp [CreateKernelLoads.kernel_coordinate, Expr.evalQ, h1, h2]

/-! ## The theorems at concrete inputs -/

theorem no_override_empty (name : String) (k : Nat) : no_override [] name k :=
  fun _ _ => ⟨rfl, rfl⟩

theorem flatten_args_internal_address_witness :
    example_env "f" = some example_function
    ∧ (FlattenDimensions.flatten_args [] example_env "f" example_args).eval
        example_valuation (fun _ => 0)
      = ∑ i : Fin example_args.length,
          ((example_args.get i).eval example_valuation (fun _ => 0)
              - example_valuation ("f" ++ ".min." ++ int_to_string i))
            * example_valuation ("f" ++ ".stride." ++ int_to_string i) :=
  ⟨rfl, FlattenDimensions.flatten_args_internal_address [] example_env "f" example_args
    example_function example_valuation (fun _ => 0) rfl (no_override_empty _ _)⟩

theorem flatten_args_external_expression_witness :
    example_env "input" = none
    ∧ FlattenDimensions.flatten_args [] example_env "input" example_args
      = Expr.Sub
          (sum_expr
            [Expr.Mul (Expr.Variable (Int_ 32) "x") (Expr.Variable (Int_ 32) "input.stride.0"),
             Expr.Mul (Expr.Variable (Int_ 32) "y") (Expr.Variable (Int_ 32) "input.stride.1")])
          (sum_expr
            [Expr.Mul (Expr.Variable (Int_ 32) "input.min.0")
               (Expr.Variable (Int_ 32) "input.stride.0"),
             Expr.Mul (Expr.Variable (Int_ 32) "input.min.1")
               (Expr.Variable (Int_ 32) "input.stride.1")]) :=
  ⟨rfl, (FlattenDimensions.flatten_args_external_expression [] example_env "input" example_args
    rfl (no_override_empty _ _)).1.trans rfl⟩

theorem internal_external_same_address_witness :
    (FlattenDimensions.flatten_args [] example_env "f" example_args).eval
        example_valuation (fun _ => 0)
      = (FlattenDimensions.flatten_args [] (fun _ => none) "f" example_args).eval
        example_valuation (fun _ => 0) :=
  (FlattenDimensions.internal_external_same_address [] example_env (fun _ => none) "f"
    example_args example_function example_valuation (fun _ => 0) rfl rfl).1

theorem realize_stride_bindings_witness :
    storage_order example_function = [2, 0, 1]
    ∧ ∃ ρ1,
        (lowered_realize example_env [] "f" [Int_ 32] example_bounds example_function
            Stmt.undef).env_at_allocate (fun _ => 0) "f" example_valuation = some ρ1
        ∧ ρ1 "f.stride.2" = 1
        ∧ ρ1 "f.stride.0" = ρ1 "f.extent.2"
        ∧ ρ1 "f.stride.1" = ρ1 "f.extent.2" * ρ1 "f.extent.0" :=
  ⟨by decide,
    match (realize_stride_bindings example_env [] [] "f" [Int_ 32] example_bounds Stmt.undef
      Stmt.undef example_function rfl (by decide) (by decide) rfl (by decide) rfl).2.2.1 0
      (by decide) (fun _ => 0) example_valuation with
    | ⟨ρ1, h1, _, _, h4⟩ => ⟨ρ1, h1, h4 (by decide)⟩⟩

theorem example_allocation_valuation_eq :
    (lowered_realize example_env [] "f" [Int_ 32] example_bounds example_function
        Stmt.undef).env_at_allocate (fun _ => 0)
        (FlattenDimensions.buffer_name "f" [Int_ 32].length 0) example_valuation
      = some example_allocation_valuation := by
  have hso : storage_order example_function = [2, 0, 1] := by decide
  have hbn : FlattenDimensions.buffer_name "f" [Int_ 32].length 0 = "f" := by decide
  rw [lowered_realize, hso, hbn]
  simp only [List.length_singleton, realized, env_at_allocate_lets, Stmt.env_at_allocate,
    if_true]
  rfl

theorem example_in_bounds (x : List Int) (hlen : x.length = 3)
    (h0 : 0 ≤ x.getD 0 0 ∧ x.getD 0 0 < 4) (h1 : 0 ≤ x.getD 1 0 ∧ x.getD 1 0 < 3)
    (h2 : 0 ≤ x.getD 2 0 ∧ x.getD 2 0 < 2) :
    in_bounds "f" example_allocation_valuation x := by
  intro i hi
  rw [hlen] at hi
  have e0 : example_allocation_valuation ("f" ++ ".min." ++ int_to_string 0) = 0 := by decide
  have e1 : example_allocation_valuation ("f" ++ ".min." ++ int_to_string 1) = 0 := by decide
  have e2 : example_allocation_valuation ("f" ++ ".min." ++ int_to_string 2) = 0 := by decide
  have f0 : example_allocation_valuation ("f" ++ ".extent." ++ int_to_string 0) = 4 := by decide
  have f1 : example_allocation_valuation ("f" ++ ".extent." ++ int_to_string 1) = 3 := by decide
  have f2 : example_allocation_valuation ("f" ++ ".extent." ++ int_to_string 2) = 2 := by decide
  interval_cases i
  · rw [e0, f0]; omega
  · rw [e1, f1]; omega
  · rw [e2, f2]; omega

theorem permuted_address_injective_witness :
    in_bounds "f" example_allocation_valuation [1, 2, 1]
    ∧ in_bounds "f" example_allocation_valuation [3, 0, 0]
    ∧ ((FlattenDimensions.flatten_args [] example_env
            (FlattenDimensions.buffer_name "f" [Int_ 32].length 0)
            (([1, 2, 1] : List Int).map Expr.IntImm)).eval example_allocation_valuation
            (fun _ => 0)
          = (FlattenDimensions.flatten_args [] example_env
            (FlattenDimensions.buffer_name "f" [Int_ 32].length 0)
            (([3, 0, 0] : List Int).map Expr.IntImm)).eval example_allocation_valuation
            (fun _ => 0)
        ↔ ([1, 2, 1] : List Int) = [3, 0, 0]) :=
  ⟨example_in_bounds _ rfl (by decide) (by decide) (by decide),
    example_in_bounds _ rfl (by decide) (by decide) (by decide),
    (permuted_address_injective example_env [] [] [] "f" [Int_ 32] example_bounds Stmt.undef
      Stmt.undef example_function 0 (fun _ => 0) example_valuation
      example_allocation_valuation [1, 2, 1] [3, 0, 0] rfl (by decide) (by decide) rfl rfl
      (by decide) example_allocation_valuation_eq (no_override_empty _ _) rfl rfl
      (example_in_bounds _ rfl (by decide) (by decide) (by decide))
      (example_in_bounds _ rfl (by decide) (by decide) (by decide))).2.1⟩

theorem round_trip_address_witness :
    FlattenDimensions.mutateStmt example_env [] (Stmt.Provide "g" [Expr.IntImm 7] example_args)
      = some (Stmt.Store "g"
          (promote_value (FlattenDimensions.mutateExpr example_env [] (Expr.IntImm 7)))
          (FlattenDimensions.mutateExpr example_env []
            (FlattenDimensions.flatten_args [] example_env "g" example_args)), [])
    ∧ FlattenDimensions.mutateExpr example_env []
        (Expr.Call (Int_ 32) "g" example_args CallType.Halide 1 0 none none)
      = (if (Int_ 32).bits ≠ (Int_ 32).promote.bits then
          Expr.Cast (Int_ 32) (Expr.Load (Int_ 32).promote "g"
            (FlattenDimensions.mutateExpr example_env []
              (FlattenDimensions.flatten_args [] example_env "g" example_args)) none none)
        else
          Expr.Load (Int_ 32).promote "g"
            (FlattenDimensions.mutateExpr example_env []
              (FlattenDimensions.flatten_args [] example_env "g" example_args)) none none) :=
  ⟨(round_trip_address example_env [] [] [] "g" (Int_ 32) (Int_ 32) 4 3 Stmt.undef Stmt.undef
      example_function_2d (Expr.Variable (Int_ 32) "x") (Expr.Variable (Int_ 32) "y")
      (Expr.IntImm 7) 1 none none rfl (by decide) rfl rfl (by decide) rfl).2.1,
    (round_trip_address example_env [] [] [] "g" (Int_ 32) (Int_ 32) 4 3 Stmt.undef Stmt.undef
      example_function_2d (Expr.Variable (Int_ 32) "x") (Expr.Variable (Int_ 32) "y")
      (Expr.IntImm 7) 1 none none rfl (by decide) rfl rfl (by decide) rfl).2.2.1⟩

theorem realize_becomes_allocations_witness :
    (realized "f" [Int_ 32].length example_bounds
        (example_bounds.map (fun b => FlattenDimensions.mutateExpr example_env [] b.extent))
        (storage_order example_function)
        (FlattenDimensions.make_buffer_t example_env "f" [Int_ 32]) [Int_ 32] 0
        Stmt.undef).count_allocate = [Int_ 32].length + Stmt.undef.count_allocate :=
  (realize_becomes_allocations example_env [] [] "f" [Int_ 32] example_bounds Stmt.undef
    Stmt.undef example_function rfl (by decide) (by decide) rfl rfl).2.1

theorem tuple_write_order_witness :
    (2 ≤ [Expr.IntImm 1, Expr.IntImm 2].length)
    ∧ CreateKernelLoads.mutateStmt example_kernel_state
        (Stmt.Provide "h" [Expr.IntImm 1, Expr.IntImm 2] example_args)
      = (tuple_write (fun n var => Stmt.StoreArgs n var example_args) "h"
          ([Expr.IntImm 1, Expr.IntImm 2].map
            (fun v => promote_value (CreateKernelLoads.mutateExpr example_kernel_state v))),
        example_kernel_state) :=
  ⟨by decide,
    (tuple_write_order example_env [] example_kernel_state "h"
      [Expr.IntImm 1, Expr.IntImm 2] example_args (by decide) rfl).2.1⟩

theorem storage_flattening_without_kernel_loop_witness :
    CreateKernelLoads.mutate (Stmt.Provide "f" [Expr.IntImm 1] example_args)
      = Stmt.Provide "f" [Expr.IntImm 1] example_args :=
  (storage_flattening_without_kernel_loop (Stmt.Provide "f" [Expr.IntImm 1] example_args)
    example_env rfl).1

theorem kernel_read_coordinates_witness :
    CreateKernelLoads.mutateExpr example_kernel_state
        (Expr.Call (Int_ 32) "f" example_args CallType.Halide 1 0 none none)
      = Expr.LoadArgs (Int_ 32) (call_name "f" CallType.Halide 1 0)
          (List.ofFn (fun i : Fin example_args.length =>
            CreateKernelLoads.kernel_coordinate example_kernel_state.scope
              (call_name "f" CallType.Halide 1 0) i (example_args.get i)))
          none none :=
  (CreateKernelLoads.kernel_read_coordinates example_kernel_state (Int_ 32) "f" example_args
    CallType.Halide 1 0 none none rfl).1

theorem constrained_shadowing_witness :
    Scope.contains [("g.min.0.constrained", 0)]
        ("g" ++ ".min." ++ int_to_string 0 ++ ".constrained") = true
    ∧ FlattenDimensions.mins [("g.min.0.constrained", 0)] "g" 0
        = Expr.Variable (Int_ 32) ("g" ++ ".min." ++ int_to_string 0 ++ ".constrained")
    ∧ (∃ (out_s : Stmt) (c1 : StmtCtx),
        Stmt.LetStmt ("g" ++ ".min." ++ int_to_string 0 ++ ".constrained")
            (FlattenDimensions.mutateExpr example_env
              (Scope.push [] ("g" ++ ".min." ++ int_to_string 0 ++ ".constrained") 0)
              (Expr.IntImm 0))
            (FlattenDimensions.visit_Provide example_env
              (Scope.push [] ("g" ++ ".min." ++ int_to_string 0 ++ ".constrained") 0) "g"
              (FlattenDimensions.provide_values example_env
                (Scope.push [] ("g" ++ ".min." ++ int_to_string 0 ++ ".constrained") 0)
                [Expr.IntImm 7])
              example_args)
          = Stmt.LetStmt ("g" ++ ".min." ++ int_to_string 0 ++ ".constrained")
              (FlattenDimensions.mutateExpr example_env
                (Scope.push [] ("g" ++ ".min." ++ int_to_string 0 ++ ".constrained") 0)
                (Expr.IntImm 0))
              (c1.fill out_s)
        ∧ FlattenDimensions.mutateStmt example_env
            (StmtCtx.hole.markers
              ++ Scope.push [] ("g" ++ ".min." ++ int_to_string 0 ++ ".constrained") 0)
            (Stmt.Provide "g" [Expr.IntImm 7] example_args)
          = some (out_s, StmtCtx.hole.markers
              ++ Scope.push [] ("g" ++ ".min." ++ int_to_string 0 ++ ".constrained") 0)
        ∧ Scope.contains
            (StmtCtx.hole.markers
              ++ Scope.push [] ("g" ++ ".min." ++ int_to_string 0 ++ ".constrained") 0)
            ("g" ++ ".min." ++ int_to_string 0 ++ ".constrained") = true) :=
  ⟨by decide,
    ((constrained_shadowing example_env "g" 0).1 [("g.min.0.constrained", 0)]).1 (by decide),
    (constrained_shadowing example_env "g" 0).2.2.2.2.2.2.2.2.1 _ (List.mem_cons_self _ _)
      (Expr.IntImm 0) StmtCtx.hole (Stmt.Provide "g" [Expr.IntImm 7] example_args) [] _ []
      (by
        simp only [StmtCtx.fill, FlattenDimensions.mutateStmt, ends_with_append, if_true,
          CreateKernelLoads.pop_push])⟩

theorem bit_width_promotion_witness :
    ¬ 8 ∣ example_bit.type.bits
    ∧ FlattenDimensions.mutateStmt example_env [] (Stmt.Provide "g" [example_bit] example_args)
      = some (Stmt.Store "g"
          (Expr.Cast example_bit.type.promote
            (FlattenDimensions.mutateExpr example_env [] example_bit))
          (FlattenDimensions.mutateExpr example_env []
            (FlattenDimensions.flatten_args [] example_env "g" example_args)), []) :=
  ⟨by decide,
    (bit_width_promotion example_env []).2.2.1 "g" example_bit example_args (by decide)⟩

theorem promotion_round_trip_witness :
    1 < 2 ^ (IRType.mk TypeCode.UInt 1 1).bits
    ∧ cast_unsigned (IRType.mk TypeCode.UInt 1 1)
        (cast_unsigned (IRType.mk TypeCode.UInt 1 1).promote 1) = 1 :=
  ⟨by decide,
    (promotion_round_trip example_env [] (IRType.mk TypeCode.UInt 1 1) 1 (by decide)).2.2.1⟩

theorem realize_faults_witness :
    example_env "q" = none
    ∧ FlattenDimensions.mutateStmt example_env []
        (Stmt.Realize "q" [Int_ 32] example_bounds Stmt.undef) = none
    ∧ storage_flattening
        (StmtCtx.hole.fill (Stmt.Realize "q" [Int_ 32] example_bounds Stmt.undef))
        example_env = none
    ∧ example_env "g" = some example_function_2d
    ∧ FlattenDimensions.storage_permutation example_function_2d = some [0, 1]
    ∧ [0, 1].length ≠ example_bounds.length
    ∧ FlattenDimensions.mutateStmt example_env []
        (Stmt.Realize "g" [Int_ 32] example_bounds Stmt.undef) = none :=
  ⟨rfl,
    ((realize_faults example_env "q" [Int_ 32] example_bounds Stmt.undef).1 rfl).1 [],
    ((realize_faults example_env "q" [Int_ 32] example_bounds Stmt.undef).1 rfl).2 StmtCtx.hole,
    rfl, by decide, by decide,
    ((realize_faults example_env "g" [Int_ 32] example_bounds Stmt.undef).2 example_function_2d
      [0, 1] rfl (by decide) (by decide)).1 []⟩

theorem coordinate_count_free_witness :
    FlattenDimensions.mutateStmt example_env []
        (Stmt.Provide "g" [Expr.IntImm 7] [Expr.Variable (Int_ 32) "x"])
      = some (Stmt.Store "g"
          (promote_value (FlattenDimensions.mutateExpr example_env [] (Expr.IntImm 7)))
          (FlattenDimensions.mutateExpr example_env []
            (FlattenDimensions.flatten_args [] example_env "g"
              [Expr.Variable (Int_ 32) "x"])), []) :=
  (coordinate_count_free example_env [] "g" [Expr.Variable (Int_ 32) "x"]).2.1 (Expr.IntImm 7)

theorem zero_dimensions_lowered_witness :
    example_env_more "s" = some example_function_0d
    ∧ example_function_0d.schedule.storage_dims = []
    ∧ FlattenDimensions.mutateStmt example_env_more []
        (Stmt.Realize "s" [Int_ 32] [] (Stmt.Provide "s" [Expr.IntImm 1] []))
      = some (realized "s" [Int_ 32].length [] [] []
          (FlattenDimensions.make_buffer_t example_env_more "s" [Int_ 32]) [Int_ 32] 0
          (FlattenDimensions.visit_Provide example_env_more [] "s"
            (FlattenDimensions.provide_values example_env_more [] [Expr.IntImm 1]) []), []) :=
  ⟨rfl, rfl,
    ((zero_dimensions_lowered example_env_more [] [] "s" [Int_ 32]
      (Stmt.Provide "s" [Expr.IntImm 1] []) _ example_function_0d rfl rfl).1 rfl).1⟩

theorem descriptor_binding_shape_witness :
    FlattenDimensions.is_kernel_loop example_function_kernel.schedule = true
    ∧ (FlattenDimensions.make_buffer_t example_env_more "k" [Int_ 32]).getD 0 false
      = FlattenDimensions.is_kernel_loop example_function_kernel.schedule
    ∧ FlattenDimensions.mutateStmt example_env_more []
        (Stmt.Realize "k" [Int_ 32] example_bounds_2d Stmt.undef)
      = some (realized "k" [Int_ 32].length example_bounds_2d
          (example_bounds_2d.map
            (fun b => FlattenDimensions.mutateExpr example_env_more [] b.extent))
          (storage_order example_function_kernel)
          (FlattenDimensions.make_buffer_t example_env_more "k" [Int_ 32]) [Int_ 32] 0
          Stmt.undef, []) :=
  ⟨by decide,
    (descriptor_binding_shape example_env_more [] [] "k" [Int_ 32] example_bounds_2d Stmt.undef
      Stmt.undef example_function_kernel rfl (by decide) (by decide) rfl rfl).2.1 0
      (by decide),
    (descriptor_binding_shape example_env_more [] [] "k" [Int_ 32] example_bounds_2d Stmt.undef
      Stmt.undef example_function_kernel rfl (by decide) (by decide) rfl rfl).1⟩

theorem external_calls_kept_witness :
    (FlattenDimensions.mutateExpr example_env [] example_extern_call).is_load = false
    ∧ FlattenDimensions.mutateExpr example_env [] example_read
      = if 8 ∣ (Int_ 32).bits then
          Expr.Load (Int_ 32) (call_name "f" CallType.Halide 1 0)
            (FlattenDimensions.mutateExpr example_env []
              (FlattenDimensions.flatten_args [] example_env (call_name "f" CallType.Halide 1 0)
                [Expr.IntImm 0, Expr.IntImm 0, Expr.IntImm 0]))
            none none
        else
          Expr.Cast (Int_ 32) (Expr.Load (Int_ 32).promote (call_name "f" CallType.Halide 1 0)
            (FlattenDimensions.mutateExpr example_env []
              (FlattenDimensions.flatten_args [] example_env (call_name "f" CallType.Halide 1 0)
                [Expr.IntImm 0, Expr.IntImm 0, Expr.IntImm 0]))
            none none) :=
  ⟨((external_calls_kept example_env [] (Float_ 32) "sqrt" [example_read] CallType.Extern 0 0
      none none).1 (Or.inl rfl)).2.2.2.2.1,
    (external_calls_kept example_env [] (Int_ 32) "f"
      [Expr.IntImm 0, Expr.IntImm 0, Expr.IntImm 0] CallType.Halide 1 0 none none).2
      (Or.inl rfl)⟩

theorem output_buffer_names_witness :
    example_function_pair.outputs = 2
    ∧ FlattenDimensions.buffer_name "h" 2 1 = "h" ++ "." ++ int_to_string 1
    ∧ FlattenDimensions.buffer_name "h" 2 1
        ∈ (realized "h" [Int_ 32, Int_ 32].length example_bounds_2d
            (example_bounds_2d.map
              (fun b => FlattenDimensions.mutateExpr example_env_pair [] b.extent))
            (storage_order example_function_pair)
            (FlattenDimensions.make_buffer_t example_env_pair "h" [Int_ 32, Int_ 32])
            [Int_ 32, Int_ 32] 0 Stmt.undef).allocated :=
  ⟨rfl,
    (output_buffer_names example_env_pair [] [] "h" 2 example_function_pair
      [Int_ 32, Int_ 32] example_bounds_2d Stmt.undef Stmt.undef rfl rfl (by decide)
      (by decide) rfl rfl).1 1,
    (output_buffer_names example_env_pair [] [] "h" 2 example_function_pair
      [Int_ 32, Int_ 32] example_bounds_2d Stmt.undef Stmt.undef rfl rfl (by decide)
      (by decide) rfl rfl).2.2.2.2.2.2.2.2 1 (by decide)⟩

theorem storage_permutation_bijection_witness :
    FlattenDimensions.mutateStmt example_env []
        (Stmt.Realize "f" [Int_ 32] example_bounds Stmt.undef)
      = some (lowered_realize example_env [] "f" [Int_ 32] example_bounds example_function
          Stmt.undef, [])
    ∧ ∃ p : List Nat, FlattenDimensions.storage_permutation example_function = some p
        ∧ p = storage_order example_function
        ∧ p.length = example_bounds.length
        ∧ p.Perm (List.range example_bounds.length) :=
  ⟨(lower_realize example_env [] [] "f" [Int_ 32] example_bounds Stmt.undef Stmt.undef
      example_function rfl (by decide) (by decide) rfl rfl).1,
    match storage_permutation_bijection example_env [] [] "f" [Int_ 32] example_bounds
      Stmt.undef _ example_function rfl (by decide) (by decide)
      (lower_realize example_env [] [] "f" [Int_ 32] example_bounds Stmt.undef Stmt.undef
        example_function rfl (by decide) (by decide) rfl rfl).1 with
    | ⟨p, h1, h2, h3, h4, _⟩ => ⟨p, h1, h2, h3, h4⟩⟩

theorem example_symbolic_valuation_eq :
    (lowered_realize example_env [] "g" [Int_ 32] example_bounds_symbolic example_function_2d
        Stmt.undef).env_at_allocate (fun _ => 0)
        (FlattenDimensions.buffer_name "g" [Int_ 32].length 0) example_sizes
      = some example_symbolic_valuation := by
  have hso : storage_order example_function_2d = [0, 1] := by decide
  have hbn : FlattenDimensions.buffer_name "g" [Int_ 32].length 0 = "g" := by decide
  rw [lowered_realize, hso, hbn]
  simp only [List.length_singleton, realized, env_at_allocate_lets, Stmt.env_at_allocate,
    if_true]
  rfl

theorem example_symbolic_in_bounds : in_bounds "g" example_symbolic_valuation [1, 2] := by
  intro i hi
  have e0 : example_symbolic_valuation ("g" ++ ".min." ++ int_to_string 0) = 0 := by decide
  have e1 : example_symbolic_valuation ("g" ++ ".min." ++ int_to_string 1) = 0 := by decide
  have f0 : example_symbolic_valuation ("g" ++ ".extent." ++ int_to_string 0) = 4 := by decide
  have f1 : example_symbolic_valuation ("g" ++ ".extent." ++ int_to_string 1) = 3 := by decide
  have hi2 : i < 2 := hi
  interval_cases i
  · rw [e0, f0]; decide
  · rw [e1, f1]; decide

theorem example_symbolic_fresh :
    ∀ b ∈ example_bounds_symbolic, ∀ v ∈ b.extent.free_vars,
      (∀ d : Nat,
        v ≠ "g" ++ ".min." ++ int_to_string d
        ∧ v ≠ "g" ++ ".extent." ++ int_to_string d
        ∧ v ≠ "g" ++ ".stride." ++ int_to_string d)
      ∧ v ≠ "g" ++ ".buffer" := by
  have key : ∀ (v : String) (c : Char), v.data = [c] → c ≠ 'g' →
      (∀ d : Nat,
        v ≠ "g" ++ ".min." ++ int_to_string d
        ∧ v ≠ "g" ++ ".extent." ++ int_to_string d
        ∧ v ≠ "g" ++ ".stride." ++ int_to_string d)
      ∧ v ≠ "g" ++ ".buffer" := by
    intro v c hv hc
    have hne : ∀ r : String, v ≠ "g" ++ r := by
      intro r e
      have := congrArg String.data e
      rw [hv, String.data_append] at this
      have h2 : ("g" : String).data = ['g'] := rfl
      rw [h2] at this
      simp only [List.singleton_append, List.cons.injEq] at this
      exact hc this.1
    refine ⟨fun d => ⟨?_, ?_, ?_⟩, hne _⟩
    · rw [String.append_assoc]; exact hne _
    · rw [String.append_assoc]; exact hne _
    · rw [String.append_assoc]; exact hne _
  intro b hb v hv
  simp only [example_bounds_symbolic, List.mem_cons, List.mem_singleton, List.not_mem_nil,
    or_false] at hb
  rcases hb with rfl | rfl
  · simp only [Expr.free_vars, List.mem_singleton] at hv
    exact key v 'w' (by rw [hv]) (by decide)
  · simp only [Expr.free_vars, List.mem_singleton] at hv
    exact key v 'h' (by rw [hv]) (by decide)

theorem address_within_allocation_witness :
    in_bounds "f" example_allocation_valuation [1, 2, 1]
    ∧ 0 ≤ (FlattenDimensions.flatten_args [] example_env
            (FlattenDimensions.buffer_name "f" [Int_ 32].length 0)
            (([1, 2, 1] : List Int).map Expr.IntImm)).eval example_allocation_valuation
            (fun _ => 0)
    ∧ (FlattenDimensions.flatten_args [] example_env
            (FlattenDimensions.buffer_name "f" [Int_ 32].length 0)
            (([1, 2, 1] : List Int).map Expr.IntImm)).eval example_allocation_valuation
            (fun _ => 0)
        < ([4, 3, 2] : List Int).prod
    ∧ in_bounds "g" example_symbolic_valuation [1, 2]
    ∧ (lowered_realize example_env [] "g" [Int_ 32] example_bounds_symbolic
          example_function_2d Stmt.undef).extents_at_allocate
          (FlattenDimensions.buffer_name "g" [Int_ 32].length 0)
        = some (example_bounds_symbolic.map
            (fun b => FlattenDimensions.mutateExpr example_env [] b.extent))
    ∧ (FlattenDimensions.flatten_args [] example_env
            (FlattenDimensions.buffer_name "g" [Int_ 32].length 0)
            (([1, 2] : List Int).map Expr.IntImm)).eval example_symbolic_valuation
            (fun _ => 0)
        < (example_bounds_symbolic.map
            (fun b => (FlattenDimensions.mutateExpr example_env [] b.extent).eval
              example_symbolic_valuation (fun _ => 0))).prod :=
  ⟨example_in_bounds _ rfl (by decide) (by decide) (by decide),
    (address_within_allocation example_env [] [] [] "f" [Int_ 32] example_bounds Stmt.undef
      Stmt.undef example_function 0 (fun _ => 0) example_valuation
      example_allocation_valuation [1, 2, 1] rfl (by decide) (by decide) rfl rfl
      (by decide) example_allocation_valuation_eq (no_override_empty _ _) rfl
      (example_in_bounds _ rfl (by decide) (by decide) (by decide))).2.1,
    ((address_within_allocation example_env [] [] [] "f" [Int_ 32] example_bounds Stmt.undef
      Stmt.undef example_function 0 (fun _ => 0) example_valuation
      example_allocation_valuation [1, 2, 1] rfl (by decide) (by decide) rfl rfl
      (by decide) example_allocation_valuation_eq (no_override_empty _ _) rfl
      (example_in_bounds _ rfl (by decide) (by decide) (by decide))).2.2.2.2.1 [4, 3, 2]
      rfl).2.2,
    example_symbolic_in_bounds,
    (address_within_allocation example_env [] [] [] "g" [Int_ 32] example_bounds_symbolic
      Stmt.undef Stmt.undef example_function_2d 0 (fun _ => 0) example_sizes
      example_symbolic_valuation [1, 2] rfl (by decide) (by decide) rfl rfl (by decide)
      example_symbolic_valuation_eq (no_override_empty _ _) rfl
      example_symbolic_in_bounds).2.2.2.2.2.1,
    ((address_within_allocation example_env [] [] [] "g" [Int_ 32] example_bounds_symbolic
      Stmt.undef Stmt.undef example_function_2d 0 (fun _ => 0) example_sizes
      example_symbolic_valuation [1, 2] rfl (by decide) (by decide) rfl rfl (by decide)
      example_symbolic_valuation_eq (no_override_empty _ _) rfl
      example_symbolic_in_bounds).2.2.2.2.2.2.1
      (by
        intro b hb
        simp only [example_bounds_symbolic, List.mem_cons, List.mem_singleton,
          List.not_mem_nil, or_false] at hb
        rcases hb with rfl | rfl <;> simp [Expr.any, Expr.is_read])
      example_symbolic_fresh).2⟩

end Halide
